import Mathlib

/-!
Polygon Boolean operations: the Boolean engine.

A shallow embedding of `geometrymodel.cpp` and `booleanops.cpp`.

* C++ `double` coordinates, parameters and tolerances are exact rationals, so every
  statement below is a statement over exact arithmetic.
* `QVector` is `List`; an index read `v[i]` is a total lookup with a default.
* Loops that mutate an accumulator are folds over the index range or the container.
* `std::hypot` is a library function; the probe that calls it takes it as a parameter.
-/

/-- Planar point, standing for `QPointF`. -/
structure QPointF where
  x : ℚ
  y : ℚ
deriving DecidableEq

instance : Inhabited QPointF := ⟨⟨0, 0⟩⟩

instance : Sub QPointF := ⟨fun a b => ⟨a.x - b.x, a.y - b.y⟩⟩

instance : Add QPointF := ⟨fun a b => ⟨a.x + b.x, a.y + b.y⟩⟩

instance : HMul QPointF ℚ QPointF := ⟨fun a t => ⟨a.x * t, a.y * t⟩⟩

/-- Input polygon: an outer loop and an ordered list of hole loops (`inputpolygon.h`). -/
structure InputPolygon where
  outer : List QPointF
  holes : List (List QPointF)
deriving DecidableEq

namespace InputPolygon

/-- Accessor `outerLoop()`. -/
def outerLoop (poly : InputPolygon) : List QPointF := poly.outer

/-- Accessor `holeLoops()`. -/
def holeLoops (poly : InputPolygon) : List (List QPointF) := poly.holes

end InputPolygon

namespace Geometry

structure Vertex where
  pos : QPointF
  isIntersection : Bool
deriving DecidableEq

structure LoopTopo where
  loopVertices : List Nat
  isHole : Bool
deriving DecidableEq

structure PolygonTopo where
  verts : List Vertex
  loops : List LoopTopo
deriving DecidableEq

structure RawEdge where
  loopId : Nat
  vStart : Nat
  vEnd : Nat
  fromA : Bool
deriving DecidableEq

structure OverlapInterval where
  t0 : ℚ
  t1 : ℚ
deriving DecidableEq

structure EdgeWork where
  edge : RawEdge
  cutParams : List ℚ
  overlaps : List OverlapInterval
deriving DecidableEq

structure AtomicSegment where
  p0 : QPointF
  p1 : QPointF
  fromA : Bool
  coincidentWithOther : Bool
  loopId : Nat
deriving DecidableEq

/-- Result of the kernel: the struct `SegmentIntersection` read through its discriminator
`IntersectType`; each case carries the fields the code fills for it. -/
inductive SegmentIntersection where
  | None
  | Point (tA tB : ℚ) (P : QPointF)
  | Overlap (tA0 tA1 tB0 tB1 : ℚ)
deriving DecidableEq

instance : Inhabited RawEdge := ⟨⟨0, 0, 0, false⟩⟩

instance : Inhabited EdgeWork := ⟨⟨default, [], []⟩⟩

def dot2d (a b : QPointF) : ℚ := a.x * b.x + a.y * b.y

def cross2d (a b : QPointF) : ℚ := a.x * b.y - a.y * b.x

def lerpPoint (a b : QPointF) (t : ℚ) : QPointF :=
  ⟨a.x + (b.x - a.x) * t, a.y + (b.y - a.y) * t⟩

/-- The two conditional swaps and the max/min of `intervalIntersection`; the result is
`some (lo, hi)` when the C++ function returns true and `none` when it returns false. -/
def intervalIntersection (a0 a1 b0 b1 : ℚ) : Option (ℚ × ℚ) :=
  let a0s := if a0 > a1 then a1 else a0
  let a1s := if a0 > a1 then a0 else a1
  let b0s := if b0 > b1 then b1 else b0
  let b1s := if b0 > b1 then b0 else b1
  let lo := max a0s b0s
  let hi := min a1s b1s
  if hi ≥ lo then some (lo, hi) else none

/-- Read `poly.verts[i].pos`. -/
def vertPos (poly : PolygonTopo) (i : Nat) : QPointF :=
  match poly.verts[i]? with
  | some v => v.pos
  | none => default

/-- The inner loop of `buildRawEdges` for one loop `lv` with index `lid`. -/
def loopEdges (lid : Nat) (lv : List Nat) (fromA : Bool) : List RawEdge :=
  (List.range lv.length).map fun i =>
    { loopId := lid, vStart := lv.getD i 0, vEnd := lv.getD ((i + 1) % lv.length) 0,
      fromA := fromA }

/-- The outer loop of `buildRawEdges`, started at loop index `lid`. -/
def buildRawEdgesFrom (fromA : Bool) : Nat → List LoopTopo → List RawEdge
  | _, [] => []
  | lid, loop :: rest =>
    (if loop.loopVertices.length < 2 then [] else loopEdges lid loop.loopVertices fromA)
      ++ buildRawEdgesFrom fromA (lid + 1) rest

def buildRawEdges (poly : PolygonTopo) (fromA : Bool) : List RawEdge :=
  buildRawEdgesFrom fromA 0 poly.loops

/-- The two clamping statements `if (t < 0.0) t = 0.0; if (t > 1.0) t = 1.0;`. -/
def clamp01 (t : ℚ) : ℚ :=
  let t1 := if t < 0 then 0 else t
  if t1 > 1 then 1 else t1

/-- The lambdas `paramOnA` / `paramOnB`: parameter of `P` on the segment from `O` with
direction `d`, squared length `dd`. -/
def paramOn (O d : QPointF) (dd epsGeom : ℚ) (P : QPointF) : ℚ :=
  if dd < epsGeom then 0 else dot2d (P - O) d / dd

def intersectSegments (A0 A1 B0 B1 : QPointF) (epsGeom : ℚ) : SegmentIntersection :=
  let r := A1 - A0
  let s := B1 - B0
  let rxs := cross2d r s
  let diff := B0 - A0
  let diffxr := cross2d diff r
  if |rxs| > epsGeom then
    let t := cross2d diff s / rxs
    let u := cross2d diff r / rxs
    if t ≥ -epsGeom ∧ t ≤ 1 + epsGeom ∧ u ≥ -epsGeom ∧ u ≤ 1 + epsGeom then
      SegmentIntersection.Point (clamp01 t) (clamp01 u) (A0 + r * clamp01 t)
    else SegmentIntersection.None
  else if |diffxr| > epsGeom then SegmentIntersection.None
  else
    let rr := dot2d r r
    let ss := dot2d s s
    let tA_for_B0 := paramOn A0 r rr epsGeom B0
    let tA_for_B1 := paramOn A0 r rr epsGeom B1
    match intervalIntersection 0 1 tA_for_B0 tA_for_B1 with
    | none => SegmentIntersection.None
    | some (tA_lo, tA_hi) =>
      let tB_for_A0 := paramOn B0 s ss epsGeom A0
      let tB_for_A1 := paramOn B0 s ss epsGeom A1
      match intervalIntersection 0 1 tB_for_A0 tB_for_A1 with
      | none => SegmentIntersection.None
      | some (tB_lo, tB_hi) =>
        let lenA := tA_hi - tA_lo
        let lenB := tB_hi - tB_lo
        if lenA ≤ epsGeom ∧ lenB ≤ epsGeom then
          let tA_mid := (1 / 2) * (tA_lo + tA_hi)
          let tB_mid := (1 / 2) * (tB_lo + tB_hi)
          SegmentIntersection.Point tA_mid tB_mid (lerpPoint A0 A1 tA_mid)
        else
          SegmentIntersection.Overlap
            (if tA_lo > tA_hi then tA_hi else tA_lo) (if tA_lo > tA_hi then tA_lo else tA_hi)
            (if tB_lo > tB_hi then tB_hi else tB_lo) (if tB_lo > tB_hi then tB_lo else tB_hi)

/-- Apply `f` to the element at index `i` (the effect of `work[i].member.push_back(..)`). -/
def modifyAt {α : Type} (f : α → α) : Nat → List α → List α
  | _, [] => []
  | 0, x :: xs => f x :: xs
  | n + 1, x :: xs => x :: modifyAt f n xs

/-- Append cut parameters to `work[i].cutParams`, in push order. -/
def pushCuts (work : List EdgeWork) (i : Nat) (cs : List ℚ) : List EdgeWork :=
  modifyAt (fun w => { w with cutParams := w.cutParams ++ cs }) i work

/-- Append an interval to `work[i].overlaps`. -/
def pushOverlap (work : List EdgeWork) (i : Nat) (ov : OverlapInterval) : List EdgeWork :=
  modifyAt (fun w => { w with overlaps := w.overlaps ++ [ov] }) i work

/-- Body of the inner loop of `injectSelfCollinearCuts` for the pair `(i, j)`. -/
def selfPairStep (poly : PolygonTopo) (rawEdges : List RawEdge) (epsGeom : ℚ)
    (work : List EdgeWork) (i j : Nat) : List EdgeWork :=
  let ei := rawEdges.getD i default
  let ej := rawEdges.getD j default
  let A0 := vertPos poly ei.vStart
  let A1 := vertPos poly ei.vEnd
  let B0 := vertPos poly ej.vStart
  let B1 := vertPos poly ej.vEnd
  match intersectSegments A0 A1 B0 B1 epsGeom with
  | SegmentIntersection.Overlap tA0 tA1 tB0 tB1 =>
    pushCuts (pushCuts work i [tA0, tA1]) j [tB0, tB1]
  | SegmentIntersection.Point tA tB _ => pushCuts (pushCuts work i [tA]) j [tB]
  | SegmentIntersection.None => work

def injectSelfCollinearCuts (poly : PolygonTopo) (rawEdges : List RawEdge)
    (work : List EdgeWork) (epsGeom _epsParam : ℚ) : List EdgeWork :=
  let m := rawEdges.length
  (List.range m).foldl
    (fun w i => (List.range' (i + 1) (m - (i + 1))).foldl
      (fun w2 j => selfPairStep poly rawEdges epsGeom w2 i j) w)
    work

/-- Removal done by `std::unique` with the predicate `|a - b| < epsParam`: each element is
compared with the last element kept. -/
def uniqueFrom (epsParam : ℚ) (last : ℚ) : List ℚ → List ℚ
  | [] => []
  | x :: xs =>
    if |last - x| < epsParam then uniqueFrom epsParam last xs
    else x :: uniqueFrom epsParam x xs

def uniqueParams (epsParam : ℚ) : List ℚ → List ℚ
  | [] => []
  | x :: xs => x :: uniqueFrom epsParam x xs

/-- The lambda `isInOverlap` of `explodeEdgeWork`. -/
def isInOverlap (overlaps : List OverlapInterval) (epsParam t0 t1 : ℚ) : Bool :=
  overlaps.any fun ov =>
    let a := if ov.t0 > ov.t1 then ov.t1 else ov.t0
    let b := if ov.t0 > ov.t1 then ov.t0 else ov.t1
    decide (t0 ≥ a - epsParam ∧ t1 ≤ b + epsParam)

/-- The emitting loop of `explodeEdgeWork` over consecutive pairs of `params`. -/
def explodeParams (P0 P1 : QPointF) (ew : EdgeWork) (epsParam : ℚ) :
    List ℚ → List AtomicSegment
  | tLo :: tHi :: rest =>
    (if tHi - tLo < epsParam then []
     else [{ p0 := lerpPoint P0 P1 tLo, p1 := lerpPoint P0 P1 tHi, fromA := ew.edge.fromA,
             coincidentWithOther := isInOverlap ew.overlaps epsParam tLo tHi,
             loopId := ew.edge.loopId }])
      ++ explodeParams P0 P1 ew epsParam (tHi :: rest)
  | _ => []

def explodeEdgeWork (ew : EdgeWork) (poly : PolygonTopo) (epsParam : ℚ) :
    List AtomicSegment :=
  if ew.cutParams.isEmpty then []
  else
    let params := uniqueParams epsParam (ew.cutParams.insertionSort (· ≤ ·))
    let P0 := vertPos poly ew.edge.vStart
    let P1 := vertPos poly ew.edge.vEnd
    explodeParams P0 P1 ew epsParam params

/-- The two initialising loops of `computeAtomicSegments`. -/
def initWork (raw : List RawEdge) : List EdgeWork :=
  raw.map fun e => { edge := e, cutParams := [0, 1], overlaps := [] }

/-- Body of the cross-cut double loop of `computeAtomicSegments` for the pair `(i, j)`. -/
def crossPairStep (polyA polyB : PolygonTopo) (epsGeom : ℚ)
    (st : List EdgeWork × List EdgeWork) (i j : Nat) : List EdgeWork × List EdgeWork :=
  let A0 := vertPos polyA (st.1.getD i default).edge.vStart
  let A1 := vertPos polyA (st.1.getD i default).edge.vEnd
  let B0 := vertPos polyB (st.2.getD j default).edge.vStart
  let B1 := vertPos polyB (st.2.getD j default).edge.vEnd
  match intersectSegments A0 A1 B0 B1 epsGeom with
  | SegmentIntersection.None => st
  | SegmentIntersection.Point tA tB _ => (pushCuts st.1 i [tA], pushCuts st.2 j [tB])
  | SegmentIntersection.Overlap tA0 tA1 tB0 tB1 =>
    (pushOverlap (pushCuts st.1 i [tA0, tA1]) i ⟨tA0, tA1⟩,
     pushOverlap (pushCuts st.2 j [tB0, tB1]) j ⟨tB0, tB1⟩)

/-- The cross-cut double loop of `computeAtomicSegments`. -/
def crossCuts (polyA polyB : PolygonTopo) (epsGeom : ℚ)
    (workA workB : List EdgeWork) : List EdgeWork × List EdgeWork :=
  (List.range workA.length).foldl
    (fun st i => (List.range workB.length).foldl
      (fun st2 j => crossPairStep polyA polyB epsGeom st2 i j) st)
    (workA, workB)

/-- State of `workA`, `workB` when the cut passes of `computeAtomicSegments` are done. -/
def cutWork (polyA polyB : PolygonTopo) (epsGeom epsParam : ℚ) :
    List EdgeWork × List EdgeWork :=
  let rawA := buildRawEdges polyA true
  let rawB := buildRawEdges polyB false
  let workA := injectSelfCollinearCuts polyA rawA (initWork rawA) epsGeom epsParam
  let workB := injectSelfCollinearCuts polyB rawB (initWork rawB) epsGeom epsParam
  crossCuts polyA polyB epsGeom workA workB

def computeAtomicSegments (polyA polyB : PolygonTopo) (epsGeom epsParam : ℚ) :
    List AtomicSegment :=
  let w := cutWork polyA polyB epsGeom epsParam
  (w.1.flatMap fun ew => explodeEdgeWork ew polyA epsParam)
    ++ (w.2.flatMap fun ew => explodeEdgeWork ew polyB epsParam)

end Geometry

namespace Boolean2D

open Geometry

structure PrepContext where
  topoA : PolygonTopo
  topoB : PolygonTopo
  atoms : List AtomicSegment
deriving DecidableEq

/-- Default value of `epsClose` in `makeTopoFromInput` and of `eps` in
`pointInSimpleLoop` (`1e-9`). -/
def defaultEps : ℚ := 1 / 1000000000

def normalizeLoop (inLoop : List QPointF) (epsClose : ℚ) : List QPointF :=
  if inLoop.length ≥ 2 then
    let a0 := inLoop.head!
    let a1 := inLoop.getLast!
    let dx := a0.x - a1.x
    let dy := a0.y - a1.y
    if dx * dx + dy * dy < epsClose * epsClose then inLoop.dropLast else inLoop
  else inLoop

/-- The on-edge test of the first loop of `pointInSimpleLoop` for the edge `(a, b)`. -/
def onEdgeTest (a b p : QPointF) (eps : ℚ) : Bool :=
  let ap := p - a
  let ab := b - a
  let cross := ap.x * ab.y - ap.y * ab.x
  if |cross| < eps then
    let dot := ap.x * ab.x + ap.y * ab.y
    if dot ≥ -eps then
      let ab2 := ab.x * ab.x + ab.y * ab.y
      if dot ≤ ab2 + eps then true else false
    else false
  else false

/-- The toggle condition of the second loop of `pointInSimpleLoop` for the edge `(a, b)`. -/
def rayToggle (a b p : QPointF) (eps : ℚ) : Bool :=
  let condY := (decide (a.y > p.y)) != (decide (b.y > p.y))
  if condY then
    let t := (p.y - a.y) / (b.y - a.y)
    let xHit := a.x + t * (b.x - a.x)
    if xHit ≥ p.x - eps then true else false
  else false

def pointInSimpleLoop (loop : List QPointF) (p : QPointF) (eps : ℚ) : Bool :=
  let n := loop.length
  if n < 3 then false
  else if (List.range n).any
      (fun i => onEdgeTest (loop.getD i default) (loop.getD ((i + 1) % n) default) p eps)
  then true
  else (List.range n).foldl
    (fun inside i =>
      if rayToggle (loop.getD i default) (loop.getD ((i + 1) % n) default) p eps
      then !inside else inside)
    false

def pointInPolygonWithHoles (poly : InputPolygon) (p : QPointF) : Bool :=
  if !pointInSimpleLoop poly.outerLoop p defaultEps then false
  else if poly.holeLoops.any (fun h => pointInSimpleLoop h p defaultEps) then false
  else true

/-- The midpoint `mid` computed by the probe and by every classifier. -/
def midpoint (seg : AtomicSegment) : QPointF :=
  ⟨(1 / 2) * (seg.p0.x + seg.p1.x), (1 / 2) * (seg.p0.y + seg.p1.y)⟩

/-- The coincidence probe; `hypot` stands for `std::hypot`. -/
def coincidentOpposite (hypot : ℚ → ℚ → ℚ) (seg : AtomicSegment)
    (polyA polyB : InputPolygon) : Bool :=
  let mid := midpoint seg
  let dir : QPointF := ⟨seg.p1.x - seg.p0.x, seg.p1.y - seg.p0.y⟩
  let n : QPointF := ⟨dir.y, -dir.x⟩
  let nlen := hypot n.x n.y
  if nlen < 1 / 1000000000000 then false
  else
    let nu : QPointF := ⟨n.x / nlen, n.y / nlen⟩
    let epsProbe : ℚ := 1 / 10000
    let pPlus : QPointF := ⟨mid.x + epsProbe * nu.x, mid.y + epsProbe * nu.y⟩
    let pMinus : QPointF := ⟨mid.x - epsProbe * nu.x, mid.y - epsProbe * nu.y⟩
    let inA_plus := pointInPolygonWithHoles polyA pPlus
    let inA_minus := pointInPolygonWithHoles polyA pMinus
    let inB_plus := pointInPolygonWithHoles polyB pPlus
    let inB_minus := pointInPolygonWithHoles polyB pMinus
    let oppCase1 := inA_plus && !inB_plus && !inA_minus && inB_minus
    let oppCase2 := !inA_plus && inB_plus && inA_minus && !inB_minus
    oppCase1 || oppCase2

def segmentsToPolylines (segs : List AtomicSegment) : List (List QPointF) :=
  segs.map fun s => [s.p0, s.p1]

/-- The lambda `appendLoop` of `makeTopoFromInput`. -/
def appendLoop (epsClose : ℚ) (topo : PolygonTopo) (rawLoopPts : List QPointF) :
    PolygonTopo :=
  let L := normalizeLoop rawLoopPts epsClose
  if L.length < 3 then topo
  else
    { verts := topo.verts ++ L.map (fun pt => { pos := pt, isIntersection := false }),
      loops := topo.loops ++
        [{ loopVertices := (List.range L.length).map (fun k => topo.verts.length + k),
           isHole := false }] }

def makeTopoFromInput (poly : InputPolygon) (epsClose : ℚ) : PolygonTopo :=
  poly.holeLoops.foldl (appendLoop epsClose) (appendLoop epsClose ⟨[], []⟩ poly.outerLoop)

def prepare (polyA polyB : InputPolygon) (epsGeom epsParam : ℚ) : PrepContext :=
  let topoA := makeTopoFromInput polyA defaultEps
  let topoB := makeTopoFromInput polyB defaultEps
  { topoA := topoA, topoB := topoB,
    atoms := computeAtomicSegments topoA topoB epsGeom epsParam }

/-- Loop body of `classifyForAddition`. -/
def stepAddition (hypot : ℚ → ℚ → ℚ) (polyA polyB : InputPolygon)
    (keep : List AtomicSegment) (seg : AtomicSegment) : List AtomicSegment :=
  if seg.coincidentWithOther then
    let opp := coincidentOpposite hypot seg polyA polyB
    if !opp then (if seg.fromA then keep ++ [seg] else keep) else keep
  else
    let mid := midpoint seg
    let inA := pointInPolygonWithHoles polyA mid
    let inB := pointInPolygonWithHoles polyB mid
    let useIt := if seg.fromA then (if !inB then true else false)
      else (if !inA then true else false)
    if useIt then keep ++ [seg] else keep

def classifyForAddition (hypot : ℚ → ℚ → ℚ) (ctx : PrepContext)
    (polyA polyB : InputPolygon) : List AtomicSegment :=
  ctx.atoms.foldl (stepAddition hypot polyA polyB) []

/-- Loop body of `classifyForIntersection`. -/
def stepIntersection (hypot : ℚ → ℚ → ℚ) (polyA polyB : InputPolygon)
    (keep : List AtomicSegment) (seg : AtomicSegment) : List AtomicSegment :=
  if seg.coincidentWithOther then
    let opp := coincidentOpposite hypot seg polyA polyB
    if !opp then (if seg.fromA then keep ++ [seg] else keep) else keep
  else
    let mid := midpoint seg
    let inA := pointInPolygonWithHoles polyA mid
    let inB := pointInPolygonWithHoles polyB mid
    let useIt := if seg.fromA then (if inB then true else false)
      else (if inA then true else false)
    if useIt then keep ++ [seg] else keep

def classifyForIntersection (hypot : ℚ → ℚ → ℚ) (ctx : PrepContext)
    (polyA polyB : InputPolygon) : List AtomicSegment :=
  ctx.atoms.foldl (stepIntersection hypot polyA polyB) []

/-- Loop body of `classifyForSubAB`. -/
def stepSubAB (hypot : ℚ → ℚ → ℚ) (polyA polyB : InputPolygon)
    (keep : List AtomicSegment) (seg : AtomicSegment) : List AtomicSegment :=
  if seg.coincidentWithOther then
    let opp := coincidentOpposite hypot seg polyA polyB
    if opp then (if seg.fromA then keep ++ [seg] else keep) else keep
  else
    let mid := midpoint seg
    let inA := pointInPolygonWithHoles polyA mid
    let inB := pointInPolygonWithHoles polyB mid
    let useIt :=
      if seg.fromA then
        (if seg.loopId > 0 then (if !inB then true else false)
         else (if inA && !inB then true else false))
      else
        (if seg.loopId > 0 then (if inA && !inB then true else false)
         else (if inA && inB then true else false))
    if useIt then keep ++ [seg] else keep

def classifyForSubAB (hypot : ℚ → ℚ → ℚ) (ctx : PrepContext)
    (polyA polyB : InputPolygon) : List AtomicSegment :=
  ctx.atoms.foldl (stepSubAB hypot polyA polyB) []

/-- Loop body of `classifyForSubBA`. -/
def stepSubBA (hypot : ℚ → ℚ → ℚ) (polyA polyB : InputPolygon)
    (keep : List AtomicSegment) (seg : AtomicSegment) : List AtomicSegment :=
  if seg.coincidentWithOther then
    let opp := coincidentOpposite hypot seg polyA polyB
    if opp then (if !seg.fromA then keep ++ [seg] else keep) else keep
  else
    let mid := midpoint seg
    let inA := pointInPolygonWithHoles polyA mid
    let inB := pointInPolygonWithHoles polyB mid
    let useIt :=
      if !seg.fromA then
        (if seg.loopId > 0 then (if !inA then true else false)
         else (if inB && !inA then true else false))
      else
        (if seg.loopId > 0 then (if inB && !inA then true else false)
         else (if inA && inB then true else false))
    if useIt then keep ++ [seg] else keep

def classifyForSubBA (hypot : ℚ → ℚ → ℚ) (ctx : PrepContext)
    (polyA polyB : InputPolygon) : List AtomicSegment :=
  ctx.atoms.foldl (stepSubBA hypot polyA polyB) []

def computeAdditionSegments (hypot : ℚ → ℚ → ℚ) (ctx : PrepContext)
    (polyA polyB : InputPolygon) : List (List QPointF) :=
  segmentsToPolylines (classifyForAddition hypot ctx polyA polyB)

def computeIntersectionSegments (hypot : ℚ → ℚ → ℚ) (ctx : PrepContext)
    (polyA polyB : InputPolygon) : List (List QPointF) :=
  segmentsToPolylines (classifyForIntersection hypot ctx polyA polyB)

def computeSubtractionABSegments (hypot : ℚ → ℚ → ℚ) (ctx : PrepContext)
    (polyA polyB : InputPolygon) : List (List QPointF) :=
  segmentsToPolylines (classifyForSubAB hypot ctx polyA polyB)

def computeSubtractionBASegments (hypot : ℚ → ℚ → ℚ) (ctx : PrepContext)
    (polyA polyB : InputPolygon) : List (List QPointF) :=
  segmentsToPolylines (classifyForSubBA hypot ctx polyA polyB)

end Boolean2D

/-! ## Selection rules as the specification words them, and the literal scenarios -/

namespace Boolean2D

open Geometry

/-- Union row of the selector table: coincident atoms are kept iff the probe reports
same-direction and the atom is from A; other atoms by the midpoint rule. -/
def specKeepUnion (hypot : ℚ → ℚ → ℚ) (polyA polyB : InputPolygon)
    (seg : AtomicSegment) : Bool :=
  if seg.coincidentWithOther then
    (!coincidentOpposite hypot seg polyA polyB) && seg.fromA
  else
    (seg.fromA && !pointInPolygonWithHoles polyB (midpoint seg))
      || (!seg.fromA && !pointInPolygonWithHoles polyA (midpoint seg))

/-- Intersection row of the selector table. -/
def specKeepIntersection (hypot : ℚ → ℚ → ℚ) (polyA polyB : InputPolygon)
    (seg : AtomicSegment) : Bool :=
  if seg.coincidentWithOther then
    (!coincidentOpposite hypot seg polyA polyB) && seg.fromA
  else
    (seg.fromA && pointInPolygonWithHoles polyB (midpoint seg))
      || (!seg.fromA && pointInPolygonWithHoles polyA (midpoint seg))

/-- Row A−B of the selector table, with L meaning `loopId > 0`. -/
def specKeepSubAB (hypot : ℚ → ℚ → ℚ) (polyA polyB : InputPolygon)
    (seg : AtomicSegment) : Bool :=
  let inA := pointInPolygonWithHoles polyA (midpoint seg)
  let inB := pointInPolygonWithHoles polyB (midpoint seg)
  let L := decide (seg.loopId > 0)
  if seg.coincidentWithOther then
    coincidentOpposite hypot seg polyA polyB && seg.fromA
  else
    (seg.fromA && L && !inB) || (seg.fromA && !L && inA && !inB)
      || (!seg.fromA && L && inA && !inB) || (!seg.fromA && !L && inA && inB)

/-- Row B−A of the selector table, with L meaning `loopId > 0`. -/
def specKeepSubBA (hypot : ℚ → ℚ → ℚ) (polyA polyB : InputPolygon)
    (seg : AtomicSegment) : Bool :=
  let inA := pointInPolygonWithHoles polyA (midpoint seg)
  let inB := pointInPolygonWithHoles polyB (midpoint seg)
  let L := decide (seg.loopId > 0)
  if seg.coincidentWithOther then
    coincidentOpposite hypot seg polyA polyB && !seg.fromA
  else
    (!seg.fromA && L && !inA) || (!seg.fromA && !L && inB && !inA)
      || (seg.fromA && L && inB && !inA) || (seg.fromA && !L && inA && inB)

/-- The polyline emitted for a kept atom. -/
def polylineOf (seg : AtomicSegment) : List QPointF := [seg.p0, seg.p1]

/-- Tolerance `eps_geom = 1e-3` of the scenarios. -/
def epsGeomS : ℚ := 1 / 1000

/-- Tolerance `eps_param = 1e-9` of the scenarios. -/
def epsParamS : ℚ := 1 / 1000000000

/-- Scenario S1/S2, operand A: the square with corners (0,0) and (2,2). -/
def squareA : InputPolygon := ⟨[⟨0, 0⟩, ⟨2, 0⟩, ⟨2, 2⟩, ⟨0, 2⟩], []⟩

/-- Scenario S1/S2, operand B: the square with corners (1,1) and (3,3). -/
def squareB : InputPolygon := ⟨[⟨1, 1⟩, ⟨3, 1⟩, ⟨3, 3⟩, ⟨1, 3⟩], []⟩

/-- Scenario S6: the unit square. -/
def unitSquare : InputPolygon := ⟨[⟨0, 0⟩, ⟨1, 0⟩, ⟨1, 1⟩, ⟨0, 1⟩], []⟩

/-- The six segments of the L-shaped boundary listed by scenario S2. -/
def expectedS2 : List (List QPointF) :=
  [[⟨0, 0⟩, ⟨2, 0⟩], [⟨2, 0⟩, ⟨2, 1⟩], [⟨2, 1⟩, ⟨1, 1⟩], [⟨1, 1⟩, ⟨1, 2⟩],
   [⟨1, 2⟩, ⟨0, 2⟩], [⟨0, 2⟩, ⟨0, 0⟩]]

/-- What is assumed of `std::hypot`: it returns the Euclidean norm exactly whenever
that norm is a rational number. -/
def HypotExact (hypot : ℚ → ℚ → ℚ) : Prop :=
  ∀ x y h : ℚ, 0 ≤ h → h * h = x * x + y * y → hypot x y = h

/-- Euclidean norm of a vector parallel to an axis. -/
def hypotAxis (x y : ℚ) : ℚ := |x| + |y|

/-- A total `hypot` over the rationals that is exact on rational norms. -/
def hypotRat (x y : ℚ) : ℚ := Rat.sqrt (x * x + y * y)

/-- Every cut parameter of every work item lies in `[0, 1]`. -/
def CutsIn01 (work : List EdgeWork) : Prop :=
  ∀ w ∈ work, ∀ c ∈ w.cutParams, 0 ≤ c ∧ c ≤ 1

/-- The work item at index `i` exists and has recorded the overlap interval `ov`. -/
def HasOverlap (work : List EdgeWork) (i : Nat) (ov : OverlapInterval) : Prop :=
  ∃ w, work[i]? = some w ∧ ov ∈ w.overlaps

/-- Squared length of a raw edge, the quantity `rr` / `ss` of the kernel. -/
def edgeSqLen (poly : PolygonTopo) (e : RawEdge) : ℚ :=
  dot2d (vertPos poly e.vEnd - vertPos poly e.vStart)
    (vertPos poly e.vEnd - vertPos poly e.vStart)

/-- A square of side 1/50: each edge has squared length 4e-4, below `eps_geom = 1e-3`. -/
def tinySquare : InputPolygon := ⟨[⟨0, 0⟩, ⟨1 / 50, 0⟩, ⟨1 / 50, 1 / 50⟩, ⟨0, 1 / 50⟩], []⟩

/-- A thin rectangle of width 3/100 inside the unit square, sharing three of its sides;
its two short edges have squared length 9e-4, below `eps_geom = 1e-3`. -/
def thinRectangle : InputPolygon := ⟨[⟨0, 0⟩, ⟨3 / 100, 0⟩, ⟨3 / 100, 1⟩, ⟨0, 1⟩], []⟩

/-- Squared distance from `p` to the closed segment from `a` to `b`. -/
def distSqToSegment (p a b : QPointF) : ℚ :=
  let ab := b - a
  let ab2 := dot2d ab ab
  let t := if ab2 = 0 then 0 else clamp01 (dot2d (p - a) ab / ab2)
  let q := lerpPoint a b t
  dot2d (p - q) (p - q)

/-- Whether `p` lies within distance `eps` of some two-point polyline of `out`. -/
def coveredWithin (eps : ℚ) (out : List (List QPointF)) (p : QPointF) : Bool :=
  out.any fun l =>
    match l with
    | [a, b] => decide (distSqToSegment p a b ≤ eps * eps)
    | _ => false

/-- An atom with its provenance exchanged: how it is labelled when the operands are
passed in the other order. -/
def swapAtom (seg : AtomicSegment) : AtomicSegment := { seg with fromA := !seg.fromA }

/-- The sorted and deduplicated parameter list `params` of `explodeEdgeWork`. -/
def edgeParams (epsParam : ℚ) (ew : EdgeWork) : List ℚ :=
  uniqueParams epsParam (ew.cutParams.insertionSort (· ≤ ·))

/-- The parameter pairs `(tLo, tHi)` for which the emitting loop of `explodeEdgeWork`
emits a segment. -/
def atomParams (epsParam : ℚ) : List ℚ → List (ℚ × ℚ)
  | tLo :: tHi :: rest =>
    (if tHi - tLo < epsParam then [] else [(tLo, tHi)]) ++ atomParams epsParam (tHi :: rest)
  | _ => []

/-- The segment that `explodeEdgeWork` emits for the parameter pair `t`. -/
def atomOf (poly : PolygonTopo) (ew : EdgeWork) (epsParam : ℚ) (t : ℚ × ℚ) : AtomicSegment :=
  { p0 := lerpPoint (vertPos poly ew.edge.vStart) (vertPos poly ew.edge.vEnd) t.1,
    p1 := lerpPoint (vertPos poly ew.edge.vStart) (vertPos poly ew.edge.vEnd) t.2,
    fromA := ew.edge.fromA,
    coincidentWithOther := isInOverlap ew.overlaps epsParam t.1 t.2,
    loopId := ew.edge.loopId }

/-- The atoms of `computeAtomicSegments`, each with its source edge: the polygon flag and
the index of the raw edge whose work item emitted it. -/
def atomsWithSource (polyA polyB : PolygonTopo) (epsGeom epsParam : ℚ) :
    List ((Bool × Nat) × AtomicSegment) :=
  let w := cutWork polyA polyB epsGeom epsParam
  (w.1.enum.flatMap fun x => (explodeEdgeWork x.2 polyA epsParam).map fun s => ((true, x.1), s))
    ++ (w.2.enum.flatMap fun x =>
      (explodeEdgeWork x.2 polyB epsParam).map fun s => ((false, x.1), s))

/-- The verdict that subdivision soundness asks of the kernel on two atoms: `None`, or a
`Point` that is an endpoint of both atoms. -/
def kernelSound (epsGeom : ℚ) (a b : AtomicSegment) : Bool :=
  match intersectSegments a.p0 a.p1 b.p0 b.p1 epsGeom with
  | SegmentIntersection.None => true
  | SegmentIntersection.Point _ _ P =>
    (decide (P = a.p0) || decide (P = a.p1)) && (decide (P = b.p0) || decide (P = b.p1))
  | SegmentIntersection.Overlap _ _ _ _ => false

/-- The kernel applied to the endpoints of a raw edge of `polyA` and a raw edge of `polyB`,
as both cut passes call it. -/
def kernelOnEdges (polyA : PolygonTopo) (eA : RawEdge) (polyB : PolygonTopo) (eB : RawEdge)
    (epsGeom : ℚ) : SegmentIntersection :=
  intersectSegments (vertPos polyA eA.vStart) (vertPos polyA eA.vEnd)
    (vertPos polyB eB.vStart) (vertPos polyB eB.vEnd) epsGeom

/-- The parameters of a kernel result are among the cut parameters `ci` of the first edge
and `cj` of the second edge. -/
def EventRecorded (r : SegmentIntersection) (ci cj : List ℚ) : Prop :=
  match r with
  | SegmentIntersection.None => True
  | SegmentIntersection.Point tA tB _ => tA ∈ ci ∧ tB ∈ cj
  | SegmentIntersection.Overlap tA0 tA1 tB0 tB1 => (tA0 ∈ ci ∧ tA1 ∈ ci) ∧ (tB0 ∈ cj ∧ tB1 ∈ cj)

/-- The cut parameters of the work item at index `i`. -/
def cutsAt (work : List EdgeWork) (i : Nat) : List ℚ := (work.getD i default).cutParams

/-- Two segments properly cross: the endpoints of each lie strictly on opposite sides of
the line through the other, so they meet at one point interior to both. -/
def properlyCross (a b : AtomicSegment) : Bool :=
  decide (cross2d (a.p1 - a.p0) (b.p0 - a.p0) * cross2d (a.p1 - a.p0) (b.p1 - a.p0) < 0)
    && decide (cross2d (b.p1 - b.p0) (a.p0 - b.p0) * cross2d (b.p1 - b.p0) (a.p1 - b.p0) < 0)

/-- The square of side 1/50 shifted by (1/100, -1/100). -/
def tinySquareB : InputPolygon :=
  ⟨[⟨1 / 100, -1 / 100⟩, ⟨3 / 100, -1 / 100⟩, ⟨3 / 100, 1 / 100⟩, ⟨1 / 100, 1 / 100⟩], []⟩

/-- All input points of a polygon, outer loop and holes. -/
def allPoints (P : InputPolygon) : List QPointF := P.outerLoop ++ P.holeLoops.flatten

/-- The axis-aligned bounding boxes of `A` and `B` are separated: along one axis every
point of one polygon lies strictly before every point of the other. -/
def bboxSeparated (A B : InputPolygon) : Bool :=
  (allPoints A).all (fun p => (allPoints B).all fun q => decide (p.x < q.x))
    || (allPoints A).all (fun p => (allPoints B).all fun q => decide (q.x < p.x))
    || (allPoints A).all (fun p => (allPoints B).all fun q => decide (p.y < q.y))
    || (allPoints A).all (fun p => (allPoints B).all fun q => decide (q.y < p.y))

/-- The unit square shifted right by 1 + 1e-5: its bounding box is separated from the
unit square's by a gap of 1e-5. -/
def nearSquare : InputPolygon :=
  ⟨[⟨1 + 1 / 100000, 0⟩, ⟨2 + 1 / 100000, 0⟩, ⟨2 + 1 / 100000, 1⟩, ⟨1 + 1 / 100000, 1⟩], []⟩

/-- The unit square shifted right by 3. -/
def farSquare : InputPolygon := ⟨[⟨3, 0⟩, ⟨4, 0⟩, ⟨4, 1⟩, ⟨3, 1⟩], []⟩

/-- A kernel result that cuts no edge in its interior: `None`, or parameters that are all
0 or 1. -/
def endpointEvent (r : SegmentIntersection) : Bool :=
  match r with
  | SegmentIntersection.None => true
  | SegmentIntersection.Point tA tB _ =>
    (decide (tA = 0) || decide (tA = 1)) && (decide (tB = 0) || decide (tB = 1))
  | SegmentIntersection.Overlap tA0 tA1 tB0 tB1 =>
    (decide (tA0 = 0) || decide (tA0 = 1)) && (decide (tA1 = 0) || decide (tA1 = 1))
      && (decide (tB0 = 0) || decide (tB0 = 1)) && (decide (tB1 = 0) || decide (tB1 = 1))

/-- The atom that is a whole raw edge, from its start vertex to its end vertex, not
flagged coincident. -/
def wholeAtom (poly : PolygonTopo) (e : RawEdge) : AtomicSegment :=
  { p0 := vertPos poly e.vStart, p1 := vertPos poly e.vEnd, fromA := e.fromA,
    coincidentWithOther := false, loopId := e.loopId }

/-- Work items whose cut parameters are only 0 and 1, both present, with no overlap
interval recorded. -/
def CutsEnds (work : List EdgeWork) : Prop :=
  ∀ w ∈ work, (∀ c ∈ w.cutParams, c = 0 ∨ c = 1) ∧ (0 : ℚ) ∈ w.cutParams
    ∧ (1 : ℚ) ∈ w.cutParams ∧ w.overlaps = []

/-- The empty polygon: no outer points, no holes. -/
def emptyPolygon : InputPolygon := ⟨[], []⟩

/-- No work item has recorded an overlap interval. -/
def NoOverlaps (work : List EdgeWork) : Prop := ∀ w ∈ work, w.overlaps = []

/-- Clamping to `[0, 1]` as the specification words it. -/
def specClamp (t : ℚ) : ℚ := max 0 (min 1 t)

/-- The interval spanned by `x` and `y`, intersected with `[0, 1]`: its low and high end
(the intersection is empty when the high end is below the low end). -/
def specInterval01 (x y : ℚ) : ℚ × ℚ := (max 0 (min x y), min 1 (max x y))

/-- The projection parameter of `P` on the segment from `O` with direction `d`, as the
specification words it (no guard for short segments). -/
def specProject (O d P : QPointF) : ℚ := dot2d (P - O) d / dot2d d d

/-- The interval of A's parameter axis that the kernel's collinear branch works with. -/
def kernelIntervalA (A0 A1 B0 B1 : QPointF) (epsGeom : ℚ) : ℚ × ℚ :=
  specInterval01 (paramOn A0 (A1 - A0) (dot2d (A1 - A0) (A1 - A0)) epsGeom B0)
    (paramOn A0 (A1 - A0) (dot2d (A1 - A0) (A1 - A0)) epsGeom B1)

/-- The interval of B's parameter axis that the kernel's collinear branch works with. -/
def kernelIntervalB (A0 A1 B0 B1 : QPointF) (epsGeom : ℚ) : ℚ × ℚ :=
  specInterval01 (paramOn B0 (B1 - B0) (dot2d (B1 - B0) (B1 - B0)) epsGeom A0)
    (paramOn B0 (B1 - B0) (dot2d (B1 - B0) (B1 - B0)) epsGeom A1)

/-- The atom `s` is the part of the raw edge `e` of `poly` between two parameters
`0 <= tLo < tHi <= 1` at least `epsParam` apart, with the loop id and provenance of `e`. -/
def IsSubSegmentOf (poly : PolygonTopo) (e : RawEdge) (epsParam : ℚ) (s : AtomicSegment) :
    Prop :=
  ∃ tLo tHi : ℚ, 0 ≤ tLo ∧ tLo < tHi ∧ tHi ≤ 1 ∧ epsParam ≤ tHi - tLo
    ∧ s.p0 = vertPos poly e.vStart + (vertPos poly e.vEnd - vertPos poly e.vStart) * tLo
    ∧ s.p1 = vertPos poly e.vStart + (vertPos poly e.vEnd - vertPos poly e.vStart) * tHi
    ∧ s.loopId = e.loopId ∧ s.fromA = e.fromA

/-- The point `p` lies on one of the raw edges `raw` of the topology `poly`. -/
def OnBoundary (poly : PolygonTopo) (raw : List RawEdge) (p : QPointF) : Prop :=
  ∃ e ∈ raw, ∃ t : ℚ, 0 ≤ t ∧ t ≤ 1
    ∧ p = vertPos poly e.vStart + (vertPos poly e.vEnd - vertPos poly e.vStart) * t

/-- A 4 x 4 square whose hole shares part of the square's left edge. -/
def notchedSquare : InputPolygon :=
  ⟨[⟨0, 0⟩, ⟨4, 0⟩, ⟨4, 4⟩, ⟨0, 4⟩], [[⟨0, 1⟩, ⟨1, 1⟩, ⟨1, 2⟩, ⟨0, 2⟩]]⟩

/-- A 100 x 100 square whose loop is closed by a fifth point 5e-10 away from the first. -/
def nearClosedSquare : InputPolygon :=
  ⟨[⟨0, 0⟩, ⟨100, 0⟩, ⟨100, 100⟩, ⟨0, 100⟩, ⟨1 / 2000000000, 0⟩], []⟩

/-- Scenario S4, operand A: the unit square with a centred square hole. -/
def holedSquare : InputPolygon :=
  ⟨[⟨0, 0⟩, ⟨1, 0⟩, ⟨1, 1⟩, ⟨0, 1⟩],
   [[⟨1 / 4, 1 / 4⟩, ⟨3 / 4, 1 / 4⟩, ⟨3 / 4, 3 / 4⟩, ⟨1 / 4, 3 / 4⟩]]⟩

/-- Scenario S3, operand B, wound the same way as A. -/
def squareS3B : InputPolygon := ⟨[⟨2, 0⟩, ⟨4, 0⟩, ⟨4, 2⟩, ⟨2, 2⟩], []⟩

/-- Scenario S3, operand B with its loop in the reverse order. -/
def squareS3Brev : InputPolygon := ⟨[⟨2, 2⟩, ⟨4, 2⟩, ⟨4, 0⟩, ⟨2, 0⟩], []⟩

/-- The atom of A's edge from (2,0) to (2,2), flagged coincident: the shared edge of
scenario S3. -/
def sharedAtomS3 : AtomicSegment := ⟨⟨2, 0⟩, ⟨2, 2⟩, true, true, 0⟩

/-- The loops that `makeTopoFromInput` keeps: the outer loop followed by the hole loops
in order, each normalized, those left with fewer than three points removed. -/
def retainedLoops (poly : InputPolygon) (epsClose : ℚ) : List (List QPointF) :=
  ((poly.outerLoop :: poly.holeLoops).map (fun l => normalizeLoop l epsClose)).filter
    (fun L => decide (3 ≤ L.length))

/-- One `LoopTopo` for each retained loop, holding the consecutive fresh indices that
start at `start`. -/
def loopBlocks : Nat → List (List QPointF) → List LoopTopo
  | _, [] => []
  | start, L :: rest =>
    { loopVertices := List.range' start L.length, isHole := false }
      :: loopBlocks (start + L.length) rest

/-- The topology as the specification describes it: the points of the retained loops in
order as fresh vertices, and one block of consecutive indices for each retained loop. -/
def specTopo (poly : InputPolygon) (epsClose : ℚ) : PolygonTopo :=
  { verts := (retainedLoops poly epsClose).flatten.map
      (fun pt => { pos := pt, isIntersection := false }),
    loops := loopBlocks 0 (retainedLoops poly epsClose) }

/-- The pair `(p, q)` is a cyclic edge of the closed loop `L`: `p = L[i]` and
`q = L[(i+1) % n]` for some `i < n`. -/
def IsLoopEdge (L : List QPointF) (p q : QPointF) : Prop :=
  ∃ i < L.length, p = L.getD i default ∧ q = L.getD ((i + 1) % L.length) default

/-- The atom `s` is cut from a cyclic edge of the loop `L`, between two parameters
`0 <= tLo < tHi <= 1`. -/
def CutFromLoop (L : List QPointF) (s : AtomicSegment) : Prop :=
  ∃ p q : QPointF, IsLoopEdge L p q ∧ ∃ tLo tHi : ℚ, 0 ≤ tLo ∧ tLo < tHi ∧ tHi ≤ 1
    ∧ s.p0 = p + (q - p) * tLo ∧ s.p1 = p + (q - p) * tHi

/-- A polygon whose outer loop has only two points, with one square hole. -/
def degenerateOuterPolygon : InputPolygon :=
  ⟨[⟨0, 0⟩, ⟨3, 0⟩], [[⟨1, 1⟩, ⟨2, 1⟩, ⟨2, 2⟩, ⟨1, 2⟩]]⟩

/-- Division that fails on a zero divisor. -/
def divChecked (a b : ℚ) : Option ℚ := if b = 0 then none else some (a / b)

/-- The read `poly.verts[i].pos`, failing when `i` is out of range. -/
def vertPosChecked (poly : PolygonTopo) (i : Nat) : Option QPointF :=
  (poly.verts[i]?).map (fun v => v.pos)

/-- The reads `loop[i]` and `loop[(i+1) % n]`, failing when an index is out of range. -/
def edgeAtChecked {α : Type} (loop : List α) (i : Nat) : Option (α × α) :=
  (loop[i]?).bind fun a => (loop[(i + 1) % loop.length]?).bind fun b => some (a, b)

/-- The inner loop of `buildRawEdges` with both index reads checked. -/
def loopEdgesChecked (lid : Nat) (lv : List Nat) (fromA : Bool) : Option (List RawEdge) :=
  (List.range lv.length).foldl
    (fun (acc : Option (List RawEdge)) i =>
      acc.bind fun out => (edgeAtChecked lv i).bind fun e =>
        some (out ++ [{ loopId := lid, vStart := e.1, vEnd := e.2, fromA := fromA }]))
    (some [])

/-- The outer loop of `buildRawEdges` over checked inner loops. -/
def buildRawEdgesFromChecked (fromA : Bool) : Nat → List LoopTopo → Option (List RawEdge)
  | _, [] => some []
  | lid, loop :: rest =>
    (if loop.loopVertices.length < 2 then some []
      else loopEdgesChecked lid loop.loopVertices fromA).bind fun es =>
    (buildRawEdgesFromChecked fromA (lid + 1) rest).bind fun more => some (es ++ more)

def buildRawEdgesChecked (poly : PolygonTopo) (fromA : Bool) : Option (List RawEdge) :=
  buildRawEdgesFromChecked fromA 0 poly.loops

/-- The lambdas `paramOnA` / `paramOnB` with the division by `rr` / `ss` checked. -/
def paramOnChecked (O d : QPointF) (dd epsGeom : ℚ) (P : QPointF) : Option ℚ :=
  if dd < epsGeom then some 0 else divChecked (dot2d (P - O) d) dd

/-- The kernel `intersectSegments` with every division checked. -/
def intersectSegmentsChecked (A0 A1 B0 B1 : QPointF) (epsGeom : ℚ) :
    Option SegmentIntersection :=
  let r := A1 - A0
  let s := B1 - B0
  let rxs := cross2d r s
  let diff := B0 - A0
  let diffxr := cross2d diff r
  if |rxs| > epsGeom then
    (divChecked (cross2d diff s) rxs).bind fun t =>
    (divChecked (cross2d diff r) rxs).bind fun u =>
    if t ≥ -epsGeom ∧ t ≤ 1 + epsGeom ∧ u ≥ -epsGeom ∧ u ≤ 1 + epsGeom then
      some (SegmentIntersection.Point (clamp01 t) (clamp01 u) (A0 + r * clamp01 t))
    else some SegmentIntersection.None
  else if |diffxr| > epsGeom then some SegmentIntersection.None
  else
    let rr := dot2d r r
    let ss := dot2d s s
    (paramOnChecked A0 r rr epsGeom B0).bind fun tA_for_B0 =>
    (paramOnChecked A0 r rr epsGeom B1).bind fun tA_for_B1 =>
    match intervalIntersection 0 1 tA_for_B0 tA_for_B1 with
    | none => some SegmentIntersection.None
    | some (tA_lo, tA_hi) =>
      (paramOnChecked B0 s ss epsGeom A0).bind fun tB_for_A0 =>
      (paramOnChecked B0 s ss epsGeom A1).bind fun tB_for_A1 =>
      match intervalIntersection 0 1 tB_for_A0 tB_for_A1 with
      | none => some SegmentIntersection.None
      | some (tB_lo, tB_hi) =>
        let lenA := tA_hi - tA_lo
        let lenB := tB_hi - tB_lo
        if lenA ≤ epsGeom ∧ lenB ≤ epsGeom then
          let tA_mid := (1 / 2) * (tA_lo + tA_hi)
          let tB_mid := (1 / 2) * (tB_lo + tB_hi)
          some (SegmentIntersection.Point tA_mid tB_mid (lerpPoint A0 A1 tA_mid))
        else
          some (SegmentIntersection.Overlap
            (if tA_lo > tA_hi then tA_hi else tA_lo) (if tA_lo > tA_hi then tA_lo else tA_hi)
            (if tB_lo > tB_hi then tB_hi else tB_lo) (if tB_lo > tB_hi then tB_lo else tB_hi))

/-- The toggle condition of `pointInSimpleLoop` with the division by `b.y - a.y`
checked. -/
def rayToggleChecked (a b p : QPointF) (eps : ℚ) : Option Bool :=
  let condY := (decide (a.y > p.y)) != (decide (b.y > p.y))
  if condY then
    (divChecked (p.y - a.y) (b.y - a.y)).bind fun t =>
      let xHit := a.x + t * (b.x - a.x)
      some (if xHit ≥ p.x - eps then true else false)
  else some false

/-- The function `pointInSimpleLoop` with every index read and division checked; the
first loop stops reading once an on-edge hit is found, as the early return does. -/
def pointInSimpleLoopChecked (loop : List QPointF) (p : QPointF) (eps : ℚ) : Option Bool :=
  let n := loop.length
  if n < 3 then some false
  else
    ((List.range n).foldl
      (fun (acc : Option Bool) i =>
        acc.bind fun found =>
          if found then some true
          else (edgeAtChecked loop i).bind fun e => some (onEdgeTest e.1 e.2 p eps))
      (some false)).bind fun onEdge =>
    if onEdge then some true
    else (List.range n).foldl
      (fun (acc : Option Bool) i =>
        acc.bind fun inside => (edgeAtChecked loop i).bind fun e =>
          (rayToggleChecked e.1 e.2 p eps).bind fun t =>
            some (if t then !inside else inside))
      (some false)

/-- The function `pointInPolygonWithHoles` over the checked loop test. -/
def pointInPolygonWithHolesChecked (poly : InputPolygon) (p : QPointF) : Option Bool :=
  (pointInSimpleLoopChecked poly.outerLoop p defaultEps).bind fun inOuter =>
    if !inOuter then some false
    else
      (poly.holeLoops.foldl
        (fun (acc : Option Bool) h =>
          acc.bind fun found =>
            if found then some true else pointInSimpleLoopChecked h p defaultEps)
        (some false)).bind fun inHole =>
      some (if inHole then false else true)

/-- The coincidence probe with the two divisions by the normal length checked. -/
def coincidentOppositeChecked (hypot : ℚ → ℚ → ℚ) (seg : AtomicSegment)
    (polyA polyB : InputPolygon) : Option Bool :=
  let mid := midpoint seg
  let dir : QPointF := ⟨seg.p1.x - seg.p0.x, seg.p1.y - seg.p0.y⟩
  let n : QPointF := ⟨dir.y, -dir.x⟩
  let nlen := hypot n.x n.y
  if nlen < 1 / 1000000000000 then some false
  else
    (divChecked n.x nlen).bind fun nux =>
    (divChecked n.y nlen).bind fun nuy =>
    let epsProbe : ℚ := 1 / 10000
    let pPlus : QPointF := ⟨mid.x + epsProbe * nux, mid.y + epsProbe * nuy⟩
    let pMinus : QPointF := ⟨mid.x - epsProbe * nux, mid.y - epsProbe * nuy⟩
    (pointInPolygonWithHolesChecked polyA pPlus).bind fun inA_plus =>
    (pointInPolygonWithHolesChecked polyA pMinus).bind fun inA_minus =>
    (pointInPolygonWithHolesChecked polyB pPlus).bind fun inB_plus =>
    (pointInPolygonWithHolesChecked polyB pMinus).bind fun inB_minus =>
    let oppCase1 := inA_plus && !inB_plus && !inA_minus && inB_minus
    let oppCase2 := !inA_plus && inB_plus && inA_minus && !inB_minus
    some (oppCase1 || oppCase2)

/-- The call `prepare(polyA, polyB)` with both tolerance arguments left to the defaults
that `booleanops.h` declares: `epsGeom = 1e-3` and `epsParam = 1e-3`. -/
def prepareDefault (polyA polyB : InputPolygon) : PrepContext :=
  prepare polyA polyB (1 / 1000) (1 / 1000)

/-- A rectangle whose right edge, at x = 1/1000, crosses the bottom edge of the square
of scenario S1 at parameter 1/2000. -/
def sliverRectangle : InputPolygon :=
  ⟨[⟨-1, -1⟩, ⟨1 / 1000, -1⟩, ⟨1 / 1000, 1⟩, ⟨-1, 1⟩], []⟩

/-- Squared Euclidean distance between two points. -/
def distSq (a b : QPointF) : ℚ := dot2d (a - b) (a - b)

/-- The coincidence probe as the specification words it, for a segment whose normal
`(dy, -dx)` has length `len`: sample `midpoint + 1e-4 n` and `midpoint - 1e-4 n` with
`n = (dy, -dx) / len` and combine the four containment tests. -/
def specProbe (len : ℚ) (seg : AtomicSegment) (polyA polyB : InputPolygon) : Bool :=
  let dx := seg.p1.x - seg.p0.x
  let dy := seg.p1.y - seg.p0.y
  let n : QPointF := ⟨dy / len, -dx / len⟩
  let m := midpoint seg
  let plus : QPointF := ⟨m.x + (1 / 10000) * n.x, m.y + (1 / 10000) * n.y⟩
  let minus : QPointF := ⟨m.x - (1 / 10000) * n.x, m.y - (1 / 10000) * n.y⟩
  let inAp := pointInPolygonWithHoles polyA plus
  let inAm := pointInPolygonWithHoles polyA minus
  let inBp := pointInPolygonWithHoles polyB plus
  let inBm := pointInPolygonWithHoles polyB minus
  (inAp && inBm && !inAm && !inBp) || (!inAp && !inBm && inAm && inBp)

/-- The cyclic edges `(loop[i], loop[(i+1) % n])` of a point loop, in order. -/
def loopEdgePairs (loop : List QPointF) : List (QPointF × QPointF) :=
  (List.range loop.length).map fun i =>
    (loop.getD i default, loop.getD ((i + 1) % loop.length) default)

/-- The on-edge test as the specification words it: the cross product of `p - a` and
`b - a` is below `eps` in absolute value and their dot product lies in
`[-eps, |b - a|^2 + eps]`. -/
def specOnEdge (a b p : QPointF) (eps : ℚ) : Bool :=
  decide (|cross2d (p - a) (b - a)| < eps ∧ -eps ≤ dot2d (p - a) (b - a)
    ∧ dot2d (p - a) (b - a) ≤ dot2d (b - a) (b - a) + eps)

/-- The abscissa at height `p.y` of the line through `a` and `b`. -/
def xHitAt (a b p : QPointF) : ℚ := a.x + (p.y - a.y) / (b.y - a.y) * (b.x - a.x)

/-- A ray hit with the half-open height rule of the code: `p.y` lies in
`[min a.y b.y, max a.y b.y)` and `xHit >= p.x - eps`. -/
def specRayHit (a b p : QPointF) (eps : ℚ) : Bool :=
  decide (((a.y ≤ p.y ∧ p.y < b.y) ∨ (b.y ≤ p.y ∧ p.y < a.y)) ∧ xHitAt a b p ≥ p.x - eps)

/-- A ray hit with `p.y` strictly between `a.y` and `b.y`. -/
def strictRayHit (a b p : QPointF) (eps : ℚ) : Bool :=
  decide (((a.y < p.y ∧ p.y < b.y) ∨ (b.y < p.y ∧ p.y < a.y)) ∧ xHitAt a b p ≥ p.x - eps)

/-- The diamond with corners (2,0), (4,2), (2,4), (0,2); its centre is (2,2). -/
def diamondLoop : List QPointF := [⟨2, 0⟩, ⟨4, 2⟩, ⟨2, 4⟩, ⟨0, 2⟩]

/-- Every overlap interval recorded on a work item of A is the A-side interval of an
`Overlap` result of the kernel for that edge and an edge of B, and every interval
recorded on a work item of B is the B-side interval of such a result. -/
def OverlapsFromKernel (polyA polyB : PolygonTopo) (epsGeom : ℚ)
    (st : List EdgeWork × List EdgeWork) : Prop :=
  (∀ i ov, HasOverlap st.1 i ov →
    ∃ j, j < (buildRawEdges polyB false).length ∧ ∃ b0 b1 : ℚ,
      kernelOnEdges polyA ((buildRawEdges polyA true).getD i default)
        polyB ((buildRawEdges polyB false).getD j default) epsGeom
      = SegmentIntersection.Overlap ov.t0 ov.t1 b0 b1)
  ∧ (∀ j ov, HasOverlap st.2 j ov →
    ∃ i, i < (buildRawEdges polyA true).length ∧ ∃ a0 a1 : ℚ,
      kernelOnEdges polyA ((buildRawEdges polyA true).getD i default)
        polyB ((buildRawEdges polyB false).getD j default) epsGeom
      = SegmentIntersection.Overlap a0 a1 ov.t0 ov.t1)

/-- The result `r2` has the type of `r1` with the per-segment parameters exchanged:
`tA <-> tB` for `Point`, `(tA0, tA1) <-> (tB0, tB1)` for `Overlap`. -/
def IsSwapOf (r1 r2 : SegmentIntersection) : Prop :=
  match r1, r2 with
  | SegmentIntersection.None, SegmentIntersection.None => True
  | SegmentIntersection.Point tA tB _, SegmentIntersection.Point tA2 tB2 _ =>
    tA2 = tB ∧ tB2 = tA
  | SegmentIntersection.Overlap a0 a1 b0 b1, SegmentIntersection.Overlap a02 a12 b02 b12 =>
    a02 = b0 ∧ a12 = b1 ∧ b02 = a0 ∧ b12 = a1
  | _, _ => False

/-- The cut parameters that both cut passes push on the first edge of a pair for the
kernel result `r`. -/
def cutsOnFirst : SegmentIntersection → List ℚ
  | SegmentIntersection.None => []
  | SegmentIntersection.Point tA _ _ => [tA]
  | SegmentIntersection.Overlap a0 a1 _ _ => [a0, a1]

/-- The cut parameters that both cut passes push on the second edge of a pair for the
kernel result `r`. -/
def cutsOnSecond : SegmentIntersection → List ℚ
  | SegmentIntersection.None => []
  | SegmentIntersection.Point _ tB _ => [tB]
  | SegmentIntersection.Overlap _ _ b0 b1 => [b0, b1]

/-- Consecutive segments join: the end point of each is the start point of the next. -/
def IsChainOfSegments (l : List AtomicSegment) : Prop :=
  List.Chain' (fun s t => s.p1 = t.p0) l

/-- A rectangle whose left edge, at x = 1 - 5e-10, crosses the bottom edge of the unit
square at parameter 1 - 5e-10. -/
def nearEndRectangle : InputPolygon :=
  ⟨[⟨1 - 1 / 2000000000, -1⟩, ⟨3, -1⟩, ⟨3, 1⟩, ⟨1 - 1 / 2000000000, 1⟩], []⟩

/-- The atoms emitted for the work item `ew` form a non-empty chain along its edge: the
first starts at the start of the edge, each ends where the next starts, the last ends
at the point that `lerpPoint` computes for a cut parameter `tEnd` with
`1 - epsParam < tEnd <= 1`, and that parameter is 1 when no cut parameter lies strictly
between `1 - epsParam` and 1. The last point is stated as `lerpPoint P0 P1 tEnd`, the
expression the code evaluates, and not as the vertex `P1`. -/
def ChainOnEdge (poly : PolygonTopo) (ew : EdgeWork) (epsParam : ℚ) : Prop :=
  explodeEdgeWork ew poly epsParam ≠ []
  ∧ (explodeEdgeWork ew poly epsParam).head?.map (fun s => s.p0)
      = some (vertPos poly ew.edge.vStart)
  ∧ IsChainOfSegments (explodeEdgeWork ew poly epsParam)
  ∧ (∃ tEnd : ℚ, tEnd ∈ ew.cutParams ∧ 1 - epsParam < tEnd ∧ tEnd ≤ 1
      ∧ (explodeEdgeWork ew poly epsParam).getLast?.map (fun s => s.p1)
        = some (lerpPoint (vertPos poly ew.edge.vStart) (vertPos poly ew.edge.vEnd) tEnd))
  ∧ ((∀ c ∈ ew.cutParams, 1 - epsParam < c → c = 1) →
      (explodeEdgeWork ew poly epsParam).getLast?.map (fun s => s.p1)
        = some (lerpPoint (vertPos poly ew.edge.vStart) (vertPos poly ew.edge.vEnd) 1))

/-- No loop of the polygon is shortened by `normalizeLoop`, and its outer loop has at
least three points. -/
def LoopsUnnormalized (poly : InputPolygon) : Prop :=
  3 ≤ poly.outerLoop.length
  ∧ normalizeLoop poly.outerLoop defaultEps = poly.outerLoop
  ∧ ∀ h ∈ poly.holeLoops, normalizeLoop h defaultEps = h

/-- What the cross pass records on the first edge of a pair for the kernel result `r`:
the cut parameters pushed on it (left) and, for an overlap, the interval (right). -/
def eventsOnFirst : SegmentIntersection → List (ℚ ⊕ OverlapInterval)
  | SegmentIntersection.None => []
  | SegmentIntersection.Point tA _ _ => [Sum.inl tA]
  | SegmentIntersection.Overlap a0 a1 _ _ => [Sum.inl a0, Sum.inl a1, Sum.inr ⟨a0, a1⟩]

/-- What the cross pass records on the second edge of a pair for the kernel result `r`. -/
def eventsOnSecond : SegmentIntersection → List (ℚ ⊕ OverlapInterval)
  | SegmentIntersection.None => []
  | SegmentIntersection.Point _ tB _ => [Sum.inl tB]
  | SegmentIntersection.Overlap _ _ b0 b1 => [Sum.inl b0, Sum.inl b1, Sum.inr ⟨b0, b1⟩]

/-- The work item `w` after the events `es` were recorded on it, in order: cut
parameters appended to `cutParams`, intervals appended to `overlaps`. -/
def recordEvents (es : List (ℚ ⊕ OverlapInterval)) (w : EdgeWork) : EdgeWork :=
  { w with cutParams := w.cutParams ++ es.filterMap Sum.getLeft?,
           overlaps := w.overlaps ++ es.filterMap Sum.getRight? }

/-- The work array `W2` is `W1` with the events `E k` recorded on item `k`. -/
def Records (W1 W2 : List EdgeWork) (E : Nat → List (ℚ ⊕ OverlapInterval)) : Prop :=
  ∀ k, W2[k]? = (W1[k]?).map (recordEvents (E k))

/-- The work item `w` with the provenance flag of its edge set to `c`. -/
def setEdgeFlag (c : Bool) (w : EdgeWork) : EdgeWork :=
  { w with edge := { w.edge with fromA := c } }

/-- The condition under which the kernel treats the pair of segments alike in both
orders: with `r = A1 - A0`, `s = B1 - B0`, `d = B0 - A0`, either `|r x s| > eps_geom`,
or the two collinearity tests agree. -/
def kernelSymmetricAt (A0 A1 B0 B1 : QPointF) (epsGeom : ℚ) : Bool :=
  decide (|cross2d (A1 - A0) (B1 - B0)| > epsGeom
    ∨ (|cross2d (B0 - A0) (A1 - A0)| ≤ epsGeom ↔ |cross2d (B0 - A0) (B1 - B0)| ≤ epsGeom))

/-- Every pair of an edge of `A` and an edge of `B` satisfies the symmetry condition of
the kernel. -/
@[reducible] def SymmetricPairs (A B : InputPolygon) (epsGeom : ℚ) : Prop :=
  ∀ eA ∈ buildRawEdges (makeTopoFromInput A defaultEps) true,
    ∀ eB ∈ buildRawEdges (makeTopoFromInput B defaultEps) false,
      kernelSymmetricAt
        (vertPos (makeTopoFromInput A defaultEps) eA.vStart)
        (vertPos (makeTopoFromInput A defaultEps) eA.vEnd)
        (vertPos (makeTopoFromInput B defaultEps) eB.vStart)
        (vertPos (makeTopoFromInput B defaultEps) eB.vEnd) epsGeom = true

/-- The union / intersection rule for a coincident atom when the operands are passed in
the other order: kept iff same-direction and from B; other atoms by the rule `keep`. -/
def keepSwapped (hypot : ℚ → ℚ → ℚ) (A B : InputPolygon) (keep : AtomicSegment → Bool)
    (s : AtomicSegment) : Bool :=
  if s.coincidentWithOther then (!coincidentOpposite hypot s A B) && !s.fromA else keep s

/-- The polylines of the atoms flagged coincident, classified same-direction, with
provenance flag `c`. -/
def sameDirectionTwins (hypot : ℚ → ℚ → ℚ) (A B : InputPolygon) (c : Bool)
    (atoms : List AtomicSegment) : List (List QPointF) :=
  (atoms.filter (fun s => s.coincidentWithOther && !coincidentOpposite hypot s A B
    && (s.fromA == c))).map polylineOf

/-- A triangle below the x-axis whose top edge, from (0,0) to (1/100,0), has squared
length 1e-4, below `eps_geom = 1e-3`. -/
def shortEdgeTriangle : InputPolygon := ⟨[⟨0, 0⟩, ⟨1 / 100, 0⟩, ⟨0, -1⟩], []⟩

/-- A rectangle above the line y = 1/20; its bottom edge runs from (0,1/20) to
(1,1/20). -/
def raisedSquare : InputPolygon := ⟨[⟨0, 1 / 20⟩, ⟨1, 1 / 20⟩, ⟨1, 1⟩, ⟨0, 1⟩], []⟩

/-- The coordinate of `p` along one of the four axis directions: `x`, `-x`, `y`, `-y`. -/
def coordAlong (d : Fin 4) (p : QPointF) : ℚ :=
  match d with
  | 0 => p.x
  | 1 => -p.x
  | 2 => p.y
  | 3 => -p.y

/-- The bounding boxes of `A` and `B` are separated by a gap of at least `g`: along one
axis every point of one polygon lies at least `g` before every point of the other. -/
def bboxSeparatedBy (g : ℚ) (A B : InputPolygon) : Bool :=
  (allPoints A).all (fun p => (allPoints B).all fun q => decide (p.x + g ≤ q.x))
    || (allPoints A).all (fun p => (allPoints B).all fun q => decide (q.x + g ≤ p.x))
    || (allPoints A).all (fun p => (allPoints B).all fun q => decide (p.y + g ≤ q.y))
    || (allPoints A).all (fun p => (allPoints B).all fun q => decide (q.y + g ≤ p.y))

/-- The gap `g` tells the edge `A0 A1` (direction `r`) and the edge `B0 B1` (direction
`s`) apart for the kernel: `g` exceeds `eps_geom` times the sum of the extents of the
two edges, and, if the edges are parallel within the tolerance (`|r x s| <= eps_geom`),
either `B0` is off the line of the first edge (`|(B0 - A0) x r| > eps_geom`) or the
first edge has squared length at least `eps_geom` and `g |r|^2` exceeds
`2 eps_geom (|r.x| + |r.y|)`. -/
def edgesApart (A0 A1 B0 B1 : QPointF) (epsGeom g : ℚ) : Bool :=
  decide (epsGeom * (|A1.x - A0.x| + |A1.y - A0.y| + |B1.x - B0.x| + |B1.y - B0.y|) < g
    ∧ (|cross2d (A1 - A0) (B1 - B0)| ≤ epsGeom →
        |cross2d (B0 - A0) (A1 - A0)| > epsGeom
        ∨ (epsGeom ≤ dot2d (A1 - A0) (A1 - A0) ∧ 0 < dot2d (A1 - A0) (A1 - A0)
          ∧ 2 * epsGeom * (|A1.x - A0.x| + |A1.y - A0.y|)
            < g * dot2d (A1 - A0) (A1 - A0))))

/-- Every pair of an edge of `A` and an edge of `B` is told apart by the gap `g`. -/
@[reducible] def EdgePairsApart (A B : InputPolygon) (epsGeom g : ℚ) : Prop :=
  ∀ eA ∈ buildRawEdges (makeTopoFromInput A defaultEps) true,
    ∀ eB ∈ buildRawEdges (makeTopoFromInput B defaultEps) false,
      edgesApart
        (vertPos (makeTopoFromInput A defaultEps) eA.vStart)
        (vertPos (makeTopoFromInput A defaultEps) eA.vEnd)
        (vertPos (makeTopoFromInput B defaultEps) eB.vStart)
        (vertPos (makeTopoFromInput B defaultEps) eB.vEnd) epsGeom g = true

/-- The gap `g` is resolved by the on-edge test of the edge `(a, b)`: `g |b - a|^2`
exceeds `1e-9 (|b.x - a.x| + |b.y - a.y|)`; in particular the edge is not of length
zero. -/
def edgeResolved (g : ℚ) (e : QPointF × QPointF) : Bool :=
  decide (defaultEps * (|e.2.x - e.1.x| + |e.2.y - e.1.y|) < g * dot2d (e.2 - e.1) (e.2 - e.1))

/-- Every cyclic edge of the input outer loop of `P` resolves the gap `g`. -/
@[reducible] def OuterLoopResolved (P : InputPolygon) (g : ℚ) : Prop :=
  ∀ e ∈ loopEdgePairs P.outerLoop, edgeResolved g e = true

/-- The atom that `explodeEdgeWork` emits for a raw edge cut only at its ends: from the
point of parameter 0 to the point of parameter 1 as `lerpPoint` computes them, not
flagged coincident. -/
def edgeAtom (poly : PolygonTopo) (e : RawEdge) : AtomicSegment :=
  { p0 := lerpPoint (vertPos poly e.vStart) (vertPos poly e.vEnd) 0,
    p1 := lerpPoint (vertPos poly e.vStart) (vertPos poly e.vEnd) 1,
    fromA := e.fromA, coincidentWithOther := false, loopId := e.loopId }

/-- The kernel reports only endpoint events (all parameters 0 or 1) for every pair of
edges of the polygon itself. -/
@[reducible] def OnlyEndpointEvents (poly : PolygonTopo) (f : Bool) (epsGeom : ℚ) : Prop :=
  ∀ j, j < (buildRawEdges poly f).length → ∀ i, i < j → endpointEvent
    (kernelOnEdges poly ((buildRawEdges poly f).getD i default)
      poly ((buildRawEdges poly f).getD j default) epsGeom) = true

/-- The unit square shifted right by 3, its loop closed by repeating the first point. -/
def closedFarSquare : InputPolygon := ⟨[⟨3, 0⟩, ⟨4, 0⟩, ⟨4, 1⟩, ⟨3, 1⟩, ⟨3, 0⟩], []⟩

/-- A triangle whose tip (1, 1/2) points at the left edge of `nearBox`. -/
def pointedTriangle : InputPolygon := ⟨[⟨0, 0⟩, ⟨1, 1 / 2⟩, ⟨0, 1⟩], []⟩

/-- A rectangle whose left edge, at x = 1 + 1e-4, is 1e-4 away from the tip of
`pointedTriangle`. -/
def nearBox : InputPolygon :=
  ⟨[⟨1 + 1 / 10000, 0⟩, ⟨2, 0⟩, ⟨2, 1⟩, ⟨1 + 1 / 10000, 1⟩], []⟩

/-- A self-crossing quadrilateral: its edges (0,0)-(1,1) and (1,0)-(0,1) cross at
(1/2, 1/2). -/
def bowTie : InputPolygon := ⟨[⟨0, 0⟩, ⟨1, 1⟩, ⟨1, 0⟩, ⟨0, 1⟩], []⟩

end Boolean2D

/-! ## Theorems -/

namespace Boolean2D

open Geometry

theorem foldl_keep_eq_filter {α : Type} (p : α → Bool) (l : List α) (init : List α) :
    l.foldl (fun keep s => if p s then keep ++ [s] else keep) init = init ++ l.filter p := by
  induction l generalizing init with
  | nil => simp
  | cons a l ih =>
    simp only [List.foldl_cons, ih, List.filter_cons]
    by_cases h : p a <;> simp [h]

theorem stepAddition_eq (hypot : ℚ → ℚ → ℚ) (A B : InputPolygon) (keep : List AtomicSegment)
    (seg : AtomicSegment) :
    stepAddition hypot A B keep seg
      = if specKeepUnion hypot A B seg then keep ++ [seg] else keep := by
  unfold stepAddition specKeepUnion
  cases hc : seg.coincidentWithOther <;> cases hf : seg.fromA <;>
    cases ho : coincidentOpposite hypot seg A B <;>
    cases ha : pointInPolygonWithHoles A (midpoint seg) <;>
    cases hb : pointInPolygonWithHoles B (midpoint seg) <;> simp [hc, hf, ho, ha, hb]

theorem stepIntersection_eq (hypot : ℚ → ℚ → ℚ) (A B : InputPolygon)
    (keep : List AtomicSegment) (seg : AtomicSegment) :
    stepIntersection hypot A B keep seg
      = if specKeepIntersection hypot A B seg then keep ++ [seg] else keep := by
  unfold stepIntersection specKeepIntersection
  cases hc : seg.coincidentWithOther <;> cases hf : seg.fromA <;>
    cases ho : coincidentOpposite hypot seg A B <;>
    cases ha : pointInPolygonWithHoles A (midpoint seg) <;>
    cases hb : pointInPolygonWithHoles B (midpoint seg) <;> simp [hc, hf, ho, ha, hb]

theorem stepSubAB_eq (hypot : ℚ → ℚ → ℚ) (A B : InputPolygon) (keep : List AtomicSegment)
    (seg : AtomicSegment) :
    stepSubAB hypot A B keep seg
      = if specKeepSubAB hypot A B seg then keep ++ [seg] else keep := by
  unfold stepSubAB specKeepSubAB
  by_cases hL : seg.loopId > 0 <;>
  cases hc : seg.coincidentWithOther <;> cases hf : seg.fromA <;>
    cases ho : coincidentOpposite hypot seg A B <;>
    cases ha : pointInPolygonWithHoles A (midpoint seg) <;>
    cases hb : pointInPolygonWithHoles B (midpoint seg) <;> simp [hL, hc, hf, ho, ha, hb]

theorem stepSubBA_eq (hypot : ℚ → ℚ → ℚ) (A B : InputPolygon) (keep : List AtomicSegment)
    (seg : AtomicSegment) :
    stepSubBA hypot A B keep seg
      = if specKeepSubBA hypot A B seg then keep ++ [seg] else keep := by
  unfold stepSubBA specKeepSubBA
  by_cases hL : seg.loopId > 0 <;>
  cases hc : seg.coincidentWithOther <;> cases hf : seg.fromA <;>
    cases ho : coincidentOpposite hypot seg A B <;>
    cases ha : pointInPolygonWithHoles A (midpoint seg) <;>
    cases hb : pointInPolygonWithHoles B (midpoint seg) <;> simp [hL, hc, hf, ho, ha, hb]

theorem classifyForAddition_eq_filter (hypot : ℚ → ℚ → ℚ) (ctx : PrepContext)
    (A B : InputPolygon) :
    classifyForAddition hypot ctx A B = ctx.atoms.filter (specKeepUnion hypot A B) := by
  unfold classifyForAddition
  have h : stepAddition hypot A B
      = fun keep s => if specKeepUnion hypot A B s then keep ++ [s] else keep := by
    funext keep s; exact stepAddition_eq hypot A B keep s
  rw [h, foldl_keep_eq_filter]; simp

theorem classifyForIntersection_eq_filter (hypot : ℚ → ℚ → ℚ) (ctx : PrepContext)
    (A B : InputPolygon) :
    classifyForIntersection hypot ctx A B
      = ctx.atoms.filter (specKeepIntersection hypot A B) := by
  unfold classifyForIntersection
  have h : stepIntersection hypot A B
      = fun keep s => if specKeepIntersection hypot A B s then keep ++ [s] else keep := by
    funext keep s; exact stepIntersection_eq hypot A B keep s
  rw [h, foldl_keep_eq_filter]; simp

theorem classifyForSubAB_eq_filter (hypot : ℚ → ℚ → ℚ) (ctx : PrepContext)
    (A B : InputPolygon) :
    classifyForSubAB hypot ctx A B = ctx.atoms.filter (specKeepSubAB hypot A B) := by
  unfold classifyForSubAB
  have h : stepSubAB hypot A B
      = fun keep s => if specKeepSubAB hypot A B s then keep ++ [s] else keep := by
    funext keep s; exact stepSubAB_eq hypot A B keep s
  rw [h, foldl_keep_eq_filter]; simp

theorem classifyForSubBA_eq_filter (hypot : ℚ → ℚ → ℚ) (ctx : PrepContext)
    (A B : InputPolygon) :
    classifyForSubBA hypot ctx A B = ctx.atoms.filter (specKeepSubBA hypot A B) := by
  unfold classifyForSubBA
  have h : stepSubBA hypot A B
      = fun keep s => if specKeepSubBA hypot A B s then keep ++ [s] else keep := by
    funext keep s; exact stepSubBA_eq hypot A B keep s
  rw [h, foldl_keep_eq_filter]; simp

/-- The probe reads `hypot` only at the normal of the segment. -/
theorem coincidentOpposite_congr (h1 h2 : ℚ → ℚ → ℚ) (seg : AtomicSegment)
    (A B : InputPolygon)
    (h : h1 (seg.p1.y - seg.p0.y) (-(seg.p1.x - seg.p0.x))
      = h2 (seg.p1.y - seg.p0.y) (-(seg.p1.x - seg.p0.x))) :
    coincidentOpposite h1 seg A B = coincidentOpposite h2 seg A B := by
  unfold coincidentOpposite
  simp only [h]

theorem specKeepUnion_congr (h1 h2 : ℚ → ℚ → ℚ) (A B : InputPolygon) (seg : AtomicSegment)
    (h : seg.coincidentWithOther = true →
      h1 (seg.p1.y - seg.p0.y) (-(seg.p1.x - seg.p0.x))
        = h2 (seg.p1.y - seg.p0.y) (-(seg.p1.x - seg.p0.x))) :
    specKeepUnion h1 A B seg = specKeepUnion h2 A B seg := by
  unfold specKeepUnion
  cases hc : seg.coincidentWithOther
  · simp
  · simp [coincidentOpposite_congr h1 h2 seg A B (h hc)]

theorem specKeepIntersection_congr (h1 h2 : ℚ → ℚ → ℚ) (A B : InputPolygon)
    (seg : AtomicSegment)
    (h : seg.coincidentWithOther = true →
      h1 (seg.p1.y - seg.p0.y) (-(seg.p1.x - seg.p0.x))
        = h2 (seg.p1.y - seg.p0.y) (-(seg.p1.x - seg.p0.x))) :
    specKeepIntersection h1 A B seg = specKeepIntersection h2 A B seg := by
  unfold specKeepIntersection
  cases hc : seg.coincidentWithOther
  · simp
  · simp [coincidentOpposite_congr h1 h2 seg A B (h hc)]

theorem specKeepSubAB_congr (h1 h2 : ℚ → ℚ → ℚ) (A B : InputPolygon) (seg : AtomicSegment)
    (h : seg.coincidentWithOther = true →
      h1 (seg.p1.y - seg.p0.y) (-(seg.p1.x - seg.p0.x))
        = h2 (seg.p1.y - seg.p0.y) (-(seg.p1.x - seg.p0.x))) :
    specKeepSubAB h1 A B seg = specKeepSubAB h2 A B seg := by
  unfold specKeepSubAB
  cases hc : seg.coincidentWithOther
  · simp
  · simp [coincidentOpposite_congr h1 h2 seg A B (h hc)]

/-- If two `hypot` functions agree at the normal of every coincident atom, the four
operations return the same lists for both. -/
theorem compute_congr (h1 h2 : ℚ → ℚ → ℚ) (ctx : PrepContext) (A B : InputPolygon)
    (h : ∀ seg ∈ ctx.atoms, seg.coincidentWithOther = true →
      h1 (seg.p1.y - seg.p0.y) (-(seg.p1.x - seg.p0.x))
        = h2 (seg.p1.y - seg.p0.y) (-(seg.p1.x - seg.p0.x))) :
    computeAdditionSegments h1 ctx A B = computeAdditionSegments h2 ctx A B
      ∧ computeIntersectionSegments h1 ctx A B = computeIntersectionSegments h2 ctx A B
      ∧ computeSubtractionABSegments h1 ctx A B = computeSubtractionABSegments h2 ctx A B := by
  unfold computeAdditionSegments computeIntersectionSegments computeSubtractionABSegments
  rw [classifyForAddition_eq_filter, classifyForAddition_eq_filter,
    classifyForIntersection_eq_filter, classifyForIntersection_eq_filter,
    classifyForSubAB_eq_filter, classifyForSubAB_eq_filter]
  refine ⟨?_, ?_, ?_⟩
  · congr 1
    exact List.filter_congr (fun s hs => specKeepUnion_congr h1 h2 A B s (h s hs))
  · congr 1
    exact List.filter_congr (fun s hs => specKeepIntersection_congr h1 h2 A B s (h s hs))
  · congr 1
    exact List.filter_congr (fun s hs => specKeepSubAB_congr h1 h2 A B s (h s hs))

/-- When no atom is flagged coincident the probe is never called. -/
theorem compute_indep_hypot (h1 h2 : ℚ → ℚ → ℚ) (ctx : PrepContext) (A B : InputPolygon)
    (h : ∀ seg ∈ ctx.atoms, seg.coincidentWithOther = false) :
    computeAdditionSegments h1 ctx A B = computeAdditionSegments h2 ctx A B
      ∧ computeIntersectionSegments h1 ctx A B = computeIntersectionSegments h2 ctx A B
      ∧ computeSubtractionABSegments h1 ctx A B = computeSubtractionABSegments h2 ctx A B :=
  compute_congr h1 h2 ctx A B (fun s hs hc => by rw [h s hs] at hc; cases hc)

theorem squares_atoms_not_coincident :
    ∀ seg ∈ (prepare squareA squareB epsGeomS epsParamS).atoms,
      seg.coincidentWithOther = false := by
  decide!

/-- C1: union and intersection return, in atom order, the polyline `[p0, p1]` of exactly
the atoms their rule selects (coincident: same-direction and from A; otherwise the
midpoint rule), a coincident atom from B is never selected, and on the squares of
scenario S1 the intersection is exactly the four listed segments. -/
theorem C1_union_intersection_selection (hypot : ℚ → ℚ → ℚ) :
    (∀ (ctx : PrepContext) (A B : InputPolygon),
      computeAdditionSegments hypot ctx A B
          = (ctx.atoms.filter (specKeepUnion hypot A B)).map polylineOf
        ∧ computeIntersectionSegments hypot ctx A B
          = (ctx.atoms.filter (specKeepIntersection hypot A B)).map polylineOf)
    ∧ (∀ (A B : InputPolygon) (seg : AtomicSegment),
        (seg.coincidentWithOther && !seg.fromA && specKeepUnion hypot A B seg) = false
          ∧ (seg.coincidentWithOther && !seg.fromA
              && specKeepIntersection hypot A B seg) = false)
    ∧ computeIntersectionSegments hypot (prepare squareA squareB epsGeomS epsParamS)
          squareA squareB
        = [[⟨2, 1⟩, ⟨2, 2⟩], [⟨2, 2⟩, ⟨1, 2⟩], [⟨1, 1⟩, ⟨2, 1⟩], [⟨1, 2⟩, ⟨1, 1⟩]] := by
  refine ⟨?_, ?_, ?_⟩
  · intro ctx A B
    unfold computeAdditionSegments computeIntersectionSegments segmentsToPolylines
    rw [classifyForAddition_eq_filter, classifyForIntersection_eq_filter]
    exact ⟨rfl, rfl⟩
  · intro A B seg
    unfold specKeepUnion specKeepIntersection
    cases hc : seg.coincidentWithOther <;> cases hf : seg.fromA <;> simp
  · rw [(compute_indep_hypot hypot hypotAxis _ squareA squareB
      squares_atoms_not_coincident).2.1]
    decide!

/-- C2: both differences return, in atom order, the polyline `[p0, p1]` of exactly the
atoms selected by their row of the rule table (coincident: opposite-direction and from the
minuend; otherwise the four midpoint cases split on provenance and `loopId > 0`). -/
theorem C2_subtraction_selection (hypot : ℚ → ℚ → ℚ) (ctx : PrepContext)
    (A B : InputPolygon) :
    computeSubtractionABSegments hypot ctx A B
        = (ctx.atoms.filter (specKeepSubAB hypot A B)).map polylineOf
      ∧ computeSubtractionBASegments hypot ctx A B
        = (ctx.atoms.filter (specKeepSubBA hypot A B)).map polylineOf := by
  unfold computeSubtractionABSegments computeSubtractionBASegments segmentsToPolylines
  rw [classifyForSubAB_eq_filter, classifyForSubBA_eq_filter]
  exact ⟨rfl, rfl⟩

theorem hypotRat_exact : HypotExact hypotRat := by
  intro x y h h0 hh
  unfold hypotRat
  rw [← hh, Rat.sqrt_eq, abs_of_nonneg h0]

theorem hypot_axis (hypot : ℚ → ℚ → ℚ) (hyp : HypotExact hypot) (x y : ℚ)
    (h : x = 0 ∨ y = 0) : hypot x y = hypotAxis x y := by
  apply hyp
  · unfold hypotAxis; positivity
  · unfold hypotAxis
    rcases h with h | h <;> subst h <;> simp

/-- On a context whose coincident atoms are parallel to an axis, every exact `hypot`
gives the results of `hypotAxis`. -/
theorem compute_axis (hypot : ℚ → ℚ → ℚ) (hyp : HypotExact hypot) (ctx : PrepContext)
    (A B : InputPolygon)
    (h : ∀ seg ∈ ctx.atoms, seg.p1.y - seg.p0.y = 0 ∨ -(seg.p1.x - seg.p0.x) = 0) :
    computeAdditionSegments hypot ctx A B = computeAdditionSegments hypotAxis ctx A B
      ∧ computeIntersectionSegments hypot ctx A B
        = computeIntersectionSegments hypotAxis ctx A B
      ∧ computeSubtractionABSegments hypot ctx A B
        = computeSubtractionABSegments hypotAxis ctx A B :=
  compute_congr hypot hypotAxis ctx A B
    (fun s hs _ => hypot_axis hypot hyp _ _ (h s hs))

/-- C3: on the squares of scenario S2, A−B returns exactly six two-point polylines, and
up to direction they are the six segments of the L-shaped boundary
(0,0)-(2,0)-(2,1)-(1,1)-(1,2)-(0,2)-(0,0). -/
theorem C3_scenario_S2 (hypot : ℚ → ℚ → ℚ) :
    computeSubtractionABSegments hypot (prepare squareA squareB epsGeomS epsParamS)
        squareA squareB
      = [[⟨0, 0⟩, ⟨2, 0⟩], [⟨2, 0⟩, ⟨2, 1⟩], [⟨1, 2⟩, ⟨0, 2⟩], [⟨0, 2⟩, ⟨0, 0⟩],
         [⟨1, 1⟩, ⟨2, 1⟩], [⟨1, 2⟩, ⟨1, 1⟩]]
    ∧ (computeSubtractionABSegments hypot (prepare squareA squareB epsGeomS epsParamS)
        squareA squareB).length = 6
    ∧ (∀ e ∈ expectedS2,
        e ∈ computeSubtractionABSegments hypot (prepare squareA squareB epsGeomS epsParamS)
            squareA squareB
        ∨ e.reverse ∈ computeSubtractionABSegments hypot
            (prepare squareA squareB epsGeomS epsParamS) squareA squareB) := by
  rw [(compute_indep_hypot hypot hypotAxis _ squareA squareB
    squares_atoms_not_coincident).2.2]
  decide!

theorem unitSquare_atoms_axis :
    ∀ seg ∈ (prepare unitSquare unitSquare epsGeomS epsParamS).atoms,
      seg.p1.y - seg.p0.y = 0 ∨ -(seg.p1.x - seg.p0.x) = 0 := by
  decide!

/-- C4: for A = B = the unit square (scenario S6), union returns the four edges once
each, intersection returns the same four edges once each, and A−B returns nothing. -/
theorem C4_scenario_S6 (hypot : ℚ → ℚ → ℚ) (hyp : HypotExact hypot) :
    computeAdditionSegments hypot (prepare unitSquare unitSquare epsGeomS epsParamS)
        unitSquare unitSquare
      = [[⟨0, 0⟩, ⟨1, 0⟩], [⟨1, 0⟩, ⟨1, 1⟩], [⟨1, 1⟩, ⟨0, 1⟩], [⟨0, 1⟩, ⟨0, 0⟩]]
    ∧ computeIntersectionSegments hypot (prepare unitSquare unitSquare epsGeomS epsParamS)
        unitSquare unitSquare
      = [[⟨0, 0⟩, ⟨1, 0⟩], [⟨1, 0⟩, ⟨1, 1⟩], [⟨1, 1⟩, ⟨0, 1⟩], [⟨0, 1⟩, ⟨0, 0⟩]]
    ∧ computeSubtractionABSegments hypot (prepare unitSquare unitSquare epsGeomS epsParamS)
        unitSquare unitSquare = [] := by
  obtain ⟨h1, h2, h3⟩ := compute_axis hypot hyp _ unitSquare unitSquare unitSquare_atoms_axis
  rw [h1, h2, h3]
  decide!

/-- Witness for C4: the rational `hypot` is exact and gives the three results. -/
theorem C4_scenario_S6_witness :
    HypotExact hypotRat
    ∧ computeAdditionSegments hypotRat (prepare unitSquare unitSquare epsGeomS epsParamS)
        unitSquare unitSquare
      = [[⟨0, 0⟩, ⟨1, 0⟩], [⟨1, 0⟩, ⟨1, 1⟩], [⟨1, 1⟩, ⟨0, 1⟩], [⟨0, 1⟩, ⟨0, 0⟩]] :=
  ⟨hypotRat_exact, (C4_scenario_S6 hypotRat hypotRat_exact).1⟩

/-! ### The work arrays: what a push changes -/

theorem length_modifyAt {α : Type} (f : α → α) (i : Nat) (l : List α) :
    (modifyAt f i l).length = l.length := by
  induction l generalizing i with
  | nil => cases i <;> rfl
  | cons a l ih =>
    cases i with
    | zero => rfl
    | succ n => simp [modifyAt, ih]

theorem getElem?_modifyAt {α : Type} (f : α → α) (i k : Nat) (l : List α) :
    (modifyAt f i l)[k]? = if k = i then l[k]?.map f else l[k]? := by
  induction l generalizing i k with
  | nil => cases i <;> simp [modifyAt]
  | cons a l ih =>
    cases i with
    | zero =>
      cases k with
      | zero => simp [modifyAt]
      | succ k => simp [modifyAt]
    | succ n =>
      cases k with
      | zero => simp [modifyAt]
      | succ k => simp [modifyAt, ih]

theorem mem_modifyAt {α : Type} (f : α → α) (i : Nat) (l : List α) (y : α)
    (h : y ∈ modifyAt f i l) : ∃ x ∈ l, y = x ∨ y = f x := by
  induction l generalizing i with
  | nil => cases i <;> simp [modifyAt] at h
  | cons a l ih =>
    cases i with
    | zero =>
      simp only [modifyAt, List.mem_cons] at h
      rcases h with h | h
      · exact ⟨a, List.mem_cons_self _ _, Or.inr h⟩
      · exact ⟨y, List.mem_cons_of_mem _ h, Or.inl rfl⟩
    | succ n =>
      simp only [modifyAt, List.mem_cons] at h
      rcases h with h | h
      · exact ⟨a, List.mem_cons_self _ _, Or.inl h⟩
      · obtain ⟨x, hx, hxy⟩ := ih n h
        exact ⟨x, List.mem_cons_of_mem _ hx, hxy⟩

theorem map_modifyAt {α β : Type} (f : α → α) (g : α → β) (hg : ∀ x, g (f x) = g x)
    (i : Nat) (l : List α) : (modifyAt f i l).map g = l.map g := by
  induction l generalizing i with
  | nil => cases i <;> rfl
  | cons a l ih =>
    cases i with
    | zero => simp [modifyAt, hg]
    | succ n => simp [modifyAt, ih]

/-! ### The kernel: range of the reported parameters -/

theorem clamp01_mem (t : ℚ) : 0 ≤ clamp01 t ∧ clamp01 t ≤ 1 := by
  simp only [clamp01]
  split_ifs <;> constructor <;> linarith

theorem intervalIntersection_unit (x y lo hi : ℚ)
    (h : intervalIntersection 0 1 x y = some (lo, hi)) : 0 ≤ lo ∧ lo ≤ hi ∧ hi ≤ 1 := by
  unfold intervalIntersection at h
  have h01 : ¬ ((0 : ℚ) > 1) := by norm_num
  simp only [h01, if_false] at h
  by_cases hc : min 1 (if x > y then x else y) ≥ max 0 (if x > y then y else x)
  · rw [if_pos hc] at h
    simp only [Option.some.injEq, Prod.mk.injEq] at h
    obtain ⟨rfl, rfl⟩ := h
    exact ⟨le_max_left _ _, hc, min_le_left _ _⟩
  · rw [if_neg hc] at h
    cases h

theorem intersectSegments_point_range (A0 A1 B0 B1 : QPointF) (eg tA tB : ℚ) (P : QPointF)
    (h : intersectSegments A0 A1 B0 B1 eg = SegmentIntersection.Point tA tB P) :
    (0 ≤ tA ∧ tA ≤ 1) ∧ (0 ≤ tB ∧ tB ≤ 1) := by
  unfold intersectSegments at h
  simp only [] at h
  split_ifs at h with h1 h2 h3
  · simp only [SegmentIntersection.Point.injEq] at h
    obtain ⟨rfl, rfl, _⟩ := h
    exact ⟨clamp01_mem _, clamp01_mem _⟩
  · split at h
    · cases h
    · rename_i lo hi hA
      split at h
      · cases h
      · rename_i lo2 hi2 hB
        have ha := intervalIntersection_unit _ _ _ _ hA
        have hb := intervalIntersection_unit _ _ _ _ hB
        split_ifs at h
        simp only [SegmentIntersection.Point.injEq] at h
        obtain ⟨rfl, rfl, _⟩ := h
        refine ⟨⟨?_, ?_⟩, ⟨?_, ?_⟩⟩ <;> linarith [ha.1, ha.2.1, ha.2.2, hb.1, hb.2.1, hb.2.2]

theorem intersectSegments_overlap_range (A0 A1 B0 B1 : QPointF) (eg a0 a1 b0 b1 : ℚ)
    (h : intersectSegments A0 A1 B0 B1 eg = SegmentIntersection.Overlap a0 a1 b0 b1) :
    (0 ≤ a0 ∧ a0 ≤ 1) ∧ (0 ≤ a1 ∧ a1 ≤ 1) ∧ (0 ≤ b0 ∧ b0 ≤ 1) ∧ (0 ≤ b1 ∧ b1 ≤ 1) := by
  unfold intersectSegments at h
  simp only [] at h
  split_ifs at h with h1 h2 h3
  · split at h
    · cases h
    · rename_i lo hi hA
      split at h
      · cases h
      · rename_i lo2 hi2 hB
        have ha := intervalIntersection_unit _ _ _ _ hA
        have hb := intervalIntersection_unit _ _ _ _ hB
        split_ifs at h
        all_goals
          simp only [SegmentIntersection.Overlap.injEq] at h
          obtain ⟨rfl, rfl, rfl, rfl⟩ := h
          refine ⟨⟨?_, ?_⟩, ⟨?_, ?_⟩, ⟨?_, ?_⟩, ⟨?_, ?_⟩⟩ <;>
            linarith [ha.1, ha.2.1, ha.2.2, hb.1, hb.2.1, hb.2.2]

theorem cross2d_self (a : QPointF) : cross2d a a = 0 := by
  unfold cross2d; ring

theorem QPointF.sub_self_eq (a : QPointF) : a - a = ⟨0, 0⟩ := by
  show (⟨a.x - a.x, a.y - a.y⟩ : QPointF) = ⟨0, 0⟩
  simp

theorem cross2d_zero_left (a : QPointF) : cross2d ⟨0, 0⟩ a = 0 := by
  unfold cross2d; simp

theorem dot2d_zero_left (a : QPointF) : dot2d ⟨0, 0⟩ a = 0 := by
  unfold dot2d; simp

theorem intervalIntersection_unit_unit : intervalIntersection 0 1 0 1 = some (0, 1) := by
  decide!

/-- The kernel applied to one segment twice reports the full overlap, provided the
segment is not shorter than the degenerate-length guard. -/
theorem intersectSegments_self (P0 P1 : QPointF) (eg : ℚ) (h0 : 0 < eg) (h1 : eg < 1)
    (hlen : eg ≤ dot2d (P1 - P0) (P1 - P0)) :
    intersectSegments P0 P1 P0 P1 eg = SegmentIntersection.Overlap 0 1 0 1 := by
  have hrr : dot2d (P1 - P0) (P1 - P0) ≠ 0 := by linarith
  have hp0 : paramOn P0 (P1 - P0) (dot2d (P1 - P0) (P1 - P0)) eg P0 = 0 := by
    unfold paramOn
    rw [if_neg (not_lt.mpr hlen), QPointF.sub_self_eq, dot2d_zero_left, zero_div]
  have hp1 : paramOn P0 (P1 - P0) (dot2d (P1 - P0) (P1 - P0)) eg P1 = 1 := by
    unfold paramOn
    rw [if_neg (not_lt.mpr hlen), div_self hrr]
  unfold intersectSegments
  simp only [cross2d_self, QPointF.sub_self_eq, cross2d_zero_left, abs_zero, hp0, hp1,
    intervalIntersection_unit_unit]
  have e1 : ¬ (0 > eg) := by linarith
  have e2 : ¬ ((1 : ℚ) - 0 ≤ eg ∧ (1 : ℚ) - 0 ≤ eg) := by
    intro h; linarith [h.1]
  have e3 : ¬ ((0 : ℚ) > 1) := by norm_num
  simp only [e1, e2, e3, if_false]

/-! ### Folds: invariants of a loop -/

theorem foldl_inv {σ α : Type} (f : σ → α → σ) (Inv : σ → Prop)
    (h : ∀ st x, Inv st → Inv (f st x)) (l : List α) (st0 : σ) (h0 : Inv st0) :
    Inv (l.foldl f st0) := by
  induction l generalizing st0 with
  | nil => exact h0
  | cons a l ih => exact ih _ (h _ _ h0)

theorem foldl_establish {σ α : Type} (f : σ → α → σ) (Inv Q : σ → Prop)
    (hInv : ∀ st x, Inv st → Inv (f st x))
    (hpres : ∀ st x, Inv st → Q st → Q (f st x))
    (x0 : α) (hQ : ∀ st, Inv st → Q (f st x0))
    (l : List α) (hx : x0 ∈ l) (st0 : σ) (h0 : Inv st0) :
    Q (l.foldl f st0) := by
  induction l generalizing st0 with
  | nil => cases hx
  | cons a l ih =>
    rw [List.foldl_cons]
    rcases List.mem_cons.mp hx with rfl | hx
    · have hb : Inv (f st0 x0) ∧ Q (f st0 x0) := ⟨hInv _ _ h0, hQ _ h0⟩
      exact (foldl_inv f (fun st => Inv st ∧ Q st)
        (fun st x hst => ⟨hInv _ _ hst.1, hpres _ _ hst.1 hst.2⟩) l _ hb).2
    · exact ih hx _ (hInv _ _ h0)

/-! ### Pushes keep edges and lengths, and only add -/

theorem length_pushCuts (work : List EdgeWork) (i : Nat) (cs : List ℚ) :
    (pushCuts work i cs).length = work.length := length_modifyAt _ _ _

theorem length_pushOverlap (work : List EdgeWork) (i : Nat) (ov : OverlapInterval) :
    (pushOverlap work i ov).length = work.length := length_modifyAt _ _ _

theorem edges_pushCuts (work : List EdgeWork) (i : Nat) (cs : List ℚ) :
    (pushCuts work i cs).map (fun w => w.edge) = work.map (fun w => w.edge) := by
  unfold pushCuts
  apply map_modifyAt
  intro x
  rfl

theorem edges_pushOverlap (work : List EdgeWork) (i : Nat) (ov : OverlapInterval) :
    (pushOverlap work i ov).map (fun w => w.edge) = work.map (fun w => w.edge) := by
  unfold pushOverlap
  apply map_modifyAt
  intro x
  rfl

theorem cutsIn01_pushCuts (work : List EdgeWork) (i : Nat) (cs : List ℚ)
    (hw : CutsIn01 work) (hcs : ∀ c ∈ cs, 0 ≤ c ∧ c ≤ 1) : CutsIn01 (pushCuts work i cs) := by
  intro w hwm c hc
  obtain ⟨x, hx, hxy⟩ := mem_modifyAt _ _ _ _ hwm
  rcases hxy with rfl | rfl
  · exact hw _ hx c hc
  · simp only [List.mem_append] at hc
    rcases hc with hc | hc
    · exact hw _ hx c hc
    · exact hcs c hc

theorem cutsIn01_pushOverlap (work : List EdgeWork) (i : Nat) (ov : OverlapInterval)
    (hw : CutsIn01 work) : CutsIn01 (pushOverlap work i ov) := by
  intro w hwm c hc
  obtain ⟨x, hx, hxy⟩ := mem_modifyAt _ _ _ _ hwm
  rcases hxy with rfl | rfl
  · exact hw _ hx c hc
  · exact hw _ hx c hc

theorem hasOverlap_pushCuts (work : List EdgeWork) (i k : Nat) (cs : List ℚ)
    (ov : OverlapInterval) (h : HasOverlap work k ov) : HasOverlap (pushCuts work i cs) k ov := by
  obtain ⟨w, hw, hov⟩ := h
  unfold HasOverlap pushCuts
  rw [getElem?_modifyAt, hw]
  by_cases hk : k = i
  · simp only [hk, if_true, Option.map_some']
    exact ⟨_, rfl, hov⟩
  · simp only [hk, if_false]
    exact ⟨_, rfl, hov⟩

theorem hasOverlap_pushOverlap (work : List EdgeWork) (i k : Nat) (ov2 ov : OverlapInterval)
    (h : HasOverlap work k ov) : HasOverlap (pushOverlap work i ov2) k ov := by
  obtain ⟨w, hw, hov⟩ := h
  unfold HasOverlap pushOverlap
  rw [getElem?_modifyAt, hw]
  by_cases hk : k = i
  · simp only [hk, if_true, Option.map_some']
    exact ⟨_, rfl, List.mem_append_left _ hov⟩
  · simp only [hk, if_false]
    exact ⟨_, rfl, hov⟩

theorem hasOverlap_pushOverlap_self (work : List EdgeWork) (i : Nat) (ov : OverlapInterval)
    (hi : i < work.length) : HasOverlap (pushOverlap work i ov) i ov := by
  unfold HasOverlap pushOverlap
  rw [getElem?_modifyAt, List.getElem?_eq_getElem hi]
  simp only [if_true, Option.map_some']
  exact ⟨_, rfl, List.mem_append_right _ (List.mem_singleton_self _)⟩

theorem getD_edge (work : List EdgeWork) (i : Nat) :
    (work.getD i default).edge = (work.map (fun w => w.edge)).getD i default := by
  induction work generalizing i with
  | nil => rfl
  | cons a l ih =>
    cases i with
    | zero => rfl
    | succ n => simpa using ih n

/-! ### The cut passes keep edges and keep every cut parameter in `[0, 1]` -/

theorem mem_pair_range (a b : ℚ) (ha : 0 ≤ a ∧ a ≤ 1) (hb : 0 ≤ b ∧ b ≤ 1) :
    ∀ c ∈ [a, b], 0 ≤ c ∧ c ≤ 1 := by
  intro c hc
  simp only [List.mem_cons, List.mem_singleton, List.not_mem_nil, or_false] at hc
  rcases hc with rfl | rfl
  · exact ha
  · exact hb

theorem mem_single_range (a : ℚ) (ha : 0 ≤ a ∧ a ≤ 1) : ∀ c ∈ [a], 0 ≤ c ∧ c ≤ 1 := by
  intro c hc
  simp only [List.mem_singleton] at hc
  subst hc
  exact ha

theorem selfPairStep_inv (poly : PolygonTopo) (rawEdges : List RawEdge) (eg : ℚ)
    (E : List RawEdge) (work : List EdgeWork) (i j : Nat)
    (h : work.map (fun w => w.edge) = E ∧ CutsIn01 work) :
    (selfPairStep poly rawEdges eg work i j).map (fun w => w.edge) = E
      ∧ CutsIn01 (selfPairStep poly rawEdges eg work i j) := by
  unfold selfPairStep
  simp only []
  split
  · rename_i a0 a1 b0 b1 hk
    have hr := intersectSegments_overlap_range _ _ _ _ _ _ _ _ _ hk
    refine ⟨by rw [edges_pushCuts, edges_pushCuts]; exact h.1, ?_⟩
    exact cutsIn01_pushCuts _ _ _
      (cutsIn01_pushCuts _ _ _ h.2 (mem_pair_range _ _ hr.1 hr.2.1))
      (mem_pair_range _ _ hr.2.2.1 hr.2.2.2)
  · rename_i tA tB P hk
    have hr := intersectSegments_point_range _ _ _ _ _ _ _ _ hk
    refine ⟨by rw [edges_pushCuts, edges_pushCuts]; exact h.1, ?_⟩
    exact cutsIn01_pushCuts _ _ _
      (cutsIn01_pushCuts _ _ _ h.2 (mem_single_range _ hr.1)) (mem_single_range _ hr.2)
  · exact h

theorem injectSelfCollinearCuts_inv (poly : PolygonTopo) (rawEdges : List RawEdge)
    (eg ep : ℚ) (E : List RawEdge) (work : List EdgeWork)
    (h : work.map (fun w => w.edge) = E ∧ CutsIn01 work) :
    (injectSelfCollinearCuts poly rawEdges work eg ep).map (fun w => w.edge) = E
      ∧ CutsIn01 (injectSelfCollinearCuts poly rawEdges work eg ep) := by
  unfold injectSelfCollinearCuts
  simp only []
  refine foldl_inv _ (fun w => w.map (fun w => w.edge) = E ∧ CutsIn01 w) ?_ _ _ h
  intro st i hst
  refine foldl_inv _ (fun w => w.map (fun w => w.edge) = E ∧ CutsIn01 w) ?_ _ _ hst
  intro st2 j hst2
  exact selfPairStep_inv poly rawEdges eg E st2 i j hst2

theorem initWork_inv (raw : List RawEdge) :
    (initWork raw).map (fun w => w.edge) = raw ∧ CutsIn01 (initWork raw) := by
  unfold initWork
  constructor
  · simp [List.map_map, Function.comp_def]
  · intro w hw c hc
    simp only [List.mem_map] at hw
    obtain ⟨e, _, rfl⟩ := hw
    simp only [List.mem_cons, List.mem_singleton, List.not_mem_nil, or_false] at hc
    rcases hc with rfl | rfl <;> norm_num

theorem crossPairStep_inv (polyA polyB : PolygonTopo) (eg : ℚ) (EA EB : List RawEdge)
    (st : List EdgeWork × List EdgeWork) (i j : Nat)
    (h : (st.1.map (fun w => w.edge) = EA ∧ CutsIn01 st.1)
      ∧ (st.2.map (fun w => w.edge) = EB ∧ CutsIn01 st.2)) :
    ((crossPairStep polyA polyB eg st i j).1.map (fun w => w.edge) = EA
        ∧ CutsIn01 (crossPairStep polyA polyB eg st i j).1)
      ∧ ((crossPairStep polyA polyB eg st i j).2.map (fun w => w.edge) = EB
        ∧ CutsIn01 (crossPairStep polyA polyB eg st i j).2) := by
  unfold crossPairStep
  simp only []
  split
  · exact h
  · rename_i tA tB P hk
    have hr := intersectSegments_point_range _ _ _ _ _ _ _ _ hk
    exact ⟨⟨by rw [edges_pushCuts]; exact h.1.1,
        cutsIn01_pushCuts _ _ _ h.1.2 (mem_single_range _ hr.1)⟩,
      ⟨by rw [edges_pushCuts]; exact h.2.1,
        cutsIn01_pushCuts _ _ _ h.2.2 (mem_single_range _ hr.2)⟩⟩
  · rename_i a0 a1 b0 b1 hk
    have hr := intersectSegments_overlap_range _ _ _ _ _ _ _ _ _ hk
    exact ⟨⟨by rw [edges_pushOverlap, edges_pushCuts]; exact h.1.1,
        cutsIn01_pushOverlap _ _ _
          (cutsIn01_pushCuts _ _ _ h.1.2 (mem_pair_range _ _ hr.1 hr.2.1))⟩,
      ⟨by rw [edges_pushOverlap, edges_pushCuts]; exact h.2.1,
        cutsIn01_pushOverlap _ _ _
          (cutsIn01_pushCuts _ _ _ h.2.2 (mem_pair_range _ _ hr.2.2.1 hr.2.2.2))⟩⟩

theorem crossCuts_inv (polyA polyB : PolygonTopo) (eg : ℚ) (EA EB : List RawEdge)
    (workA workB : List EdgeWork)
    (hA : workA.map (fun w => w.edge) = EA ∧ CutsIn01 workA)
    (hB : workB.map (fun w => w.edge) = EB ∧ CutsIn01 workB) :
    ((crossCuts polyA polyB eg workA workB).1.map (fun w => w.edge) = EA
        ∧ CutsIn01 (crossCuts polyA polyB eg workA workB).1)
      ∧ ((crossCuts polyA polyB eg workA workB).2.map (fun w => w.edge) = EB
        ∧ CutsIn01 (crossCuts polyA polyB eg workA workB).2) := by
  unfold crossCuts
  refine foldl_inv _ (fun (st : List EdgeWork × List EdgeWork) =>
      (st.1.map (fun w => w.edge) = EA ∧ CutsIn01 st.1)
      ∧ (st.2.map (fun w => w.edge) = EB ∧ CutsIn01 st.2)) ?_ _ _ ⟨hA, hB⟩
  intro st i hst
  refine foldl_inv _ (fun (st : List EdgeWork × List EdgeWork) =>
      (st.1.map (fun w => w.edge) = EA ∧ CutsIn01 st.1)
      ∧ (st.2.map (fun w => w.edge) = EB ∧ CutsIn01 st.2)) ?_ _ _ hst
  intro st2 j hst2
  exact crossPairStep_inv polyA polyB eg EA EB st2 i j hst2

/-- After the cut passes the work arrays still carry the raw edges, and every cut
parameter lies in `[0, 1]`. -/
theorem cutWork_inv (polyA polyB : PolygonTopo) (eg ep : ℚ) :
    ((cutWork polyA polyB eg ep).1.map (fun w => w.edge) = buildRawEdges polyA true
        ∧ CutsIn01 (cutWork polyA polyB eg ep).1)
      ∧ ((cutWork polyA polyB eg ep).2.map (fun w => w.edge) = buildRawEdges polyB false
        ∧ CutsIn01 (cutWork polyA polyB eg ep).2) := by
  unfold cutWork
  simp only []
  exact crossCuts_inv _ _ _ _ _ _ _
    (injectSelfCollinearCuts_inv _ _ _ _ _ _ (initWork_inv _))
    (injectSelfCollinearCuts_inv _ _ _ _ _ _ (initWork_inv _))

/-! ### Identical operands: every edge records the full overlap with its twin -/

theorem buildRawEdgesFrom_flag (lid : Nat) (ls : List LoopTopo) :
    buildRawEdgesFrom false lid ls
      = (buildRawEdgesFrom true lid ls).map (fun e => { e with fromA := false }) := by
  induction ls generalizing lid with
  | nil => rfl
  | cons a l ih =>
    simp only [buildRawEdgesFrom, List.map_append, ih]
    congr 1
    split_ifs
    · rfl
    · simp [loopEdges, List.map_map, Function.comp_def]

theorem buildRawEdges_flag (poly : PolygonTopo) :
    buildRawEdges poly false
      = (buildRawEdges poly true).map (fun e => { e with fromA := false }) :=
  buildRawEdgesFrom_flag 0 poly.loops

theorem crossPairStep_mono (polyA polyB : PolygonTopo) (eg : ℚ)
    (st : List EdgeWork × List EdgeWork) (i j k : Nat) (ov : OverlapInterval)
    (h : HasOverlap st.1 k ov ∧ HasOverlap st.2 k ov) :
    HasOverlap (crossPairStep polyA polyB eg st i j).1 k ov
      ∧ HasOverlap (crossPairStep polyA polyB eg st i j).2 k ov := by
  unfold crossPairStep
  simp only []
  split
  · exact h
  · exact ⟨hasOverlap_pushCuts _ _ _ _ _ h.1, hasOverlap_pushCuts _ _ _ _ _ h.2⟩
  · exact ⟨hasOverlap_pushOverlap _ _ _ _ _ (hasOverlap_pushCuts _ _ _ _ _ h.1),
      hasOverlap_pushOverlap _ _ _ _ _ (hasOverlap_pushCuts _ _ _ _ _ h.2)⟩

theorem crossPairStep_diag (poly : PolygonTopo) (eg : ℚ) (h0 : 0 < eg) (h1 : eg < 1)
    (st : List EdgeWork × List EdgeWork) (i : Nat)
    (hA : st.1.map (fun w => w.edge) = buildRawEdges poly true)
    (hB : st.2.map (fun w => w.edge) = buildRawEdges poly false)
    (hi : i < (buildRawEdges poly true).length)
    (hlen : eg ≤ edgeSqLen poly ((buildRawEdges poly true).getD i default)) :
    HasOverlap (crossPairStep poly poly eg st i i).1 i ⟨0, 1⟩
      ∧ HasOverlap (crossPairStep poly poly eg st i i).2 i ⟨0, 1⟩ := by
  have eA : (st.1.getD i default).edge = (buildRawEdges poly true).getD i default := by
    rw [getD_edge, hA]
  have eB : (st.2.getD i default).edge
      = { (buildRawEdges poly true).getD i default with fromA := false } := by
    rw [getD_edge, hB, buildRawEdges_flag, List.getD_eq_getElem _ _ (by simpa using hi),
      List.getD_eq_getElem _ _ hi]
    simp
  have hk := intersectSegments_self
    (vertPos poly ((buildRawEdges poly true).getD i default).vStart)
    (vertPos poly ((buildRawEdges poly true).getD i default).vEnd) eg h0 h1 hlen
  have hiA : i < st.1.length := by
    have := congrArg List.length hA
    simp only [List.length_map] at this
    omega
  have hiB : i < st.2.length := by
    have := congrArg List.length hB
    rw [buildRawEdges_flag] at this
    simp only [List.length_map] at this
    omega
  unfold crossPairStep
  simp only [eA, eB, hk]
  exact ⟨hasOverlap_pushOverlap_self _ _ _ (by rw [length_pushCuts]; exact hiA),
    hasOverlap_pushOverlap_self _ _ _ (by rw [length_pushCuts]; exact hiB)⟩

theorem crossCuts_diag (poly : PolygonTopo) (eg : ℚ) (h0 : 0 < eg) (h1 : eg < 1)
    (workA workB : List EdgeWork)
    (hA : workA.map (fun w => w.edge) = buildRawEdges poly true ∧ CutsIn01 workA)
    (hB : workB.map (fun w => w.edge) = buildRawEdges poly false ∧ CutsIn01 workB)
    (i : Nat) (hi : i < (buildRawEdges poly true).length)
    (hlen : eg ≤ edgeSqLen poly ((buildRawEdges poly true).getD i default)) :
    HasOverlap (crossCuts poly poly eg workA workB).1 i ⟨0, 1⟩
      ∧ HasOverlap (crossCuts poly poly eg workA workB).2 i ⟨0, 1⟩ := by
  have hlA : workA.length = (buildRawEdges poly true).length := by
    have := congrArg List.length hA.1
    simpa using this
  have hlB : workB.length = (buildRawEdges poly true).length := by
    have := congrArg List.length hB.1
    rw [buildRawEdges_flag] at this
    simpa using this
  unfold crossCuts
  refine foldl_establish _
    (fun (st : List EdgeWork × List EdgeWork) =>
      (st.1.map (fun w => w.edge) = buildRawEdges poly true ∧ CutsIn01 st.1)
      ∧ (st.2.map (fun w => w.edge) = buildRawEdges poly false ∧ CutsIn01 st.2))
    (fun (st : List EdgeWork × List EdgeWork) =>
      HasOverlap st.1 i ⟨0, 1⟩ ∧ HasOverlap st.2 i ⟨0, 1⟩)
    ?_ ?_ i ?_ _ (by simp [hlA, hi]) _ ⟨hA, hB⟩
  · intro st x hst
    refine foldl_inv _ (fun (st : List EdgeWork × List EdgeWork) =>
      (st.1.map (fun w => w.edge) = buildRawEdges poly true ∧ CutsIn01 st.1)
      ∧ (st.2.map (fun w => w.edge) = buildRawEdges poly false ∧ CutsIn01 st.2)) ?_ _ _ hst
    intro st2 j hst2
    exact crossPairStep_inv poly poly eg _ _ st2 x j hst2
  · intro st x _ hq
    refine foldl_inv _ (fun (st : List EdgeWork × List EdgeWork) =>
      HasOverlap st.1 i ⟨0, 1⟩ ∧ HasOverlap st.2 i ⟨0, 1⟩) ?_ _ _ hq
    intro st2 j hst2
    exact crossPairStep_mono poly poly eg st2 x j i _ hst2
  · intro st hst
    refine foldl_establish _
      (fun (st : List EdgeWork × List EdgeWork) =>
        (st.1.map (fun w => w.edge) = buildRawEdges poly true ∧ CutsIn01 st.1)
        ∧ (st.2.map (fun w => w.edge) = buildRawEdges poly false ∧ CutsIn01 st.2))
      (fun (st : List EdgeWork × List EdgeWork) =>
        HasOverlap st.1 i ⟨0, 1⟩ ∧ HasOverlap st.2 i ⟨0, 1⟩)
      ?_ ?_ i ?_ _ (by simp [hlB, hi]) _ hst
    · intro st2 j hst2
      exact crossPairStep_inv poly poly eg _ _ st2 i j hst2
    · intro st2 j _ hq
      exact crossPairStep_mono poly poly eg st2 i j i _ hq
    · intro st2 hst2
      exact crossPairStep_diag poly eg h0 h1 st2 i hst2.1.1 hst2.2.1 hi hlen

/-! ### Exploding a work item -/

theorem mem_uniqueFrom (ep last : ℚ) (l : List ℚ) : ∀ t ∈ uniqueFrom ep last l, t ∈ l := by
  induction l generalizing last with
  | nil => intro t ht; simp [uniqueFrom] at ht
  | cons a l ih =>
    intro t ht
    simp only [uniqueFrom] at ht
    split_ifs at ht
    · exact List.mem_cons_of_mem _ (ih _ t ht)
    · rcases List.mem_cons.mp ht with rfl | ht
      · exact List.mem_cons_self _ _
      · exact List.mem_cons_of_mem _ (ih _ t ht)

theorem mem_uniqueParams (ep : ℚ) (l : List ℚ) : ∀ t ∈ uniqueParams ep l, t ∈ l := by
  cases l with
  | nil => intro t ht; simp [uniqueParams] at ht
  | cons a l =>
    intro t ht
    simp only [uniqueParams] at ht
    rcases List.mem_cons.mp ht with rfl | ht
    · exact List.mem_cons_self _ _
    · exact List.mem_cons_of_mem _ (mem_uniqueFrom _ _ _ t ht)

/-- The parameters that `explodeEdgeWork` pairs up are cut parameters of the edge. -/
theorem mem_params (ep : ℚ) (cuts : List ℚ) :
    ∀ t ∈ uniqueParams ep (cuts.insertionSort (· ≤ ·)), t ∈ cuts := by
  intro t ht
  exact (List.perm_insertionSort (· ≤ ·) cuts).mem_iff.mp (mem_uniqueParams _ _ t ht)

theorem isInOverlap_full (ovs : List OverlapInterval) (ep t0 t1 : ℚ) (hep : 0 ≤ ep)
    (hov : (⟨0, 1⟩ : OverlapInterval) ∈ ovs) (h0 : 0 ≤ t0) (h1 : t1 ≤ 1) :
    isInOverlap ovs ep t0 t1 = true := by
  unfold isInOverlap
  rw [List.any_eq_true]
  refine ⟨⟨0, 1⟩, hov, ?_⟩
  have e : ¬ ((0 : ℚ) > 1) := by norm_num
  simp only [e, if_false, decide_eq_true_eq]
  constructor <;> linarith

theorem explodeParams_coincident (P0 P1 : QPointF) (ew : EdgeWork) (ep : ℚ) (hep : 0 ≤ ep)
    (hov : (⟨0, 1⟩ : OverlapInterval) ∈ ew.overlaps) (l : List ℚ)
    (hl : ∀ t ∈ l, 0 ≤ t ∧ t ≤ 1) :
    ∀ seg ∈ explodeParams P0 P1 ew ep l, seg.coincidentWithOther = true := by
  induction l with
  | nil => intro seg hs; simp [explodeParams] at hs
  | cons a l ih =>
    cases l with
    | nil => intro seg hs; simp [explodeParams] at hs
    | cons b rest =>
      intro seg hs
      simp only [explodeParams, List.mem_append] at hs
      rcases hs with hs | hs
      · split_ifs at hs
        · simp at hs
        · simp only [List.mem_singleton] at hs
          subst hs
          exact isInOverlap_full _ _ _ _ hep hov (hl a (List.mem_cons_self _ _)).1
            (hl b (List.mem_cons_of_mem _ (List.mem_cons_self _ _))).2
      · exact ih (fun t ht => hl t (List.mem_cons_of_mem _ ht)) seg hs

theorem explodeEdgeWork_coincident (ew : EdgeWork) (poly : PolygonTopo) (ep : ℚ)
    (hep : 0 ≤ ep) (hov : (⟨0, 1⟩ : OverlapInterval) ∈ ew.overlaps)
    (hc : ∀ c ∈ ew.cutParams, 0 ≤ c ∧ c ≤ 1) :
    ∀ seg ∈ explodeEdgeWork ew poly ep, seg.coincidentWithOther = true := by
  intro seg hs
  unfold explodeEdgeWork at hs
  split_ifs at hs
  · simp at hs
  · exact explodeParams_coincident _ _ ew ep hep hov _
      (fun t ht => hc t (mem_params ep _ t ht)) seg hs

theorem hasOverlap_of_mem (work : List EdgeWork) (ov : OverlapInterval)
    (h : ∀ i, i < work.length → HasOverlap work i ov) : ∀ w ∈ work, ov ∈ w.overlaps := by
  intro w hw
  obtain ⟨i, hi, rfl⟩ := List.getElem_of_mem hw
  obtain ⟨w2, hw2, hov⟩ := h i hi
  rw [List.getElem?_eq_getElem hi] at hw2
  cases hw2
  exact hov

/-- For identical operands whose edges are all at least as long as the degenerate-length
guard of the kernel, every atomic segment is flagged coincident. -/
theorem atoms_self_coincident (poly : PolygonTopo) (eg ep : ℚ) (h0 : 0 < eg) (h1 : eg < 1)
    (hep : 0 ≤ ep) (hlen : ∀ e ∈ buildRawEdges poly true, eg ≤ edgeSqLen poly e) :
    ∀ seg ∈ computeAtomicSegments poly poly eg ep, seg.coincidentWithOther = true := by
  have hinv := cutWork_inv poly poly eg ep
  have hdiag : ∀ i, i < (buildRawEdges poly true).length →
      HasOverlap (cutWork poly poly eg ep).1 i ⟨0, 1⟩
        ∧ HasOverlap (cutWork poly poly eg ep).2 i ⟨0, 1⟩ := by
    intro i hi
    unfold cutWork
    simp only []
    refine crossCuts_diag poly eg h0 h1 _ _
      (injectSelfCollinearCuts_inv _ _ _ _ _ _ (initWork_inv _))
      (injectSelfCollinearCuts_inv _ _ _ _ _ _ (initWork_inv _)) i hi ?_
    apply hlen
    rw [List.getD_eq_getElem _ _ hi]
    exact List.getElem_mem _
  have hlA : (cutWork poly poly eg ep).1.length = (buildRawEdges poly true).length := by
    have := congrArg List.length hinv.1.1
    simpa using this
  have hlB : (cutWork poly poly eg ep).2.length = (buildRawEdges poly true).length := by
    have := congrArg List.length hinv.2.1
    rw [buildRawEdges_flag] at this
    simpa using this
  have hovA := hasOverlap_of_mem (cutWork poly poly eg ep).1 ⟨0, 1⟩
    (fun i hi => (hdiag i (by omega)).1)
  have hovB := hasOverlap_of_mem (cutWork poly poly eg ep).2 ⟨0, 1⟩
    (fun i hi => (hdiag i (by omega)).2)
  intro seg hs
  unfold computeAtomicSegments at hs
  simp only [List.mem_append, List.mem_flatMap] at hs
  rcases hs with ⟨ew, hew, hs⟩ | ⟨ew, hew, hs⟩
  · exact explodeEdgeWork_coincident ew poly ep hep (hovA ew hew) (hinv.1.2 ew hew) seg hs
  · exact explodeEdgeWork_coincident ew poly ep hep (hovB ew hew) (hinv.2.2 ew hew) seg hs

theorem coincidentOpposite_same (hypot : ℚ → ℚ → ℚ) (seg : AtomicSegment)
    (P : InputPolygon) : coincidentOpposite hypot seg P P = false := by
  unfold coincidentOpposite
  simp only []
  split_ifs
  · rfl
  · generalize pointInPolygonWithHoles P _ = a
    generalize pointInPolygonWithHoles P _ = b
    cases a <;> cases b <;> rfl

/-! ### Self-difference -/

theorem tinySquare_atoms_not_coincident :
    ∀ seg ∈ (prepare tinySquare tinySquare epsGeomS epsParamS).atoms,
      seg.coincidentWithOther = false := by
  decide!

/-- C5 as stated fails: for the square of side 1/50 the kernel treats every edge as
degenerate, no atom is flagged coincident, and A−A returns the four edges of B's copy. -/
theorem C5_counterexample_tinySquare :
    computeSubtractionABSegments hypotRat
        (prepare tinySquare tinySquare epsGeomS epsParamS) tinySquare tinySquare
      = [[⟨0, 0⟩, ⟨1 / 50, 0⟩], [⟨1 / 50, 0⟩, ⟨1 / 50, 1 / 50⟩],
         [⟨1 / 50, 1 / 50⟩, ⟨0, 1 / 50⟩], [⟨0, 1 / 50⟩, ⟨0, 0⟩]]
    ∧ computeSubtractionABSegments hypotRat
        (prepare tinySquare tinySquare epsGeomS epsParamS) tinySquare tinySquare ≠ [] := by
  rw [(compute_indep_hypot hypotRat hypotAxis _ tinySquare tinySquare
    tinySquare_atoms_not_coincident).2.2]
  decide!

/-- C5 (amended): for every polygon P whose retained loop edges all have squared length
at least `eps_geom = 1e-3`, A−A computed on `prepare(P, P, 1e-3, 1e-9)` is empty. -/
theorem C5_self_difference_empty (hypot : ℚ → ℚ → ℚ) (P : InputPolygon)
    (hlen : ∀ e ∈ buildRawEdges (makeTopoFromInput P defaultEps) true,
      epsGeomS ≤ edgeSqLen (makeTopoFromInput P defaultEps) e) :
    computeSubtractionABSegments hypot (prepare P P epsGeomS epsParamS) P P = [] := by
  have hco := atoms_self_coincident (makeTopoFromInput P defaultEps) epsGeomS epsParamS
    (by norm_num [epsGeomS]) (by norm_num [epsGeomS]) (by norm_num [epsParamS]) hlen
  unfold computeSubtractionABSegments segmentsToPolylines
  rw [classifyForSubAB_eq_filter, List.map_eq_nil_iff, List.filter_eq_nil_iff]
  intro seg hs
  have hc : seg.coincidentWithOther = true := hco seg hs
  simp [specKeepSubAB, hc, coincidentOpposite_same]

/-- Witness for C5: the unit square satisfies the edge-length hypothesis. -/
theorem C5_self_difference_empty_witness :
    (∀ e ∈ buildRawEdges (makeTopoFromInput unitSquare defaultEps) true,
      epsGeomS ≤ edgeSqLen (makeTopoFromInput unitSquare defaultEps) e)
    ∧ computeSubtractionABSegments hypotRat
        (prepare unitSquare unitSquare epsGeomS epsParamS) unitSquare unitSquare = [] :=
  ⟨by decide!, C5_self_difference_empty hypotRat unitSquare (by decide!)⟩

/-! ### Exchanging the operands -/

theorem thin_unit_atoms_axis :
    ∀ seg ∈ (prepare thinRectangle unitSquare epsGeomS epsParamS).atoms,
      seg.p1.y - seg.p0.y = 0 ∨ -(seg.p1.x - seg.p0.x) = 0 := by
  decide!

theorem unit_thin_atoms_axis :
    ∀ seg ∈ (prepare unitSquare thinRectangle epsGeomS epsParamS).atoms,
      seg.p1.y - seg.p0.y = 0 ∨ -(seg.p1.x - seg.p0.x) = 0 := by
  decide!

theorem shortEdge_coincident_axis :
    ∀ seg ∈ (prepare shortEdgeTriangle raisedSquare epsGeomS epsParamS).atoms,
      seg.coincidentWithOther = true →
        seg.p1.y - seg.p0.y = 0 ∨ -(seg.p1.x - seg.p0.x) = 0 := by
  decide!

theorem raised_shortEdge_not_coincident :
    ∀ seg ∈ (prepare raisedSquare shortEdgeTriangle epsGeomS epsParamS).atoms,
      seg.coincidentWithOther = false := by
  decide!

/-- C6 as stated fails: with A the thin rectangle and B the unit square, union(B, A)
emits the segment (0,0)-(3/100,0), whose midpoint (3/200, 0) is farther than `eps_geom`
from every segment emitted by union(A, B). And the atoms themselves depend on the order
when the kernel does not treat a pair of edges alike in both orders: for the triangle
with the short edge (0,0)-(1/100,0) and the rectangle above y = 1/20, which are 1/20
apart, `prepare(A, B)` has eight atoms and `prepare(B, A)` seven, union(B, A) emits the
whole bottom edge of the rectangle and union(A, B) leaves its part near (1/200, 1/20)
uncovered. -/
theorem C6_counterexample_thinRectangle :
    ([(⟨0, 0⟩ : QPointF), ⟨3 / 100, 0⟩]
        ∈ computeAdditionSegments hypotRat
            (prepare unitSquare thinRectangle epsGeomS epsParamS) unitSquare thinRectangle
      ∧ distSqToSegment ⟨3 / 200, 0⟩ ⟨0, 0⟩ ⟨3 / 100, 0⟩ = 0
      ∧ coveredWithin epsGeomS
          (computeAdditionSegments hypotRat
              (prepare thinRectangle unitSquare epsGeomS epsParamS) thinRectangle unitSquare)
          ⟨3 / 200, 0⟩ = false)
    ∧ (¬ SymmetricPairs shortEdgeTriangle raisedSquare epsGeomS
      ∧ (prepare shortEdgeTriangle raisedSquare epsGeomS epsParamS).atoms.length = 8
      ∧ (prepare raisedSquare shortEdgeTriangle epsGeomS epsParamS).atoms.length = 7
      ∧ [(⟨0, 1 / 20⟩ : QPointF), ⟨1, 1 / 20⟩]
          ∈ computeAdditionSegments hypotRat
              (prepare raisedSquare shortEdgeTriangle epsGeomS epsParamS)
              raisedSquare shortEdgeTriangle
      ∧ distSqToSegment ⟨1 / 200, 1 / 20⟩ ⟨0, 1 / 20⟩ ⟨1, 1 / 20⟩ = 0
      ∧ coveredWithin epsGeomS
          (computeAdditionSegments hypotRat
              (prepare shortEdgeTriangle raisedSquare epsGeomS epsParamS)
              shortEdgeTriangle raisedSquare)
          ⟨1 / 200, 1 / 20⟩ = false) := by
  rw [(compute_axis hypotRat hypotRat_exact _ unitSquare thinRectangle
      unit_thin_atoms_axis).1,
    (compute_axis hypotRat hypotRat_exact _ thinRectangle unitSquare
      thin_unit_atoms_axis).1,
    (compute_indep_hypot hypotRat hypotAxis _ raisedSquare shortEdgeTriangle
      raised_shortEdge_not_coincident).1,
    (compute_congr hypotRat hypotAxis _ shortEdgeTriangle raisedSquare
      (fun s hs hc => hypot_axis hypotRat hypotRat_exact _ _
        (shortEdge_coincident_axis s hs hc))).1]
  decide!

theorem coincidentOpposite_swap (hypot : ℚ → ℚ → ℚ) (seg : AtomicSegment)
    (A B : InputPolygon) :
    coincidentOpposite hypot (swapAtom seg) B A = coincidentOpposite hypot seg A B := by
  unfold coincidentOpposite swapAtom midpoint
  simp only []
  split_ifs
  · rfl
  · generalize pointInPolygonWithHoles A _ = a1
    generalize pointInPolygonWithHoles A _ = a2
    generalize pointInPolygonWithHoles B _ = b1
    generalize pointInPolygonWithHoles B _ = b2
    cases a1 <;> cases a2 <;> cases b1 <;> cases b2 <;> rfl

/-- For an atom that is not flagged coincident, the union rule and the intersection rule
give the same verdict when operands and provenance are exchanged together. -/
theorem specKeep_swap (hypot : ℚ → ℚ → ℚ) (A B : InputPolygon) (seg : AtomicSegment)
    (hnc : seg.coincidentWithOther = false) :
    specKeepUnion hypot B A (swapAtom seg) = specKeepUnion hypot A B seg
      ∧ specKeepIntersection hypot B A (swapAtom seg)
        = specKeepIntersection hypot A B seg := by
  have hm : midpoint (swapAtom seg) = midpoint seg := rfl
  have hc : (swapAtom seg).coincidentWithOther = false := hnc
  have hf : (swapAtom seg).fromA = !seg.fromA := rfl
  unfold specKeepUnion specKeepIntersection
  rw [hm, hc, hnc, hf]
  cases seg.fromA <;> simp

/-- A coincident atom is kept by union and by intersection only from the operand that is
passed first: with the operands exchanged, it is kept iff same-direction and from B. -/
theorem specKeep_swap_coincident (hypot : ℚ → ℚ → ℚ) (A B : InputPolygon)
    (seg : AtomicSegment) (hco : seg.coincidentWithOther = true) :
    specKeepUnion hypot B A (swapAtom seg)
        = ((!coincidentOpposite hypot seg A B) && !seg.fromA)
      ∧ specKeepIntersection hypot B A (swapAtom seg)
        = ((!coincidentOpposite hypot seg A B) && !seg.fromA) := by
  have hc : (swapAtom seg).coincidentWithOther = true := hco
  have hf : (swapAtom seg).fromA = !seg.fromA := rfl
  unfold specKeepUnion specKeepIntersection
  rw [hc, hf, coincidentOpposite_swap]
  simp

theorem filter_swap_perm (pBA pAB : AtomicSegment → Bool) (atomsBA atomsAB : List AtomicSegment)
    (hperm : List.Perm atomsBA (atomsAB.map swapAtom))
    (h : ∀ s ∈ atomsAB, pBA (swapAtom s) = pAB s) :
    List.Perm ((atomsBA.filter pBA).map polylineOf) ((atomsAB.filter pAB).map polylineOf) := by
  have h1 : List.Perm ((atomsBA.filter pBA).map polylineOf)
      ((((atomsAB.map swapAtom).filter pBA)).map polylineOf) :=
    (hperm.filter pBA).map polylineOf
  have h2 : ((atomsAB.map swapAtom).filter pBA).map polylineOf
      = (atomsAB.filter pAB).map polylineOf := by
    rw [List.filter_map, List.map_map]
    have e : polylineOf ∘ swapAtom = polylineOf := by
      funext s; rfl
    rw [e]
    congr 1
    exact List.filter_congr (fun s hs => h s hs)
  rw [h2] at h1
  exact h1

/-! ### Atoms and their parameter pairs -/

theorem explodeParams_eq_map (poly : PolygonTopo) (ew : EdgeWork) (ep : ℚ) (l : List ℚ) :
    explodeParams (vertPos poly ew.edge.vStart) (vertPos poly ew.edge.vEnd) ew ep l
      = (atomParams ep l).map (atomOf poly ew ep) := by
  induction l with
  | nil => rfl
  | cons a l ih =>
    cases l with
    | nil => rfl
    | cons b rest =>
      simp only [explodeParams, atomParams, List.map_append, ih]
      congr 1
      split_ifs <;> rfl

/-- The atoms of an edge are the images of its emitted parameter pairs. -/
theorem explodeEdgeWork_eq_map (ew : EdgeWork) (poly : PolygonTopo) (ep : ℚ) :
    explodeEdgeWork ew poly ep = (atomParams ep (edgeParams ep ew)).map (atomOf poly ew ep) := by
  unfold explodeEdgeWork edgeParams
  split_ifs with h
  · have : ew.cutParams = [] := by simpa using h
    rw [this]
    rfl
  · exact explodeParams_eq_map poly ew ep _

theorem mem_atomParams (ep : ℚ) (U : List ℚ) :
    ∀ p ∈ atomParams ep U, p.1 ∈ U ∧ p.2 ∈ U := by
  induction U with
  | nil => intro p hp; simp [atomParams] at hp
  | cons a l ih =>
    cases l with
    | nil => intro p hp; simp [atomParams] at hp
    | cons b rest =>
      intro p hp
      simp only [atomParams, List.mem_append] at hp
      rcases hp with hp | hp
      · split_ifs at hp
        · simp at hp
        · simp only [List.mem_singleton] at hp
          subst hp
          exact ⟨List.mem_cons_self _ _, List.mem_cons_of_mem _ (List.mem_cons_self _ _)⟩
      · have := ih p hp
        exact ⟨List.mem_cons_of_mem _ this.1, List.mem_cons_of_mem _ this.2⟩

/-- Every emitted pair is at least `epsParam` long. -/
theorem atomParams_length (ep : ℚ) (U : List ℚ) :
    ∀ p ∈ atomParams ep U, ep ≤ p.2 - p.1 := by
  induction U with
  | nil => intro p hp; simp [atomParams] at hp
  | cons a l ih =>
    cases l with
    | nil => intro p hp; simp [atomParams] at hp
    | cons b rest =>
      intro p hp
      simp only [atomParams, List.mem_append] at hp
      rcases hp with hp | hp
      · split_ifs at hp with h
        · simp at hp
        · simp only [List.mem_singleton] at hp
          subst hp
          exact not_lt.mp h
      · exact ih p hp

/-- Deduplication of a sorted list starting from the kept element `last`: a listed
parameter strictly inside an emitted pair is closer than `epsParam` to the pair's start. -/
theorem uniqueFrom_no_interior (ep : ℚ) (l : List ℚ) :
    ∀ last : ℚ, List.Pairwise (· ≤ ·) (last :: l) →
      ∀ p ∈ atomParams ep (last :: uniqueFrom ep last l),
        ∀ c ∈ last :: l, p.1 < c → c < p.2 → c - p.1 < ep := by
  induction l with
  | nil =>
    intro last _ p hp
    simp [uniqueFrom, atomParams] at hp
  | cons x xs ih =>
    intro last hs p hp c hc h1 h2
    have hsx : List.Pairwise (· ≤ ·) (x :: xs) := (List.pairwise_cons.mp hs).2
    have hlast : ∀ y ∈ x :: xs, last ≤ y := (List.pairwise_cons.mp hs).1
    have hx : ∀ y ∈ xs, x ≤ y := (List.pairwise_cons.mp hsx).1
    have hs2 : List.Pairwise (· ≤ ·) (last :: xs) :=
      List.pairwise_cons.mpr ⟨fun y hy => hlast y (List.mem_cons_of_mem _ hy),
        (List.pairwise_cons.mp hsx).2⟩
    by_cases hd : |last - x| < ep
    · -- x is dropped
      simp only [uniqueFrom, if_pos hd] at hp
      have hm := (mem_atomParams ep _ p hp).1
      rcases List.mem_cons.mp hc with rfl | hc
      · -- c is the kept element: every pair starts at or after it
        have : c ≤ p.1 := by
          rcases List.mem_cons.mp hm with e | e
          · exact le_of_eq e.symm
          · exact hlast _ (List.mem_cons_of_mem _ (mem_uniqueFrom _ _ _ _ e))
        linarith
      · rcases List.mem_cons.mp hc with rfl | hc
        · -- c is the dropped element
          rcases List.mem_cons.mp hm with e | e
          · rw [e]
            have := abs_lt.mp hd
            linarith [this.1]
          · have := hx _ (mem_uniqueFrom _ _ _ _ e)
            linarith
        · exact ih last hs2 p hp c (List.mem_cons_of_mem _ hc) h1 h2
    · -- x is kept
      simp only [uniqueFrom, if_neg hd, atomParams, List.mem_append] at hp
      rcases hp with hp | hp
      · split_ifs at hp
        · simp at hp
        · simp only [List.mem_singleton] at hp
          subst hp
          rcases List.mem_cons.mp hc with rfl | hc
          · exact absurd h1 (lt_irrefl _)
          · have := hlast c hc
            have hxc : x ≤ c := by
              rcases List.mem_cons.mp hc with e | e
              · exact le_of_eq e.symm
              · exact hx _ e
            simp only at h2
            linarith
      · have hm := (mem_atomParams ep _ p hp).1
        rcases List.mem_cons.mp hc with rfl | hc
        · have : c ≤ p.1 := by
            rcases List.mem_cons.mp hm with e | e
            · rw [e]; exact hlast _ (List.mem_cons_self _ _)
            · exact hlast _ (List.mem_cons_of_mem _ (mem_uniqueFrom _ _ _ _ e))
          linarith
        · exact ih x hsx p hp c hc h1 h2

/-- No recorded cut parameter lies strictly inside an emitted pair at distance `epsParam`
or more from its start. -/
theorem edgeParams_no_interior (ep : ℚ) (ew : EdgeWork) :
    ∀ p ∈ atomParams ep (edgeParams ep ew),
      ∀ c ∈ ew.cutParams, p.1 < c → c < p.2 → c - p.1 < ep := by
  intro p hp c hc h1 h2
  unfold edgeParams at hp
  have hsorted : List.Pairwise (· ≤ ·) (ew.cutParams.insertionSort (· ≤ ·)) :=
    List.sorted_insertionSort (· ≤ ·) ew.cutParams
  have hc2 : c ∈ ew.cutParams.insertionSort (· ≤ ·) :=
    (List.perm_insertionSort (· ≤ ·) ew.cutParams).mem_iff.mpr hc
  cases hl : ew.cutParams.insertionSort (· ≤ ·) with
  | nil => rw [hl] at hc2; cases hc2
  | cons a l =>
    rw [hl] at hp hsorted hc2
    exact uniqueFrom_no_interior ep l a hsorted p hp c hc2 h1 h2

/-! ### Subdivision soundness -/

theorem flatMap_enum_snd {α β γ : Type} (f : α → List β) (g : Nat → β → γ) (h : γ → β)
    (hg : ∀ i b, h (g i b) = b) (n : Nat) (l : List α) :
    ((l.enumFrom n).flatMap fun x => (f x.2).map (g x.1)).map h = l.flatMap f := by
  induction l generalizing n with
  | nil => rfl
  | cons a l ih =>
    simp only [List.enumFrom, List.flatMap_cons, List.map_append, ih, List.map_map]
    congr 1
    have : h ∘ g n = id := by funext b; exact hg n b
    rw [this, List.map_id]

theorem atomsWithSource_snd (polyA polyB : PolygonTopo) (eg ep : ℚ) :
    (atomsWithSource polyA polyB eg ep).map Prod.snd
      = computeAtomicSegments polyA polyB eg ep := by
  unfold atomsWithSource computeAtomicSegments
  simp only [List.map_append, List.enum]
  rw [flatMap_enum_snd (fun ew => explodeEdgeWork ew polyA ep) (fun i s => ((true, i), s))
      Prod.snd (fun _ _ => rfl),
    flatMap_enum_snd (fun ew => explodeEdgeWork ew polyB ep) (fun i s => ((false, i), s))
      Prod.snd (fun _ _ => rfl)]

/-- C7 as stated fails: for A = B = the unit square (scenario S6) the atom of edge 0 of A
and the atom of edge 0 of B come from different source edges, and the kernel applied to
their endpoints returns `Overlap`. Leaving coincident atoms aside does not restore it:
for the two overlapping squares of side 1/50, the atoms of edge 0 of A and of edge 3 of B
are not flagged coincident, and the kernel on their endpoints returns a `Point` that is
not an endpoint of both. -/
theorem C7_counterexample_twin_atoms :
    (((true, 0), (⟨⟨0, 0⟩, ⟨1, 0⟩, true, true, 0⟩ : AtomicSegment))
        ∈ atomsWithSource (makeTopoFromInput unitSquare defaultEps)
            (makeTopoFromInput unitSquare defaultEps) epsGeomS epsParamS
      ∧ ((false, 0), (⟨⟨0, 0⟩, ⟨1, 0⟩, false, true, 0⟩ : AtomicSegment))
        ∈ atomsWithSource (makeTopoFromInput unitSquare defaultEps)
            (makeTopoFromInput unitSquare defaultEps) epsGeomS epsParamS
      ∧ intersectSegments ⟨0, 0⟩ ⟨1, 0⟩ ⟨0, 0⟩ ⟨1, 0⟩ epsGeomS
          = SegmentIntersection.Overlap 0 1 0 1)
    ∧ (((true, 0), (⟨⟨0, 0⟩, ⟨1 / 50, 0⟩, true, false, 0⟩ : AtomicSegment))
        ∈ atomsWithSource (makeTopoFromInput tinySquare defaultEps)
            (makeTopoFromInput tinySquareB defaultEps) epsGeomS epsParamS
      ∧ ((false, 3),
          (⟨⟨1 / 100, 1 / 100⟩, ⟨1 / 100, -1 / 100⟩, false, false, 0⟩ : AtomicSegment))
        ∈ atomsWithSource (makeTopoFromInput tinySquare defaultEps)
            (makeTopoFromInput tinySquareB defaultEps) epsGeomS epsParamS
      ∧ kernelSound epsGeomS ⟨⟨0, 0⟩, ⟨1 / 50, 0⟩, true, false, 0⟩
          ⟨⟨1 / 100, 1 / 100⟩, ⟨1 / 100, -1 / 100⟩, false, false, 0⟩ = false) := by
  decide!

/-- C7 (amended): the atoms are the images of the emitted parameter pairs of each edge,
and no cut parameter recorded on an edge lies strictly inside an emitted pair
`(tLo, tHi)` at distance `eps_param` or more from `tLo`; on the squares of scenario S1
the kernel applied to the endpoints of two atoms from different source edges returns
`None` or a `Point` that is an endpoint of both. -/
theorem C7_subdivision_soundness :
    (∀ (polyA polyB : PolygonTopo) (eg ep : ℚ),
      computeAtomicSegments polyA polyB eg ep
          = ((cutWork polyA polyB eg ep).1.flatMap fun ew =>
              (atomParams ep (edgeParams ep ew)).map (atomOf polyA ew ep))
            ++ ((cutWork polyA polyB eg ep).2.flatMap fun ew =>
              (atomParams ep (edgeParams ep ew)).map (atomOf polyB ew ep))
        ∧ ∀ ew ∈ (cutWork polyA polyB eg ep).1 ++ (cutWork polyA polyB eg ep).2,
            ∀ p ∈ atomParams ep (edgeParams ep ew), ∀ c ∈ ew.cutParams,
              c ≤ p.1 ∨ c - p.1 < ep ∨ p.2 ≤ c)
    ∧ (∀ x ∈ atomsWithSource (prepare squareA squareB epsGeomS epsParamS).topoA
          (prepare squareA squareB epsGeomS epsParamS).topoB epsGeomS epsParamS,
        ∀ y ∈ atomsWithSource (prepare squareA squareB epsGeomS epsParamS).topoA
          (prepare squareA squareB epsGeomS epsParamS).topoB epsGeomS epsParamS,
        x.1 = y.1 ∨ kernelSound epsGeomS x.2 y.2 = true) := by
  refine ⟨fun polyA polyB eg ep => ⟨?_, ?_⟩, by decide!⟩
  · unfold computeAtomicSegments
    simp only [explodeEdgeWork_eq_map]
  · intro ew _ p hp c hc
    by_cases h1 : c ≤ p.1
    · exact Or.inl h1
    · by_cases h2 : p.2 ≤ c
      · exact Or.inr (Or.inr h2)
      · exact Or.inr (Or.inl
          (edgeParams_no_interior ep ew p hp c hc (not_le.mp h1) (not_le.mp h2)))

/-! ### Kernel events are recorded as cut parameters -/

theorem getD_modifyAt {α : Type} (f : α → α) (i k : Nat) (l : List α) (d : α) :
    (modifyAt f i l).getD k d
      = if k = i ∧ k < l.length then f (l.getD k d) else l.getD k d := by
  induction l generalizing i k with
  | nil => cases i <;> simp [modifyAt]
  | cons a l ih =>
    cases i with
    | zero =>
      cases k with
      | zero => simp [modifyAt]
      | succ k => simp [modifyAt]
    | succ n =>
      cases k with
      | zero => simp [modifyAt]
      | succ k => simpa [modifyAt, List.getD_eq_getElem?_getD] using ih n k

theorem cutsAt_pushCuts_mono (work : List EdgeWork) (i k : Nat) (cs : List ℚ) (c : ℚ)
    (h : c ∈ cutsAt work k) : c ∈ cutsAt (pushCuts work i cs) k := by
  unfold cutsAt pushCuts at *
  rw [getD_modifyAt]
  split_ifs
  · exact List.mem_append_left _ h
  · exact h

theorem cutsAt_pushOverlap (work : List EdgeWork) (i k : Nat) (ov : OverlapInterval) :
    cutsAt (pushOverlap work i ov) k = cutsAt work k := by
  unfold cutsAt pushOverlap
  rw [getD_modifyAt]
  split_ifs <;> rfl

theorem cutsAt_pushCuts_self (work : List EdgeWork) (i : Nat) (cs : List ℚ) (c : ℚ)
    (hi : i < work.length) (h : c ∈ cs) : c ∈ cutsAt (pushCuts work i cs) i := by
  unfold cutsAt pushCuts
  rw [getD_modifyAt, if_pos ⟨rfl, hi⟩]
  exact List.mem_append_right _ h

theorem selfPairStep_mono (poly : PolygonTopo) (rawEdges : List RawEdge) (eg : ℚ)
    (work : List EdgeWork) (i j k : Nat) (c : ℚ) (h : c ∈ cutsAt work k) :
    c ∈ cutsAt (selfPairStep poly rawEdges eg work i j) k := by
  unfold selfPairStep
  simp only []
  split
  · exact cutsAt_pushCuts_mono _ _ _ _ _ (cutsAt_pushCuts_mono _ _ _ _ _ h)
  · exact cutsAt_pushCuts_mono _ _ _ _ _ (cutsAt_pushCuts_mono _ _ _ _ _ h)
  · exact h

theorem length_selfPairStep (poly : PolygonTopo) (rawEdges : List RawEdge) (eg : ℚ)
    (work : List EdgeWork) (i j : Nat) :
    (selfPairStep poly rawEdges eg work i j).length = work.length := by
  unfold selfPairStep
  simp only []
  split <;> simp [length_pushCuts]

theorem selfPairStep_eq (poly : PolygonTopo) (rawEdges : List RawEdge) (eg : ℚ)
    (work : List EdgeWork) (i j : Nat) :
    selfPairStep poly rawEdges eg work i j
      = match kernelOnEdges poly (rawEdges.getD i default) poly (rawEdges.getD j default) eg with
        | SegmentIntersection.Overlap tA0 tA1 tB0 tB1 =>
          pushCuts (pushCuts work i [tA0, tA1]) j [tB0, tB1]
        | SegmentIntersection.Point tA tB _ => pushCuts (pushCuts work i [tA]) j [tB]
        | SegmentIntersection.None => work := rfl

theorem selfPairStep_records (poly : PolygonTopo) (rawEdges : List RawEdge) (eg : ℚ)
    (work : List EdgeWork) (i j : Nat) (hi : i < work.length) (hj : j < work.length) :
    EventRecorded
      (kernelOnEdges poly (rawEdges.getD i default) poly (rawEdges.getD j default) eg)
      (cutsAt (selfPairStep poly rawEdges eg work i j) i)
      (cutsAt (selfPairStep poly rawEdges eg work i j) j) := by
  rw [selfPairStep_eq]
  cases kernelOnEdges poly (rawEdges.getD i default) poly (rawEdges.getD j default) eg with
  | None => trivial
  | Point tA tB P =>
    refine ⟨?_, ?_⟩
    · exact cutsAt_pushCuts_mono _ _ _ _ _ (cutsAt_pushCuts_self _ _ _ _ hi (by simp))
    · exact cutsAt_pushCuts_self _ _ _ _ (by rw [length_pushCuts]; exact hj) (by simp)
  | Overlap a0 a1 b0 b1 =>
    refine ⟨⟨?_, ?_⟩, ?_, ?_⟩
    · exact cutsAt_pushCuts_mono _ _ _ _ _ (cutsAt_pushCuts_self _ _ _ _ hi (by simp))
    · exact cutsAt_pushCuts_mono _ _ _ _ _ (cutsAt_pushCuts_self _ _ _ _ hi (by simp))
    · exact cutsAt_pushCuts_self _ _ _ _ (by rw [length_pushCuts]; exact hj) (by simp)
    · exact cutsAt_pushCuts_self _ _ _ _ (by rw [length_pushCuts]; exact hj) (by simp)

/-- A recorded event stays recorded when cut lists only grow. -/
theorem eventRecorded_mono (r : SegmentIntersection) (ci cj ci2 cj2 : List ℚ)
    (hi : ∀ c ∈ ci, c ∈ ci2) (hj : ∀ c ∈ cj, c ∈ cj2) (h : EventRecorded r ci cj) :
    EventRecorded r ci2 cj2 := by
  cases r with
  | None => trivial
  | Point tA tB P => exact ⟨hi _ h.1, hj _ h.2⟩
  | Overlap a0 a1 b0 b1 => exact ⟨⟨hi _ h.1.1, hi _ h.1.2⟩, hj _ h.2.1, hj _ h.2.2⟩

theorem injectSelfCollinearCuts_records (poly : PolygonTopo) (rawEdges : List RawEdge)
    (eg ep : ℚ) (work : List EdgeWork) (hw : work.length = rawEdges.length) (i j : Nat)
    (hij : i < j) (hj : j < rawEdges.length) :
    EventRecorded
      (kernelOnEdges poly (rawEdges.getD i default) poly (rawEdges.getD j default) eg)
      (cutsAt (injectSelfCollinearCuts poly rawEdges work eg ep) i)
      (cutsAt (injectSelfCollinearCuts poly rawEdges work eg ep) j) := by
  unfold injectSelfCollinearCuts
  simp only []
  refine foldl_establish _ (fun (w : List EdgeWork) => w.length = rawEdges.length)
    (fun (w : List EdgeWork) => EventRecorded
      (kernelOnEdges poly (rawEdges.getD i default) poly (rawEdges.getD j default) eg)
      (cutsAt w i) (cutsAt w j))
    ?_ ?_ i ?_ _ (by simp; omega) _ hw
  · intro st x hst
    refine foldl_inv _ (fun (w : List EdgeWork) => w.length = rawEdges.length) ?_ _ _ hst
    intro st2 y h2
    rw [length_selfPairStep]; exact h2
  · intro st x _ hq
    refine foldl_inv _ (fun (w : List EdgeWork) => EventRecorded
      (kernelOnEdges poly (rawEdges.getD i default) poly (rawEdges.getD j default) eg)
      (cutsAt w i) (cutsAt w j)) ?_ _ _ hq
    intro st2 y h2
    exact eventRecorded_mono _ _ _ _ _ (fun c hc => selfPairStep_mono _ _ _ _ _ _ _ c hc)
      (fun c hc => selfPairStep_mono _ _ _ _ _ _ _ c hc) h2
  · intro st hst
    refine foldl_establish _ (fun (w : List EdgeWork) => w.length = rawEdges.length)
      (fun (w : List EdgeWork) => EventRecorded
        (kernelOnEdges poly (rawEdges.getD i default) poly (rawEdges.getD j default) eg)
        (cutsAt w i) (cutsAt w j))
      ?_ ?_ j ?_ _ (by rw [List.mem_range'_1]; omega) _ hst
    · intro st2 y h2
      rw [length_selfPairStep]; exact h2
    · intro st2 y _ h2
      exact eventRecorded_mono _ _ _ _ _ (fun c hc => selfPairStep_mono _ _ _ _ _ _ _ c hc)
        (fun c hc => selfPairStep_mono _ _ _ _ _ _ _ c hc) h2
    · intro st2 h2
      have h3 : st2.length = rawEdges.length := h2
      exact selfPairStep_records poly rawEdges eg st2 i j (by omega) (by omega)

theorem crossPairStep_eq (polyA polyB : PolygonTopo) (eg : ℚ)
    (st : List EdgeWork × List EdgeWork) (i j : Nat) :
    crossPairStep polyA polyB eg st i j
      = match kernelOnEdges polyA (st.1.getD i default).edge polyB
            (st.2.getD j default).edge eg with
        | SegmentIntersection.None => st
        | SegmentIntersection.Point tA tB _ => (pushCuts st.1 i [tA], pushCuts st.2 j [tB])
        | SegmentIntersection.Overlap tA0 tA1 tB0 tB1 =>
          (pushOverlap (pushCuts st.1 i [tA0, tA1]) i ⟨tA0, tA1⟩,
           pushOverlap (pushCuts st.2 j [tB0, tB1]) j ⟨tB0, tB1⟩) := rfl

theorem crossPairStep_mono_cuts (polyA polyB : PolygonTopo) (eg : ℚ)
    (st : List EdgeWork × List EdgeWork) (i j k : Nat) (c : ℚ) :
    (c ∈ cutsAt st.1 k → c ∈ cutsAt (crossPairStep polyA polyB eg st i j).1 k)
      ∧ (c ∈ cutsAt st.2 k → c ∈ cutsAt (crossPairStep polyA polyB eg st i j).2 k) := by
  rw [crossPairStep_eq]
  cases kernelOnEdges polyA (st.1.getD i default).edge polyB (st.2.getD j default).edge eg with
  | None => exact ⟨id, id⟩
  | Point tA tB P =>
    exact ⟨cutsAt_pushCuts_mono _ _ _ _ _, cutsAt_pushCuts_mono _ _ _ _ _⟩
  | Overlap a0 a1 b0 b1 =>
    constructor
    · intro h
      show c ∈ cutsAt (pushOverlap _ _ _) k
      rw [cutsAt_pushOverlap]
      exact cutsAt_pushCuts_mono _ _ _ _ _ h
    · intro h
      show c ∈ cutsAt (pushOverlap _ _ _) k
      rw [cutsAt_pushOverlap]
      exact cutsAt_pushCuts_mono _ _ _ _ _ h

theorem crossPairStep_records (polyA polyB : PolygonTopo) (eg : ℚ)
    (st : List EdgeWork × List EdgeWork) (i j : Nat)
    (hi : i < st.1.length) (hj : j < st.2.length) :
    EventRecorded
      (kernelOnEdges polyA (st.1.getD i default).edge polyB (st.2.getD j default).edge eg)
      (cutsAt (crossPairStep polyA polyB eg st i j).1 i)
      (cutsAt (crossPairStep polyA polyB eg st i j).2 j) := by
  rw [crossPairStep_eq]
  cases kernelOnEdges polyA (st.1.getD i default).edge polyB (st.2.getD j default).edge eg with
  | None => trivial
  | Point tA tB P =>
    exact ⟨cutsAt_pushCuts_self _ _ _ _ hi (by simp), cutsAt_pushCuts_self _ _ _ _ hj (by simp)⟩
  | Overlap a0 a1 b0 b1 =>
    refine ⟨⟨?_, ?_⟩, ?_, ?_⟩
    · show a0 ∈ cutsAt (pushOverlap _ _ _) i
      rw [cutsAt_pushOverlap]; exact cutsAt_pushCuts_self _ _ _ _ hi (by simp)
    · show a1 ∈ cutsAt (pushOverlap _ _ _) i
      rw [cutsAt_pushOverlap]; exact cutsAt_pushCuts_self _ _ _ _ hi (by simp)
    · show b0 ∈ cutsAt (pushOverlap _ _ _) j
      rw [cutsAt_pushOverlap]; exact cutsAt_pushCuts_self _ _ _ _ hj (by simp)
    · show b1 ∈ cutsAt (pushOverlap _ _ _) j
      rw [cutsAt_pushOverlap]; exact cutsAt_pushCuts_self _ _ _ _ hj (by simp)

theorem length_of_edges (work : List EdgeWork) (E : List RawEdge)
    (h : work.map (fun w => w.edge) = E) : work.length = E.length := by
  have := congrArg List.length h
  simpa using this

theorem crossCuts_mono_cuts (polyA polyB : PolygonTopo) (eg : ℚ)
    (workA workB : List EdgeWork) (k : Nat) (c : ℚ) :
    (c ∈ cutsAt workA k → c ∈ cutsAt (crossCuts polyA polyB eg workA workB).1 k)
      ∧ (c ∈ cutsAt workB k → c ∈ cutsAt (crossCuts polyA polyB eg workA workB).2 k) := by
  unfold crossCuts
  refine foldl_inv _ (fun (st : List EdgeWork × List EdgeWork) =>
    (c ∈ cutsAt workA k → c ∈ cutsAt st.1 k) ∧ (c ∈ cutsAt workB k → c ∈ cutsAt st.2 k))
    ?_ _ _ ⟨id, id⟩
  intro st i hst
  refine foldl_inv _ (fun (st : List EdgeWork × List EdgeWork) =>
    (c ∈ cutsAt workA k → c ∈ cutsAt st.1 k) ∧ (c ∈ cutsAt workB k → c ∈ cutsAt st.2 k))
    ?_ _ _ hst
  intro st2 j h2
  have hm := crossPairStep_mono_cuts polyA polyB eg st2 i j k c
  exact ⟨fun h => hm.1 (h2.1 h), fun h => hm.2 (h2.2 h)⟩

theorem crossCuts_records (polyA polyB : PolygonTopo) (eg : ℚ) (EA EB : List RawEdge)
    (workA workB : List EdgeWork)
    (hA : workA.map (fun w => w.edge) = EA ∧ CutsIn01 workA)
    (hB : workB.map (fun w => w.edge) = EB ∧ CutsIn01 workB)
    (i j : Nat) (hi : i < EA.length) (hj : j < EB.length) :
    EventRecorded (kernelOnEdges polyA (EA.getD i default) polyB (EB.getD j default) eg)
      (cutsAt (crossCuts polyA polyB eg workA workB).1 i)
      (cutsAt (crossCuts polyA polyB eg workA workB).2 j) := by
  have hlA := length_of_edges _ _ hA.1
  have hlB := length_of_edges _ _ hB.1
  unfold crossCuts
  refine foldl_establish _
    (fun (st : List EdgeWork × List EdgeWork) =>
      (st.1.map (fun w => w.edge) = EA ∧ CutsIn01 st.1)
      ∧ (st.2.map (fun w => w.edge) = EB ∧ CutsIn01 st.2))
    (fun (st : List EdgeWork × List EdgeWork) =>
      EventRecorded (kernelOnEdges polyA (EA.getD i default) polyB (EB.getD j default) eg)
        (cutsAt st.1 i) (cutsAt st.2 j))
    ?_ ?_ i ?_ _ (by simp [hlA, hi]) _ ⟨hA, hB⟩
  · intro st x hst
    refine foldl_inv _ (fun (st : List EdgeWork × List EdgeWork) =>
      (st.1.map (fun w => w.edge) = EA ∧ CutsIn01 st.1)
      ∧ (st.2.map (fun w => w.edge) = EB ∧ CutsIn01 st.2)) ?_ _ _ hst
    intro st2 y hst2
    exact crossPairStep_inv polyA polyB eg _ _ st2 x y hst2
  · intro st x _ hq
    refine foldl_inv _ (fun (st : List EdgeWork × List EdgeWork) =>
      EventRecorded (kernelOnEdges polyA (EA.getD i default) polyB (EB.getD j default) eg)
        (cutsAt st.1 i) (cutsAt st.2 j)) ?_ _ _ hq
    intro st2 y h2
    exact eventRecorded_mono _ _ _ _ _
      (fun c hc => (crossPairStep_mono_cuts polyA polyB eg st2 x y i c).1 hc)
      (fun c hc => (crossPairStep_mono_cuts polyA polyB eg st2 x y j c).2 hc) h2
  · intro st hst
    refine foldl_establish _
      (fun (st : List EdgeWork × List EdgeWork) =>
        (st.1.map (fun w => w.edge) = EA ∧ CutsIn01 st.1)
        ∧ (st.2.map (fun w => w.edge) = EB ∧ CutsIn01 st.2))
      (fun (st : List EdgeWork × List EdgeWork) =>
        EventRecorded (kernelOnEdges polyA (EA.getD i default) polyB (EB.getD j default) eg)
          (cutsAt st.1 i) (cutsAt st.2 j))
      ?_ ?_ j ?_ _ (by simp [hlB, hj]) _ hst
    · intro st2 y hst2
      exact crossPairStep_inv polyA polyB eg _ _ st2 i y hst2
    · intro st2 y _ h2
      exact eventRecorded_mono _ _ _ _ _
        (fun c hc => (crossPairStep_mono_cuts polyA polyB eg st2 i y i c).1 hc)
        (fun c hc => (crossPairStep_mono_cuts polyA polyB eg st2 i y j c).2 hc) h2
    · intro st2 hst2
      have h := crossPairStep_records polyA polyB eg st2 i j
        (by rw [length_of_edges _ _ hst2.1.1]; exact hi)
        (by rw [length_of_edges _ _ hst2.2.1]; exact hj)
      rw [getD_edge, getD_edge, hst2.1.1, hst2.2.1] at h
      exact h

/-- C8 as stated fails: for the two overlapping squares of side 1/50 the bottom edge of A
and the left edge of B share the point (1/100, 0), at parameter 1/2 of both; 1/2 is not a
cut parameter of A's edge, both edges stay whole, and the two atoms properly cross. -/
theorem C8_counterexample_tiny_crossing :
    lerpPoint ⟨0, 0⟩ ⟨1 / 50, 0⟩ (1 / 2) = lerpPoint ⟨1 / 100, 1 / 100⟩ ⟨1 / 100, -1 / 100⟩ (1 / 2)
    ∧ (1 / 2 : ℚ) ∉ cutsAt (cutWork (makeTopoFromInput tinySquare defaultEps)
        (makeTopoFromInput tinySquareB defaultEps) epsGeomS epsParamS).1 0
    ∧ (⟨⟨0, 0⟩, ⟨1 / 50, 0⟩, true, false, 0⟩ : AtomicSegment)
        ∈ (prepare tinySquare tinySquareB epsGeomS epsParamS).atoms
    ∧ (⟨⟨1 / 100, 1 / 100⟩, ⟨1 / 100, -1 / 100⟩, false, false, 0⟩ : AtomicSegment)
        ∈ (prepare tinySquare tinySquareB epsGeomS epsParamS).atoms
    ∧ properlyCross ⟨⟨0, 0⟩, ⟨1 / 50, 0⟩, true, false, 0⟩
        ⟨⟨1 / 100, 1 / 100⟩, ⟨1 / 100, -1 / 100⟩, false, false, 0⟩ = true := by
  decide!

/-- C8 (amended): every result the kernel reports for two original edges (an edge of A
with an edge of B, or two edges of one polygon) is recorded: the parameters of a `Point`
and the interval ends of an `Overlap` are cut parameters of both edges when the cut passes
are done. -/
theorem C8_events_recorded (polyA polyB : PolygonTopo) (eg ep : ℚ) :
    (∀ i j, i < (buildRawEdges polyA true).length → j < (buildRawEdges polyB false).length →
      EventRecorded
        (kernelOnEdges polyA ((buildRawEdges polyA true).getD i default)
          polyB ((buildRawEdges polyB false).getD j default) eg)
        (cutsAt (cutWork polyA polyB eg ep).1 i) (cutsAt (cutWork polyA polyB eg ep).2 j))
    ∧ (∀ i j, i < j → j < (buildRawEdges polyA true).length →
      EventRecorded
        (kernelOnEdges polyA ((buildRawEdges polyA true).getD i default)
          polyA ((buildRawEdges polyA true).getD j default) eg)
        (cutsAt (cutWork polyA polyB eg ep).1 i) (cutsAt (cutWork polyA polyB eg ep).1 j))
    ∧ (∀ i j, i < j → j < (buildRawEdges polyB false).length →
      EventRecorded
        (kernelOnEdges polyB ((buildRawEdges polyB false).getD i default)
          polyB ((buildRawEdges polyB false).getD j default) eg)
        (cutsAt (cutWork polyA polyB eg ep).2 i) (cutsAt (cutWork polyA polyB eg ep).2 j)) := by
  have hA := injectSelfCollinearCuts_inv polyA (buildRawEdges polyA true) eg ep _ _
    (initWork_inv (buildRawEdges polyA true))
  have hB := injectSelfCollinearCuts_inv polyB (buildRawEdges polyB false) eg ep _ _
    (initWork_inv (buildRawEdges polyB false))
  refine ⟨?_, ?_, ?_⟩
  · intro i j hi hj
    exact crossCuts_records polyA polyB eg _ _ _ _ hA hB i j hi hj
  · intro i j hij hj
    have h := injectSelfCollinearCuts_records polyA (buildRawEdges polyA true) eg ep
      (initWork (buildRawEdges polyA true)) (length_of_edges _ _ (initWork_inv _).1) i j hij hj
    exact eventRecorded_mono _ _ _ _ _
      (fun c hc => (crossCuts_mono_cuts polyA polyB eg _ _ i c).1 hc)
      (fun c hc => (crossCuts_mono_cuts polyA polyB eg _ _ j c).1 hc) h
  · intro i j hij hj
    have h := injectSelfCollinearCuts_records polyB (buildRawEdges polyB false) eg ep
      (initWork (buildRawEdges polyB false)) (length_of_edges _ _ (initWork_inv _).1) i j hij hj
    exact eventRecorded_mono _ _ _ _ _
      (fun c hc => (crossCuts_mono_cuts polyA polyB eg _ _ i c).2 hc)
      (fun c hc => (crossCuts_mono_cuts polyA polyB eg _ _ j c).2 hc) h

/-- Witness for C8: in scenario S1 edge 1 of A and edge 0 of B meet at parameter 1/2 of
both, and 1/2 is recorded on both. -/
theorem C8_events_recorded_witness :
    kernelOnEdges (makeTopoFromInput squareA defaultEps)
        ((buildRawEdges (makeTopoFromInput squareA defaultEps) true).getD 1 default)
        (makeTopoFromInput squareB defaultEps)
        ((buildRawEdges (makeTopoFromInput squareB defaultEps) false).getD 0 default) epsGeomS
      = SegmentIntersection.Point (1 / 2) (1 / 2) ⟨2, 1⟩
    ∧ EventRecorded (SegmentIntersection.Point (1 / 2) (1 / 2) ⟨2, 1⟩)
        (cutsAt (cutWork (makeTopoFromInput squareA defaultEps)
          (makeTopoFromInput squareB defaultEps) epsGeomS epsParamS).1 1)
        (cutsAt (cutWork (makeTopoFromInput squareA defaultEps)
          (makeTopoFromInput squareB defaultEps) epsGeomS epsParamS).2 0) := by
  have hk : kernelOnEdges (makeTopoFromInput squareA defaultEps)
        ((buildRawEdges (makeTopoFromInput squareA defaultEps) true).getD 1 default)
        (makeTopoFromInput squareB defaultEps)
        ((buildRawEdges (makeTopoFromInput squareB defaultEps) false).getD 0 default) epsGeomS
      = SegmentIntersection.Point (1 / 2) (1 / 2) ⟨2, 1⟩ := by decide!
  refine ⟨hk, ?_⟩
  have h := (C8_events_recorded (makeTopoFromInput squareA defaultEps)
    (makeTopoFromInput squareB defaultEps) epsGeomS epsParamS).1 1 0 (by decide!) (by decide!)
  rw [hk] at h
  exact h

/-! ### Operands without events between them -/

theorem foldl_inv_mem {σ α : Type} (f : σ → α → σ) (Inv : σ → Prop) (l : List α)
    (h : ∀ st x, x ∈ l → Inv st → Inv (f st x)) (st0 : σ) (h0 : Inv st0) :
    Inv (l.foldl f st0) := by
  induction l generalizing st0 with
  | nil => exact h0
  | cons a l ih =>
    exact ih (fun st x hx => h st x (List.mem_cons_of_mem _ hx)) _
      (h _ _ (List.mem_cons_self _ _) h0)

theorem cutsEnds_pushCuts (work : List EdgeWork) (i : Nat) (cs : List ℚ)
    (hw : CutsEnds work) (hcs : ∀ c ∈ cs, c = 0 ∨ c = 1) : CutsEnds (pushCuts work i cs) := by
  intro w hwm
  obtain ⟨x, hx, hxy⟩ := mem_modifyAt _ _ _ _ hwm
  rcases hxy with rfl | rfl
  · exact hw _ hx
  · obtain ⟨h1, h2, h3, h4⟩ := hw _ hx
    refine ⟨?_, List.mem_append_left _ h2, List.mem_append_left _ h3, h4⟩
    intro c hc
    rcases List.mem_append.mp hc with hc | hc
    · exact h1 c hc
    · exact hcs c hc

theorem cutsEnds_initWork (raw : List RawEdge) : CutsEnds (initWork raw) := by
  intro w hw
  simp only [initWork, List.mem_map] at hw
  obtain ⟨e, _, rfl⟩ := hw
  simp

theorem selfPairStep_cutsEnds (poly : PolygonTopo) (rawEdges : List RawEdge) (eg : ℚ)
    (work : List EdgeWork) (i j : Nat) (hw : CutsEnds work)
    (hk : endpointEvent
      (kernelOnEdges poly (rawEdges.getD i default) poly (rawEdges.getD j default) eg) = true) :
    CutsEnds (selfPairStep poly rawEdges eg work i j) := by
  rw [selfPairStep_eq]
  cases hr : kernelOnEdges poly (rawEdges.getD i default) poly (rawEdges.getD j default) eg with
  | None => exact hw
  | Point tA tB P =>
    rw [hr] at hk
    simp only [endpointEvent, Bool.and_eq_true, Bool.or_eq_true, decide_eq_true_eq] at hk
    exact cutsEnds_pushCuts _ _ _ (cutsEnds_pushCuts _ _ _ hw (by simpa using hk.1))
      (by simpa using hk.2)
  | Overlap a0 a1 b0 b1 =>
    rw [hr] at hk
    simp only [endpointEvent, Bool.and_eq_true, Bool.or_eq_true, decide_eq_true_eq] at hk
    obtain ⟨⟨⟨h0, h1⟩, h2⟩, h3⟩ := hk
    refine cutsEnds_pushCuts _ _ _ (cutsEnds_pushCuts _ _ _ hw ?_) ?_
    · intro c hc
      simp only [List.mem_cons, List.mem_singleton, List.not_mem_nil, or_false] at hc
      rcases hc with rfl | rfl
      · exact h0
      · exact h1
    · intro c hc
      simp only [List.mem_cons, List.mem_singleton, List.not_mem_nil, or_false] at hc
      rcases hc with rfl | rfl
      · exact h2
      · exact h3

theorem injectSelfCollinearCuts_cutsEnds (poly : PolygonTopo) (rawEdges : List RawEdge)
    (eg ep : ℚ) (work : List EdgeWork) (hw : CutsEnds work)
    (hk : ∀ j, j < rawEdges.length → ∀ i, i < j → endpointEvent
      (kernelOnEdges poly (rawEdges.getD i default) poly (rawEdges.getD j default) eg) = true) :
    CutsEnds (injectSelfCollinearCuts poly rawEdges work eg ep) := by
  unfold injectSelfCollinearCuts
  simp only []
  refine foldl_inv_mem _ CutsEnds _ ?_ _ hw
  intro st i _ hst
  refine foldl_inv_mem _ CutsEnds _ ?_ _ hst
  intro st2 j hj h2
  rw [List.mem_range'_1] at hj
  exact selfPairStep_cutsEnds poly rawEdges eg st2 i j h2 (hk j (by omega) i (by omega))

theorem crossCuts_none (polyA polyB : PolygonTopo) (eg : ℚ) (workA workB : List EdgeWork)
    (hk : ∀ i, i < workA.length → ∀ j, j < workB.length →
      kernelOnEdges polyA (workA.getD i default).edge polyB (workB.getD j default).edge eg
        = SegmentIntersection.None) :
    crossCuts polyA polyB eg workA workB = (workA, workB) := by
  unfold crossCuts
  refine foldl_inv_mem _ (fun st => st = (workA, workB)) _ ?_ _ rfl
  intro st i hi hst
  refine foldl_inv_mem _ (fun st => st = (workA, workB)) _ ?_ _ hst
  intro st2 j hj h2
  have h3 : st2 = (workA, workB) := h2
  subst h3
  show crossPairStep polyA polyB eg (workA, workB) i j = (workA, workB)
  rw [crossPairStep_eq]
  simp only [hk i (List.mem_range.mp hi) j (List.mem_range.mp hj)]

theorem uniqueFrom_ones (ep : ℚ) (hep : 0 < ep) (l : List ℚ) (h : ∀ c ∈ l, c = 1) :
    uniqueFrom ep 1 l = [] := by
  induction l with
  | nil => rfl
  | cons x xs ih =>
    have hx : x = 1 := h x (List.mem_cons_self _ _)
    subst hx
    simp only [uniqueFrom, sub_self, abs_zero, hep, if_true]
    exact ih (fun c hc => h c (List.mem_cons_of_mem _ hc))

theorem uniqueFrom_zero (ep : ℚ) (hep : 0 < ep) (hep1 : ep ≤ 1) (l : List ℚ)
    (hs : List.Pairwise (· ≤ ·) l) (h : ∀ c ∈ l, c = 0 ∨ c = 1) (h1 : (1 : ℚ) ∈ l) :
    uniqueFrom ep 0 l = [1] := by
  induction l with
  | nil => cases h1
  | cons x xs ih =>
    rcases h x (List.mem_cons_self _ _) with hx | hx
    · subst hx
      simp only [uniqueFrom, sub_self, abs_zero, hep, if_true]
      refine ih (List.pairwise_cons.mp hs).2 (fun c hc => h c (List.mem_cons_of_mem _ hc)) ?_
      rcases List.mem_cons.mp h1 with e | e
      · norm_num at e
      · exact e
    · subst hx
      have hn : ¬ (|(0 : ℚ) - 1| < ep) := by
        rw [show |(0 : ℚ) - 1| = 1 by norm_num]
        exact not_lt.mpr hep1
      simp only [uniqueFrom, hn, if_false]
      rw [uniqueFrom_ones ep hep]
      intro c hc
      have hle := (List.pairwise_cons.mp hs).1 c hc
      rcases h c (List.mem_cons_of_mem _ hc) with e | e
      · rw [e] at hle; norm_num at hle
      · exact e

/-- With cut parameters 0 and 1 only, the sorted and deduplicated list is `[0, 1]`. -/
theorem edgeParams_ends (ep : ℚ) (hep : 0 < ep) (hep1 : ep ≤ 1) (ew : EdgeWork)
    (h : ∀ c ∈ ew.cutParams, c = 0 ∨ c = 1) (h0 : (0 : ℚ) ∈ ew.cutParams)
    (h1 : (1 : ℚ) ∈ ew.cutParams) : edgeParams ep ew = [0, 1] := by
  unfold edgeParams
  have hperm := List.perm_insertionSort (· ≤ ·) ew.cutParams
  have hsorted : List.Pairwise (· ≤ ·) (ew.cutParams.insertionSort (· ≤ ·)) :=
    List.sorted_insertionSort (· ≤ ·) ew.cutParams
  have h0s := hperm.mem_iff.mpr h0
  have h1s := hperm.mem_iff.mpr h1
  have hall : ∀ c ∈ ew.cutParams.insertionSort (· ≤ ·), c = 0 ∨ c = 1 :=
    fun c hc => h c (hperm.mem_iff.mp hc)
  cases hl : ew.cutParams.insertionSort (· ≤ ·) with
  | nil => rw [hl] at h0s; cases h0s
  | cons x xs =>
    rw [hl] at h0s h1s hall hsorted
    have hx : x = 0 := by
      rcases hall x (List.mem_cons_self _ _) with e | e
      · exact e
      · rcases List.mem_cons.mp h0s with e0 | e0
        · exact e0.symm
        · have := (List.pairwise_cons.mp hsorted).1 0 e0
          rw [e] at this; norm_num at this
    subst hx
    have h1x : (1 : ℚ) ∈ xs := by
      rcases List.mem_cons.mp h1s with e | e
      · norm_num at e
      · exact e
    simp only [uniqueParams]
    rw [uniqueFrom_zero ep hep hep1 xs (List.pairwise_cons.mp hsorted).2
      (fun c hc => hall c (List.mem_cons_of_mem _ hc)) h1x]

theorem lerpPoint_zero (a b : QPointF) : lerpPoint a b 0 = a := by
  unfold lerpPoint; simp

theorem lerpPoint_one (a b : QPointF) : lerpPoint a b 1 = b := by
  unfold lerpPoint; simp

/-- An edge with cut parameters 0 and 1 only and no overlap is emitted as one whole atom. -/
theorem explodeEdgeWork_whole (poly : PolygonTopo) (ep : ℚ) (hep : 0 < ep) (hep1 : ep ≤ 1)
    (ew : EdgeWork) (h : ∀ c ∈ ew.cutParams, c = 0 ∨ c = 1) (h0 : (0 : ℚ) ∈ ew.cutParams)
    (h1 : (1 : ℚ) ∈ ew.cutParams) (hov : ew.overlaps = []) :
    explodeEdgeWork ew poly ep = [wholeAtom poly ew.edge] := by
  rw [explodeEdgeWork_eq_map, edgeParams_ends ep hep hep1 ew h h0 h1]
  have hn : ¬ ((1 : ℚ) - 0 < ep) := by
    rw [sub_zero]; exact not_lt.mpr hep1
  simp only [atomParams, hn, if_false, List.map_cons, List.map_nil, List.append_nil,
    List.nil_append, List.singleton_append, atomOf, wholeAtom, lerpPoint_zero, lerpPoint_one,
    hov, isInOverlap, List.any_nil]

theorem flatMap_whole (poly : PolygonTopo) (ep : ℚ) (hep : 0 < ep) (hep1 : ep ≤ 1)
    (work : List EdgeWork) (h : CutsEnds work) :
    (work.flatMap fun ew => explodeEdgeWork ew poly ep)
      = (work.map (fun w => w.edge)).map (wholeAtom poly) := by
  induction work with
  | nil => rfl
  | cons w ws ih =>
    obtain ⟨a, b, c, d⟩ := h w (List.mem_cons_self _ _)
    simp only [List.flatMap_cons, List.map_cons]
    rw [explodeEdgeWork_whole poly ep hep hep1 w a b c d,
      ih (fun w2 hw2 => h w2 (List.mem_cons_of_mem _ hw2))]
    rfl

theorem unit_closedFar_not_coincident :
    ∀ seg ∈ (prepare unitSquare closedFarSquare epsGeomS epsParamS).atoms,
      seg.coincidentWithOther = false := by
  decide!

/-- C9 as stated fails: the bounding boxes of the unit square and of its copy shifted by
1 + 1e-5 are separated, yet the kernel reports an overlap between the facing edges, both
are flagged coincident, the probe reports opposite direction, and union returns six of the
eight edges. A gap of fifty times `eps_geom` does not help when an edge is short: the
triangle with the edge (0,0)-(1/100,0) lies 1/20 below the rectangle above y = 1/20,
and the part (0,1/20)-(1/100,1/20) of the rectangle's bottom edge is cut off and flagged
coincident. Edges that are not parallel are cut as well when the gap is small: the two
slanted edges of the triangle with tip (1, 1/2) meet the line of the left edge of the
rectangle at x = 1 + 1e-4 at the parameter 1.0001, within the clamping range, and that
edge is cut twice, so the seven edges give nine atoms. A polygon whose own edges cross
is cut however far the other operand is: the self-crossing quadrilateral and the square
two units away give ten atoms for eight edges. And the point test runs on the input
loops: when the loop of the far square is closed by repeating its first point, every
point tests inside it, and union returns only the four edges of the far square. -/
theorem C9_counterexample_nearSquare :
    (bboxSeparated unitSquare nearSquare = true
      ∧ (⟨⟨1, 0⟩, ⟨1, 1⟩, true, true, 0⟩ : AtomicSegment)
          ∈ (prepare unitSquare nearSquare epsGeomS epsParamS).atoms
      ∧ computeAdditionSegments hypotRat (prepare unitSquare nearSquare epsGeomS epsParamS)
          unitSquare nearSquare
        = [[⟨0, 0⟩, ⟨1, 0⟩], [⟨1, 1⟩, ⟨0, 1⟩], [⟨0, 1⟩, ⟨0, 0⟩],
           [⟨1 + 1 / 100000, 0⟩, ⟨2 + 1 / 100000, 0⟩],
           [⟨2 + 1 / 100000, 0⟩, ⟨2 + 1 / 100000, 1⟩],
           [⟨2 + 1 / 100000, 1⟩, ⟨1 + 1 / 100000, 1⟩]])
    ∧ (bboxSeparated shortEdgeTriangle raisedSquare = true
      ∧ bboxSeparatedBy (1 / 20) shortEdgeTriangle raisedSquare = true
      ∧ (⟨⟨0, 1 / 20⟩, ⟨1 / 100, 1 / 20⟩, false, true, 0⟩ : AtomicSegment)
          ∈ (prepare shortEdgeTriangle raisedSquare epsGeomS epsParamS).atoms)
    ∧ (bboxSeparated pointedTriangle nearBox = true
      ∧ (buildRawEdges (makeTopoFromInput pointedTriangle defaultEps) true).length
          + (buildRawEdges (makeTopoFromInput nearBox defaultEps) false).length = 7
      ∧ (prepare pointedTriangle nearBox epsGeomS epsParamS).atoms.length = 9
      ∧ (∀ s ∈ (prepare pointedTriangle nearBox epsGeomS epsParamS).atoms,
          s.coincidentWithOther = false))
    ∧ (bboxSeparated bowTie farSquare = true
      ∧ bboxSeparatedBy 2 bowTie farSquare = true
      ∧ EdgePairsApart bowTie farSquare epsGeomS 2
      ∧ (buildRawEdges (makeTopoFromInput bowTie defaultEps) true).length
          + (buildRawEdges (makeTopoFromInput farSquare defaultEps) false).length = 8
      ∧ (prepare bowTie farSquare epsGeomS epsParamS).atoms.length = 10)
    ∧ (bboxSeparated unitSquare closedFarSquare = true
      ∧ bboxSeparatedBy 2 unitSquare closedFarSquare = true
      ∧ pointInPolygonWithHoles closedFarSquare ⟨1 / 2, 0⟩ = true
      ∧ computeAdditionSegments hypotRat
          (prepare unitSquare closedFarSquare epsGeomS epsParamS) unitSquare closedFarSquare
        = [[⟨3, 0⟩, ⟨4, 0⟩], [⟨4, 0⟩, ⟨4, 1⟩], [⟨4, 1⟩, ⟨3, 1⟩], [⟨3, 1⟩, ⟨3, 0⟩]]) := by
  have hax : ∀ seg ∈ (prepare unitSquare nearSquare epsGeomS epsParamS).atoms,
      seg.p1.y - seg.p0.y = 0 ∨ -(seg.p1.x - seg.p0.x) = 0 := by decide!
  rw [(compute_axis hypotRat hypotRat_exact _ unitSquare nearSquare hax).1,
    (compute_indep_hypot hypotRat hypotAxis _ unitSquare closedFarSquare
      unit_closedFar_not_coincident).1]
  decide!

theorem fromA_buildRawEdgesFrom (f : Bool) (lid : Nat) (ls : List LoopTopo) :
    ∀ e ∈ buildRawEdgesFrom f lid ls, e.fromA = f := by
  induction ls generalizing lid with
  | nil => intro e he; cases he
  | cons a l ih =>
    intro e he
    simp only [buildRawEdgesFrom, List.mem_append] at he
    rcases he with he | he
    · split_ifs at he
      · cases he
      · simp only [loopEdges, List.mem_map] at he
        obtain ⟨i, _, rfl⟩ := he
        rfl
    · exact ih _ e he

theorem fromA_buildRawEdges (poly : PolygonTopo) (f : Bool) :
    ∀ e ∈ buildRawEdges poly f, e.fromA = f :=
  fromA_buildRawEdgesFrom f 0 poly.loops

/-- When the kernel reports nothing between A and B and only endpoint events inside each
polygon, the atoms are the raw edges, whole and not flagged coincident. -/
theorem atoms_whole (polyA polyB : PolygonTopo) (eg ep : ℚ) (hep : 0 < ep) (hep1 : ep ≤ 1)
    (hselfA : ∀ j, j < (buildRawEdges polyA true).length → ∀ i, i < j → endpointEvent
      (kernelOnEdges polyA ((buildRawEdges polyA true).getD i default)
        polyA ((buildRawEdges polyA true).getD j default) eg) = true)
    (hselfB : ∀ j, j < (buildRawEdges polyB false).length → ∀ i, i < j → endpointEvent
      (kernelOnEdges polyB ((buildRawEdges polyB false).getD i default)
        polyB ((buildRawEdges polyB false).getD j default) eg) = true)
    (hcross : ∀ i, i < (buildRawEdges polyA true).length →
      ∀ j, j < (buildRawEdges polyB false).length →
        kernelOnEdges polyA ((buildRawEdges polyA true).getD i default)
          polyB ((buildRawEdges polyB false).getD j default) eg = SegmentIntersection.None) :
    computeAtomicSegments polyA polyB eg ep
      = (buildRawEdges polyA true).map (wholeAtom polyA)
        ++ (buildRawEdges polyB false).map (wholeAtom polyB) := by
  have hA := injectSelfCollinearCuts_inv polyA (buildRawEdges polyA true) eg ep _ _
    (initWork_inv (buildRawEdges polyA true))
  have hB := injectSelfCollinearCuts_inv polyB (buildRawEdges polyB false) eg ep _ _
    (initWork_inv (buildRawEdges polyB false))
  have cA := injectSelfCollinearCuts_cutsEnds polyA (buildRawEdges polyA true) eg ep
    (initWork (buildRawEdges polyA true)) (cutsEnds_initWork _) hselfA
  have cB := injectSelfCollinearCuts_cutsEnds polyB (buildRawEdges polyB false) eg ep
    (initWork (buildRawEdges polyB false)) (cutsEnds_initWork _) hselfB
  have hw : cutWork polyA polyB eg ep
      = (injectSelfCollinearCuts polyA (buildRawEdges polyA true)
          (initWork (buildRawEdges polyA true)) eg ep,
        injectSelfCollinearCuts polyB (buildRawEdges polyB false)
          (initWork (buildRawEdges polyB false)) eg ep) := by
    unfold cutWork
    simp only []
    apply crossCuts_none
    intro i hi j hj
    rw [getD_edge, getD_edge, hA.1, hB.1]
    exact hcross i (by rw [← length_of_edges _ _ hA.1]; exact hi) j
      (by rw [← length_of_edges _ _ hB.1]; exact hj)
  unfold computeAtomicSegments
  simp only [hw]
  rw [flatMap_whole polyA ep hep hep1 _ cA, flatMap_whole polyB ep hep hep1 _ cB, hA.1, hB.1]

theorem keep_whole_fromA (hypot : ℚ → ℚ → ℚ) (A B : InputPolygon) (s : AtomicSegment)
    (hc : s.coincidentWithOther = false) (hf : s.fromA = true)
    (hB : pointInPolygonWithHoles B (midpoint s) = false)
    (hin : s.loopId = 0 → pointInPolygonWithHoles A (midpoint s) = true) :
    specKeepUnion hypot A B s = true ∧ specKeepIntersection hypot A B s = false
      ∧ specKeepSubAB hypot A B s = true ∧ specKeepSubBA hypot A B s = false := by
  unfold specKeepUnion specKeepIntersection specKeepSubAB specKeepSubBA
  simp only [hc, hf, hB]
  by_cases hL : s.loopId > 0
  · simp [hL]
  · have h0 : s.loopId = 0 := by omega
    simp [hL, hin h0]

theorem keep_whole_fromB (hypot : ℚ → ℚ → ℚ) (A B : InputPolygon) (s : AtomicSegment)
    (hc : s.coincidentWithOther = false) (hf : s.fromA = false)
    (hA : pointInPolygonWithHoles A (midpoint s) = false)
    (hin : s.loopId = 0 → pointInPolygonWithHoles B (midpoint s) = true) :
    specKeepUnion hypot A B s = true ∧ specKeepIntersection hypot A B s = false
      ∧ specKeepSubAB hypot A B s = false ∧ specKeepSubBA hypot A B s = true := by
  unfold specKeepUnion specKeepIntersection specKeepSubAB specKeepSubBA
  simp only [hc, hf, hA]
  by_cases hL : s.loopId > 0
  · simp [hL]
  · have h0 : s.loopId = 0 := by omega
    simp [hL, hin h0]

/-! ### An empty operand -/

theorem pointInPolygonWithHoles_empty (p : QPointF) :
    pointInPolygonWithHoles emptyPolygon p = false := by
  simp [pointInPolygonWithHoles, pointInSimpleLoop, emptyPolygon, InputPolygon.outerLoop]

theorem makeTopoFromInput_empty (eps : ℚ) :
    makeTopoFromInput emptyPolygon eps = ⟨[], []⟩ := by
  simp [makeTopoFromInput, appendLoop, normalizeLoop, emptyPolygon, InputPolygon.outerLoop,
    InputPolygon.holeLoops]

theorem noOverlaps_pushCuts (work : List EdgeWork) (i : Nat) (cs : List ℚ)
    (hw : NoOverlaps work) : NoOverlaps (pushCuts work i cs) := by
  intro w hwm
  obtain ⟨x, hx, hxy⟩ := mem_modifyAt _ _ _ _ hwm
  rcases hxy with rfl | rfl
  · exact hw _ hx
  · exact hw x hx

theorem noOverlaps_selfPairStep (poly : PolygonTopo) (rawEdges : List RawEdge) (eg : ℚ)
    (work : List EdgeWork) (i j : Nat) (hw : NoOverlaps work) :
    NoOverlaps (selfPairStep poly rawEdges eg work i j) := by
  rw [selfPairStep_eq]
  cases kernelOnEdges poly (rawEdges.getD i default) poly (rawEdges.getD j default) eg with
  | None => exact hw
  | Point tA tB P => exact noOverlaps_pushCuts _ _ _ (noOverlaps_pushCuts _ _ _ hw)
  | Overlap a0 a1 b0 b1 => exact noOverlaps_pushCuts _ _ _ (noOverlaps_pushCuts _ _ _ hw)

/-- The self-cut pass records no overlap interval. -/
theorem noOverlaps_injectSelfCollinearCuts (poly : PolygonTopo) (rawEdges : List RawEdge)
    (eg ep : ℚ) (work : List EdgeWork) (hw : NoOverlaps work) :
    NoOverlaps (injectSelfCollinearCuts poly rawEdges work eg ep) := by
  unfold injectSelfCollinearCuts
  simp only []
  refine foldl_inv _ NoOverlaps ?_ _ _ hw
  intro st i hst
  refine foldl_inv _ NoOverlaps ?_ _ _ hst
  intro st2 j h2
  exact noOverlaps_selfPairStep poly rawEdges eg st2 i j h2

theorem noOverlaps_initWork (raw : List RawEdge) : NoOverlaps (initWork raw) := by
  intro w hw
  simp only [initWork, List.mem_map] at hw
  obtain ⟨e, _, rfl⟩ := hw
  rfl

theorem explodeEdgeWork_fromA (ew : EdgeWork) (poly : PolygonTopo) (ep : ℚ) :
    ∀ s ∈ explodeEdgeWork ew poly ep, s.fromA = ew.edge.fromA := by
  intro s hs
  rw [explodeEdgeWork_eq_map] at hs
  obtain ⟨p, _, rfl⟩ := List.mem_map.mp hs
  rfl

theorem explodeEdgeWork_not_coincident (ew : EdgeWork) (poly : PolygonTopo) (ep : ℚ)
    (hov : ew.overlaps = []) :
    ∀ s ∈ explodeEdgeWork ew poly ep, s.coincidentWithOther = false := by
  intro s hs
  rw [explodeEdgeWork_eq_map] at hs
  obtain ⟨p, _, rfl⟩ := List.mem_map.mp hs
  simp [atomOf, hov, isInOverlap]

/-- With B's topology empty, every atom is from A and none is flagged coincident. -/
theorem atoms_emptyB (polyA : PolygonTopo) (eg ep : ℚ) :
    ∀ s ∈ computeAtomicSegments polyA ⟨[], []⟩ eg ep,
      s.fromA = true ∧ s.coincidentWithOther = false := by
  have hw : cutWork polyA ⟨[], []⟩ eg ep
      = (injectSelfCollinearCuts polyA (buildRawEdges polyA true)
          (initWork (buildRawEdges polyA true)) eg ep, []) := by
    unfold cutWork
    simp only []
    have hB : injectSelfCollinearCuts ⟨[], []⟩ (buildRawEdges ⟨[], []⟩ false)
        (initWork (buildRawEdges ⟨[], []⟩ false)) eg ep = [] := rfl
    rw [hB]
    apply crossCuts_none
    intro i _ j hj
    cases hj
  have hA := injectSelfCollinearCuts_inv polyA (buildRawEdges polyA true) eg ep _ _
    (initWork_inv (buildRawEdges polyA true))
  have hno := noOverlaps_injectSelfCollinearCuts polyA (buildRawEdges polyA true) eg ep
    (initWork (buildRawEdges polyA true)) (noOverlaps_initWork _)
  intro s hs
  unfold computeAtomicSegments at hs
  simp only [hw, List.flatMap_nil, List.append_nil, List.mem_flatMap] at hs
  obtain ⟨ew, hew, hs⟩ := hs
  refine ⟨?_, explodeEdgeWork_not_coincident ew polyA ep (hno ew hew) s hs⟩
  rw [explodeEdgeWork_fromA ew polyA ep s hs]
  apply fromA_buildRawEdges polyA true
  rw [← hA.1]
  exact List.mem_map_of_mem (fun w => w.edge) hew

/-- With A's topology empty, every atom is from B. -/
theorem atoms_emptyA (polyB : PolygonTopo) (eg ep : ℚ) :
    ∀ s ∈ computeAtomicSegments ⟨[], []⟩ polyB eg ep, s.fromA = false := by
  have hinv := cutWork_inv ⟨[], []⟩ polyB eg ep
  have h1 : (cutWork ⟨[], []⟩ polyB eg ep).1 = [] := by
    have := hinv.1.1
    rw [show buildRawEdges ⟨[], []⟩ true = [] from rfl] at this
    exact List.map_eq_nil_iff.mp this
  intro s hs
  unfold computeAtomicSegments at hs
  simp only [h1, List.flatMap_nil, List.nil_append, List.mem_flatMap] at hs
  obtain ⟨ew, hew, hs⟩ := hs
  rw [explodeEdgeWork_fromA ew polyB ep s hs]
  apply fromA_buildRawEdges polyB false
  rw [← hinv.2.1]
  exact List.mem_map_of_mem (fun w => w.edge) hew

/-- C10: with B empty the intersection is empty for every A; with A empty the
intersection and A−B are empty for every B; with both empty all four operations return
the empty list. -/
theorem C10_empty_operand (hypot : ℚ → ℚ → ℚ) (eg ep : ℚ) :
    (∀ A : InputPolygon,
      computeIntersectionSegments hypot (prepare A emptyPolygon eg ep) A emptyPolygon = [])
    ∧ (∀ B : InputPolygon,
      computeIntersectionSegments hypot (prepare emptyPolygon B eg ep) emptyPolygon B = [])
    ∧ (∀ B : InputPolygon,
      computeSubtractionABSegments hypot (prepare emptyPolygon B eg ep) emptyPolygon B = [])
    ∧ (computeAdditionSegments hypot (prepare emptyPolygon emptyPolygon eg ep)
          emptyPolygon emptyPolygon = []
      ∧ computeIntersectionSegments hypot (prepare emptyPolygon emptyPolygon eg ep)
          emptyPolygon emptyPolygon = []
      ∧ computeSubtractionABSegments hypot (prepare emptyPolygon emptyPolygon eg ep)
          emptyPolygon emptyPolygon = []
      ∧ computeSubtractionBASegments hypot (prepare emptyPolygon emptyPolygon eg ep)
          emptyPolygon emptyPolygon = []) := by
  have hEA : ∀ B : InputPolygon, ∀ s ∈ (prepare emptyPolygon B eg ep).atoms,
      s.fromA = false := by
    intro B s hs
    have h : (prepare emptyPolygon B eg ep).atoms
        = computeAtomicSegments ⟨[], []⟩ (makeTopoFromInput B defaultEps) eg ep := by
      unfold prepare
      simp only [makeTopoFromInput_empty]
    rw [h] at hs
    exact atoms_emptyA _ eg ep s hs
  have hEB : ∀ A : InputPolygon, ∀ s ∈ (prepare A emptyPolygon eg ep).atoms,
      s.fromA = true ∧ s.coincidentWithOther = false := by
    intro A s hs
    have h : (prepare A emptyPolygon eg ep).atoms
        = computeAtomicSegments (makeTopoFromInput A defaultEps) ⟨[], []⟩ eg ep := by
      unfold prepare
      simp only [makeTopoFromInput_empty]
    rw [h] at hs
    exact atoms_emptyB _ eg ep s hs
  have hInterA : ∀ B : InputPolygon,
      computeIntersectionSegments hypot (prepare emptyPolygon B eg ep) emptyPolygon B = [] := by
    intro B
    unfold computeIntersectionSegments segmentsToPolylines
    rw [classifyForIntersection_eq_filter, List.map_eq_nil_iff, List.filter_eq_nil_iff]
    intro s hs
    simp [specKeepIntersection, hEA B s hs, pointInPolygonWithHoles_empty]
  have hSubA : ∀ B : InputPolygon,
      computeSubtractionABSegments hypot (prepare emptyPolygon B eg ep) emptyPolygon B = [] := by
    intro B
    unfold computeSubtractionABSegments segmentsToPolylines
    rw [classifyForSubAB_eq_filter, List.map_eq_nil_iff, List.filter_eq_nil_iff]
    intro s hs
    simp [specKeepSubAB, hEA B s hs, pointInPolygonWithHoles_empty]
  have hnil : (prepare emptyPolygon emptyPolygon eg ep).atoms = [] := by
    apply List.eq_nil_iff_forall_not_mem.mpr
    intro s hs
    have h1 := hEA emptyPolygon s hs
    have h2 := (hEB emptyPolygon s hs).1
    rw [h1] at h2
    cases h2
  refine ⟨?_, hInterA, hSubA, ?_, hInterA emptyPolygon, hSubA emptyPolygon, ?_⟩
  · intro A
    unfold computeIntersectionSegments segmentsToPolylines
    rw [classifyForIntersection_eq_filter, List.map_eq_nil_iff, List.filter_eq_nil_iff]
    intro s hs
    simp [specKeepIntersection, (hEB A s hs).1, (hEB A s hs).2, pointInPolygonWithHoles_empty]
  · unfold computeAdditionSegments segmentsToPolylines
    rw [classifyForAddition_eq_filter, hnil]
    rfl
  · unfold computeSubtractionBASegments segmentsToPolylines
    rw [classifyForSubBA_eq_filter, hnil]
    rfl

/-! ### The kernel, branch by branch -/

theorem clamp01_eq_specClamp (t : ℚ) : clamp01 t = specClamp t := by
  simp only [clamp01, specClamp]
  by_cases h0 : t < 0
  · have h1 : ¬ ((0 : ℚ) > 1) := by norm_num
    rw [if_pos h0, if_neg h1, min_eq_right (by linarith), max_eq_left (by linarith)]
  · rw [if_neg h0]
    by_cases h1 : t > 1
    · rw [if_pos h1, min_eq_left (by linarith), max_eq_right (by norm_num)]
    · rw [if_neg h1, min_eq_right (by linarith), max_eq_right (by linarith)]

theorem intersectSegments_nonparallel (A0 A1 B0 B1 : QPointF) (eg : ℚ)
    (h : |cross2d (A1 - A0) (B1 - B0)| > eg) :
    intersectSegments A0 A1 B0 B1 eg
      = if (-eg ≤ cross2d (B0 - A0) (B1 - B0) / cross2d (A1 - A0) (B1 - B0)
            ∧ cross2d (B0 - A0) (B1 - B0) / cross2d (A1 - A0) (B1 - B0) ≤ 1 + eg)
          ∧ (-eg ≤ cross2d (B0 - A0) (A1 - A0) / cross2d (A1 - A0) (B1 - B0)
            ∧ cross2d (B0 - A0) (A1 - A0) / cross2d (A1 - A0) (B1 - B0) ≤ 1 + eg)
        then SegmentIntersection.Point
          (specClamp (cross2d (B0 - A0) (B1 - B0) / cross2d (A1 - A0) (B1 - B0)))
          (specClamp (cross2d (B0 - A0) (A1 - A0) / cross2d (A1 - A0) (B1 - B0)))
          (A0 + (A1 - A0)
            * specClamp (cross2d (B0 - A0) (B1 - B0) / cross2d (A1 - A0) (B1 - B0)))
        else SegmentIntersection.None := by
  unfold intersectSegments
  simp only [if_pos h, clamp01_eq_specClamp, ge_iff_le, and_assoc]

theorem specClamp_below (x : ℚ) (h : x ≤ 0) : specClamp x = 0 := by
  unfold specClamp
  rw [min_eq_right (by linarith), max_eq_left h]

theorem specClamp_above (x : ℚ) (h : 1 ≤ x) : specClamp x = 1 := by
  unfold specClamp
  rw [min_eq_left h, max_eq_right (by norm_num)]

/-- C15: when `|r x s| > eps_geom` (with `eps_geom >= 0`) the divisor `r x s` is not zero
and the kernel returns `Point{clamp t, clamp u, A0 + clamp(t) r}` if `t` and `u` both lie
in `[-eps_geom, 1 + eps_geom]` and `None` otherwise; a raw parameter up to `eps_geom`
outside an endpoint is reported as exactly 0 or 1. -/
theorem C15_nonparallel_branch (A0 A1 B0 B1 : QPointF) (eg : ℚ) (heg : 0 ≤ eg)
    (h : |cross2d (A1 - A0) (B1 - B0)| > eg) :
    cross2d (A1 - A0) (B1 - B0) ≠ 0
    ∧ intersectSegments A0 A1 B0 B1 eg
      = (if (-eg ≤ cross2d (B0 - A0) (B1 - B0) / cross2d (A1 - A0) (B1 - B0)
            ∧ cross2d (B0 - A0) (B1 - B0) / cross2d (A1 - A0) (B1 - B0) ≤ 1 + eg)
          ∧ (-eg ≤ cross2d (B0 - A0) (A1 - A0) / cross2d (A1 - A0) (B1 - B0)
            ∧ cross2d (B0 - A0) (A1 - A0) / cross2d (A1 - A0) (B1 - B0) ≤ 1 + eg)
        then SegmentIntersection.Point
          (specClamp (cross2d (B0 - A0) (B1 - B0) / cross2d (A1 - A0) (B1 - B0)))
          (specClamp (cross2d (B0 - A0) (A1 - A0) / cross2d (A1 - A0) (B1 - B0)))
          (A0 + (A1 - A0)
            * specClamp (cross2d (B0 - A0) (B1 - B0) / cross2d (A1 - A0) (B1 - B0)))
        else SegmentIntersection.None)
    ∧ (∀ x : ℚ, -eg ≤ x ∧ x ≤ 0 → specClamp x = 0)
    ∧ (∀ x : ℚ, 1 ≤ x ∧ x ≤ 1 + eg → specClamp x = 1)
    ∧ (∀ x : ℚ, 0 ≤ x ∧ x ≤ 1 → specClamp x = x) := by
  refine ⟨?_, intersectSegments_nonparallel A0 A1 B0 B1 eg h, ?_, ?_, ?_⟩
  · intro h0
    rw [h0, abs_zero] at h
    linarith
  · intro x hx
    exact specClamp_below x hx.2
  · intro x hx
    exact specClamp_above x hx.1
  · intro x hx
    unfold specClamp
    rw [min_eq_right hx.2, max_eq_right hx.1]

/-- Witness for C15: edge 1 of A and edge 0 of B in scenario S1 cross at (2, 1). -/
theorem C15_nonparallel_branch_witness :
    |cross2d ((⟨2, 2⟩ : QPointF) - ⟨2, 0⟩) ((⟨3, 1⟩ : QPointF) - ⟨1, 1⟩)| > epsGeomS
    ∧ intersectSegments ⟨2, 0⟩ ⟨2, 2⟩ ⟨1, 1⟩ ⟨3, 1⟩ epsGeomS
      = SegmentIntersection.Point (1 / 2) (1 / 2) ⟨2, 1⟩ := by
  refine ⟨by decide!, ?_⟩
  rw [(C15_nonparallel_branch ⟨2, 0⟩ ⟨2, 2⟩ ⟨1, 1⟩ ⟨3, 1⟩ epsGeomS (by decide!) (by decide!)).2.1]
  decide!

theorem intervalIntersection_unit_spec (x y : ℚ) :
    intervalIntersection 0 1 x y
      = if (specInterval01 x y).1 ≤ (specInterval01 x y).2 then some (specInterval01 x y)
        else none := by
  unfold intervalIntersection specInterval01
  have h01 : ¬ ((0 : ℚ) > 1) := by norm_num
  have hmin : (if x > y then y else x) = min x y := by
    by_cases h : x > y
    · rw [if_pos h, min_eq_right (le_of_lt h)]
    · rw [if_neg h, min_eq_left (not_lt.mp h)]
  have hmax : (if x > y then x else y) = max x y := by
    by_cases h : x > y
    · rw [if_pos h, max_eq_left (le_of_lt h)]
    · rw [if_neg h, max_eq_right (not_lt.mp h)]
  simp only [h01, if_false, hmin, hmax, ge_iff_le]

theorem intersectSegments_collinear (A0 A1 B0 B1 : QPointF) (eg : ℚ)
    (h1 : |cross2d (A1 - A0) (B1 - B0)| ≤ eg) (h2 : |cross2d (B0 - A0) (A1 - A0)| ≤ eg) :
    intersectSegments A0 A1 B0 B1 eg
      = if (kernelIntervalA A0 A1 B0 B1 eg).2 < (kernelIntervalA A0 A1 B0 B1 eg).1
          ∨ (kernelIntervalB A0 A1 B0 B1 eg).2 < (kernelIntervalB A0 A1 B0 B1 eg).1
        then SegmentIntersection.None
        else if (kernelIntervalA A0 A1 B0 B1 eg).2 - (kernelIntervalA A0 A1 B0 B1 eg).1 ≤ eg
            ∧ (kernelIntervalB A0 A1 B0 B1 eg).2 - (kernelIntervalB A0 A1 B0 B1 eg).1 ≤ eg
        then SegmentIntersection.Point
          ((1 / 2) * ((kernelIntervalA A0 A1 B0 B1 eg).1 + (kernelIntervalA A0 A1 B0 B1 eg).2))
          ((1 / 2) * ((kernelIntervalB A0 A1 B0 B1 eg).1 + (kernelIntervalB A0 A1 B0 B1 eg).2))
          (lerpPoint A0 A1 ((1 / 2)
            * ((kernelIntervalA A0 A1 B0 B1 eg).1 + (kernelIntervalA A0 A1 B0 B1 eg).2)))
        else SegmentIntersection.Overlap
          (kernelIntervalA A0 A1 B0 B1 eg).1 (kernelIntervalA A0 A1 B0 B1 eg).2
          (kernelIntervalB A0 A1 B0 B1 eg).1 (kernelIntervalB A0 A1 B0 B1 eg).2 := by
  unfold intersectSegments
  simp only [if_neg (not_lt.mpr h1), if_neg (not_lt.mpr h2), intervalIntersection_unit_spec]
  show _ = if (kernelIntervalA A0 A1 B0 B1 eg).2 < (kernelIntervalA A0 A1 B0 B1 eg).1
          ∨ (kernelIntervalB A0 A1 B0 B1 eg).2 < (kernelIntervalB A0 A1 B0 B1 eg).1
        then _ else _
  unfold kernelIntervalA kernelIntervalB
  generalize specInterval01 (paramOn A0 (A1 - A0) (dot2d (A1 - A0) (A1 - A0)) eg B0)
    (paramOn A0 (A1 - A0) (dot2d (A1 - A0) (A1 - A0)) eg B1) = a
  generalize specInterval01 (paramOn B0 (B1 - B0) (dot2d (B1 - B0) (B1 - B0)) eg A0)
    (paramOn B0 (B1 - B0) (dot2d (B1 - B0) (B1 - B0)) eg A1) = b
  by_cases ha : a.1 ≤ a.2
  · by_cases hb : b.1 ≤ b.2
    · have hn : ¬ (a.2 < a.1 ∨ b.2 < b.1) := by
        rintro (h | h) <;> linarith
      have ha2 : ¬ (a.1 > a.2) := not_lt.mpr ha
      have hb2 : ¬ (b.1 > b.2) := not_lt.mpr hb
      have ha3 : ¬ (a.2 < a.1) := not_lt.mpr ha
      have hb3 : ¬ (b.2 < b.1) := not_lt.mpr hb
      simp only [if_pos ha, if_pos hb, ha2, hb2, ha3, hb3, if_false, or_self]
    · have hn : (a.2 < a.1 ∨ b.2 < b.1) := Or.inr (not_le.mp hb)
      simp only [if_pos ha, if_neg hb, if_pos hn]
  · have hn : (a.2 < a.1 ∨ b.2 < b.1) := Or.inl (not_le.mp ha)
    simp only [if_neg ha, if_pos hn]

theorem specInterval01_range (x y : ℚ) :
    0 ≤ (specInterval01 x y).1 ∧ (specInterval01 x y).2 ≤ 1 := by
  unfold specInterval01
  exact ⟨le_max_left _ _, min_le_left _ _⟩

/-- C16 as stated fails. First, the Point/Overlap threshold is `eps_geom`, not
`eps_param`: two collinear segments sharing an interval 1/2000 wide on both axes get a
`Point`, although 1/2000 exceeds `eps_param = 1e-9`. Second, a segment whose squared
length is below `eps_geom` is not projected onto: a segment of length 1/50 against itself
projects to `[0, 1]` on both axes, yet the kernel returns `Point` at parameters 0. -/
theorem C16_counterexample_threshold :
    (intersectSegments ⟨0, 0⟩ ⟨1, 0⟩ ⟨1999 / 2000, 0⟩ ⟨3999 / 2000, 0⟩ epsGeomS
        = SegmentIntersection.Point (3999 / 4000) (1 / 4000) ⟨3999 / 4000, 0⟩
      ∧ specInterval01 (specProject ⟨0, 0⟩ ((⟨1, 0⟩ : QPointF) - ⟨0, 0⟩) ⟨1999 / 2000, 0⟩)
          (specProject ⟨0, 0⟩ ((⟨1, 0⟩ : QPointF) - ⟨0, 0⟩) ⟨3999 / 2000, 0⟩)
        = (1999 / 2000, 1)
      ∧ specInterval01
          (specProject ⟨1999 / 2000, 0⟩ ((⟨3999 / 2000, 0⟩ : QPointF) - ⟨1999 / 2000, 0⟩) ⟨0, 0⟩)
          (specProject ⟨1999 / 2000, 0⟩ ((⟨3999 / 2000, 0⟩ : QPointF) - ⟨1999 / 2000, 0⟩) ⟨1, 0⟩)
        = (0, 1 / 2000)
      ∧ epsParamS < 1 - 1999 / 2000)
    ∧ (intersectSegments ⟨0, 0⟩ ⟨1 / 50, 0⟩ ⟨0, 0⟩ ⟨1 / 50, 0⟩ epsGeomS
        = SegmentIntersection.Point 0 0 ⟨0, 0⟩
      ∧ specInterval01 (specProject ⟨0, 0⟩ ((⟨1 / 50, 0⟩ : QPointF) - ⟨0, 0⟩) ⟨0, 0⟩)
          (specProject ⟨0, 0⟩ ((⟨1 / 50, 0⟩ : QPointF) - ⟨0, 0⟩) ⟨1 / 50, 0⟩)
        = (0, 1)) := by
  decide!

/-- C16 (amended): when `|r x s| <= eps_geom` and `|d x r| <= eps_geom` the kernel takes,
on each parameter axis, the interval spanned by the two parameters of the other
segment's endpoints (parameter 0 for a segment whose squared length is below `eps_geom`,
the projection otherwise) intersected with `[0, 1]`; it returns `None` if either is
empty, `Point` at the two midpoints iff both are at most `eps_geom` wide, and otherwise
`Overlap` with the two intervals, each ordered and inside `[0, 1]`. -/
theorem C16_collinear_branch (A0 A1 B0 B1 : QPointF) (eg : ℚ)
    (h1 : |cross2d (A1 - A0) (B1 - B0)| ≤ eg) (h2 : |cross2d (B0 - A0) (A1 - A0)| ≤ eg) :
    intersectSegments A0 A1 B0 B1 eg
      = (if (kernelIntervalA A0 A1 B0 B1 eg).2 < (kernelIntervalA A0 A1 B0 B1 eg).1
          ∨ (kernelIntervalB A0 A1 B0 B1 eg).2 < (kernelIntervalB A0 A1 B0 B1 eg).1
        then SegmentIntersection.None
        else if (kernelIntervalA A0 A1 B0 B1 eg).2 - (kernelIntervalA A0 A1 B0 B1 eg).1 ≤ eg
            ∧ (kernelIntervalB A0 A1 B0 B1 eg).2 - (kernelIntervalB A0 A1 B0 B1 eg).1 ≤ eg
        then SegmentIntersection.Point
          ((1 / 2) * ((kernelIntervalA A0 A1 B0 B1 eg).1 + (kernelIntervalA A0 A1 B0 B1 eg).2))
          ((1 / 2) * ((kernelIntervalB A0 A1 B0 B1 eg).1 + (kernelIntervalB A0 A1 B0 B1 eg).2))
          (lerpPoint A0 A1 ((1 / 2)
            * ((kernelIntervalA A0 A1 B0 B1 eg).1 + (kernelIntervalA A0 A1 B0 B1 eg).2)))
        else SegmentIntersection.Overlap
          (kernelIntervalA A0 A1 B0 B1 eg).1 (kernelIntervalA A0 A1 B0 B1 eg).2
          (kernelIntervalB A0 A1 B0 B1 eg).1 (kernelIntervalB A0 A1 B0 B1 eg).2)
    ∧ (∀ tA0 tA1 tB0 tB1 : ℚ,
        intersectSegments A0 A1 B0 B1 eg = SegmentIntersection.Overlap tA0 tA1 tB0 tB1 →
          (0 ≤ tA0 ∧ tA0 ≤ tA1 ∧ tA1 ≤ 1) ∧ (0 ≤ tB0 ∧ tB0 ≤ tB1 ∧ tB1 ≤ 1)
            ∧ ¬ (tA1 - tA0 ≤ eg ∧ tB1 - tB0 ≤ eg)) := by
  have hk := intersectSegments_collinear A0 A1 B0 B1 eg h1 h2
  refine ⟨hk, ?_⟩
  intro tA0 tA1 tB0 tB1 hov
  rw [hk] at hov
  split_ifs at hov with c1 c2
  simp only [SegmentIntersection.Overlap.injEq] at hov
  obtain ⟨rfl, rfl, rfl, rfl⟩ := hov
  have ha : (kernelIntervalA A0 A1 B0 B1 eg).1 ≤ (kernelIntervalA A0 A1 B0 B1 eg).2 := by
    by_contra hc
    exact c1 (Or.inl (not_le.mp hc))
  have hb : (kernelIntervalB A0 A1 B0 B1 eg).1 ≤ (kernelIntervalB A0 A1 B0 B1 eg).2 := by
    by_contra hc
    exact c1 (Or.inr (not_le.mp hc))
  have ra : 0 ≤ (kernelIntervalA A0 A1 B0 B1 eg).1 ∧ (kernelIntervalA A0 A1 B0 B1 eg).2 ≤ 1 :=
    specInterval01_range _ _
  have rb : 0 ≤ (kernelIntervalB A0 A1 B0 B1 eg).1 ∧ (kernelIntervalB A0 A1 B0 B1 eg).2 ≤ 1 :=
    specInterval01_range _ _
  exact ⟨⟨ra.1, ha, ra.2⟩, ⟨rb.1, hb, rb.2⟩, c2⟩

/-- Witness for C16: the bottom edge of the unit square against itself. -/
theorem C16_collinear_branch_witness :
    |cross2d ((⟨1, 0⟩ : QPointF) - ⟨0, 0⟩) ((⟨1, 0⟩ : QPointF) - ⟨0, 0⟩)| ≤ epsGeomS
    ∧ intersectSegments ⟨0, 0⟩ ⟨1, 0⟩ ⟨0, 0⟩ ⟨1, 0⟩ epsGeomS
      = SegmentIntersection.Overlap 0 1 0 1 := by
  refine ⟨by decide!, ?_⟩
  rw [(C16_collinear_branch ⟨0, 0⟩ ⟨1, 0⟩ ⟨0, 0⟩ ⟨1, 0⟩ epsGeomS (by decide!) (by decide!)).1]
  decide!

/-! ### Atoms are sub-segments of raw edges -/

theorem explodeEdgeWork_subsegment (ew : EdgeWork) (poly : PolygonTopo) (ep : ℚ)
    (hep : 0 < ep) (hc : ∀ c ∈ ew.cutParams, 0 ≤ c ∧ c ≤ 1) :
    ∀ s ∈ explodeEdgeWork ew poly ep, IsSubSegmentOf poly ew.edge ep s := by
  intro s hs
  rw [explodeEdgeWork_eq_map] at hs
  obtain ⟨p, hp, rfl⟩ := List.mem_map.mp hs
  have hm := mem_atomParams ep _ p hp
  have hl := atomParams_length ep _ p hp
  have h1 := hc p.1 (mem_params ep _ p.1 hm.1)
  have h2 := hc p.2 (mem_params ep _ p.2 hm.2)
  exact ⟨p.1, p.2, h1.1, by linarith, h2.2, hl, rfl, rfl, rfl, rfl⟩

/-- Every atom is a sub-segment of a raw edge of its own polygon. -/
theorem atoms_subsegment (polyA polyB : PolygonTopo) (eg ep : ℚ) (hep : 0 < ep) :
    ∀ s ∈ computeAtomicSegments polyA polyB eg ep,
      (∃ e ∈ buildRawEdges polyA true, s.fromA = true ∧ IsSubSegmentOf polyA e ep s)
      ∨ (∃ e ∈ buildRawEdges polyB false, s.fromA = false ∧ IsSubSegmentOf polyB e ep s) := by
  have hinv := cutWork_inv polyA polyB eg ep
  intro s hs
  unfold computeAtomicSegments at hs
  simp only [List.mem_append, List.mem_flatMap] at hs
  rcases hs with ⟨ew, hew, hs⟩ | ⟨ew, hew, hs⟩
  · left
    have he : ew.edge ∈ buildRawEdges polyA true := by
      rw [← hinv.1.1]; exact List.mem_map_of_mem (fun w => w.edge) hew
    refine ⟨ew.edge, he, ?_, explodeEdgeWork_subsegment ew polyA ep hep (hinv.1.2 ew hew) s hs⟩
    rw [explodeEdgeWork_fromA ew polyA ep s hs]
    exact fromA_buildRawEdges polyA true _ he
  · right
    have he : ew.edge ∈ buildRawEdges polyB false := by
      rw [← hinv.2.1]; exact List.mem_map_of_mem (fun w => w.edge) hew
    refine ⟨ew.edge, he, ?_, explodeEdgeWork_subsegment ew polyB ep hep (hinv.2.2 ew hew) s hs⟩
    rw [explodeEdgeWork_fromA ew polyB ep s hs]
    exact fromA_buildRawEdges polyB false _ he

/-- Every polyline emitted by one of the four operations is `[p0, p1]` of an atom. -/
theorem emitted_from_atom (hypot : ℚ → ℚ → ℚ) (ctx : PrepContext) (A B : InputPolygon)
    (l : List QPointF)
    (hl : l ∈ computeAdditionSegments hypot ctx A B
      ∨ l ∈ computeIntersectionSegments hypot ctx A B
      ∨ l ∈ computeSubtractionABSegments hypot ctx A B
      ∨ l ∈ computeSubtractionBASegments hypot ctx A B) :
    ∃ s ∈ ctx.atoms, l = [s.p0, s.p1] := by
  unfold computeAdditionSegments computeIntersectionSegments computeSubtractionABSegments
    computeSubtractionBASegments segmentsToPolylines at hl
  rw [classifyForAddition_eq_filter, classifyForIntersection_eq_filter,
    classifyForSubAB_eq_filter, classifyForSubBA_eq_filter] at hl
  rcases hl with h | h | h | h <;>
  · obtain ⟨s, hs, rfl⟩ := List.mem_map.mp h
    exact ⟨s, (List.mem_filter.mp hs).1, rfl⟩

theorem subsegment_onBoundary (poly : PolygonTopo) (raw : List RawEdge) (e : RawEdge)
    (he : e ∈ raw) (ep : ℚ) (s : AtomicSegment) (h : IsSubSegmentOf poly e ep s) :
    OnBoundary poly raw s.p0 ∧ OnBoundary poly raw s.p1 := by
  obtain ⟨tLo, tHi, h0, hlt, h1, _, hp0, hp1, _, _⟩ := h
  exact ⟨⟨e, he, tLo, h0, by linarith, hp0⟩, ⟨e, he, tHi, by linarith, h1, hp1⟩⟩

/-! ### Zero-length geometry -/

theorem prepare_emptyB_atoms (A : InputPolygon) (eg ep : ℚ) :
    ∀ s ∈ (prepare A emptyPolygon eg ep).atoms,
      s.fromA = true ∧ s.coincidentWithOther = false := by
  intro s hs
  have h : (prepare A emptyPolygon eg ep).atoms
      = computeAtomicSegments (makeTopoFromInput A defaultEps) ⟨[], []⟩ eg ep := by
    unfold prepare
    simp only [makeTopoFromInput_empty]
  rw [h] at hs
  exact atoms_emptyB _ eg ep s hs

/-- C11 fails as stated: for the 4 x 4 square whose hole touches its left edge, and for
the 100 x 100 square closed by a point 5e-10 from its first point, the union with the
empty polygon returns every atom while A minus the empty polygon drops an atom of the
outer loop. -/
theorem C11_counterexample_dropped_atom :
    ([⟨0, 2⟩, ⟨0, 1⟩] ∈ computeAdditionSegments hypotRat
        (prepare notchedSquare emptyPolygon epsGeomS epsParamS) notchedSquare emptyPolygon
      ∧ (computeAdditionSegments hypotRat
          (prepare notchedSquare emptyPolygon epsGeomS epsParamS)
          notchedSquare emptyPolygon).length = 10
      ∧ (computeSubtractionABSegments hypotRat
          (prepare notchedSquare emptyPolygon epsGeomS epsParamS)
          notchedSquare emptyPolygon).length = 9)
    ∧ ([⟨0, 100⟩, ⟨0, 0⟩] ∈ computeAdditionSegments hypotRat
        (prepare nearClosedSquare emptyPolygon epsGeomS epsParamS)
        nearClosedSquare emptyPolygon
      ∧ computeSubtractionABSegments hypotRat
          (prepare nearClosedSquare emptyPolygon epsGeomS epsParamS)
          nearClosedSquare emptyPolygon
        = [[⟨0, 0⟩, ⟨100, 0⟩], [⟨100, 0⟩, ⟨100, 100⟩], [⟨100, 100⟩, ⟨0, 100⟩]]) := by
  have h1 := compute_indep_hypot hypotRat hypotAxis _ notchedSquare emptyPolygon
    (fun s hs => (prepare_emptyB_atoms notchedSquare epsGeomS epsParamS s hs).2)
  have h2 := compute_indep_hypot hypotRat hypotAxis _ nearClosedSquare emptyPolygon
    (fun s hs => (prepare_emptyB_atoms nearClosedSquare epsGeomS epsParamS s hs).2)
  rw [h1.1, h1.2.2, h2.1, h2.2.2]
  decide!

/-- C11, amended: with B the empty polygon the union returns one polyline for every
atom of A, and A minus B returns the polylines of exactly those atoms that lie on a hole
loop (`loopId > 0`) or whose midpoint tests inside A; so when the midpoint of every
outer-loop atom tests inside A, A minus B returns the same list as the union, nothing
dropped. -/
theorem C11_subtract_empty (hypot : ℚ → ℚ → ℚ) (A : InputPolygon) (eg ep : ℚ) :
    computeAdditionSegments hypot (prepare A emptyPolygon eg ep) A emptyPolygon
        = (prepare A emptyPolygon eg ep).atoms.map polylineOf
    ∧ computeSubtractionABSegments hypot (prepare A emptyPolygon eg ep) A emptyPolygon
        = ((prepare A emptyPolygon eg ep).atoms.filter
            (fun s => decide (s.loopId > 0) || pointInPolygonWithHoles A (midpoint s))).map
              polylineOf
    ∧ ((∀ s ∈ (prepare A emptyPolygon eg ep).atoms, s.loopId = 0 →
          pointInPolygonWithHoles A (midpoint s) = true) →
        computeSubtractionABSegments hypot (prepare A emptyPolygon eg ep) A emptyPolygon
          = computeAdditionSegments hypot (prepare A emptyPolygon eg ep) A emptyPolygon) := by
  have hat := prepare_emptyB_atoms A eg ep
  have hU : computeAdditionSegments hypot (prepare A emptyPolygon eg ep) A emptyPolygon
      = (prepare A emptyPolygon eg ep).atoms.map polylineOf := by
    unfold computeAdditionSegments segmentsToPolylines
    rw [classifyForAddition_eq_filter, List.filter_eq_self.mpr]
    · rfl
    · intro s hs
      simp [specKeepUnion, (hat s hs).1, (hat s hs).2, pointInPolygonWithHoles_empty]
  have hS : computeSubtractionABSegments hypot (prepare A emptyPolygon eg ep) A emptyPolygon
      = ((prepare A emptyPolygon eg ep).atoms.filter
          (fun s => decide (s.loopId > 0) || pointInPolygonWithHoles A (midpoint s))).map
            polylineOf := by
    unfold computeSubtractionABSegments segmentsToPolylines
    rw [classifyForSubAB_eq_filter]
    have hf : (prepare A emptyPolygon eg ep).atoms.filter (specKeepSubAB hypot A emptyPolygon)
        = (prepare A emptyPolygon eg ep).atoms.filter
          (fun s => decide (s.loopId > 0) || pointInPolygonWithHoles A (midpoint s)) := by
      apply List.filter_congr
      intro s hs
      by_cases hl : s.loopId > 0
      · simp [specKeepSubAB, (hat s hs).1, (hat s hs).2, pointInPolygonWithHoles_empty, hl]
      · simp [specKeepSubAB, (hat s hs).1, (hat s hs).2, pointInPolygonWithHoles_empty, hl]
    rw [hf]
    rfl
  refine ⟨hU, hS, ?_⟩
  intro hmid
  rw [hS, hU, List.filter_eq_self.mpr]
  intro s hs
  by_cases hl : s.loopId = 0
  · simp [hmid s hs hl]
  · have : s.loopId > 0 := Nat.pos_of_ne_zero hl
    simp [this]

/-- The unit square with a centred hole (operand A of scenario S4) meets the midpoint
condition of C11: all eight atoms are returned by A minus the empty polygon. -/
theorem holedSquare_subtract_empty :
    (prepare holedSquare emptyPolygon epsGeomS epsParamS).atoms.length = 8
    ∧ ∀ s ∈ (prepare holedSquare emptyPolygon epsGeomS epsParamS).atoms, s.loopId = 0 →
      pointInPolygonWithHoles holedSquare (midpoint s) = true := by
  decide!

/-! ### Scenario S3: a shared edge -/

/-- C13 fails as stated: with B's loop reversed, B's atom on the shared edge runs from
(2,0) to (2,2), the same direction as A's, and the probe still reports
opposite-direction for A's atom and for B's. -/
theorem C13_counterexample_reversed_winding :
    sharedAtomS3 ∈ (prepare squareA squareS3Brev epsGeomS epsParamS).atoms
    ∧ (⟨⟨2, 0⟩, ⟨2, 2⟩, false, true, 0⟩ : AtomicSegment)
        ∈ (prepare squareA squareS3Brev epsGeomS epsParamS).atoms
    ∧ coincidentOpposite hypotRat sharedAtomS3 squareA squareS3Brev = true
    ∧ coincidentOpposite hypotRat ⟨⟨2, 0⟩, ⟨2, 2⟩, false, true, 0⟩ squareA squareS3Brev
        = true := by
  rw [coincidentOpposite_congr hypotRat hypotAxis sharedAtomS3 squareA squareS3Brev
      (hypot_axis hypotRat hypotRat_exact _ _ (by decide!)),
    coincidentOpposite_congr hypotRat hypotAxis ⟨⟨2, 0⟩, ⟨2, 2⟩, false, true, 0⟩ squareA
      squareS3Brev (hypot_axis hypotRat hypotRat_exact _ _ (by decide!))]
  decide!

/-- C13, amended: on scenario S3 the probe classifies A's atom on the shared edge x=2 as
opposite-direction for both windings of B, and in both cases the union is the six
outer segments: it contains the segment between (2,0) and (2,2) in neither direction. -/
theorem C13_scenario_S3 (hypot : ℚ → ℚ → ℚ) (hyp : HypotExact hypot) :
    (sharedAtomS3 ∈ (prepare squareA squareS3B epsGeomS epsParamS).atoms
      ∧ coincidentOpposite hypot sharedAtomS3 squareA squareS3B = true
      ∧ computeAdditionSegments hypot (prepare squareA squareS3B epsGeomS epsParamS)
          squareA squareS3B
        = [[⟨0, 0⟩, ⟨2, 0⟩], [⟨2, 2⟩, ⟨0, 2⟩], [⟨0, 2⟩, ⟨0, 0⟩],
           [⟨2, 0⟩, ⟨4, 0⟩], [⟨4, 0⟩, ⟨4, 2⟩], [⟨4, 2⟩, ⟨2, 2⟩]])
    ∧ (sharedAtomS3 ∈ (prepare squareA squareS3Brev epsGeomS epsParamS).atoms
      ∧ coincidentOpposite hypot sharedAtomS3 squareA squareS3Brev = true
      ∧ computeAdditionSegments hypot (prepare squareA squareS3Brev epsGeomS epsParamS)
          squareA squareS3Brev
        = [[⟨0, 0⟩, ⟨2, 0⟩], [⟨2, 2⟩, ⟨0, 2⟩], [⟨0, 2⟩, ⟨0, 0⟩],
           [⟨2, 2⟩, ⟨4, 2⟩], [⟨4, 2⟩, ⟨4, 0⟩], [⟨4, 0⟩, ⟨2, 0⟩]])
    ∧ (∀ B ∈ [squareS3B, squareS3Brev],
        (computeAdditionSegments hypot (prepare squareA B epsGeomS epsParamS)
            squareA B).count [⟨2, 0⟩, ⟨2, 2⟩]
          + (computeAdditionSegments hypot (prepare squareA B epsGeomS epsParamS)
            squareA B).count [⟨2, 2⟩, ⟨2, 0⟩] = 0) := by
  have hax1 : ∀ seg ∈ (prepare squareA squareS3B epsGeomS epsParamS).atoms,
      seg.p1.y - seg.p0.y = 0 ∨ -(seg.p1.x - seg.p0.x) = 0 := by decide!
  have hax2 : ∀ seg ∈ (prepare squareA squareS3Brev epsGeomS epsParamS).atoms,
      seg.p1.y - seg.p0.y = 0 ∨ -(seg.p1.x - seg.p0.x) = 0 := by decide!
  have hU1 := (compute_axis hypot hyp _ squareA squareS3B hax1).1
  have hU2 := (compute_axis hypot hyp _ squareA squareS3Brev hax2).1
  have hp1 := coincidentOpposite_congr hypot hypotAxis sharedAtomS3 squareA squareS3B
      (hypot_axis hypot hyp _ _ (by decide!))
  have hp2 := coincidentOpposite_congr hypot hypotAxis sharedAtomS3 squareA squareS3Brev
      (hypot_axis hypot hyp _ _ (by decide!))
  refine ⟨?_, ?_, ?_⟩
  · rw [hU1, hp1]; decide!
  · rw [hU2, hp2]; decide!
  · intro B hB
    simp only [List.mem_cons, List.mem_singleton, List.not_mem_nil, or_false] at hB
    rcases hB with rfl | rfl
    · rw [hU1]; decide!
    · rw [hU2]; decide!

/-- Witness for C13 with the exact rational `hypot`. -/
theorem C13_scenario_S3_witness :
    HypotExact hypotRat
    ∧ coincidentOpposite hypotRat sharedAtomS3 squareA squareS3B = true
    ∧ coincidentOpposite hypotRat sharedAtomS3 squareA squareS3Brev = true :=
  ⟨hypotRat_exact, (C13_scenario_S3 hypotRat hypotRat_exact).1.2.1,
    (C13_scenario_S3 hypotRat hypotRat_exact).2.1.2.1⟩

/-! ### The topology built from an input polygon -/

theorem foldl_appendLoop (eps : ℚ) (loops : List (List QPointF)) (topo : PolygonTopo) :
    loops.foldl (appendLoop eps) topo
      = { verts := topo.verts ++
            ((loops.map (fun l => normalizeLoop l eps)).filter
              (fun L => decide (3 ≤ L.length))).flatten.map
                (fun pt => { pos := pt, isIntersection := false }),
          loops := topo.loops ++ loopBlocks topo.verts.length
            ((loops.map (fun l => normalizeLoop l eps)).filter
              (fun L => decide (3 ≤ L.length))) } := by
  induction loops generalizing topo with
  | nil => simp [loopBlocks]
  | cons l rest ih =>
    rw [List.foldl_cons, ih]
    by_cases h : (normalizeLoop l eps).length < 3
    · have h3 : ¬ (3 ≤ (normalizeLoop l eps).length) := by omega
      simp [appendLoop, h, h3, List.filter_cons]
    · have h3 : 3 ≤ (normalizeLoop l eps).length := by omega
      simp [appendLoop, h, h3, List.filter_cons, loopBlocks, List.range'_eq_map_range]

theorem makeTopoFromInput_eq_specTopo (poly : InputPolygon) (eps : ℚ) :
    makeTopoFromInput poly eps = specTopo poly eps := by
  have h : makeTopoFromInput poly eps
      = (poly.outerLoop :: poly.holeLoops).foldl (appendLoop eps) ⟨[], []⟩ := rfl
  rw [h, foldl_appendLoop]
  simp [specTopo, retainedLoops]

theorem loopBlocks_flatten (start : Nat) (R : List (List QPointF)) :
    ((loopBlocks start R).map (fun l => l.loopVertices)).flatten
      = List.range' start R.flatten.length := by
  induction R generalizing start with
  | nil => simp [loopBlocks]
  | cons L rest ih =>
    simp only [loopBlocks, List.map_cons, List.flatten_cons, ih, List.length_append]
    have := List.range'_append start L.length rest.flatten.length 1
    rw [one_mul] at this
    rw [this, Nat.add_comm]

theorem specTopo_indices (poly : InputPolygon) (eps : ℚ) :
    (((specTopo poly eps).loops.map (fun l => l.loopVertices)).flatten
      = List.range (specTopo poly eps).verts.length) := by
  simp only [specTopo, loopBlocks_flatten, List.length_map, List.range_eq_range']

theorem normalizeLoop_euclid (loop : List QPointF) (eps : ℚ) (heps : 0 ≤ eps)
    (a b : QPointF) (ha : loop.head? = some a) (hb : loop.getLast? = some b) :
    ((2 ≤ loop.length
        ∧ Real.sqrt ((((a.x - b.x) ^ 2 + (a.y - b.y) ^ 2 : ℚ) : ℝ)) < ((eps : ℚ) : ℝ)) →
      normalizeLoop loop eps = loop.dropLast)
    ∧ (¬ (2 ≤ loop.length
        ∧ Real.sqrt ((((a.x - b.x) ^ 2 + (a.y - b.y) ^ 2 : ℚ) : ℝ)) < ((eps : ℚ) : ℝ)) →
      normalizeLoop loop eps = loop) := by
  have hh : loop.head! = a := by
    cases loop with
    | nil => cases ha
    | cons x xs => simp at ha; simp [List.head!, ha]
  have hl : loop.getLast! = b := by
    cases loop with
    | nil => cases ha
    | cons x xs =>
      rw [List.getLast!_of_getLast? hb]
  have hiff : Real.sqrt ((((a.x - b.x) ^ 2 + (a.y - b.y) ^ 2 : ℚ) : ℝ)) < ((eps : ℚ) : ℝ)
      ↔ (a.x - b.x) * (a.x - b.x) + (a.y - b.y) * (a.y - b.y) < eps * eps := by
    rcases heps.lt_or_eq with hpos | hz
    · have hpos' : (0 : ℝ) < ((eps : ℚ) : ℝ) := by exact_mod_cast hpos
      rw [Real.sqrt_lt' hpos']
      constructor
      · intro h
        have h2 : (a.x - b.x) ^ 2 + (a.y - b.y) ^ 2 < eps ^ 2 := by exact_mod_cast h
        nlinarith [h2]
      · intro h
        have h2 : (a.x - b.x) ^ 2 + (a.y - b.y) ^ 2 < eps ^ 2 := by nlinarith [h]
        exact_mod_cast h2
    · subst hz
      constructor
      · intro h
        have := Real.sqrt_nonneg ((((a.x - b.x) ^ 2 + (a.y - b.y) ^ 2 : ℚ) : ℝ))
        have h0 : (((0 : ℚ) : ℝ)) = 0 := by norm_cast
        rw [h0] at h
        linarith
      · intro h
        nlinarith [mul_self_nonneg (a.x - b.x), mul_self_nonneg (a.y - b.y)]
  unfold normalizeLoop
  rw [hh, hl]
  constructor
  · rintro ⟨h2, hd⟩
    simp only [ge_iff_le, h2, if_true, hiff.mp hd]
  · intro hn
    by_cases h2 : 2 ≤ loop.length
    · have hd : ¬ ((a.x - b.x) * (a.x - b.x) + (a.y - b.y) * (a.y - b.y) < eps * eps) :=
        fun hd => hn ⟨h2, hiff.mpr hd⟩
      simp only [ge_iff_le, h2, if_true, hd, if_false]
    · simp only [ge_iff_le, h2, if_false]

/-- C19: `makeTopoFromInput` builds the topology from the outer loop followed by the hole
loops in order; a loop of at least two points whose first and last points are at
Euclidean distance below `eps_close` first loses its last point; a loop left with fewer
than three points contributes nothing; every other loop appends its points as fresh
vertices (flag false) and one loop of the consecutive new indices. So `verts` has the
sum of the retained loop sizes, and the loops' index lists, concatenated, are
`0, 1, ..., verts.size - 1`: every index occurs in exactly one loop exactly once. -/
theorem C19_topology_construction (poly : InputPolygon) (eps : ℚ) (heps : 0 ≤ eps) :
    (∀ (loop : List QPointF) (a b : QPointF),
      loop.head? = some a → loop.getLast? = some b →
        ((2 ≤ loop.length
            ∧ Real.sqrt ((((a.x - b.x) ^ 2 + (a.y - b.y) ^ 2 : ℚ) : ℝ)) < ((eps : ℚ) : ℝ)) →
          normalizeLoop loop eps = loop.dropLast)
        ∧ (¬ (2 ≤ loop.length
            ∧ Real.sqrt ((((a.x - b.x) ^ 2 + (a.y - b.y) ^ 2 : ℚ) : ℝ)) < ((eps : ℚ) : ℝ)) →
          normalizeLoop loop eps = loop))
    ∧ makeTopoFromInput poly eps = specTopo poly eps
    ∧ (makeTopoFromInput poly eps).verts.length
        = ((retainedLoops poly eps).map List.length).sum
    ∧ ((makeTopoFromInput poly eps).loops.map (fun l => l.loopVertices)).flatten
        = List.range (makeTopoFromInput poly eps).verts.length
    ∧ (∀ v < (makeTopoFromInput poly eps).verts.length,
        (((makeTopoFromInput poly eps).loops.map (fun l => l.loopVertices)).flatten).count v
          = 1) := by
  have hidx := specTopo_indices poly eps
  rw [← makeTopoFromInput_eq_specTopo] at hidx
  refine ⟨fun loop a b ha hb => normalizeLoop_euclid loop eps heps a b ha hb,
    makeTopoFromInput_eq_specTopo poly eps, ?_, hidx, ?_⟩
  · rw [makeTopoFromInput_eq_specTopo]
    simp only [specTopo, List.length_map, List.length_flatten]
  · intro v hv
    rw [hidx]
    exact List.count_eq_one_of_mem (List.nodup_range _) (List.mem_range.mpr hv)

/-- Witness for C19: the square closed by a fifth point 5e-10 from its first point
keeps four vertices in one loop. -/
theorem C19_topology_construction_witness :
    (0 : ℚ) ≤ defaultEps
    ∧ makeTopoFromInput nearClosedSquare defaultEps = specTopo nearClosedSquare defaultEps
    ∧ ((makeTopoFromInput nearClosedSquare defaultEps).loops.map
        (fun l => l.loopVertices)).flatten = [0, 1, 2, 3] :=
  ⟨by decide!, (C19_topology_construction nearClosedSquare defaultEps (by decide!)).2.1,
    by decide!⟩

/-! ### Raw edges of a built topology -/

theorem getD_range' (s n j : Nat) (h : j < n) : (List.range' s n).getD j 0 = s + j := by
  rw [List.getD_eq_getElem?_getD, List.getElem?_range' s 1 h]
  simp

theorem getD_append_mid (pre L tl : List QPointF) (j : Nat) (h : j < L.length) :
    (pre ++ (L ++ tl)).getD (pre.length + j) default = L.getD j default := by
  rw [List.getD_eq_getElem?_getD, List.getD_eq_getElem?_getD,
    List.getElem?_append_right (Nat.le_add_right _ _), Nat.add_sub_cancel_left,
    List.getElem?_append_left h]

/-- Every raw edge built over the index blocks of the loops `R` is a cyclic edge of one
of them, its loop id is the position of that loop, and both of its indices are in range. -/
theorem rawEdges_loopBlocks (f : Bool) (R : List (List QPointF))
    (pre : List QPointF) (lid : Nat) :
    ∀ e ∈ buildRawEdgesFrom f lid (loopBlocks pre.length R),
      ∃ k L, R[k]? = some L ∧ e.loopId = lid + k ∧ ∃ i < L.length,
        e.vStart < (pre ++ R.flatten).length ∧ e.vEnd < (pre ++ R.flatten).length
        ∧ (i + 1) % L.length < L.length
        ∧ (pre ++ R.flatten).getD e.vStart default = L.getD i default
        ∧ (pre ++ R.flatten).getD e.vEnd default = L.getD ((i + 1) % L.length) default := by
  induction R generalizing pre lid with
  | nil => intro e he; simp [loopBlocks, buildRawEdgesFrom] at he
  | cons L rest ih =>
    intro e he
    simp only [loopBlocks, buildRawEdgesFrom, List.mem_append] at he
    rcases he with he | he
    · split_ifs at he with hlen
      · cases he
      · simp only [loopEdges, List.mem_map, List.mem_range, List.length_range'] at he
        obtain ⟨i, hi, rfl⟩ := he
        have hpos : 0 < L.length := by omega
        have hm : (i + 1) % L.length < L.length := Nat.mod_lt _ hpos
        refine ⟨0, L, by simp, by simp, i, hi, ?_, ?_, hm, ?_, ?_⟩
        · simp only [getD_range' _ _ _ hi, List.length_append, List.flatten_cons]
          omega
        · simp only [getD_range' _ _ _ hm, List.length_append, List.flatten_cons]
          omega
        · simp only [getD_range' _ _ _ hi, List.flatten_cons]
          exact getD_append_mid pre L _ i hi
        · simp only [getD_range' _ _ _ hm, List.flatten_cons]
          exact getD_append_mid pre L _ _ hm
    · have hl : pre.length + L.length = (pre ++ L).length := by simp
      rw [hl] at he
      obtain ⟨k, L', hk, hid, i, hi, h1, h2, hm, h3, h4⟩ := ih (pre ++ L) (lid + 1) e he
      have happ : pre ++ L ++ rest.flatten = pre ++ (L :: rest).flatten := by simp
      rw [happ] at h1 h2 h3 h4
      exact ⟨k + 1, L', by simpa using hk, by omega, i, hi, h1, h2, hm, h3, h4⟩

theorem vertPos_specTopo (poly : InputPolygon) (eps : ℚ) (i : Nat) :
    vertPos (specTopo poly eps) i = (retainedLoops poly eps).flatten.getD i default := by
  unfold vertPos specTopo
  simp only [List.getElem?_map, List.getD_eq_getElem?_getD]
  cases (retainedLoops poly eps).flatten[i]? <;> rfl

/-- Every raw edge of a built topology is a cyclic edge of the retained loop at the
position given by its loop id; its two indices are within `verts`. -/
theorem rawEdges_makeTopo (poly : InputPolygon) (eps : ℚ) (f : Bool) :
    ∀ e ∈ buildRawEdges (makeTopoFromInput poly eps) f,
      ∃ L, (retainedLoops poly eps)[e.loopId]? = some L ∧ ∃ i < L.length,
        e.vStart < (makeTopoFromInput poly eps).verts.length
        ∧ e.vEnd < (makeTopoFromInput poly eps).verts.length
        ∧ (i + 1) % L.length < L.length
        ∧ vertPos (makeTopoFromInput poly eps) e.vStart = L.getD i default
        ∧ vertPos (makeTopoFromInput poly eps) e.vEnd
            = L.getD ((i + 1) % L.length) default := by
  intro e he
  rw [makeTopoFromInput_eq_specTopo] at he ⊢
  have h := rawEdges_loopBlocks f (retainedLoops poly eps) [] 0 e
    (by simpa [buildRawEdges, specTopo] using he)
  obtain ⟨k, L, hk, hid, i, hi, h1, h2, hm, h3, h4⟩ := h
  simp only [List.nil_append, Nat.zero_add] at h1 h2 h3 h4 hid
  refine ⟨L, by rw [hid]; exact hk, i, hi, ?_, ?_, hm, ?_, ?_⟩
  · show e.vStart < (List.map _ _).length
    rw [List.length_map]; exact h1
  · show e.vEnd < (List.map _ _).length
    rw [List.length_map]; exact h2
  · rw [vertPos_specTopo]; exact h3
  · rw [vertPos_specTopo]; exact h4

/-! ### The loop-id convention -/

theorem retainedLoops_outer (poly : InputPolygon) (eps : ℚ)
    (h : 3 ≤ (normalizeLoop poly.outerLoop eps).length) :
    retainedLoops poly eps = normalizeLoop poly.outerLoop eps
      :: ((poly.holeLoops.map (fun l => normalizeLoop l eps)).filter
          (fun L => decide (3 ≤ L.length))) := by
  simp [retainedLoops, List.filter_cons, h]

/-- With the outer loop retained, a raw edge with loop id 0 is a cyclic edge of the
normalized outer loop and a raw edge with a positive loop id is a cyclic edge of a
normalized hole loop. -/
theorem rawEdges_loop_id (poly : InputPolygon) (eps : ℚ) (f : Bool)
    (h : 3 ≤ (normalizeLoop poly.outerLoop eps).length) :
    ∀ e ∈ buildRawEdges (makeTopoFromInput poly eps) f,
      (e.loopId = 0 → IsLoopEdge (normalizeLoop poly.outerLoop eps)
          (vertPos (makeTopoFromInput poly eps) e.vStart)
          (vertPos (makeTopoFromInput poly eps) e.vEnd))
      ∧ (e.loopId > 0 → ∃ hl ∈ poly.holeLoops, IsLoopEdge (normalizeLoop hl eps)
          (vertPos (makeTopoFromInput poly eps) e.vStart)
          (vertPos (makeTopoFromInput poly eps) e.vEnd)) := by
  intro e he
  obtain ⟨L, hL, i, hi, _, _, _, h3, h4⟩ := rawEdges_makeTopo poly eps f e he
  rw [retainedLoops_outer poly eps h] at hL
  constructor
  · intro h0
    rw [h0] at hL
    simp only [List.getElem?_cons_zero, Option.some.injEq] at hL
    subst hL
    exact ⟨i, hi, h3, h4⟩
  · intro hpos
    obtain ⟨k, hk⟩ : ∃ k, e.loopId = k + 1 := ⟨e.loopId - 1, by omega⟩
    rw [hk, List.getElem?_cons_succ] at hL
    have hmem := List.getElem?_mem hL
    obtain ⟨hl, hhl, rfl⟩ := List.mem_map.mp (List.mem_filter.mp hmem).1
    exact ⟨hl, hhl, i, hi, h3, h4⟩

theorem subsegment_cutFromLoop (poly : PolygonTopo) (e : RawEdge) (ep : ℚ)
    (s : AtomicSegment) (hs : IsSubSegmentOf poly e ep s) (L : List QPointF)
    (hL : IsLoopEdge L (vertPos poly e.vStart) (vertPos poly e.vEnd)) :
    CutFromLoop L s := by
  obtain ⟨tLo, tHi, h0, hlt, h1, _, hp0, hp1, _, _⟩ := hs
  exact ⟨_, _, hL, tLo, tHi, h0, hlt, h1, hp0, hp1⟩

/-- Every raw edge built over the index blocks of the loops `R` starts at a vertex of
the block of the loop whose position is its loop id. -/
theorem rawEdges_loopBlocks_start (f : Bool) (R : List (List QPointF)) (start lid : Nat) :
    ∀ e ∈ buildRawEdgesFrom f lid (loopBlocks start R),
      ∃ k L i, R[k]? = some L ∧ e.loopId = lid + k ∧ i < L.length
        ∧ e.vStart = start + ((R.take k).flatten).length + i := by
  induction R generalizing start lid with
  | nil => intro e he; simp [loopBlocks, buildRawEdgesFrom] at he
  | cons L rest ih =>
    intro e he
    simp only [loopBlocks, buildRawEdgesFrom, List.mem_append] at he
    rcases he with he | he
    · split_ifs at he with hlen
      · cases he
      · simp only [loopEdges, List.mem_map, List.mem_range, List.length_range'] at he
        obtain ⟨i, hi, rfl⟩ := he
        refine ⟨0, L, i, by simp, by simp, hi, ?_⟩
        simp only [getD_range' _ _ _ hi, List.take_zero, List.flatten_nil, List.length_nil]
        omega
    · obtain ⟨k, L', i, hk, hid, hi, hv⟩ := ih (start + L.length) (lid + 1) e he
      refine ⟨k + 1, L', i, by simpa using hk, by omega, hi, ?_⟩
      rw [hv]
      simp only [List.take_succ_cons, List.flatten_cons, List.length_append]
      omega

/-- With the outer loop retained (`n0` points after normalization), the vertices
`0 .. n0 - 1` are those created for the outer loop: a raw edge has loop id 0 exactly
when it starts at one of them, and a positive loop id exactly when it starts at a
vertex created for a hole loop. -/
theorem rawEdges_start_vertex (poly : InputPolygon) (eps : ℚ) (f : Bool)
    (h : 3 ≤ (normalizeLoop poly.outerLoop eps).length) :
    ∀ e ∈ buildRawEdges (makeTopoFromInput poly eps) f,
      (e.loopId = 0 ↔ e.vStart < (normalizeLoop poly.outerLoop eps).length)
      ∧ (e.loopId > 0 ↔ (normalizeLoop poly.outerLoop eps).length ≤ e.vStart) := by
  intro e he
  rw [makeTopoFromInput_eq_specTopo] at he
  have hh := rawEdges_loopBlocks_start f (retainedLoops poly eps) 0 0 e
    (by simpa [buildRawEdges, specTopo] using he)
  obtain ⟨k, L, i, hk, hid, hi, hv⟩ := hh
  rw [retainedLoops_outer poly eps h] at hk hv
  cases k with
  | zero =>
    simp only [List.getElem?_cons_zero, Option.some.injEq] at hk
    subst hk
    simp only [List.take_zero, List.flatten_nil, List.length_nil] at hv
    constructor
    · constructor
      · intro _; omega
      · intro _; omega
    · constructor
      · intro hp; omega
      · intro hle; omega
  | succ k =>
    simp only [List.take_succ_cons, List.flatten_cons, List.length_append] at hv
    constructor
    · constructor
      · intro h0; omega
      · intro hlt; omega
    · constructor
      · intro _; omega
      · intro _; omega


/-- With the outer loop retained, the vertex positions of the built topology are the
points of the normalized outer loop followed by those of the retained hole loops. -/
theorem verts_outer_first (poly : InputPolygon) (eps : ℚ)
    (h : 3 ≤ (normalizeLoop poly.outerLoop eps).length) :
    (makeTopoFromInput poly eps).verts.map (fun v => v.pos)
      = normalizeLoop poly.outerLoop eps
        ++ ((poly.holeLoops.map (fun l => normalizeLoop l eps)).filter
            (fun L => decide (3 ≤ L.length))).flatten := by
  rw [makeTopoFromInput_eq_specTopo]
  unfold specTopo
  simp only [List.map_map]
  rw [retainedLoops_outer poly eps h, List.flatten_cons]
  have e : ((fun (v : Vertex) => v.pos) ∘ fun pt => ({ pos := pt, isIntersection := false } : Vertex))
      = id := by
    funext pt; rfl
  rw [e, List.map_id]

/-- C20 fails as stated: when the outer loop has two points it is rejected, the hole
becomes loop 0, and all four atoms carry `loopId = 0` although they lie on the hole.
And with the outer loop retained, an atom with `loopId = 0` can still lie on a hole
loop: in the square whose hole shares part of its left side, the atom from (0,2) to
(0,1) is emitted twice, once for the outer loop with `loopId = 0` and once for the hole
with `loopId = 1`, and both are cut from the hole edge (0,2)-(0,1). -/
theorem C20_counterexample_rejected_outer :
    (degenerateOuterPolygon.outerLoop ≠ []
      ∧ retainedLoops degenerateOuterPolygon defaultEps = degenerateOuterPolygon.holeLoops
      ∧ (buildRawEdges (makeTopoFromInput degenerateOuterPolygon defaultEps) true).map
          (fun e => e.loopId) = [0, 0, 0, 0]
      ∧ (prepare degenerateOuterPolygon emptyPolygon epsGeomS epsParamS).atoms
          = [⟨⟨1, 1⟩, ⟨2, 1⟩, true, false, 0⟩, ⟨⟨2, 1⟩, ⟨2, 2⟩, true, false, 0⟩,
             ⟨⟨2, 2⟩, ⟨1, 2⟩, true, false, 0⟩, ⟨⟨1, 2⟩, ⟨1, 1⟩, true, false, 0⟩])
    ∧ (3 ≤ (normalizeLoop notchedSquare.outerLoop defaultEps).length
      ∧ (⟨⟨0, 2⟩, ⟨0, 1⟩, true, false, 0⟩ : AtomicSegment)
          ∈ (prepare notchedSquare emptyPolygon epsGeomS epsParamS).atoms
      ∧ (⟨⟨0, 2⟩, ⟨0, 1⟩, true, false, 1⟩ : AtomicSegment)
          ∈ (prepare notchedSquare emptyPolygon epsGeomS epsParamS).atoms
      ∧ ∃ hl ∈ notchedSquare.holeLoops,
          CutFromLoop (normalizeLoop hl defaultEps) ⟨⟨0, 2⟩, ⟨0, 1⟩, true, false, 0⟩) :=
  ⟨by decide!, by decide!, by decide!, by decide!,
   [⟨0, 1⟩, ⟨1, 1⟩, ⟨1, 2⟩, ⟨0, 2⟩], by decide!,
   ⟨0, 2⟩, ⟨0, 1⟩, ⟨3, by decide!, by decide!, by decide!⟩, 0, 1, by norm_num, by norm_num,
   by norm_num, by decide!, by decide!⟩

/-- C20, amended: when the outer loop of a polygon still has at least three points
after normalization (`n0` points), the vertices of its topology are the points of the
normalized outer loop (indices `0 .. n0 - 1`) followed by those of the retained hole
loops; every raw edge with loop id 0 is an edge of the normalized outer loop and every
raw edge with a positive loop id is an edge of one of its normalized hole loops; a raw
edge has loop id 0 exactly when its start vertex is one of the `n0` vertices created
for the outer loop, and a positive loop id exactly when its start vertex was created
for a hole loop; and (for `eps_param > 0`)
every atom is a part of a raw edge of its source polygon with the same loop id, so it
has `loopId > 0` exactly when that raw edge starts at a vertex created for a hole loop,
an atom with `loopId = 0` is cut from an edge of the outer loop and an atom with
`loopId > 0` from an edge of a hole loop. -/
theorem C20_loop_id_convention (A B : InputPolygon) (eg ep : ℚ) (hep : 0 < ep) :
    (∀ (poly : InputPolygon) (eps : ℚ) (f : Bool),
      3 ≤ (normalizeLoop poly.outerLoop eps).length →
      ∀ e ∈ buildRawEdges (makeTopoFromInput poly eps) f,
        (e.loopId = 0 → IsLoopEdge (normalizeLoop poly.outerLoop eps)
            (vertPos (makeTopoFromInput poly eps) e.vStart)
            (vertPos (makeTopoFromInput poly eps) e.vEnd))
        ∧ (e.loopId > 0 → ∃ hl ∈ poly.holeLoops, IsLoopEdge (normalizeLoop hl eps)
            (vertPos (makeTopoFromInput poly eps) e.vStart)
            (vertPos (makeTopoFromInput poly eps) e.vEnd)))
    ∧ (3 ≤ (normalizeLoop A.outerLoop defaultEps).length →
        ∀ s ∈ (prepare A B eg ep).atoms, s.fromA = true →
          (s.loopId = 0 → CutFromLoop (normalizeLoop A.outerLoop defaultEps) s)
          ∧ (s.loopId > 0 →
              ∃ hl ∈ A.holeLoops, CutFromLoop (normalizeLoop hl defaultEps) s))
    ∧ (3 ≤ (normalizeLoop B.outerLoop defaultEps).length →
        ∀ s ∈ (prepare A B eg ep).atoms, s.fromA = false →
          (s.loopId = 0 → CutFromLoop (normalizeLoop B.outerLoop defaultEps) s)
          ∧ (s.loopId > 0 →
              ∃ hl ∈ B.holeLoops, CutFromLoop (normalizeLoop hl defaultEps) s))
    ∧ (∀ (poly : InputPolygon) (eps : ℚ) (f : Bool),
      3 ≤ (normalizeLoop poly.outerLoop eps).length →
      ∀ e ∈ buildRawEdges (makeTopoFromInput poly eps) f,
        (e.loopId = 0 ↔ e.vStart < (normalizeLoop poly.outerLoop eps).length)
        ∧ (e.loopId > 0 ↔ (normalizeLoop poly.outerLoop eps).length ≤ e.vStart))
    ∧ (3 ≤ (normalizeLoop A.outerLoop defaultEps).length →
        ∀ s ∈ (prepare A B eg ep).atoms, s.fromA = true →
          ∃ e ∈ buildRawEdges (makeTopoFromInput A defaultEps) true,
            IsSubSegmentOf (makeTopoFromInput A defaultEps) e ep s
            ∧ s.loopId = e.loopId
            ∧ (s.loopId > 0 ↔ (normalizeLoop A.outerLoop defaultEps).length ≤ e.vStart))
    ∧ (3 ≤ (normalizeLoop B.outerLoop defaultEps).length →
        ∀ s ∈ (prepare A B eg ep).atoms, s.fromA = false →
          ∃ e ∈ buildRawEdges (makeTopoFromInput B defaultEps) false,
            IsSubSegmentOf (makeTopoFromInput B defaultEps) e ep s
            ∧ s.loopId = e.loopId
            ∧ (s.loopId > 0 ↔ (normalizeLoop B.outerLoop defaultEps).length ≤ e.vStart))
    ∧ (∀ (poly : InputPolygon) (eps : ℚ),
      3 ≤ (normalizeLoop poly.outerLoop eps).length →
        (makeTopoFromInput poly eps).verts.map (fun v => v.pos)
          = normalizeLoop poly.outerLoop eps
            ++ ((poly.holeLoops.map (fun l => normalizeLoop l eps)).filter
                (fun L => decide (3 ≤ L.length))).flatten) := by
  refine ⟨fun poly eps f h => rawEdges_loop_id poly eps f h, ?_, ?_,
    fun poly eps f h => rawEdges_start_vertex poly eps f h, ?_, ?_,
    fun poly eps h => verts_outer_first poly eps h⟩
  · intro hA s hs hf
    rcases atoms_subsegment _ _ eg ep hep s hs with ⟨e, he, _, hsub⟩ | ⟨e, he, hf', _⟩
    · have hid : s.loopId = e.loopId := hsub.choose_spec.choose_spec.2.2.2.2.2.2.1
      have hr := rawEdges_loop_id A defaultEps true hA e he
      constructor
      · intro h0
        exact subsegment_cutFromLoop _ e ep s hsub _ (hr.1 (hid ▸ h0))
      · intro hp
        obtain ⟨hl, hhl, hedge⟩ := hr.2 (hid ▸ hp)
        exact ⟨hl, hhl, subsegment_cutFromLoop _ e ep s hsub _ hedge⟩
    · rw [hf] at hf'; cases hf'
  · intro hB s hs hf
    rcases atoms_subsegment _ _ eg ep hep s hs with ⟨e, he, hf', _⟩ | ⟨e, he, _, hsub⟩
    · rw [hf] at hf'; cases hf'
    · have hid : s.loopId = e.loopId := hsub.choose_spec.choose_spec.2.2.2.2.2.2.1
      have hr := rawEdges_loop_id B defaultEps false hB e he
      constructor
      · intro h0
        exact subsegment_cutFromLoop _ e ep s hsub _ (hr.1 (hid ▸ h0))
      · intro hp
        obtain ⟨hl, hhl, hedge⟩ := hr.2 (hid ▸ hp)
        exact ⟨hl, hhl, subsegment_cutFromLoop _ e ep s hsub _ hedge⟩
  · intro hA s hs hf
    rcases atoms_subsegment _ _ eg ep hep s hs with ⟨e, he, _, hsub⟩ | ⟨e, he, hf', _⟩
    · have hid : s.loopId = e.loopId := hsub.choose_spec.choose_spec.2.2.2.2.2.2.1
      refine ⟨e, he, hsub, hid, ?_⟩
      rw [hid]
      exact (rawEdges_start_vertex A defaultEps true hA e he).2
    · rw [hf] at hf'; cases hf'
  · intro hB s hs hf
    rcases atoms_subsegment _ _ eg ep hep s hs with ⟨e, he, hf', _⟩ | ⟨e, he, _, hsub⟩
    · rw [hf] at hf'; cases hf'
    · have hid : s.loopId = e.loopId := hsub.choose_spec.choose_spec.2.2.2.2.2.2.1
      refine ⟨e, he, hsub, hid, ?_⟩
      rw [hid]
      exact (rawEdges_start_vertex B defaultEps false hB e he).2

/-- Witness for C20: the unit square with a centred hole, where the four atoms of the
hole are those with a positive loop id; and the square whose hole shares part of its
left side, where the two atoms from (0,2) to (0,1) are told apart by the raw edge they
are a part of. -/
theorem C20_loop_id_convention_witness :
    ((0 : ℚ) < epsParamS
      ∧ 3 ≤ (normalizeLoop holedSquare.outerLoop defaultEps).length
      ∧ (∀ s ∈ (prepare holedSquare emptyPolygon epsGeomS epsParamS).atoms, s.fromA = true →
          (s.loopId = 0 → CutFromLoop (normalizeLoop holedSquare.outerLoop defaultEps) s)
          ∧ (s.loopId > 0 →
              ∃ hl ∈ holedSquare.holeLoops, CutFromLoop (normalizeLoop hl defaultEps) s))
      ∧ ((prepare holedSquare emptyPolygon epsGeomS epsParamS).atoms.filter
          (fun s => decide (s.loopId > 0))).length = 4)
    ∧ (3 ≤ (normalizeLoop notchedSquare.outerLoop defaultEps).length
      ∧ ∀ s ∈ (prepare notchedSquare emptyPolygon epsGeomS epsParamS).atoms,
          s.fromA = true →
          ∃ e ∈ buildRawEdges (makeTopoFromInput notchedSquare defaultEps) true,
            IsSubSegmentOf (makeTopoFromInput notchedSquare defaultEps) e epsParamS s
            ∧ s.loopId = e.loopId
            ∧ (s.loopId > 0
                ↔ (normalizeLoop notchedSquare.outerLoop defaultEps).length ≤ e.vStart)) :=
  ⟨⟨by decide!, by decide!,
    (C20_loop_id_convention holedSquare emptyPolygon epsGeomS epsParamS (by decide!)).2.1
      (by decide!),
    by decide!⟩,
   ⟨by decide!,
    (C20_loop_id_convention notchedSquare emptyPolygon epsGeomS epsParamS
      (by decide!)).2.2.2.2.1 (by decide!)⟩⟩

/-! ### No error branch is taken -/

theorem divChecked_ne (a b : ℚ) (h : b ≠ 0) : divChecked a b = some (a / b) := by
  simp [divChecked, h]

theorem paramOnChecked_eq (O d : QPointF) (dd eg : ℚ) (heg : 0 < eg) (P : QPointF) :
    paramOnChecked O d dd eg P = some (paramOn O d dd eg P) := by
  unfold paramOnChecked paramOn
  by_cases h : dd < eg
  · simp [h]
  · have hne : dd ≠ 0 := by
      intro h0; apply h; rw [h0]; exact heg
    simp [h, divChecked_ne _ _ hne]

theorem intersectSegmentsChecked_eq (A0 A1 B0 B1 : QPointF) (eg : ℚ) (heg : 0 < eg) :
    intersectSegmentsChecked A0 A1 B0 B1 eg = some (intersectSegments A0 A1 B0 B1 eg) := by
  unfold intersectSegmentsChecked intersectSegments
  simp only [paramOnChecked_eq _ _ _ _ heg, Option.some_bind]
  by_cases h : |cross2d (A1 - A0) (B1 - B0)| > eg
  · have hne : cross2d (A1 - A0) (B1 - B0) ≠ 0 := by
      intro h0
      rw [h0, abs_zero] at h
      exact absurd heg (not_lt.mpr (le_of_lt h))
    simp only [h, if_true, divChecked_ne _ _ hne, Option.some_bind]
    split_ifs <;> rfl
  · simp only [h, if_false]
    split_ifs
    · rfl
    · cases intervalIntersection 0 1
          (paramOn A0 (A1 - A0) (dot2d (A1 - A0) (A1 - A0)) eg B0)
          (paramOn A0 (A1 - A0) (dot2d (A1 - A0) (A1 - A0)) eg B1) with
      | none => rfl
      | some pa =>
        obtain ⟨a1, a2⟩ := pa
        simp only
        cases intervalIntersection 0 1
            (paramOn B0 (B1 - B0) (dot2d (B1 - B0) (B1 - B0)) eg A0)
            (paramOn B0 (B1 - B0) (dot2d (B1 - B0) (B1 - B0)) eg A1) with
        | none => rfl
        | some pb =>
          obtain ⟨b1, b2⟩ := pb
          simp only
          split_ifs <;> rfl

theorem edgeAtChecked_eq {α : Type} (loop : List α) (d : α) (i : Nat) (hi : i < loop.length) :
    edgeAtChecked loop i = some (loop.getD i d, loop.getD ((i + 1) % loop.length) d) := by
  have hm : (i + 1) % loop.length < loop.length := Nat.mod_lt _ (by omega)
  unfold edgeAtChecked
  rw [List.getElem?_eq_getElem hi, List.getElem?_eq_getElem hm, List.getD_eq_getElem _ _ hi,
    List.getD_eq_getElem _ _ hm]
  rfl

theorem rayToggleChecked_eq (a b p : QPointF) (eps : ℚ) :
    rayToggleChecked a b p eps = some (rayToggle a b p eps) := by
  unfold rayToggleChecked rayToggle
  by_cases hc : ((decide (a.y > p.y)) != (decide (b.y > p.y))) = true
  · have hne : b.y - a.y ≠ 0 := by
      intro h0
      have hab : b.y = a.y := by linarith
      rw [hab] at hc
      simp at hc
    simp only [hc, if_true, divChecked_ne _ _ hne, Option.some_bind]
  · simp only [hc, if_false]
    rfl

theorem foldl_onEdge_checked (loop : List QPointF) (p : QPointF) (eps : ℚ) (l : List Nat)
    (hl : ∀ i ∈ l, i < loop.length) (b : Bool) :
    l.foldl
      (fun (acc : Option Bool) i =>
        acc.bind fun found =>
          if found then some true
          else (edgeAtChecked loop i).bind fun e => some (onEdgeTest e.1 e.2 p eps))
      (some b)
    = some (b || l.any (fun i => onEdgeTest (loop.getD i default)
        (loop.getD ((i + 1) % loop.length) default) p eps)) := by
  induction l generalizing b with
  | nil => simp
  | cons i rest ih =>
    have hi := hl i (List.mem_cons_self _ _)
    have hr : ∀ j ∈ rest, j < loop.length := fun j hj => hl j (List.mem_cons_of_mem _ hj)
    rw [List.foldl_cons, Option.some_bind]
    cases b with
    | true =>
      simp only [if_true]
      rw [ih hr]; simp
    | false =>
      simp only [Bool.false_eq_true, if_false, edgeAtChecked_eq loop default i hi,
        Option.some_bind]
      rw [ih hr]; simp

theorem foldl_ray_checked (loop : List QPointF) (p : QPointF) (eps : ℚ) (l : List Nat)
    (hl : ∀ i ∈ l, i < loop.length) (b : Bool) :
    l.foldl
      (fun (acc : Option Bool) i =>
        acc.bind fun inside => (edgeAtChecked loop i).bind fun e =>
          (rayToggleChecked e.1 e.2 p eps).bind fun t =>
            some (if t then !inside else inside))
      (some b)
    = some (l.foldl
        (fun inside i =>
          if rayToggle (loop.getD i default) (loop.getD ((i + 1) % loop.length) default) p eps
          then !inside else inside)
        b) := by
  induction l generalizing b with
  | nil => simp
  | cons i rest ih =>
    have hi := hl i (List.mem_cons_self _ _)
    have hr : ∀ j ∈ rest, j < loop.length := fun j hj => hl j (List.mem_cons_of_mem _ hj)
    rw [List.foldl_cons, List.foldl_cons, Option.some_bind,
      edgeAtChecked_eq loop default i hi, Option.some_bind, rayToggleChecked_eq,
      Option.some_bind]
    exact ih hr _

theorem pointInSimpleLoopChecked_eq (loop : List QPointF) (p : QPointF) (eps : ℚ) :
    pointInSimpleLoopChecked loop p eps = some (pointInSimpleLoop loop p eps) := by
  unfold pointInSimpleLoopChecked pointInSimpleLoop
  have hl : ∀ i ∈ List.range loop.length, i < loop.length :=
    fun i hi => List.mem_range.mp hi
  simp only [foldl_onEdge_checked loop p eps _ hl, foldl_ray_checked loop p eps _ hl,
    Option.some_bind, Bool.false_or]
  split_ifs <;> rfl

theorem foldl_holes_checked (p : QPointF) (holes : List (List QPointF)) (b : Bool) :
    holes.foldl
      (fun (acc : Option Bool) h =>
        acc.bind fun found =>
          if found then some true else pointInSimpleLoopChecked h p defaultEps)
      (some b)
    = some (b || holes.any (fun h => pointInSimpleLoop h p defaultEps)) := by
  induction holes generalizing b with
  | nil => simp
  | cons h rest ih =>
    rw [List.foldl_cons, Option.some_bind]
    cases b with
    | true => simp only [if_true]; rw [ih]; simp
    | false =>
      simp only [Bool.false_eq_true, if_false]
      rw [pointInSimpleLoopChecked_eq, ih]; simp

theorem pointInPolygonWithHolesChecked_eq (poly : InputPolygon) (p : QPointF) :
    pointInPolygonWithHolesChecked poly p = some (pointInPolygonWithHoles poly p) := by
  unfold pointInPolygonWithHolesChecked pointInPolygonWithHoles
  rw [pointInSimpleLoopChecked_eq, foldl_holes_checked]
  simp only [Option.some_bind, Bool.false_or]
  split_ifs <;> rfl

theorem coincidentOppositeChecked_eq (hypot : ℚ → ℚ → ℚ) (seg : AtomicSegment)
    (A B : InputPolygon) :
    coincidentOppositeChecked hypot seg A B = some (coincidentOpposite hypot seg A B) := by
  unfold coincidentOppositeChecked coincidentOpposite
  by_cases h : hypot (seg.p1.y - seg.p0.y) (-(seg.p1.x - seg.p0.x)) < 1 / 1000000000000
  · simp only [h, if_true]
  · have hne : hypot (seg.p1.y - seg.p0.y) (-(seg.p1.x - seg.p0.x)) ≠ 0 := by
      intro h0
      apply h
      rw [h0]
      norm_num
    simp only [h, if_false, divChecked_ne _ _ hne, Option.some_bind,
      pointInPolygonWithHolesChecked_eq]

theorem loopEdgesChecked_eq (lid : Nat) (lv : List Nat) (f : Bool) :
    loopEdgesChecked lid lv f = some (loopEdges lid lv f) := by
  have key : ∀ (l : List Nat), (∀ i ∈ l, i < lv.length) → ∀ out : List RawEdge,
      l.foldl
        (fun (acc : Option (List RawEdge)) i =>
          acc.bind fun out => (edgeAtChecked lv i).bind fun e =>
            some (out ++ [{ loopId := lid, vStart := e.1, vEnd := e.2, fromA := f }]))
        (some out)
      = some (out ++ l.map fun i =>
          { loopId := lid, vStart := lv.getD i 0, vEnd := lv.getD ((i + 1) % lv.length) 0,
            fromA := f }) := by
    intro l
    induction l with
    | nil => intro _ out; simp
    | cons i rest ih =>
      intro hl out
      have hi := hl i (List.mem_cons_self _ _)
      have hr : ∀ j ∈ rest, j < lv.length := fun j hj => hl j (List.mem_cons_of_mem _ hj)
      rw [List.foldl_cons, Option.some_bind, edgeAtChecked_eq lv 0 i hi, Option.some_bind,
        ih hr]
      simp
  unfold loopEdgesChecked loopEdges
  rw [key _ (fun i hi => List.mem_range.mp hi)]
  simp

theorem buildRawEdgesFromChecked_eq (f : Bool) (lid : Nat) (ls : List LoopTopo) :
    buildRawEdgesFromChecked f lid ls = some (buildRawEdgesFrom f lid ls) := by
  induction ls generalizing lid with
  | nil => rfl
  | cons loop rest ih =>
    unfold buildRawEdgesFromChecked buildRawEdgesFrom
    rw [ih, loopEdgesChecked_eq]
    split_ifs <;> rfl

theorem vertPosChecked_eq (poly : PolygonTopo) (i : Nat) (hi : i < poly.verts.length) :
    vertPosChecked poly i = some (vertPos poly i) := by
  unfold vertPosChecked vertPos
  rw [List.getElem?_eq_getElem hi]
  rfl

theorem loop_indices_in_range (poly : InputPolygon) (eps : ℚ) :
    ∀ loop ∈ (makeTopoFromInput poly eps).loops, ∀ v ∈ loop.loopVertices,
      v < (makeTopoFromInput poly eps).verts.length := by
  intro loop hloop v hv
  have hidx := specTopo_indices poly eps
  rw [← makeTopoFromInput_eq_specTopo] at hidx
  have hm : v ∈ ((makeTopoFromInput poly eps).loops.map (fun l => l.loopVertices)).flatten :=
    List.mem_flatten.mpr ⟨loop.loopVertices, List.mem_map_of_mem _ hloop, hv⟩
  rw [hidx] at hm
  exact List.mem_range.mp hm

/-- C18: for `eps_geom > 0` no error branch is taken. In a topology built by
`makeTopoFromInput` every index stored in a loop is within `verts`; `buildRawEdges` with
its reads `loop[i]` and `loop[(i+1) % n]` checked succeeds and every raw edge's two
indices read a vertex; and the kernel, the point-in-loop test and the coincidence probe
with every division (and, in the loop test, every index read) checked return the same
value as the unchecked functions: every divisor is non-zero, every read is in range. -/
theorem C18_no_error_branch (eg : ℚ) (heg : 0 < eg) :
    (∀ (poly : InputPolygon) (eps : ℚ),
      (∀ loop ∈ (makeTopoFromInput poly eps).loops, ∀ v ∈ loop.loopVertices,
        v < (makeTopoFromInput poly eps).verts.length)
      ∧ ∀ f : Bool,
        buildRawEdgesChecked (makeTopoFromInput poly eps) f
          = some (buildRawEdges (makeTopoFromInput poly eps) f)
        ∧ ∀ e ∈ buildRawEdges (makeTopoFromInput poly eps) f,
          vertPosChecked (makeTopoFromInput poly eps) e.vStart
              = some (vertPos (makeTopoFromInput poly eps) e.vStart)
          ∧ vertPosChecked (makeTopoFromInput poly eps) e.vEnd
              = some (vertPos (makeTopoFromInput poly eps) e.vEnd))
    ∧ (∀ A0 A1 B0 B1 : QPointF,
        intersectSegmentsChecked A0 A1 B0 B1 eg = some (intersectSegments A0 A1 B0 B1 eg))
    ∧ (∀ (loop : List QPointF) (p : QPointF) (eps : ℚ),
        pointInSimpleLoopChecked loop p eps = some (pointInSimpleLoop loop p eps))
    ∧ (∀ (hypot : ℚ → ℚ → ℚ) (seg : AtomicSegment) (A B : InputPolygon),
        coincidentOppositeChecked hypot seg A B = some (coincidentOpposite hypot seg A B)) := by
  refine ⟨?_, fun A0 A1 B0 B1 => intersectSegmentsChecked_eq A0 A1 B0 B1 eg heg,
    pointInSimpleLoopChecked_eq, coincidentOppositeChecked_eq⟩
  intro poly eps
  refine ⟨loop_indices_in_range poly eps, fun f => ⟨buildRawEdgesFromChecked_eq f 0 _, ?_⟩⟩
  intro e he
  obtain ⟨L, _, i, _, h1, h2, _, _, _⟩ := rawEdges_makeTopo poly eps f e he
  exact ⟨vertPosChecked_eq _ _ h1, vertPosChecked_eq _ _ h2⟩

/-- Witness for C18: the checked kernel on the crossing edges of scenario S1. -/
theorem C18_no_error_branch_witness :
    (0 : ℚ) < epsGeomS
    ∧ intersectSegmentsChecked ⟨2, 0⟩ ⟨2, 2⟩ ⟨1, 1⟩ ⟨3, 1⟩ epsGeomS
        = some (SegmentIntersection.Point (1 / 2) (1 / 2) ⟨2, 1⟩) :=
  ⟨by decide!,
   ((C18_no_error_branch epsGeomS (by decide!)).2.1 ⟨2, 0⟩ ⟨2, 2⟩ ⟨1, 1⟩ ⟨3, 1⟩).trans
     (by decide!)⟩

/-! ### T-junctions -/

theorem clamp01_id (t : ℚ) (h0 : 0 ≤ t) (h1 : t ≤ 1) : clamp01 t = t := by
  unfold clamp01
  have a : ¬ (t < 0) := not_lt.mpr h0
  have b : ¬ (t > 1) := not_lt.mpr h1
  simp only [a, if_false, b]

/-- Two segments that meet at the point `V`, at parameter `t0` of the first and `u` of
the second, and whose directions have a cross product above `eps_geom`: the kernel
reports the point `V` with exactly these parameters. -/
theorem intersectSegments_meet (A0 A1 B0 B1 V : QPointF) (eg t0 u : ℚ) (heg : 0 ≤ eg)
    (hx : |cross2d (A1 - A0) (B1 - B0)| > eg)
    (hVA : V = A0 + (A1 - A0) * t0) (hVB : V = B0 + (B1 - B0) * u)
    (ht0 : 0 ≤ t0) (ht1 : t0 ≤ 1) (hu0 : 0 ≤ u) (hu1 : u ≤ 1) :
    intersectSegments A0 A1 B0 B1 eg = SegmentIntersection.Point t0 u V := by
  have hne : cross2d (A1 - A0) (B1 - B0) ≠ 0 := by
    intro h0
    rw [h0, abs_zero] at hx
    exact absurd hx (not_lt.mpr heg)
  obtain ⟨ax, ay⟩ := A0
  obtain ⟨bx, by_⟩ := A1
  obtain ⟨px, py⟩ := B0
  obtain ⟨qx, qy⟩ := B1
  have hxe : ax + (bx - ax) * t0 = px + (qx - px) * u := by
    have := congrArg QPointF.x (hVA.symm.trans hVB)
    exact this
  have hye : ay + (by_ - ay) * t0 = py + (qy - py) * u := by
    have := congrArg QPointF.y (hVA.symm.trans hVB)
    exact this
  have hne2 : (bx - ax) * (qy - py) - (by_ - ay) * (qx - px) ≠ 0 := hne
  have ht : cross2d ((⟨px, py⟩ : QPointF) - ⟨ax, ay⟩) ((⟨qx, qy⟩ : QPointF) - ⟨px, py⟩)
      / cross2d ((⟨bx, by_⟩ : QPointF) - ⟨ax, ay⟩) ((⟨qx, qy⟩ : QPointF) - ⟨px, py⟩) = t0 := by
    rw [div_eq_iff hne]
    show (px - ax) * (qy - py) - (py - ay) * (qx - px)
      = t0 * ((bx - ax) * (qy - py) - (by_ - ay) * (qx - px))
    linear_combination (-(qy - py)) * hxe + (qx - px) * hye
  have hu : cross2d ((⟨px, py⟩ : QPointF) - ⟨ax, ay⟩) ((⟨bx, by_⟩ : QPointF) - ⟨ax, ay⟩)
      / cross2d ((⟨bx, by_⟩ : QPointF) - ⟨ax, ay⟩) ((⟨qx, qy⟩ : QPointF) - ⟨px, py⟩) = u := by
    rw [div_eq_iff hne]
    show (px - ax) * (by_ - ay) - (py - ay) * (bx - ax)
      = u * ((bx - ax) * (qy - py) - (by_ - ay) * (qx - px))
    linear_combination (-(by_ - ay)) * hxe + (bx - ax) * hye
  unfold intersectSegments
  simp only [hx, if_true, ht, hu]
  have hr : t0 ≥ -eg ∧ t0 ≤ 1 + eg ∧ u ≥ -eg ∧ u ≤ 1 + eg :=
    ⟨by linarith, by linarith, by linarith, by linarith⟩
  rw [if_pos hr, clamp01_id t0 ht0 ht1, clamp01_id u hu0 hu1, ← hVA]

theorem uniqueFrom_sublist (ep last : ℚ) (l : List ℚ) :
    List.Sublist (uniqueFrom ep last l) l := by
  induction l generalizing last with
  | nil => exact List.Sublist.slnil
  | cons x xs ih =>
    simp only [uniqueFrom]
    split_ifs
    · exact List.Sublist.cons _ (ih last)
    · exact List.Sublist.cons₂ _ (ih x)

theorem uniqueFrom_cover (ep : ℚ) (hep : 0 < ep) (last : ℚ) (l : List ℚ) :
    ∀ c ∈ last :: l, ∃ k ∈ last :: uniqueFrom ep last l, |k - c| < ep := by
  induction l generalizing last with
  | nil =>
    intro c hc
    simp only [List.mem_singleton] at hc
    subst hc
    exact ⟨c, List.mem_cons_self _ _, by simpa using hep⟩
  | cons x xs ih =>
    intro c hc
    rcases List.mem_cons.mp hc with rfl | hc
    · exact ⟨c, List.mem_cons_self _ _, by simpa using hep⟩
    · simp only [uniqueFrom]
      split_ifs with h
      · rcases List.mem_cons.mp hc with rfl | hc
        · exact ⟨last, List.mem_cons_self _ _, h⟩
        · exact ih last c (List.mem_cons_of_mem _ hc)
      · obtain ⟨k, hk, hkc⟩ := ih x c hc
        exact ⟨k, List.mem_cons_of_mem _ hk, hkc⟩

theorem cutsAt_initWork (raw : List RawEdge) (k : Nat) (hk : k < raw.length) :
    (0 : ℚ) ∈ cutsAt (initWork raw) k ∧ (1 : ℚ) ∈ cutsAt (initWork raw) k := by
  unfold cutsAt initWork
  rw [List.getD_eq_getElem _ _ (by simpa using hk)]
  simp

theorem injectSelfCollinearCuts_mono (poly : PolygonTopo) (rawEdges : List RawEdge)
    (eg ep : ℚ) (work : List EdgeWork) (k : Nat) (c : ℚ) (h : c ∈ cutsAt work k) :
    c ∈ cutsAt (injectSelfCollinearCuts poly rawEdges work eg ep) k := by
  unfold injectSelfCollinearCuts
  simp only []
  refine foldl_inv _ (fun (w : List EdgeWork) => c ∈ cutsAt w k) ?_ _ _ h
  intro st i hst
  refine foldl_inv _ (fun (w : List EdgeWork) => c ∈ cutsAt w k) ?_ _ _ hst
  intro st2 j hst2
  exact selfPairStep_mono poly rawEdges eg st2 i j k c hst2

/-- Every work item of B still has the cut parameters 0 and 1 when the passes are done. -/
theorem cutWork_endsB (polyA polyB : PolygonTopo) (eg ep : ℚ) (j : Nat)
    (hj : j < (buildRawEdges polyB false).length) :
    (0 : ℚ) ∈ cutsAt (cutWork polyA polyB eg ep).2 j
      ∧ (1 : ℚ) ∈ cutsAt (cutWork polyA polyB eg ep).2 j := by
  have h := cutsAt_initWork (buildRawEdges polyB false) j hj
  unfold cutWork
  simp only []
  exact ⟨(crossCuts_mono_cuts polyA polyB eg _ _ j 0).2
      (injectSelfCollinearCuts_mono _ _ eg ep _ j 0 h.1),
    (crossCuts_mono_cuts polyA polyB eg _ _ j 1).2
      (injectSelfCollinearCuts_mono _ _ eg ep _ j 1 h.2)⟩

/-- C14: for `eps_param > 0` every atom returned by `computeAtomicSegments` is the part
of a raw edge of its own polygon between parameters `0 <= tLo < tHi <= 1` with
`tHi - tLo >= eps_param`, and carries that edge's loop id; hence every endpoint emitted
by any of the four operations lies on a raw edge of the topology of A or of B, and
every raw edge of a built topology is a cyclic edge of a retained loop of its input
polygon. -/
theorem C14_atoms_are_subsegments (eg ep : ℚ) (hep : 0 < ep) :
    (∀ (polyA polyB : PolygonTopo), ∀ s ∈ computeAtomicSegments polyA polyB eg ep,
      (∃ e ∈ buildRawEdges polyA true, s.fromA = true ∧ IsSubSegmentOf polyA e ep s)
      ∨ (∃ e ∈ buildRawEdges polyB false, s.fromA = false ∧ IsSubSegmentOf polyB e ep s))
    ∧ (∀ (hypot : ℚ → ℚ → ℚ) (A B : InputPolygon) (l : List QPointF),
        (l ∈ computeAdditionSegments hypot (prepare A B eg ep) A B
          ∨ l ∈ computeIntersectionSegments hypot (prepare A B eg ep) A B
          ∨ l ∈ computeSubtractionABSegments hypot (prepare A B eg ep) A B
          ∨ l ∈ computeSubtractionBASegments hypot (prepare A B eg ep) A B) →
        ∀ p ∈ l,
          OnBoundary (makeTopoFromInput A defaultEps)
              (buildRawEdges (makeTopoFromInput A defaultEps) true) p
          ∨ OnBoundary (makeTopoFromInput B defaultEps)
              (buildRawEdges (makeTopoFromInput B defaultEps) false) p)
    ∧ (∀ (poly : InputPolygon) (eps : ℚ) (f : Bool),
        ∀ e ∈ buildRawEdges (makeTopoFromInput poly eps) f,
          ∃ L ∈ retainedLoops poly eps,
            IsLoopEdge L (vertPos (makeTopoFromInput poly eps) e.vStart)
              (vertPos (makeTopoFromInput poly eps) e.vEnd)) := by
  refine ⟨fun polyA polyB => atoms_subsegment polyA polyB eg ep hep, ?_, ?_⟩
  swap
  · intro poly eps f e he
    obtain ⟨L, hL, i, hi, _, _, _, h3, h4⟩ := rawEdges_makeTopo poly eps f e he
    exact ⟨L, List.getElem?_mem hL, i, hi, h3, h4⟩
  intro hypot A B l hl p hp
  obtain ⟨s, hs, rfl⟩ := emitted_from_atom hypot _ A B l hl
  have hsub := atoms_subsegment (makeTopoFromInput A defaultEps)
    (makeTopoFromInput B defaultEps) eg ep hep s hs
  simp only [List.mem_cons, List.mem_singleton, List.not_mem_nil, or_false] at hp
  rcases hsub with ⟨e, he, _, h⟩ | ⟨e, he, _, h⟩
  · left
    have := subsegment_onBoundary _ _ e he ep s h
    rcases hp with rfl | rfl
    · exact this.1
    · exact this.2
  · right
    have := subsegment_onBoundary _ _ e he ep s h
    rcases hp with rfl | rfl
    · exact this.1
    · exact this.2

/-- Witness for C14: the atoms of scenario S1 at the scenario tolerances. -/
theorem C14_atoms_are_subsegments_witness :
    (0 : ℚ) < epsParamS
    ∧ ∀ s ∈ computeAtomicSegments (makeTopoFromInput squareA defaultEps)
        (makeTopoFromInput squareB defaultEps) epsGeomS epsParamS,
      (∃ e ∈ buildRawEdges (makeTopoFromInput squareA defaultEps) true, s.fromA = true
        ∧ IsSubSegmentOf (makeTopoFromInput squareA defaultEps) e epsParamS s)
      ∨ (∃ e ∈ buildRawEdges (makeTopoFromInput squareB defaultEps) false, s.fromA = false
        ∧ IsSubSegmentOf (makeTopoFromInput squareB defaultEps) e epsParamS s) :=
  ⟨by decide!, (C14_atoms_are_subsegments epsGeomS epsParamS (by decide!)).1 _ _⟩

/-! ### The default tolerances of `prepare` -/

/-- C21, what the code does: `prepare(A, B)` is `prepare(A, B, 1e-3, 1e-3)`, the header's
default for `epsParam` being 1e-3 and not 1e-9. On the square of scenario S1 and a
rectangle crossing its bottom edge at parameter 1/2000 the two differ: with 1e-9 the
bottom edge is cut at (1/1000, 0) and the intersection is a closed loop of four
segments, with the default the cut is deduplicated away and the intersection has two
segments. -/
theorem C21_default_eps_param :
    (∀ A B : InputPolygon, prepareDefault A B = prepare A B (1 / 1000) (1 / 1000))
    ∧ (prepareDefault squareA sliverRectangle).atoms.length = 10
    ∧ (prepare squareA sliverRectangle (1 / 1000) (1 / 1000000000)).atoms.length = 12
    ∧ prepareDefault squareA sliverRectangle
        ≠ prepare squareA sliverRectangle (1 / 1000) (1 / 1000000000)
    ∧ computeIntersectionSegments hypotRat (prepareDefault squareA sliverRectangle)
          squareA sliverRectangle
        = [[⟨0, 1⟩, ⟨0, 0⟩], [⟨1 / 1000, 0⟩, ⟨1 / 1000, 1⟩]]
    ∧ computeIntersectionSegments hypotRat
          (prepare squareA sliverRectangle (1 / 1000) (1 / 1000000000))
          squareA sliverRectangle
        = [[⟨0, 0⟩, ⟨1 / 1000, 0⟩], [⟨0, 1⟩, ⟨0, 0⟩], [⟨1 / 1000, 0⟩, ⟨1 / 1000, 1⟩],
           [⟨1 / 1000, 1⟩, ⟨0, 1⟩]] := by
  have hl1 : (prepareDefault squareA sliverRectangle).atoms.length = 10 := by decide!
  have hl2 : (prepare squareA sliverRectangle (1 / 1000) (1 / 1000000000)).atoms.length
      = 12 := by decide!
  have hnc1 : ∀ seg ∈ (prepareDefault squareA sliverRectangle).atoms,
      seg.coincidentWithOther = false := by decide!
  have hnc2 : ∀ seg ∈ (prepare squareA sliverRectangle (1 / 1000) (1 / 1000000000)).atoms,
      seg.coincidentWithOther = false := by decide!
  refine ⟨fun _ _ => rfl, hl1, hl2, ?_, ?_, ?_⟩
  · intro h
    rw [h, hl2] at hl1
    exact absurd hl1 (by decide)
  · rw [(compute_indep_hypot hypotRat hypotAxis _ squareA sliverRectangle hnc1).2.1]
    decide!
  · rw [(compute_indep_hypot hypotRat hypotAxis _ squareA sliverRectangle hnc2).2.1]
    decide!

/-! ### Exactness and error of a `Point` result -/

/-- Cramer's rule: the raw parameters of the non-parallel branch are those of the
common point of the two lines. -/
theorem cramer_point (A0 A1 B0 B1 : QPointF)
    (hne : cross2d (A1 - A0) (B1 - B0) ≠ 0) :
    A0 + (A1 - A0) * (cross2d (B0 - A0) (B1 - B0) / cross2d (A1 - A0) (B1 - B0))
      = B0 + (B1 - B0) * (cross2d (B0 - A0) (A1 - A0) / cross2d (A1 - A0) (B1 - B0)) := by
  obtain ⟨ax, ay⟩ := A0
  obtain ⟨bx, by_⟩ := A1
  obtain ⟨px, py⟩ := B0
  obtain ⟨qx, qy⟩ := B1
  have hne2 : (bx - ax) * (qy - py) - (by_ - ay) * (qx - px) ≠ 0 := hne
  show (⟨ax + (bx - ax) * (((px - ax) * (qy - py) - (py - ay) * (qx - px))
            / ((bx - ax) * (qy - py) - (by_ - ay) * (qx - px))),
          ay + (by_ - ay) * (((px - ax) * (qy - py) - (py - ay) * (qx - px))
            / ((bx - ax) * (qy - py) - (by_ - ay) * (qx - px)))⟩ : QPointF)
      = ⟨px + (qx - px) * (((px - ax) * (by_ - ay) - (py - ay) * (bx - ax))
            / ((bx - ax) * (qy - py) - (by_ - ay) * (qx - px))),
          py + (qy - py) * (((px - ax) * (by_ - ay) - (py - ay) * (bx - ax))
            / ((bx - ax) * (qy - py) - (by_ - ay) * (qx - px)))⟩
  congr 1
  · field_simp
    ring
  · field_simp
    ring

theorem specClamp_id (x : ℚ) (h0 : 0 ≤ x) (h1 : x ≤ 1) : specClamp x = x := by
  unfold specClamp
  rw [min_eq_right h1, max_eq_right h0]

theorem specClamp_near (x eg : ℚ) (heg : 0 ≤ eg) (h0 : -eg ≤ x) (h1 : x ≤ 1 + eg) :
    |specClamp x - x| ≤ eg := by
  unfold specClamp
  rw [abs_le]
  rcases le_total x 0 with hx | hx
  · rw [min_eq_right (by linarith), max_eq_left hx]
    constructor <;> linarith
  · rcases le_total x 1 with hx1 | hx1
    · rw [min_eq_right hx1, max_eq_right hx]
      constructor <;> linarith
    · rw [min_eq_left hx1, max_eq_right (by norm_num)]
      constructor <;> linarith

/-- The point of a `Point` result is the point of the first segment at `tA`. -/
theorem intersectSegments_point_onA (A0 A1 B0 B1 : QPointF) (eg tA tB : ℚ) (P : QPointF)
    (h : intersectSegments A0 A1 B0 B1 eg = SegmentIntersection.Point tA tB P) :
    P = A0 + (A1 - A0) * tA := by
  unfold intersectSegments at h
  simp only [] at h
  split_ifs at h with h1 h2 h3
  · simp only [SegmentIntersection.Point.injEq] at h
    obtain ⟨rfl, _, rfl⟩ := h
    rfl
  · split at h
    · cases h
    · split at h
      · cases h
      · split_ifs at h
        simp only [SegmentIntersection.Point.injEq] at h
        obtain ⟨rfl, _, rfl⟩ := h
        rfl

/-- C22: for `eps_geom >= 0` and `|r x s| > eps_geom`, two segments that share a point
`X = A0 + t (A1 - A0) = B0 + u (B1 - B0)` with `t, u` in `[0, 1]` get `Point{t, u, X}`;
conversely a `Point` whose raw parameters lie in `[0, 1]` (no clamping) has
`tA`, `tB` equal to the raw parameters and `A0 + tA (A1 - A0) = B0 + tB (B1 - B0) = P`. -/
theorem C22_true_crossing_exact (A0 A1 B0 B1 : QPointF) (eg : ℚ) (heg : 0 ≤ eg)
    (hx : |cross2d (A1 - A0) (B1 - B0)| > eg) :
    (∀ (X : QPointF) (t u : ℚ), 0 ≤ t → t ≤ 1 → 0 ≤ u → u ≤ 1 →
      X = A0 + (A1 - A0) * t → X = B0 + (B1 - B0) * u →
        intersectSegments A0 A1 B0 B1 eg = SegmentIntersection.Point t u X)
    ∧ (∀ (tA tB : ℚ) (P : QPointF),
        intersectSegments A0 A1 B0 B1 eg = SegmentIntersection.Point tA tB P →
        0 ≤ cross2d (B0 - A0) (B1 - B0) / cross2d (A1 - A0) (B1 - B0) →
        cross2d (B0 - A0) (B1 - B0) / cross2d (A1 - A0) (B1 - B0) ≤ 1 →
        0 ≤ cross2d (B0 - A0) (A1 - A0) / cross2d (A1 - A0) (B1 - B0) →
        cross2d (B0 - A0) (A1 - A0) / cross2d (A1 - A0) (B1 - B0) ≤ 1 →
          tA = cross2d (B0 - A0) (B1 - B0) / cross2d (A1 - A0) (B1 - B0)
          ∧ tB = cross2d (B0 - A0) (A1 - A0) / cross2d (A1 - A0) (B1 - B0)
          ∧ A0 + (A1 - A0) * tA = P ∧ B0 + (B1 - B0) * tB = P) := by
  have hne : cross2d (A1 - A0) (B1 - B0) ≠ 0 := by
    intro h0
    rw [h0, abs_zero] at hx
    exact absurd hx (not_lt.mpr heg)
  constructor
  · intro X t u ht0 ht1 hu0 hu1 hA hB
    exact intersectSegments_meet A0 A1 B0 B1 X eg t u heg hx hA hB ht0 ht1 hu0 hu1
  · intro tA tB P h ht0 ht1 hu0 hu1
    have hP := intersectSegments_point_onA A0 A1 B0 B1 eg tA tB P h
    rw [intersectSegments_nonparallel A0 A1 B0 B1 eg hx] at h
    split_ifs at h
    simp only [SegmentIntersection.Point.injEq] at h
    obtain ⟨h1, h2, _⟩ := h
    rw [specClamp_id _ ht0 ht1] at h1
    rw [specClamp_id _ hu0 hu1] at h2
    refine ⟨h1.symm, h2.symm, hP.symm, ?_⟩
    rw [hP, ← h1, ← h2]
    exact (cramer_point A0 A1 B0 B1 hne).symm

/-- Witness for C22: the crossing of scenario S1 at (2, 1). -/
theorem C22_true_crossing_exact_witness :
    (0 : ℚ) ≤ epsGeomS
    ∧ |cross2d ((⟨2, 2⟩ : QPointF) - ⟨2, 0⟩) ((⟨3, 1⟩ : QPointF) - ⟨1, 1⟩)| > epsGeomS
    ∧ intersectSegments ⟨2, 0⟩ ⟨2, 2⟩ ⟨1, 1⟩ ⟨3, 1⟩ epsGeomS
      = SegmentIntersection.Point (1 / 2) (1 / 2) ⟨2, 1⟩ :=
  ⟨by decide!, by decide!,
   (C22_true_crossing_exact ⟨2, 0⟩ ⟨2, 2⟩ ⟨1, 1⟩ ⟨3, 1⟩ epsGeomS (by decide!) (by decide!)).1
     ⟨2, 1⟩ (1 / 2) (1 / 2) (by norm_num) (by norm_num) (by norm_num) (by norm_num)
     (by decide!) (by decide!)⟩

theorem sq_sub_le (a b : ℚ) : (a - b) ^ 2 ≤ 2 * a ^ 2 + 2 * b ^ 2 := by
  nlinarith [sq_nonneg (a + b)]

theorem sq_mul_le (r d eg : ℚ) (h : |d| ≤ eg) : (r * d) ^ 2 ≤ eg ^ 2 * r ^ 2 := by
  have h1 : d ^ 2 ≤ eg ^ 2 := by
    have := abs_le.mp h
    nlinarith [this.1, this.2]
  have h2 : r ^ 2 * d ^ 2 ≤ r ^ 2 * eg ^ 2 := mul_le_mul_of_nonneg_left h1 (sq_nonneg r)
  nlinarith [h2]

theorem err_bound (r1 r2 s1 s2 dt du eg : ℚ) (hdt : |dt| ≤ eg) (hdu : |du| ≤ eg) :
    (r1 * dt - s1 * du) * (r1 * dt - s1 * du) + (r2 * dt - s2 * du) * (r2 * dt - s2 * du)
      ≤ 2 * eg ^ 2 * ((r1 * r1 + r2 * r2) + (s1 * s1 + s2 * s2)) := by
  have b1 := sq_sub_le (r1 * dt) (s1 * du)
  have b2 := sq_sub_le (r2 * dt) (s2 * du)
  have c1 := sq_mul_le r1 dt eg hdt
  have c2 := sq_mul_le s1 du eg hdu
  have c3 := sq_mul_le r2 dt eg hdt
  have c4 := sq_mul_le s2 du eg hdu
  have e1 : (r1 * dt - s1 * du) * (r1 * dt - s1 * du) = (r1 * dt - s1 * du) ^ 2 := by ring
  have e2 : (r2 * dt - s2 * du) * (r2 * dt - s2 * du) = (r2 * dt - s2 * du) ^ 2 := by ring
  rw [e1, e2]
  have e3 : 2 * eg ^ 2 * ((r1 * r1 + r2 * r2) + (s1 * s1 + s2 * s2))
      = 2 * (eg ^ 2 * r1 ^ 2) + 2 * (eg ^ 2 * r2 ^ 2) + 2 * (eg ^ 2 * s1 ^ 2)
        + 2 * (eg ^ 2 * s2 ^ 2) := by ring
  rw [e3]
  linarith

/-- In the non-parallel branch the reported point and the point of B at `tB` differ by
the two clamping corrections only. -/
theorem nonparallel_point_error (A0 A1 B0 B1 : QPointF) (eg : ℚ) (heg : 0 ≤ eg)
    (hx : |cross2d (A1 - A0) (B1 - B0)| > eg) (tA tB : ℚ) (P : QPointF)
    (h : intersectSegments A0 A1 B0 B1 eg = SegmentIntersection.Point tA tB P) :
    distSq P (B0 + (B1 - B0) * tB)
      ≤ 2 * eg ^ 2 * (dot2d (A1 - A0) (A1 - A0) + dot2d (B1 - B0) (B1 - B0)) := by
  have hne : cross2d (A1 - A0) (B1 - B0) ≠ 0 := by
    intro h0
    rw [h0, abs_zero] at hx
    exact absurd hx (not_lt.mpr heg)
  have hP := intersectSegments_point_onA A0 A1 B0 B1 eg tA tB P h
  have hc := cramer_point A0 A1 B0 B1 hne
  rw [intersectSegments_nonparallel A0 A1 B0 B1 eg hx] at h
  split_ifs at h with hr
  simp only [SegmentIntersection.Point.injEq] at h
  obtain ⟨h1, h2, _⟩ := h
  have hdt := specClamp_near _ eg heg hr.1.1 hr.1.2
  have hdu := specClamp_near _ eg heg hr.2.1 hr.2.2
  rw [h1] at hdt
  rw [h2] at hdu
  generalize cross2d (B0 - A0) (B1 - B0) / cross2d (A1 - A0) (B1 - B0) = t at hc hdt
  generalize cross2d (B0 - A0) (A1 - A0) / cross2d (A1 - A0) (B1 - B0) = u at hc hdu
  subst hP
  obtain ⟨ax, ay⟩ := A0
  obtain ⟨bx, by_⟩ := A1
  obtain ⟨px, py⟩ := B0
  obtain ⟨qx, qy⟩ := B1
  have hcx : ax + (bx - ax) * t = px + (qx - px) * u := congrArg QPointF.x hc
  have hcy : ay + (by_ - ay) * t = py + (qy - py) * u := congrArg QPointF.y hc
  have ex : ax + (bx - ax) * tA - (px + (qx - px) * tB)
      = (bx - ax) * (tA - t) - (qx - px) * (tB - u) := by linarith
  have ey : ay + (by_ - ay) * tA - (py + (qy - py) * tB)
      = (by_ - ay) * (tA - t) - (qy - py) * (tB - u) := by linarith
  have key := err_bound (bx - ax) (by_ - ay) (qx - px) (qy - py) (tA - t) (tB - u) eg hdt hdu
  rw [← ex, ← ey] at key
  exact key

theorem nonparallel_point_unclamped (A0 A1 B0 B1 : QPointF) (eg : ℚ) (heg : 0 ≤ eg)
    (hx : |cross2d (A1 - A0) (B1 - B0)| > eg) (tA tB : ℚ) (P : QPointF)
    (h : intersectSegments A0 A1 B0 B1 eg = SegmentIntersection.Point tA tB P)
    (ht0 : 0 ≤ cross2d (B0 - A0) (B1 - B0) / cross2d (A1 - A0) (B1 - B0))
    (ht1 : cross2d (B0 - A0) (B1 - B0) / cross2d (A1 - A0) (B1 - B0) ≤ 1)
    (hu0 : 0 ≤ cross2d (B0 - A0) (A1 - A0) / cross2d (A1 - A0) (B1 - B0))
    (hu1 : cross2d (B0 - A0) (A1 - A0) / cross2d (A1 - A0) (B1 - B0) ≤ 1) :
    P = B0 + (B1 - B0) * tB ∧ distSq P (B0 + (B1 - B0) * tB) = 0 := by
  have hne : cross2d (A1 - A0) (B1 - B0) ≠ 0 := by
    intro h0
    rw [h0, abs_zero] at hx
    exact absurd hx (not_lt.mpr heg)
  have hP := intersectSegments_point_onA A0 A1 B0 B1 eg tA tB P h
  rw [intersectSegments_nonparallel A0 A1 B0 B1 eg hx] at h
  split_ifs at h
  simp only [SegmentIntersection.Point.injEq] at h
  obtain ⟨h1, h2, _⟩ := h
  rw [specClamp_id _ ht0 ht1] at h1
  rw [specClamp_id _ hu0 hu1] at h2
  have hPB : P = B0 + (B1 - B0) * tB := by
    rw [hP, ← h1, ← h2]
    exact cramer_point A0 A1 B0 B1 hne
  refine ⟨hPB, ?_⟩
  rw [← hPB]
  obtain ⟨x, y⟩ := P
  show (x - x) * (x - x) + (y - y) * (y - y) = 0
  ring

/-- C23 fails as stated: the segment (-1,0)-(1,0) and the segment (0,1)-(0,1001) get
`Point{1/2, 0, (0,0)}` (the raw parameter -1/1000 on B is clamped to 0), but the point
of B at parameter 0 is (0,1), at distance 1 from (0,0). In the collinear branch the
segment (0,0)-(1/100,0) against (-5,0)-(5,0) gets a `Point` whose B-side point is at
squared distance above `eps_geom` squared. -/
theorem C23_counterexample_far_point :
    intersectSegments ⟨-1, 0⟩ ⟨1, 0⟩ ⟨0, 1⟩ ⟨0, 1001⟩ epsGeomS
        = SegmentIntersection.Point (1 / 2) 0 ⟨0, 0⟩
    ∧ (⟨0, 1⟩ : QPointF) + ((⟨0, 1001⟩ : QPointF) - ⟨0, 1⟩) * (0 : ℚ) = ⟨0, 1⟩
    ∧ distSq ⟨0, 0⟩ ⟨0, 1⟩ = 1
    ∧ epsGeomS ^ 2 < distSq ⟨0, 0⟩ ⟨0, 1⟩
    ∧ intersectSegments ⟨0, 0⟩ ⟨1 / 100, 0⟩ ⟨-5, 0⟩ ⟨5, 0⟩ epsGeomS
        = SegmentIntersection.Point 0 (1001 / 2000) ⟨0, 0⟩
    ∧ epsGeomS ^ 2
        < distSq ⟨0, 0⟩ ((⟨-5, 0⟩ : QPointF) + ((⟨5, 0⟩ : QPointF) - ⟨-5, 0⟩) * (1001 / 2000 : ℚ)) := by
  decide!

/-- C23, amended: whenever the kernel returns `Point{tA, tB, P}` (with `eps_geom >= 0`),
`P` is the point of segment A at parameter `tA`; when the result comes from the
non-parallel branch, the squared distance from `P` to the point of segment B at `tB` is
at most `2 eps_geom^2 (|A1 - A0|^2 + |B1 - B0|^2)`: the error is bounded by `eps_geom`
times the lengths of the segments, not by `eps_geom`; and in that branch, when neither
raw parameter was clamped (both lie in [0, 1]), `P` is the point of segment B at `tB`
and the distance is zero. -/
theorem C23_point_error (A0 A1 B0 B1 : QPointF) (eg : ℚ) (heg : 0 ≤ eg) (tA tB : ℚ)
    (P : QPointF)
    (h : intersectSegments A0 A1 B0 B1 eg = SegmentIntersection.Point tA tB P) :
    P = A0 + (A1 - A0) * tA
    ∧ (|cross2d (A1 - A0) (B1 - B0)| > eg →
        distSq P (B0 + (B1 - B0) * tB)
          ≤ 2 * eg ^ 2 * (dot2d (A1 - A0) (A1 - A0) + dot2d (B1 - B0) (B1 - B0)))
    ∧ (|cross2d (A1 - A0) (B1 - B0)| > eg →
        0 ≤ cross2d (B0 - A0) (B1 - B0) / cross2d (A1 - A0) (B1 - B0) →
        cross2d (B0 - A0) (B1 - B0) / cross2d (A1 - A0) (B1 - B0) ≤ 1 →
        0 ≤ cross2d (B0 - A0) (A1 - A0) / cross2d (A1 - A0) (B1 - B0) →
        cross2d (B0 - A0) (A1 - A0) / cross2d (A1 - A0) (B1 - B0) ≤ 1 →
          P = B0 + (B1 - B0) * tB ∧ distSq P (B0 + (B1 - B0) * tB) = 0) :=
  ⟨intersectSegments_point_onA A0 A1 B0 B1 eg tA tB P h,
   fun hx => nonparallel_point_error A0 A1 B0 B1 eg heg hx tA tB P h,
   fun hx ht0 ht1 hu0 hu1 =>
     nonparallel_point_unclamped A0 A1 B0 B1 eg heg hx tA tB P h ht0 ht1 hu0 hu1⟩

/-- Witness for C23: the clamped result of the counterexample, within the amended
bound; and the crossing of (2,0)-(2,2) with (1,1)-(3,1), where nothing is clamped and
the reported point (2,1) is the point of B at its parameter. -/
theorem C23_point_error_witness :
    ((0 : ℚ) ≤ epsGeomS
      ∧ intersectSegments ⟨-1, 0⟩ ⟨1, 0⟩ ⟨0, 1⟩ ⟨0, 1001⟩ epsGeomS
          = SegmentIntersection.Point (1 / 2) 0 ⟨0, 0⟩
      ∧ distSq ⟨0, 0⟩ ((⟨0, 1⟩ : QPointF) + ((⟨0, 1001⟩ : QPointF) - ⟨0, 1⟩) * (0 : ℚ))
          ≤ 2 * epsGeomS ^ 2
            * (dot2d ((⟨1, 0⟩ : QPointF) - ⟨-1, 0⟩) ((⟨1, 0⟩ : QPointF) - ⟨-1, 0⟩)
              + dot2d ((⟨0, 1001⟩ : QPointF) - ⟨0, 1⟩) ((⟨0, 1001⟩ : QPointF) - ⟨0, 1⟩)))
    ∧ (intersectSegments ⟨2, 0⟩ ⟨2, 2⟩ ⟨1, 1⟩ ⟨3, 1⟩ epsGeomS
          = SegmentIntersection.Point (1 / 2) (1 / 2) ⟨2, 1⟩
      ∧ (⟨2, 1⟩ : QPointF) = (⟨1, 1⟩ : QPointF) + ((⟨3, 1⟩ : QPointF) - ⟨1, 1⟩) * (1 / 2 : ℚ)
      ∧ distSq ⟨2, 1⟩ ((⟨1, 1⟩ : QPointF) + ((⟨3, 1⟩ : QPointF) - ⟨1, 1⟩) * (1 / 2 : ℚ)) = 0) :=
  ⟨⟨by decide!, by decide!,
    (C23_point_error ⟨-1, 0⟩ ⟨1, 0⟩ ⟨0, 1⟩ ⟨0, 1001⟩ epsGeomS (by decide!) (1 / 2) 0 ⟨0, 0⟩
      (by decide!)).2.1 (by decide!)⟩,
   ⟨by decide!,
    (C23_point_error ⟨2, 0⟩ ⟨2, 2⟩ ⟨1, 1⟩ ⟨3, 1⟩ epsGeomS (by decide!) (1 / 2) (1 / 2) ⟨2, 1⟩
      (by decide!)).2.2 (by decide!) (by decide!) (by decide!) (by decide!) (by decide!)⟩⟩

/-! ### The coincidence probe -/

theorem coincidentOpposite_short (hypot : ℚ → ℚ → ℚ) (seg : AtomicSegment)
    (A B : InputPolygon)
    (h : hypot (seg.p1.y - seg.p0.y) (-(seg.p1.x - seg.p0.x)) < 1 / 1000000000000) :
    coincidentOpposite hypot seg A B = false := by
  unfold coincidentOpposite
  simp only [h, if_true]

theorem coincidentOpposite_eq_specProbe (hypot : ℚ → ℚ → ℚ) (seg : AtomicSegment)
    (A B : InputPolygon)
    (h : ¬ hypot (seg.p1.y - seg.p0.y) (-(seg.p1.x - seg.p0.x)) < 1 / 1000000000000) :
    coincidentOpposite hypot seg A B
      = specProbe (hypot (seg.p1.y - seg.p0.y) (-(seg.p1.x - seg.p0.x))) seg A B := by
  unfold coincidentOpposite specProbe
  simp only [h, if_false]
  cases pointInPolygonWithHoles A _ <;> cases pointInPolygonWithHoles A _ <;>
    cases pointInPolygonWithHoles B _ <;> cases pointInPolygonWithHoles B _ <;> rfl

/-- C27: when the length `hypot(dy, -dx)` of the segment's normal is at least 1e-12,
`coincidentOpposite` samples `midpoint + 1e-4 n` and `midpoint - 1e-4 n` with
`n = (dy, -dx) / length` and returns
`(inA+ and inB- and not inA- and not inB+) or (not inA+ and not inB- and inA- and inB+)`;
below 1e-12 it returns false. For an exact `hypot` and a segment of rational length
`len`, that length is `len` and `n` is a unit vector perpendicular to the segment. -/
theorem C27_probe (hypot : ℚ → ℚ → ℚ) (seg : AtomicSegment) (A B : InputPolygon) :
    (hypot (seg.p1.y - seg.p0.y) (-(seg.p1.x - seg.p0.x)) < 1 / 1000000000000 →
      coincidentOpposite hypot seg A B = false)
    ∧ (1 / 1000000000000 ≤ hypot (seg.p1.y - seg.p0.y) (-(seg.p1.x - seg.p0.x)) →
      coincidentOpposite hypot seg A B
        = specProbe (hypot (seg.p1.y - seg.p0.y) (-(seg.p1.x - seg.p0.x))) seg A B)
    ∧ (∀ len : ℚ, HypotExact hypot → 0 ≤ len →
        len * len = (seg.p1.x - seg.p0.x) * (seg.p1.x - seg.p0.x)
          + (seg.p1.y - seg.p0.y) * (seg.p1.y - seg.p0.y) →
        hypot (seg.p1.y - seg.p0.y) (-(seg.p1.x - seg.p0.x)) = len
        ∧ (len < 1 / 1000000000000 → coincidentOpposite hypot seg A B = false)
        ∧ (1 / 1000000000000 ≤ len →
            coincidentOpposite hypot seg A B = specProbe len seg A B
            ∧ ((seg.p1.y - seg.p0.y) / len) * ((seg.p1.y - seg.p0.y) / len)
                + (-(seg.p1.x - seg.p0.x) / len) * (-(seg.p1.x - seg.p0.x) / len) = 1
            ∧ ((seg.p1.y - seg.p0.y) / len) * (seg.p1.x - seg.p0.x)
                + (-(seg.p1.x - seg.p0.x) / len) * (seg.p1.y - seg.p0.y) = 0)) := by
  refine ⟨coincidentOpposite_short hypot seg A B,
    fun h => coincidentOpposite_eq_specProbe hypot seg A B (not_lt.mpr h), ?_⟩
  intro len hyp hlen hsq
  have hl : hypot (seg.p1.y - seg.p0.y) (-(seg.p1.x - seg.p0.x)) = len := by
    apply hyp _ _ _ hlen
    rw [hsq]; ring
  refine ⟨hl, ?_, ?_⟩
  · intro h
    exact coincidentOpposite_short hypot seg A B (by rw [hl]; exact h)
  · intro h
    have hpos : len ≠ 0 := by
      intro h0
      rw [h0] at h
      norm_num at h
    refine ⟨?_, ?_, ?_⟩
    · rw [coincidentOpposite_eq_specProbe hypot seg A B (by rw [hl]; exact not_lt.mpr h), hl]
    · field_simp
      linarith
    · field_simp
      ring

/-! ### The point-in-loop test -/

theorem onEdgeTest_eq_spec (a b p : QPointF) (eps : ℚ) :
    onEdgeTest a b p eps = specOnEdge a b p eps := by
  unfold onEdgeTest specOnEdge
  have hc : (p - a).x * (b - a).y - (p - a).y * (b - a).x = cross2d (p - a) (b - a) := rfl
  have hd : (p - a).x * (b - a).x + (p - a).y * (b - a).y = dot2d (p - a) (b - a) := rfl
  have hb : (b - a).x * (b - a).x + (b - a).y * (b - a).y = dot2d (b - a) (b - a) := rfl
  simp only [hc, hd, hb]
  by_cases h1 : |cross2d (p - a) (b - a)| < eps
  · by_cases h2 : dot2d (p - a) (b - a) ≥ -eps
    · by_cases h3 : dot2d (p - a) (b - a) ≤ dot2d (b - a) (b - a) + eps
      · simp [h1, h2, h3]
      · simp [h1, h2, h3]
    · simp [h1, h2]
  · simp [h1]

theorem rayToggle_eq_spec (a b p : QPointF) (eps : ℚ) :
    rayToggle a b p eps = specRayHit a b p eps := by
  unfold rayToggle specRayHit xHitAt
  by_cases hx : a.x + (p.y - a.y) / (b.y - a.y) * (b.x - a.x) ≥ p.x - eps
  · by_cases ha : a.y > p.y
    · by_cases hb : b.y > p.y
      · have e : ¬ ((a.y ≤ p.y ∧ p.y < b.y) ∨ (b.y ≤ p.y ∧ p.y < a.y)) := by
          rintro (⟨h, _⟩ | ⟨h, _⟩) <;> linarith
        rw [decide_eq_true ha, decide_eq_true hb, decide_eq_false (fun h => e h.1)]
        rfl
      · have e : (a.y ≤ p.y ∧ p.y < b.y) ∨ (b.y ≤ p.y ∧ p.y < a.y) :=
          Or.inr ⟨not_lt.mp hb, ha⟩
        rw [decide_eq_true ha, decide_eq_false hb, decide_eq_true (⟨e, hx⟩ : _ ∧ _)]
        simp only [bne_iff_ne, ne_eq, Bool.true_eq_false, not_false_eq_true, if_true, if_pos hx]
    · by_cases hb : b.y > p.y
      · have e : (a.y ≤ p.y ∧ p.y < b.y) ∨ (b.y ≤ p.y ∧ p.y < a.y) :=
          Or.inl ⟨not_lt.mp ha, hb⟩
        rw [decide_eq_false ha, decide_eq_true hb, decide_eq_true (⟨e, hx⟩ : _ ∧ _)]
        simp only [bne_iff_ne, ne_eq, Bool.false_eq_true, not_false_eq_true, if_true, if_pos hx]
      · have e : ¬ ((a.y ≤ p.y ∧ p.y < b.y) ∨ (b.y ≤ p.y ∧ p.y < a.y)) := by
          rintro (⟨_, h⟩ | ⟨_, h⟩)
          · exact hb h
          · exact ha h
        rw [decide_eq_false ha, decide_eq_false hb, decide_eq_false (fun h => e h.1)]
        rfl
  · have e2 : ¬ (((a.y ≤ p.y ∧ p.y < b.y) ∨ (b.y ≤ p.y ∧ p.y < a.y))
        ∧ a.x + (p.y - a.y) / (b.y - a.y) * (b.x - a.x) ≥ p.x - eps) := fun h => hx h.2
    rw [decide_eq_false e2]
    simp only [if_neg hx]
    split_ifs <;> rfl

/-- A fold that flips a flag for each element passing a test ends at the parity of the
number of such elements. -/
theorem foldl_toggle_parity {α : Type} (c : α → Bool) (l : List α) (b : Bool) :
    l.foldl (fun inside x => if c x then !inside else inside) b
      = xor b (decide (l.countP c % 2 = 1)) := by
  induction l generalizing b with
  | nil => simp
  | cons x xs ih =>
    rw [List.foldl_cons, ih, List.countP_cons]
    by_cases hx : c x = true
    · simp only [hx, if_true]
      have : (List.countP c xs + 1) % 2 = 1 ↔ ¬ (List.countP c xs % 2 = 1) := by omega
      by_cases hp : List.countP c xs % 2 = 1
      · have hn : ¬ ((List.countP c xs + 1) % 2 = 1) := by omega
        cases b <;> simp [hp, hn]
      · have hn : (List.countP c xs + 1) % 2 = 1 := by omega
        cases b <;> simp [hp, hn]
    · simp only [hx, if_false, Bool.false_eq_true, Nat.add_zero]

theorem any_map_eq {α β : Type} (f : α → β) (q : β → Bool) (l : List α) :
    (l.map f).any q = l.any (fun x => q (f x)) := by
  induction l with
  | nil => rfl
  | cons a l ih => simp only [List.map_cons, List.any_cons, ih]

theorem pointInSimpleLoop_char (loop : List QPointF) (p : QPointF) (eps : ℚ)
    (h : 3 ≤ loop.length) :
    pointInSimpleLoop loop p eps
      = ((loopEdgePairs loop).any (fun e => specOnEdge e.1 e.2 p eps)
        || decide (((loopEdgePairs loop).countP (fun e => specRayHit e.1 e.2 p eps)) % 2 = 1)) := by
  unfold pointInSimpleLoop loopEdgePairs
  have hn : ¬ (loop.length < 3) := by omega
  simp only [hn, if_false, onEdgeTest_eq_spec, rayToggle_eq_spec]
  rw [foldl_toggle_parity (fun i => specRayHit (loop.getD i default)
    (loop.getD ((i + 1) % loop.length) default) p eps)]
  rw [any_map_eq]
  simp only [List.countP_map, Bool.false_xor, Function.comp_def]
  split_ifs with hX
  · rw [hX]; rfl
  · rw [Bool.not_eq_true] at hX
    rw [hX]; rfl

/-- C25 fails as stated: for the centre (2,2) of the diamond no edge passes the on-edge
test and no edge has `p.y` strictly between its end heights, so the stated count is 0,
yet `pointInSimpleLoop` returns true: the code counts the edge from (4,2) to (2,4),
whose lower end is at height `p.y`. -/
theorem C25_counterexample_vertex_height :
    pointInSimpleLoop diamondLoop ⟨2, 2⟩ defaultEps = true
    ∧ (loopEdgePairs diamondLoop).any (fun e => specOnEdge e.1 e.2 ⟨2, 2⟩ defaultEps) = false
    ∧ (loopEdgePairs diamondLoop).countP (fun e => strictRayHit e.1 e.2 ⟨2, 2⟩ defaultEps) = 0
    ∧ (loopEdgePairs diamondLoop).map (fun e => rayToggle e.1 e.2 ⟨2, 2⟩ defaultEps)
        = [false, true, false, false] := by
  decide!

/-- C25, amended: on a loop of at least three points `pointInSimpleLoop` returns true iff
some cyclic edge `(a, b)` passes the on-edge test (`|cross| < eps` and the dot product in
`[-eps, |b - a|^2 + eps]`) or the number of edges for which `p.y` lies in the half-open
range `[min(a.y, b.y), max(a.y, b.y))` and `xHit >= p.x - eps` is odd. -/
theorem C25_point_in_loop (loop : List QPointF) (p : QPointF) (eps : ℚ)
    (h : 3 ≤ loop.length) :
    pointInSimpleLoop loop p eps = true
      ↔ ((∃ e ∈ loopEdgePairs loop, specOnEdge e.1 e.2 p eps = true)
        ∨ ((loopEdgePairs loop).countP (fun e => specRayHit e.1 e.2 p eps)) % 2 = 1) := by
  rw [pointInSimpleLoop_char loop p eps h]
  simp only [Bool.or_eq_true, List.any_eq_true, decide_eq_true_eq]

/-- Witness for C25: the centre of the diamond is inside by the parity of one hit. -/
theorem C25_point_in_loop_witness :
    3 ≤ diamondLoop.length
    ∧ ((∃ e ∈ loopEdgePairs diamondLoop, specOnEdge e.1 e.2 ⟨2, 2⟩ defaultEps = true)
      ∨ ((loopEdgePairs diamondLoop).countP
          (fun e => specRayHit e.1 e.2 ⟨2, 2⟩ defaultEps)) % 2 = 1) :=
  ⟨by decide, (C25_point_in_loop diamondLoop ⟨2, 2⟩ defaultEps (by decide)).mp (by decide!)⟩

/-! ### The coincidence flag -/

theorem isInOverlap_iff (ovs : List OverlapInterval) (ep t0 t1 : ℚ) :
    isInOverlap ovs ep t0 t1 = true
      ↔ ∃ ov ∈ ovs, min ov.t0 ov.t1 - ep ≤ t0 ∧ t1 ≤ max ov.t0 ov.t1 + ep := by
  unfold isInOverlap
  rw [List.any_eq_true]
  constructor
  · rintro ⟨ov, hov, h⟩
    refine ⟨ov, hov, ?_⟩
    by_cases hc : ov.t0 > ov.t1
    · simp only [hc, if_true, decide_eq_true_eq] at h
      rw [min_eq_right (le_of_lt hc), max_eq_left (le_of_lt hc)]
      exact h
    · simp only [hc, if_false, decide_eq_true_eq] at h
      rw [min_eq_left (not_lt.mp hc), max_eq_right (not_lt.mp hc)]
      exact h
  · rintro ⟨ov, hov, h⟩
    refine ⟨ov, hov, ?_⟩
    by_cases hc : ov.t0 > ov.t1
    · simp only [hc, if_true, decide_eq_true_eq]
      rw [min_eq_right (le_of_lt hc), max_eq_left (le_of_lt hc)] at h
      exact h
    · simp only [hc, if_false, decide_eq_true_eq]
      rw [min_eq_left (not_lt.mp hc), max_eq_right (not_lt.mp hc)] at h
      exact h

theorem intersectSegments_overlap_ordered (A0 A1 B0 B1 : QPointF) (eg a0 a1 b0 b1 : ℚ)
    (h : intersectSegments A0 A1 B0 B1 eg = SegmentIntersection.Overlap a0 a1 b0 b1) :
    a0 ≤ a1 ∧ b0 ≤ b1 := by
  unfold intersectSegments at h
  simp only [] at h
  split_ifs at h with h1 h2 h3
  · split at h
    · cases h
    · rename_i lo hi hA
      split at h
      · cases h
      · rename_i lo2 hi2 hB
        have ha := intervalIntersection_unit _ _ _ _ hA
        have hb := intervalIntersection_unit _ _ _ _ hB
        split_ifs at h
        all_goals
          simp only [SegmentIntersection.Overlap.injEq] at h
          obtain ⟨rfl, rfl, rfl, rfl⟩ := h
          refine ⟨?_, ?_⟩ <;> linarith [ha.1, ha.2.1, ha.2.2, hb.1, hb.2.1, hb.2.2]

theorem hasOverlap_of_pushCuts (work : List EdgeWork) (i k : Nat) (cs : List ℚ)
    (ov : OverlapInterval) (h : HasOverlap (pushCuts work i cs) k ov) :
    HasOverlap work k ov := by
  obtain ⟨w, hw, hov⟩ := h
  unfold pushCuts at hw
  rw [getElem?_modifyAt] at hw
  by_cases hk : k = i
  · simp only [hk, if_true] at hw
    cases hx : work[i]? with
    | none => rw [hx] at hw; cases hw
    | some x =>
      rw [hx] at hw
      simp only [Option.map_some', Option.some.injEq] at hw
      subst hw
      exact ⟨x, by rw [hk]; exact hx, hov⟩
  · simp only [hk, if_false] at hw
    exact ⟨w, hw, hov⟩

theorem hasOverlap_of_pushOverlap (work : List EdgeWork) (i k : Nat)
    (ov2 ov : OverlapInterval) (h : HasOverlap (pushOverlap work i ov2) k ov) :
    HasOverlap work k ov ∨ (k = i ∧ ov = ov2) := by
  obtain ⟨w, hw, hov⟩ := h
  unfold pushOverlap at hw
  rw [getElem?_modifyAt] at hw
  by_cases hk : k = i
  · simp only [hk, if_true] at hw
    cases hx : work[i]? with
    | none => rw [hx] at hw; cases hw
    | some x =>
      rw [hx] at hw
      simp only [Option.map_some', Option.some.injEq] at hw
      subst hw
      rcases List.mem_append.mp hov with h1 | h1
      · exact Or.inl ⟨x, by rw [hk]; exact hx, h1⟩
      · exact Or.inr ⟨hk, List.mem_singleton.mp h1⟩
  · simp only [hk, if_false] at hw
    exact Or.inl ⟨w, hw, hov⟩

theorem crossPairStep_overlaps (polyA polyB : PolygonTopo) (eg : ℚ)
    (st : List EdgeWork × List EdgeWork) (i j : Nat)
    (hi : i < (buildRawEdges polyA true).length) (hj : j < (buildRawEdges polyB false).length)
    (hA : st.1.map (fun w => w.edge) = buildRawEdges polyA true)
    (hB : st.2.map (fun w => w.edge) = buildRawEdges polyB false)
    (h : OverlapsFromKernel polyA polyB eg st) :
    OverlapsFromKernel polyA polyB eg (crossPairStep polyA polyB eg st i j) := by
  rw [crossPairStep_eq, getD_edge, getD_edge, hA, hB]
  cases hk : kernelOnEdges polyA ((buildRawEdges polyA true).getD i default) polyB
      ((buildRawEdges polyB false).getD j default) eg with
  | None => exact h
  | Point tA tB P =>
    exact ⟨fun k ov hov => h.1 k ov (hasOverlap_of_pushCuts _ _ _ _ _ hov),
      fun k ov hov => h.2 k ov (hasOverlap_of_pushCuts _ _ _ _ _ hov)⟩
  | Overlap a0 a1 b0 b1 =>
    constructor
    · intro k ov hov
      rcases hasOverlap_of_pushOverlap _ _ _ _ _ hov with h1 | ⟨rfl, rfl⟩
      · exact h.1 k ov (hasOverlap_of_pushCuts _ _ _ _ _ h1)
      · exact ⟨j, hj, b0, b1, hk⟩
    · intro k ov hov
      rcases hasOverlap_of_pushOverlap _ _ _ _ _ hov with h1 | ⟨rfl, rfl⟩
      · exact h.2 k ov (hasOverlap_of_pushCuts _ _ _ _ _ h1)
      · exact ⟨i, hi, a0, a1, hk⟩

theorem noOverlaps_no_hasOverlap (work : List EdgeWork) (h : NoOverlaps work) (i : Nat)
    (ov : OverlapInterval) : ¬ HasOverlap work i ov := by
  rintro ⟨w, hw, hov⟩
  rw [h w (List.getElem?_mem hw)] at hov
  cases hov

/-- When the cut passes are done, every recorded overlap interval comes from an
`Overlap` result of the kernel for an edge of A and an edge of B. -/
theorem cutWork_overlaps (polyA polyB : PolygonTopo) (eg ep : ℚ) :
    OverlapsFromKernel polyA polyB eg (cutWork polyA polyB eg ep) := by
  have hA := injectSelfCollinearCuts_inv polyA (buildRawEdges polyA true) eg ep _ _
    (initWork_inv (buildRawEdges polyA true))
  have hB := injectSelfCollinearCuts_inv polyB (buildRawEdges polyB false) eg ep _ _
    (initWork_inv (buildRawEdges polyB false))
  have nA := noOverlaps_injectSelfCollinearCuts polyA (buildRawEdges polyA true) eg ep
    (initWork (buildRawEdges polyA true)) (noOverlaps_initWork _)
  have nB := noOverlaps_injectSelfCollinearCuts polyB (buildRawEdges polyB false) eg ep
    (initWork (buildRawEdges polyB false)) (noOverlaps_initWork _)
  have hlA := length_of_edges _ _ hA.1
  have hlB := length_of_edges _ _ hB.1
  unfold cutWork crossCuts
  simp only []
  have h0 : ((injectSelfCollinearCuts polyA (buildRawEdges polyA true)
        (initWork (buildRawEdges polyA true)) eg ep).map (fun w => w.edge)
        = buildRawEdges polyA true
      ∧ (injectSelfCollinearCuts polyB (buildRawEdges polyB false)
        (initWork (buildRawEdges polyB false)) eg ep).map (fun w => w.edge)
        = buildRawEdges polyB false)
      ∧ OverlapsFromKernel polyA polyB eg
        (injectSelfCollinearCuts polyA (buildRawEdges polyA true)
          (initWork (buildRawEdges polyA true)) eg ep,
         injectSelfCollinearCuts polyB (buildRawEdges polyB false)
          (initWork (buildRawEdges polyB false)) eg ep) :=
    ⟨⟨hA.1, hB.1⟩, fun i ov hov => absurd hov (noOverlaps_no_hasOverlap _ nA i ov),
      fun j ov hov => absurd hov (noOverlaps_no_hasOverlap _ nB j ov)⟩
  refine (foldl_inv_mem _ (fun (st : List EdgeWork × List EdgeWork) =>
    (st.1.map (fun w => w.edge) = buildRawEdges polyA true
      ∧ st.2.map (fun w => w.edge) = buildRawEdges polyB false)
    ∧ OverlapsFromKernel polyA polyB eg st) _ ?_ _ h0).2
  intro st i hi hst
  refine foldl_inv_mem _ (fun (st : List EdgeWork × List EdgeWork) =>
    (st.1.map (fun w => w.edge) = buildRawEdges polyA true
      ∧ st.2.map (fun w => w.edge) = buildRawEdges polyB false)
    ∧ OverlapsFromKernel polyA polyB eg st) _ ?_ _ hst
  intro st2 j hj h2
  have hi' : i < (buildRawEdges polyA true).length := by
    rw [← hlA]; exact List.mem_range.mp hi
  have hj' : j < (buildRawEdges polyB false).length := by
    rw [← hlB]; exact List.mem_range.mp hj
  have hinv := crossPairStep_inv polyA polyB eg (buildRawEdges polyA true)
    (buildRawEdges polyB false) st2 i j
  refine ⟨?_, crossPairStep_overlaps polyA polyB eg st2 i j hi' hj' h2.1.1 h2.1.2 h2.2⟩
  rw [crossPairStep_eq]
  cases kernelOnEdges polyA (st2.1.getD i default).edge polyB (st2.2.getD j default).edge eg with
  | None => exact h2.1
  | Point tA tB P => exact ⟨by rw [edges_pushCuts]; exact h2.1.1, by rw [edges_pushCuts]; exact h2.1.2⟩
  | Overlap a0 a1 b0 b1 =>
    exact ⟨by rw [edges_pushOverlap, edges_pushCuts]; exact h2.1.1,
      by rw [edges_pushOverlap, edges_pushCuts]; exact h2.1.2⟩

theorem atoms_emptyA_not_coincident (polyB : PolygonTopo) (eg ep : ℚ) :
    ∀ s ∈ computeAtomicSegments ⟨[], []⟩ polyB eg ep, s.coincidentWithOther = false := by
  intro s hs
  have hinv := cutWork_inv ⟨[], []⟩ polyB eg ep
  have hov := cutWork_overlaps ⟨[], []⟩ polyB eg ep
  unfold computeAtomicSegments at hs
  simp only [List.mem_append, List.mem_flatMap] at hs
  rcases hs with ⟨ew, hew, _⟩ | ⟨ew, hew, hs⟩
  · have h1 : (cutWork ⟨[], []⟩ polyB eg ep).1 = [] := by
      have := hinv.1.1
      rw [show buildRawEdges ⟨[], []⟩ true = [] from rfl] at this
      exact List.map_eq_nil_iff.mp this
    rw [h1] at hew
    cases hew
  · apply explodeEdgeWork_not_coincident ew polyB ep _ s hs
    cases ho : ew.overlaps with
    | nil => rfl
    | cons ov rest =>
      obtain ⟨j, hj, hje⟩ := List.getElem_of_mem hew
      have hh : HasOverlap (cutWork ⟨[], []⟩ polyB eg ep).2 j ov :=
        ⟨ew, by rw [List.getElem?_eq_getElem hj, hje], by rw [ho]; exact List.mem_cons_self _ _⟩
      obtain ⟨i, hi, _⟩ := hov.2 j ov hh
      exact absurd hi (Nat.not_lt_zero _)

/-- C24: an atom emitted for the parameters `[tLo, tHi]` is flagged coincident iff some
overlap interval `[a, b]` recorded on its edge has `a - eps_param <= tLo` and
`tHi <= b + eps_param`; the self-cut pass records no overlap interval; every interval
recorded when the passes are done is the ordered interval of an `Overlap` result of the
kernel for an edge of A and an edge of B; and with an empty other polygon no atom is
flagged. -/
theorem C24_coincidence_flag (polyA polyB : PolygonTopo) (eg ep : ℚ) :
    (∀ (ew : EdgeWork) (poly : PolygonTopo), ∀ s ∈ explodeEdgeWork ew poly ep,
      ∃ tLo tHi : ℚ, (tLo, tHi) ∈ atomParams ep (edgeParams ep ew)
        ∧ s = atomOf poly ew ep (tLo, tHi)
        ∧ (s.coincidentWithOther = true
          ↔ ∃ ov ∈ ew.overlaps,
              min ov.t0 ov.t1 - ep ≤ tLo ∧ tHi ≤ max ov.t0 ov.t1 + ep))
    ∧ NoOverlaps (injectSelfCollinearCuts polyA (buildRawEdges polyA true)
        (initWork (buildRawEdges polyA true)) eg ep)
    ∧ NoOverlaps (injectSelfCollinearCuts polyB (buildRawEdges polyB false)
        (initWork (buildRawEdges polyB false)) eg ep)
    ∧ (∀ i ov, HasOverlap (cutWork polyA polyB eg ep).1 i ov →
        ov.t0 ≤ ov.t1 ∧ ∃ j, j < (buildRawEdges polyB false).length ∧ ∃ b0 b1 : ℚ,
          kernelOnEdges polyA ((buildRawEdges polyA true).getD i default)
            polyB ((buildRawEdges polyB false).getD j default) eg
          = SegmentIntersection.Overlap ov.t0 ov.t1 b0 b1)
    ∧ (∀ j ov, HasOverlap (cutWork polyA polyB eg ep).2 j ov →
        ov.t0 ≤ ov.t1 ∧ ∃ i, i < (buildRawEdges polyA true).length ∧ ∃ a0 a1 : ℚ,
          kernelOnEdges polyA ((buildRawEdges polyA true).getD i default)
            polyB ((buildRawEdges polyB false).getD j default) eg
          = SegmentIntersection.Overlap a0 a1 ov.t0 ov.t1)
    ∧ (∀ s ∈ computeAtomicSegments polyA ⟨[], []⟩ eg ep, s.coincidentWithOther = false)
    ∧ (∀ s ∈ computeAtomicSegments ⟨[], []⟩ polyB eg ep, s.coincidentWithOther = false) := by
  have hov := cutWork_overlaps polyA polyB eg ep
  refine ⟨?_, noOverlaps_injectSelfCollinearCuts polyA (buildRawEdges polyA true) eg ep
      (initWork (buildRawEdges polyA true)) (noOverlaps_initWork _),
    noOverlaps_injectSelfCollinearCuts polyB (buildRawEdges polyB false) eg ep
      (initWork (buildRawEdges polyB false)) (noOverlaps_initWork _), ?_, ?_,
    fun s hs => (atoms_emptyB polyA eg ep s hs).2, atoms_emptyA_not_coincident polyB eg ep⟩
  · intro ew poly s hs
    rw [explodeEdgeWork_eq_map] at hs
    obtain ⟨p, hp, rfl⟩ := List.mem_map.mp hs
    exact ⟨p.1, p.2, hp, rfl, isInOverlap_iff ew.overlaps ep p.1 p.2⟩
  · intro i ov h
    obtain ⟨j, hj, b0, b1, hk⟩ := hov.1 i ov h
    exact ⟨(intersectSegments_overlap_ordered _ _ _ _ _ _ _ _ _ hk).1, j, hj, b0, b1, hk⟩
  · intro j ov h
    obtain ⟨i, hi, a0, a1, hk⟩ := hov.2 j ov h
    exact ⟨(intersectSegments_overlap_ordered _ _ _ _ _ _ _ _ _ hk).2, i, hi, a0, a1, hk⟩

/-! ### Exchanging the two segments of the kernel -/

theorem cross2d_swap (a b : QPointF) : cross2d b a = -cross2d a b := by
  unfold cross2d; ring

theorem cross2d_neg_left (P Q a : QPointF) : cross2d (P - Q) a = -cross2d (Q - P) a := by
  obtain ⟨px, py⟩ := P
  obtain ⟨qx, qy⟩ := Q
  show (px - qx) * a.y - (py - qy) * a.x = -((qx - px) * a.y - (qy - py) * a.x)
  ring

theorem isSwapOf_cuts (r1 r2 : SegmentIntersection) (h : IsSwapOf r1 r2) :
    cutsOnFirst r2 = cutsOnSecond r1 ∧ cutsOnSecond r2 = cutsOnFirst r1 := by
  cases r1 <;> cases r2 <;> simp only [IsSwapOf] at h
  · exact ⟨rfl, rfl⟩
  · obtain ⟨rfl, rfl⟩ := h
    exact ⟨rfl, rfl⟩
  · obtain ⟨rfl, rfl, rfl, rfl⟩ := h
    exact ⟨rfl, rfl⟩

theorem intersectSegments_swap_nonparallel (A0 A1 B0 B1 : QPointF) (eg : ℚ)
    (hx : |cross2d (A1 - A0) (B1 - B0)| > eg) :
    IsSwapOf (intersectSegments A0 A1 B0 B1 eg) (intersectSegments B0 B1 A0 A1 eg) := by
  have hx2 : |cross2d (B1 - B0) (A1 - A0)| > eg := by
    rw [cross2d_swap, abs_neg]; exact hx
  rw [intersectSegments_nonparallel A0 A1 B0 B1 eg hx,
    intersectSegments_nonparallel B0 B1 A0 A1 eg hx2]
  have et : cross2d (A0 - B0) (A1 - A0) / cross2d (B1 - B0) (A1 - A0)
      = cross2d (B0 - A0) (A1 - A0) / cross2d (A1 - A0) (B1 - B0) := by
    rw [cross2d_neg_left A0 B0, cross2d_swap (A1 - A0) (B1 - B0), neg_div_neg_eq]
  have eu : cross2d (A0 - B0) (B1 - B0) / cross2d (B1 - B0) (A1 - A0)
      = cross2d (B0 - A0) (B1 - B0) / cross2d (A1 - A0) (B1 - B0) := by
    rw [cross2d_neg_left A0 B0, cross2d_swap (A1 - A0) (B1 - B0), neg_div_neg_eq]
  rw [et, eu]
  generalize cross2d (B0 - A0) (B1 - B0) / cross2d (A1 - A0) (B1 - B0) = t
  generalize cross2d (B0 - A0) (A1 - A0) / cross2d (A1 - A0) (B1 - B0) = u
  by_cases h1 : (-eg ≤ t ∧ t ≤ 1 + eg) ∧ (-eg ≤ u ∧ u ≤ 1 + eg)
  · rw [if_pos h1, if_pos (⟨h1.2, h1.1⟩ : (-eg ≤ u ∧ u ≤ 1 + eg) ∧ (-eg ≤ t ∧ t ≤ 1 + eg))]
    exact ⟨rfl, rfl⟩
  · rw [if_neg h1, if_neg (show ¬ ((-eg ≤ u ∧ u ≤ 1 + eg) ∧ (-eg ≤ t ∧ t ≤ 1 + eg)) from fun h => h1 ⟨h.2, h.1⟩)]
    trivial

theorem intersectSegments_far (A0 A1 B0 B1 : QPointF) (eg : ℚ)
    (h1 : |cross2d (A1 - A0) (B1 - B0)| ≤ eg) (h2 : |cross2d (B0 - A0) (A1 - A0)| > eg) :
    intersectSegments A0 A1 B0 B1 eg = SegmentIntersection.None := by
  unfold intersectSegments
  simp only [if_neg (not_lt.mpr h1), if_pos h2]

theorem intersectSegments_swap_collinear (A0 A1 B0 B1 : QPointF) (eg : ℚ)
    (h1 : |cross2d (A1 - A0) (B1 - B0)| ≤ eg) (h2 : |cross2d (B0 - A0) (A1 - A0)| ≤ eg)
    (h3 : |cross2d (B0 - A0) (B1 - B0)| ≤ eg) :
    IsSwapOf (intersectSegments A0 A1 B0 B1 eg) (intersectSegments B0 B1 A0 A1 eg) := by
  have h1' : |cross2d (B1 - B0) (A1 - A0)| ≤ eg := by
    rw [cross2d_swap, abs_neg]; exact h1
  have h3' : |cross2d (A0 - B0) (B1 - B0)| ≤ eg := by
    rw [cross2d_neg_left, abs_neg]; exact h3
  rw [intersectSegments_collinear A0 A1 B0 B1 eg h1 h2,
    intersectSegments_collinear B0 B1 A0 A1 eg h1' h3']
  have eA : kernelIntervalA B0 B1 A0 A1 eg = kernelIntervalB A0 A1 B0 B1 eg := rfl
  have eB : kernelIntervalB B0 B1 A0 A1 eg = kernelIntervalA A0 A1 B0 B1 eg := rfl
  rw [eA, eB]
  generalize kernelIntervalA A0 A1 B0 B1 eg = a
  generalize kernelIntervalB A0 A1 B0 B1 eg = b
  by_cases c1 : a.2 < a.1 ∨ b.2 < b.1
  · rw [if_pos c1, if_pos (c1.symm : b.2 < b.1 ∨ a.2 < a.1)]
    trivial
  · rw [if_neg c1, if_neg (show ¬ (b.2 < b.1 ∨ a.2 < a.1) from fun h => c1 h.symm)]
    by_cases c2 : a.2 - a.1 ≤ eg ∧ b.2 - b.1 ≤ eg
    · rw [if_pos c2, if_pos (⟨c2.2, c2.1⟩ : b.2 - b.1 ≤ eg ∧ a.2 - a.1 ≤ eg)]
      exact ⟨rfl, rfl⟩
    · rw [if_neg c2, if_neg (show ¬ (b.2 - b.1 ≤ eg ∧ a.2 - a.1 ≤ eg) from fun h => c2 ⟨h.2, h.1⟩)]
      exact ⟨rfl, rfl, rfl, rfl⟩

/-- C28 fails as stated: the short segment (0,0)-(1/100,0) and the parallel segment
(0,1/20)-(1,1/20) get `Overlap{0, 0, 0, 1/100}` in this order and `None` in the other:
the collinearity test `|d x r| <= eps_geom` uses the direction of the first segment
only. -/
theorem C28_counterexample_asymmetric :
    intersectSegments ⟨0, 0⟩ ⟨1 / 100, 0⟩ ⟨0, 1 / 20⟩ ⟨1, 1 / 20⟩ epsGeomS
        = SegmentIntersection.Overlap 0 0 0 (1 / 100)
    ∧ intersectSegments ⟨0, 1 / 20⟩ ⟨1, 1 / 20⟩ ⟨0, 0⟩ ⟨1 / 100, 0⟩ epsGeomS
        = SegmentIntersection.None := by
  decide!

/-- C28, amended: with `r = A1 - A0`, `s = B1 - B0`, `d = B0 - A0`, whenever
`|r x s| > eps_geom`, or the two collinearity tests agree
(`|d x r| <= eps_geom` iff `|d x s| <= eps_geom`), the kernel called with the segments
exchanged returns the same result type with the per-segment parameters exchanged, and
then the cut parameters pushed on each edge are the same in both orders. -/
theorem C28_kernel_symmetry (A0 A1 B0 B1 : QPointF) (eg : ℚ)
    (h : |cross2d (A1 - A0) (B1 - B0)| > eg
      ∨ (|cross2d (B0 - A0) (A1 - A0)| ≤ eg ↔ |cross2d (B0 - A0) (B1 - B0)| ≤ eg)) :
    IsSwapOf (intersectSegments A0 A1 B0 B1 eg) (intersectSegments B0 B1 A0 A1 eg)
    ∧ cutsOnFirst (intersectSegments B0 B1 A0 A1 eg)
        = cutsOnSecond (intersectSegments A0 A1 B0 B1 eg)
    ∧ cutsOnSecond (intersectSegments B0 B1 A0 A1 eg)
        = cutsOnFirst (intersectSegments A0 A1 B0 B1 eg) := by
  have key : IsSwapOf (intersectSegments A0 A1 B0 B1 eg)
      (intersectSegments B0 B1 A0 A1 eg) := by
    by_cases hx : |cross2d (A1 - A0) (B1 - B0)| > eg
    · exact intersectSegments_swap_nonparallel A0 A1 B0 B1 eg hx
    · have hiff := h.resolve_left hx
      have h1 := not_lt.mp hx
      by_cases h2 : |cross2d (B0 - A0) (A1 - A0)| ≤ eg
      · exact intersectSegments_swap_collinear A0 A1 B0 B1 eg h1 h2 (hiff.mp h2)
      · have h3 : ¬ |cross2d (B0 - A0) (B1 - B0)| ≤ eg := fun h3 => h2 (hiff.mpr h3)
        have h1' : |cross2d (B1 - B0) (A1 - A0)| ≤ eg := by
          rw [cross2d_swap, abs_neg]; exact h1
        have h3' : |cross2d (A0 - B0) (B1 - B0)| > eg := by
          rw [cross2d_neg_left, abs_neg]; exact not_le.mp h3
        rw [intersectSegments_far A0 A1 B0 B1 eg h1 (not_le.mp h2),
          intersectSegments_far B0 B1 A0 A1 eg h1' h3']
        trivial
  exact ⟨key, isSwapOf_cuts _ _ key⟩

/-- Witness for C28: the crossing edges of scenario S1 in both orders. -/
theorem C28_kernel_symmetry_witness :
    intersectSegments ⟨2, 0⟩ ⟨2, 2⟩ ⟨1, 1⟩ ⟨3, 1⟩ epsGeomS
        = SegmentIntersection.Point (1 / 2) (1 / 2) ⟨2, 1⟩
    ∧ IsSwapOf (intersectSegments ⟨2, 0⟩ ⟨2, 2⟩ ⟨1, 1⟩ ⟨3, 1⟩ epsGeomS)
        (intersectSegments ⟨1, 1⟩ ⟨3, 1⟩ ⟨2, 0⟩ ⟨2, 2⟩ epsGeomS) :=
  ⟨by decide!,
   (C28_kernel_symmetry ⟨2, 0⟩ ⟨2, 2⟩ ⟨1, 1⟩ ⟨3, 1⟩ epsGeomS (Or.inl (by decide!))).1⟩

/-! ### The atoms of an edge form a chain -/

theorem uniqueFrom_chain_sorted (ep last : ℚ) (l : List ℚ)
    (hs : List.Pairwise (· ≤ ·) (last :: l)) :
    List.Chain' (fun x y => ep ≤ y - x) (last :: uniqueFrom ep last l) := by
  induction l generalizing last with
  | nil => simp [uniqueFrom]
  | cons x xs ih =>
    have hlx : last ≤ x := (List.pairwise_cons.mp hs).1 x (List.mem_cons_self _ _)
    have hsx : List.Pairwise (· ≤ ·) (x :: xs) := (List.pairwise_cons.mp hs).2
    have hsl : List.Pairwise (· ≤ ·) (last :: xs) :=
      List.pairwise_cons.mpr ⟨fun y hy => (List.pairwise_cons.mp hs).1 y
        (List.mem_cons_of_mem _ hy), (List.pairwise_cons.mp hsx).2⟩
    simp only [uniqueFrom]
    split_ifs with h
    · exact ih last hsl
    · refine List.Chain'.cons ?_ (ih x hsx)
      rw [abs_sub_comm, abs_of_nonneg (by linarith)] at h
      linarith

/-- On a list whose consecutive elements are at least `eps_param` apart the emitting
loop emits every consecutive pair: the pairs start at the head of the list, each pair
starts where the one before ends, and the last pair ends at the last element. -/
theorem atomParams_tiling (ep : ℚ) (rest : List ℚ) :
    ∀ x : ℚ, rest ≠ [] → List.Chain' (fun a b => ep ≤ b - a) (x :: rest) →
      (atomParams ep (x :: rest)).head?.map Prod.fst = some x
      ∧ List.Chain' (fun p q : ℚ × ℚ => p.2 = q.1) (atomParams ep (x :: rest))
      ∧ (atomParams ep (x :: rest)).getLast?.map Prod.snd = (x :: rest).getLast? := by
  induction rest with
  | nil => intro x h; exact absurd rfl h
  | cons y r ih =>
    intro x _ hc
    have hxy : ep ≤ y - x := (List.chain'_cons.mp hc).1
    have hc2 : List.Chain' (fun a b => ep ≤ b - a) (y :: r) := (List.chain'_cons.mp hc).2
    have e : atomParams ep (x :: y :: r) = (x, y) :: atomParams ep (y :: r) := by
      simp only [atomParams, if_neg (not_lt.mpr hxy), List.singleton_append]
    rw [e]
    cases r with
    | nil =>
      simp [atomParams]
    | cons z r' =>
      obtain ⟨h1, h2, h3⟩ := ih y (List.cons_ne_nil _ _) hc2
      refine ⟨rfl, ?_, ?_⟩
      · rw [List.chain'_cons']
        refine ⟨?_, h2⟩
        intro q hq
        cases hh : (atomParams ep (y :: z :: r')).head? with
        | none => rw [hh] at hq; cases hq
        | some q0 =>
          rw [hh] at hq h1
          simp only [Option.mem_def, Option.some.injEq] at hq
          simp only [Option.map_some', Option.some.injEq] at h1
          rw [← hq, h1]
      · cases hl : atomParams ep (y :: z :: r') with
        | nil => rw [hl] at h1; cases h1
        | cons q qs =>
          rw [hl] at h3
          rw [List.getLast?_cons_cons, h3]
          simp only [List.getLast?_cons_cons]

/-- The atoms of a work item whose cut parameters lie in `[0, 1]` and include 0 and 1. -/
theorem explodeEdgeWork_tiling (poly : PolygonTopo) (ep : ℚ) (hep : 0 < ep) (hep1 : ep ≤ 1)
    (ew : EdgeWork) (hc : ∀ c ∈ ew.cutParams, 0 ≤ c ∧ c ≤ 1)
    (h0 : (0 : ℚ) ∈ ew.cutParams) (h1 : (1 : ℚ) ∈ ew.cutParams) :
    explodeEdgeWork ew poly ep ≠ []
    ∧ (explodeEdgeWork ew poly ep).head?.map (fun s => s.p0) = some (vertPos poly ew.edge.vStart)
    ∧ IsChainOfSegments (explodeEdgeWork ew poly ep)
    ∧ (∃ tEnd : ℚ, tEnd ∈ ew.cutParams ∧ 1 - ep < tEnd ∧ tEnd ≤ 1
        ∧ (explodeEdgeWork ew poly ep).getLast?.map (fun s => s.p1)
          = some (lerpPoint (vertPos poly ew.edge.vStart) (vertPos poly ew.edge.vEnd) tEnd)) := by
  have hperm := List.perm_insertionSort (· ≤ ·) ew.cutParams
  have hsorted : List.Pairwise (· ≤ ·) (ew.cutParams.insertionSort (· ≤ ·)) :=
    List.sorted_insertionSort (· ≤ ·) ew.cutParams
  have hU : edgeParams ep ew = uniqueParams ep (ew.cutParams.insertionSort (· ≤ ·)) := rfl
  cases hl : ew.cutParams.insertionSort (· ≤ ·) with
  | nil =>
    have : (0 : ℚ) ∈ ew.cutParams.insertionSort (· ≤ ·) := hperm.mem_iff.mpr h0
    rw [hl] at this; cases this
  | cons m l =>
    rw [hl] at hperm hsorted hU
    simp only [uniqueParams] at hU
    have hmem : ∀ c, c ∈ m :: l ↔ c ∈ ew.cutParams := fun c => hperm.mem_iff
    have hm0 : m = 0 := by
      have hmc := hc m ((hmem m).mp (List.mem_cons_self _ _))
      have h0m : (0 : ℚ) ∈ m :: l := (hmem 0).mpr h0
      rcases List.mem_cons.mp h0m with h | h
      · exact h.symm
      · have := (List.pairwise_cons.mp hsorted).1 0 h
        linarith [hmc.1]
    have hsubU : List.Sublist (m :: uniqueFrom ep m l) (m :: l) :=
      List.Sublist.cons₂ _ (uniqueFrom_sublist ep m l)
    have hUsorted : List.Pairwise (· ≤ ·) (m :: uniqueFrom ep m l) := hsorted.sublist hsubU
    have hUmem : ∀ k ∈ m :: uniqueFrom ep m l, k ∈ ew.cutParams :=
      fun k hk => (hmem k).mp (hsubU.subset hk)
    have hchain := uniqueFrom_chain_sorted ep m l hsorted
    obtain ⟨k1, hk1, hk1c⟩ := uniqueFrom_cover ep hep m l 1 ((hmem 1).mpr h1)
    have hk1gt : 1 - ep < k1 := by
      have := (abs_lt.mp hk1c).1
      linarith
    have hrest : uniqueFrom ep m l ≠ [] := by
      intro hnil
      rw [hnil] at hk1
      simp only [List.mem_singleton] at hk1
      rw [hk1, hm0] at hk1gt
      linarith
    obtain ⟨t1, t2, t3⟩ := atomParams_tiling ep (uniqueFrom ep m l) m hrest hchain
    rw [← hU] at t1 t2 t3
    -- the last kept parameter
    have hne : edgeParams ep ew ≠ [] := by rw [hU]; exact List.cons_ne_nil _ _
    have hlastmem : (edgeParams ep ew).getLast hne ∈ edgeParams ep ew := List.getLast_mem hne
    have hlast_ge : k1 ≤ (edgeParams ep ew).getLast hne := by
      have hk1U : k1 ∈ edgeParams ep ew := by rw [hU]; exact hk1
      obtain ⟨ys, hys⟩ := List.getLast?_eq_some_iff.mp (List.getLast?_eq_getLast _ hne)
      rw [hys] at hk1U
      rcases List.mem_append.mp hk1U with h | h
      · have hp : List.Pairwise (· ≤ ·) (ys ++ [(edgeParams ep ew).getLast hne]) := by
          rw [← hys, hU]; exact hUsorted
        exact (List.pairwise_append.mp hp).2.2 k1 h _ (List.mem_singleton_self _)
      · rw [List.mem_singleton.mp h]
    have hlast_cut : (edgeParams ep ew).getLast hne ∈ ew.cutParams :=
      hUmem _ (by rw [← hU]; exact hlastmem)
    rw [explodeEdgeWork_eq_map]
    refine ⟨?_, ?_, ?_, ?_⟩
    · intro hnil
      rw [List.map_eq_nil_iff] at hnil
      rw [hnil] at t1
      cases t1
    · rw [List.head?_map]
      cases hh : (atomParams ep (edgeParams ep ew)).head? with
      | none => rw [hh] at t1; cases t1
      | some q =>
        rw [hh] at t1
        simp only [Option.map_some', Option.some.injEq] at t1 ⊢
        show lerpPoint _ _ q.1 = _
        rw [t1, hm0, lerpPoint_zero]
    · unfold IsChainOfSegments
      rw [List.chain'_map]
      refine List.Chain'.imp ?_ t2
      intro a b hab
      show lerpPoint _ _ a.2 = lerpPoint _ _ b.1
      rw [hab]
    · refine ⟨(edgeParams ep ew).getLast hne, hlast_cut, by linarith,
        (hc _ hlast_cut).2, ?_⟩
      rw [List.getLast?_map]
      cases hh : (atomParams ep (edgeParams ep ew)).getLast? with
      | none =>
        rw [hh, List.getLast?_eq_getLast _ hne] at t3
        cases t3
      | some q =>
        rw [hh, List.getLast?_eq_getLast _ hne] at t3
        simp only [Option.map_some', Option.some.injEq] at t3 ⊢
        show lerpPoint _ _ q.2 = _
        rw [t3]

theorem chainOnEdge_of_cuts (poly : PolygonTopo) (ep : ℚ) (hep : 0 < ep) (hep1 : ep ≤ 1)
    (ew : EdgeWork) (hc : ∀ c ∈ ew.cutParams, 0 ≤ c ∧ c ≤ 1)
    (h0 : (0 : ℚ) ∈ ew.cutParams) (h1 : (1 : ℚ) ∈ ew.cutParams) :
    ChainOnEdge poly ew ep := by
  obtain ⟨a, b, c, tEnd, ht, hgt, hle, hlast⟩ :=
    explodeEdgeWork_tiling poly ep hep hep1 ew hc h0 h1
  refine ⟨a, b, c, ⟨tEnd, ht, hgt, hle, hlast⟩, ?_⟩
  intro hno
  rw [hlast, hno tEnd ht hgt]

/-- Every work item of A still has the cut parameters 0 and 1 when the passes are done. -/
theorem cutWork_endsA (polyA polyB : PolygonTopo) (eg ep : ℚ) (i : Nat)
    (hi : i < (buildRawEdges polyA true).length) :
    (0 : ℚ) ∈ cutsAt (cutWork polyA polyB eg ep).1 i
      ∧ (1 : ℚ) ∈ cutsAt (cutWork polyA polyB eg ep).1 i := by
  have h := cutsAt_initWork (buildRawEdges polyA true) i hi
  unfold cutWork
  simp only []
  exact ⟨(crossCuts_mono_cuts polyA polyB eg _ _ i 0).1
      (injectSelfCollinearCuts_mono _ _ eg ep _ i 0 h.1),
    (crossCuts_mono_cuts polyA polyB eg _ _ i 1).1
      (injectSelfCollinearCuts_mono _ _ eg ep _ i 1 h.2)⟩

theorem getD_mem_of_lt {α : Type} (l : List α) (d : α) (i : Nat) (h : i < l.length) :
    l.getD i d ∈ l := by
  rw [List.getD_eq_getElem _ _ h]
  exact List.getElem_mem _

/-- C29 fails as stated: the bottom edge of the unit square is cut at parameter
1 - 5e-10 by the rectangle; the deduplication keeps that cut and drops the parameter 1,
so the only atom of the edge ends at (1 - 5e-10, 0) and not at the end (1, 0) of the
edge. -/
theorem C29_counterexample_lost_tail :
    (0 : ℚ) < epsGeomS ∧ (0 : ℚ) < epsParamS ∧ epsParamS ≤ 1
    ∧ cutsAt (cutWork (makeTopoFromInput unitSquare defaultEps)
        (makeTopoFromInput nearEndRectangle defaultEps) epsGeomS epsParamS).1 0
      = [0, 1, 1, 0, 1999999999 / 2000000000]
    ∧ (explodeEdgeWork ((cutWork (makeTopoFromInput unitSquare defaultEps)
          (makeTopoFromInput nearEndRectangle defaultEps) epsGeomS epsParamS).1.getD 0 default)
        (makeTopoFromInput unitSquare defaultEps) epsParamS).map (fun s => (s.p0, s.p1))
      = [(⟨0, 0⟩, ⟨1999999999 / 2000000000, 0⟩)]
    ∧ vertPos (makeTopoFromInput unitSquare defaultEps)
        ((buildRawEdges (makeTopoFromInput unitSquare defaultEps) true).getD 0 default).vEnd
      = ⟨1, 0⟩ := by
  decide!

/-- C29, amended: for `0 < eps_param <= 1` the atoms emitted for every raw edge of A and
of B are non-empty and form a chain: the first starts at `P0`, each segment's `p1` is
the next segment's `p0`, and the last ends at the point `lerpPoint P0 P1 tEnd` of a cut
parameter `tEnd` with `1 - eps_param < tEnd <= 1`; that parameter is 1, so the last
point is `lerpPoint P0 P1 1`, when the edge has no cut parameter strictly between
`1 - eps_param` and 1. All these atoms are returned by `computeAtomicSegments`. -/
theorem C29_atoms_chain (polyA polyB : PolygonTopo) (eg ep : ℚ) (hep : 0 < ep)
    (hep1 : ep ≤ 1) :
    (∀ i, i < (buildRawEdges polyA true).length →
      ((cutWork polyA polyB eg ep).1.getD i default).edge
          = (buildRawEdges polyA true).getD i default
      ∧ ChainOnEdge polyA ((cutWork polyA polyB eg ep).1.getD i default) ep
      ∧ ∀ s ∈ explodeEdgeWork ((cutWork polyA polyB eg ep).1.getD i default) polyA ep,
          s ∈ computeAtomicSegments polyA polyB eg ep)
    ∧ (∀ j, j < (buildRawEdges polyB false).length →
      ((cutWork polyA polyB eg ep).2.getD j default).edge
          = (buildRawEdges polyB false).getD j default
      ∧ ChainOnEdge polyB ((cutWork polyA polyB eg ep).2.getD j default) ep
      ∧ ∀ s ∈ explodeEdgeWork ((cutWork polyA polyB eg ep).2.getD j default) polyB ep,
          s ∈ computeAtomicSegments polyA polyB eg ep) := by
  have hinv := cutWork_inv polyA polyB eg ep
  constructor
  · intro i hi
    have hlen : i < (cutWork polyA polyB eg ep).1.length := by
      rw [length_of_edges _ _ hinv.1.1]; exact hi
    have hmem := getD_mem_of_lt (cutWork polyA polyB eg ep).1 default i hlen
    have hends := cutWork_endsA polyA polyB eg ep i hi
    refine ⟨by rw [getD_edge, hinv.1.1],
      chainOnEdge_of_cuts polyA ep hep hep1 _ (hinv.1.2 _ hmem) hends.1 hends.2, ?_⟩
    intro s hs
    unfold computeAtomicSegments
    simp only [List.mem_append, List.mem_flatMap]
    exact Or.inl ⟨_, hmem, hs⟩
  · intro j hj
    have hlen : j < (cutWork polyA polyB eg ep).2.length := by
      rw [length_of_edges _ _ hinv.2.1]; exact hj
    have hmem := getD_mem_of_lt (cutWork polyA polyB eg ep).2 default j hlen
    have hends := cutWork_endsB polyA polyB eg ep j hj
    refine ⟨by rw [getD_edge, hinv.2.1],
      chainOnEdge_of_cuts polyB ep hep hep1 _ (hinv.2.2 _ hmem) hends.1 hends.2, ?_⟩
    intro s hs
    unfold computeAtomicSegments
    simp only [List.mem_append, List.mem_flatMap]
    exact Or.inr ⟨_, hmem, hs⟩

/-- Witness for C29: edge 1 of A in scenario S1, cut at 1/2, is tiled by two atoms. -/
theorem C29_atoms_chain_witness :
    (0 : ℚ) < epsParamS ∧ epsParamS ≤ 1
    ∧ ChainOnEdge (makeTopoFromInput squareA defaultEps)
        ((cutWork (makeTopoFromInput squareA defaultEps)
          (makeTopoFromInput squareB defaultEps) epsGeomS epsParamS).1.getD 1 default)
        epsParamS
    ∧ (explodeEdgeWork ((cutWork (makeTopoFromInput squareA defaultEps)
          (makeTopoFromInput squareB defaultEps) epsGeomS epsParamS).1.getD 1 default)
        (makeTopoFromInput squareA defaultEps) epsParamS).map (fun s => (s.p0, s.p1))
      = [(⟨2, 0⟩, ⟨2, 1⟩), (⟨2, 1⟩, ⟨2, 2⟩)] :=
  ⟨by decide!, by decide!,
   ((C29_atoms_chain (makeTopoFromInput squareA defaultEps)
      (makeTopoFromInput squareB defaultEps) epsGeomS epsParamS (by decide!) (by decide!)).1
      1 (by decide!)).2.1,
   by decide!⟩

/-! ### Midpoints of atoms and the loops they lie on -/

/-- The midpoint of a part of the segment from `p` to `q` passes the on-edge test of
that segment. -/
theorem onEdgeTest_midpoint (p q : QPointF) (s : AtomicSegment) (tLo tHi eps : ℚ)
    (heps : 0 < eps) (h0 : 0 ≤ tLo) (hlt : tLo < tHi) (h1 : tHi ≤ 1)
    (hp0 : s.p0 = p + (q - p) * tLo) (hp1 : s.p1 = p + (q - p) * tHi) :
    onEdgeTest p q (midpoint s) eps = true := by
  obtain ⟨px, py⟩ := p
  obtain ⟨qx, qy⟩ := q
  have hx0 : s.p0.x = px + (qx - px) * tLo := congrArg QPointF.x hp0
  have hy0 : s.p0.y = py + (qy - py) * tLo := congrArg QPointF.y hp0
  have hx1 : s.p1.x = px + (qx - px) * tHi := congrArg QPointF.x hp1
  have hy1 : s.p1.y = py + (qy - py) * tHi := congrArg QPointF.y hp1
  have hm : 0 ≤ (tLo + tHi) / 2 ∧ (tLo + tHi) / 2 ≤ 1 := ⟨by linarith, by linarith⟩
  have hsq : 0 ≤ (qx - px) * (qx - px) + (qy - py) * (qy - py) := by
    nlinarith [mul_self_nonneg (qx - px), mul_self_nonneg (qy - py)]
  have hcross : (1 / 2 * (s.p0.x + s.p1.x) - px) * (qy - py)
      - (1 / 2 * (s.p0.y + s.p1.y) - py) * (qx - px) = 0 := by
    rw [hx0, hx1, hy0, hy1]; ring
  have hdot : (1 / 2 * (s.p0.x + s.p1.x) - px) * (qx - px)
      + (1 / 2 * (s.p0.y + s.p1.y) - py) * (qy - py)
      = (tLo + tHi) / 2 * ((qx - px) * (qx - px) + (qy - py) * (qy - py)) := by
    rw [hx0, hx1, hy0, hy1]; ring
  have c1 : |(1 / 2 * (s.p0.x + s.p1.x) - px) * (qy - py)
      - (1 / 2 * (s.p0.y + s.p1.y) - py) * (qx - px)| < eps := by
    rw [hcross, abs_zero]; exact heps
  have c2 : (1 / 2 * (s.p0.x + s.p1.x) - px) * (qx - px)
      + (1 / 2 * (s.p0.y + s.p1.y) - py) * (qy - py) ≥ -eps := by
    rw [hdot]
    have := mul_nonneg hm.1 hsq
    linarith
  have c3 : (1 / 2 * (s.p0.x + s.p1.x) - px) * (qx - px)
      + (1 / 2 * (s.p0.y + s.p1.y) - py) * (qy - py)
      ≤ (qx - px) * (qx - px) + (qy - py) * (qy - py) + eps := by
    rw [hdot]
    have := mul_le_mul_of_nonneg_right hm.2 hsq
    linarith
  show (if |(1 / 2 * (s.p0.x + s.p1.x) - px) * (qy - py)
        - (1 / 2 * (s.p0.y + s.p1.y) - py) * (qx - px)| < eps then
      (if (1 / 2 * (s.p0.x + s.p1.x) - px) * (qx - px)
          + (1 / 2 * (s.p0.y + s.p1.y) - py) * (qy - py) ≥ -eps then
        (if (1 / 2 * (s.p0.x + s.p1.x) - px) * (qx - px)
            + (1 / 2 * (s.p0.y + s.p1.y) - py) * (qy - py)
            ≤ (qx - px) * (qx - px) + (qy - py) * (qy - py) + eps then true else false)
      else false)
    else false) = true
  rw [if_pos c1, if_pos c2, if_pos c3]

/-- The midpoint of an atom cut from an edge of a loop of at least three points tests
inside that loop, by the on-edge test. -/
theorem pointInSimpleLoop_cutFromLoop (L : List QPointF) (s : AtomicSegment) (eps : ℚ)
    (heps : 0 < eps) (hL : 3 ≤ L.length) (h : CutFromLoop L s) :
    pointInSimpleLoop L (midpoint s) eps = true := by
  obtain ⟨p, q, ⟨i, hi, rfl, rfl⟩, tLo, tHi, h0, hlt, h1, hp0, hp1⟩ := h
  have hon := onEdgeTest_midpoint _ _ s tLo tHi eps heps h0 hlt h1 hp0 hp1
  unfold pointInSimpleLoop
  have hn : ¬ (L.length < 3) := by omega
  have hany : (List.range L.length).any
      (fun i => onEdgeTest (L.getD i default) (L.getD ((i + 1) % L.length) default)
        (midpoint s) eps) = true :=
    List.any_eq_true.mpr ⟨i, List.mem_range.mpr hi, hon⟩
  simp only [hn, if_false, hany, if_true]

/-- A raw edge of a built topology with outer loop retained, with the size of its loop. -/
theorem rawEdges_loop_id_len (poly : InputPolygon) (eps : ℚ) (f : Bool)
    (h : 3 ≤ (normalizeLoop poly.outerLoop eps).length) :
    ∀ e ∈ buildRawEdges (makeTopoFromInput poly eps) f,
      (e.loopId = 0 → IsLoopEdge (normalizeLoop poly.outerLoop eps)
          (vertPos (makeTopoFromInput poly eps) e.vStart)
          (vertPos (makeTopoFromInput poly eps) e.vEnd))
      ∧ (e.loopId > 0 → ∃ hl ∈ poly.holeLoops, 3 ≤ (normalizeLoop hl eps).length
          ∧ IsLoopEdge (normalizeLoop hl eps)
            (vertPos (makeTopoFromInput poly eps) e.vStart)
            (vertPos (makeTopoFromInput poly eps) e.vEnd)) := by
  intro e he
  obtain ⟨L, hL, i, hi, _, _, _, h3, h4⟩ := rawEdges_makeTopo poly eps f e he
  rw [retainedLoops_outer poly eps h] at hL
  constructor
  · intro h0
    rw [h0] at hL
    simp only [List.getElem?_cons_zero, Option.some.injEq] at hL
    subst hL
    exact ⟨i, hi, h3, h4⟩
  · intro hpos
    obtain ⟨k, hk⟩ : ∃ k, e.loopId = k + 1 := ⟨e.loopId - 1, by omega⟩
    rw [hk, List.getElem?_cons_succ] at hL
    have hmem := List.getElem?_mem hL
    have hlen : 3 ≤ L.length := by simpa using (List.mem_filter.mp hmem).2
    obtain ⟨hl, hhl, rfl⟩ := List.mem_map.mp (List.mem_filter.mp hmem).1
    exact ⟨hl, hhl, hlen, i, hi, h3, h4⟩

/-- For a polygon whose loops are not shortened by normalization: the midpoint of an
atom cut from a raw edge of its topology tests outside the polygon when the edge is on
a hole, and inside the outer loop when the edge is on the outer loop. -/
theorem midpoint_on_loops (P : InputPolygon) (hP : LoopsUnnormalized P) (f : Bool) (ep : ℚ)
    (e : RawEdge) (he : e ∈ buildRawEdges (makeTopoFromInput P defaultEps) f)
    (s : AtomicSegment) (hs : IsSubSegmentOf (makeTopoFromInput P defaultEps) e ep s) :
    (s.loopId > 0 → pointInPolygonWithHoles P (midpoint s) = false)
    ∧ (s.loopId = 0 → pointInSimpleLoop P.outerLoop (midpoint s) defaultEps = true) := by
  obtain ⟨h3, hno, hnh⟩ := hP
  have h3' : 3 ≤ (normalizeLoop P.outerLoop defaultEps).length := by rw [hno]; exact h3
  have hr := rawEdges_loop_id_len P defaultEps f h3' e he
  have hid : s.loopId = e.loopId := hs.choose_spec.choose_spec.2.2.2.2.2.2.1
  have heps : (0 : ℚ) < defaultEps := by unfold defaultEps; norm_num
  constructor
  · intro hpos
    obtain ⟨hl, hhl, hlen, hedge⟩ := hr.2 (hid ▸ hpos)
    have hcut := subsegment_cutFromLoop _ e ep s hs _ hedge
    rw [hnh hl hhl] at hcut hlen
    have hin := pointInSimpleLoop_cutFromLoop hl s defaultEps heps hlen hcut
    unfold pointInPolygonWithHoles
    have hany : P.holeLoops.any (fun h => pointInSimpleLoop h (midpoint s) defaultEps) = true :=
      List.any_eq_true.mpr ⟨hl, hhl, hin⟩
    rw [hany]
    by_cases ho : (!pointInSimpleLoop P.outerLoop (midpoint s) defaultEps) = true
    · rw [if_pos ho]
    · rw [if_neg ho, if_pos rfl]
  · intro h0
    have hcut := subsegment_cutFromLoop _ e ep s hs _ (hr.1 (hid ▸ h0))
    rw [hno] at hcut
    exact pointInSimpleLoop_cutFromLoop _ s defaultEps heps h3 hcut

theorem recordEvents_nil (w : EdgeWork) : recordEvents [] w = w := by
  cases w; simp [recordEvents]

theorem recordEvents_append (es1 es2 : List (ℚ ⊕ OverlapInterval)) (w : EdgeWork) :
    recordEvents es2 (recordEvents es1 w) = recordEvents (es1 ++ es2) w := by
  simp [recordEvents, List.filterMap_append, List.append_assoc]

theorem modifyAt_ext {α : Type} (f g : α → α) (i : Nat) (l : List α)
    (h : ∀ x ∈ l, f x = g x) : modifyAt f i l = modifyAt g i l := by
  induction l generalizing i with
  | nil => cases i <;> rfl
  | cons a l ih =>
    cases i with
    | zero => simp [modifyAt, h a (List.mem_cons_self _ _)]
    | succ n =>
      simp only [modifyAt]
      rw [ih n (fun x hx => h x (List.mem_cons_of_mem _ hx))]

theorem modifyAt_self {α : Type} (f : α → α) (i : Nat) (l : List α)
    (h : ∀ x ∈ l, f x = x) : modifyAt f i l = l := by
  induction l generalizing i with
  | nil => cases i <;> rfl
  | cons a l ih =>
    cases i with
    | zero => simp [modifyAt, h a (List.mem_cons_self _ _)]
    | succ n =>
      simp only [modifyAt]
      rw [ih n (fun x hx => h x (List.mem_cons_of_mem _ hx))]

theorem modifyAt_twice {α : Type} (f g : α → α) (i : Nat) (l : List α) :
    modifyAt g i (modifyAt f i l) = modifyAt (fun x => g (f x)) i l := by
  induction l generalizing i with
  | nil => cases i <;> rfl
  | cons a l ih =>
    cases i with
    | zero => simp [modifyAt]
    | succ n => simp only [modifyAt]; rw [ih n]

/-- One step of the cross pass records the events of the kernel result on the two
edges of the pair. -/
theorem crossPairStep_records_events (polyA polyB : PolygonTopo) (eg : ℚ)
    (st : List EdgeWork × List EdgeWork) (i j : Nat) :
    crossPairStep polyA polyB eg st i j
      = (modifyAt (recordEvents (eventsOnFirst
            (kernelOnEdges polyA (st.1.getD i default).edge polyB
              (st.2.getD j default).edge eg))) i st.1,
         modifyAt (recordEvents (eventsOnSecond
            (kernelOnEdges polyA (st.1.getD i default).edge polyB
              (st.2.getD j default).edge eg))) j st.2) := by
  rw [crossPairStep_eq]
  cases kernelOnEdges polyA (st.1.getD i default).edge polyB (st.2.getD j default).edge eg with
  | None =>
    simp only [eventsOnFirst, eventsOnSecond]
    rw [modifyAt_self _ _ _ (fun x _ => recordEvents_nil x),
      modifyAt_self _ _ _ (fun x _ => recordEvents_nil x)]
  | Point tA tB P =>
    simp only [eventsOnFirst, eventsOnSecond, pushCuts]
    congr 1
    · exact modifyAt_ext _ _ _ _ (fun x _ => by cases x; simp [recordEvents])
    · exact modifyAt_ext _ _ _ _ (fun x _ => by cases x; simp [recordEvents])
  | Overlap a0 a1 b0 b1 =>
    simp only [eventsOnFirst, eventsOnSecond, pushCuts, pushOverlap]
    rw [modifyAt_twice, modifyAt_twice]
    rfl

theorem records_refl (W : List EdgeWork) : Records W W (fun _ => []) := by
  intro k
  show W[k]? = (W[k]?).map (recordEvents [])
  rw [show recordEvents [] = id from funext recordEvents_nil, Option.map_id]
  rfl

theorem records_step (W W2 : List EdgeWork) (E : Nat → List (ℚ ⊕ OverlapInterval))
    (h : Records W W2 E) (i : Nat) (es : List (ℚ ⊕ OverlapInterval)) :
    Records W (modifyAt (recordEvents es) i W2)
      (fun k => if k = i then E k ++ es else E k) := by
  intro k
  show (modifyAt (recordEvents es) i W2)[k]?
    = (W[k]?).map (recordEvents (if k = i then E k ++ es else E k))
  rw [getElem?_modifyAt, h k]
  by_cases hk : k = i
  · rw [if_pos hk, if_pos hk]
    cases W[k]? with
    | none => rfl
    | some w => simp [recordEvents_append]
  · rw [if_neg hk, if_neg hk]

theorem records_congr (W W2 : List EdgeWork) (E E2 : Nat → List (ℚ ⊕ OverlapInterval))
    (hE : ∀ k, k < W.length → E k = E2 k) (h : Records W W2 E) : Records W W2 E2 := by
  intro k
  rw [h k]
  by_cases hk : k < W.length
  · rw [hE k hk]
  · rw [List.getElem?_eq_none (not_lt.mp hk)]
    rfl

theorem records_edge (W W2 : List EdgeWork) (E : Nat → List (ℚ ⊕ OverlapInterval))
    (h : Records W W2 E) (i : Nat) :
    (W2.getD i default).edge = (W.getD i default).edge := by
  rw [List.getD_eq_getElem?_getD, List.getD_eq_getElem?_getD, h i]
  cases W[i]? with
  | none => rfl
  | some w => rfl

/-- The inner loop of the cross pass, for the edge `i` of A and the edges `js` of B. -/
theorem crossInner_records (polyA polyB : PolygonTopo) (eg : ℚ) (WA WB : List EdgeWork)
    (i : Nat) (js : List Nat) :
    ∀ (st : List EdgeWork × List EdgeWork) (EA EB : Nat → List (ℚ ⊕ OverlapInterval)),
      Records WA st.1 EA → Records WB st.2 EB →
      Records WA (js.foldl (fun st2 j => crossPairStep polyA polyB eg st2 i j) st).1
          (fun k => if k = i then EA k ++ js.flatMap (fun j => eventsOnFirst
            (kernelOnEdges polyA (WA.getD i default).edge polyB (WB.getD j default).edge eg))
            else EA k)
      ∧ Records WB (js.foldl (fun st2 j => crossPairStep polyA polyB eg st2 i j) st).2
          (fun k => EB k ++ js.flatMap (fun j => if j = k then eventsOnSecond
            (kernelOnEdges polyA (WA.getD i default).edge polyB (WB.getD j default).edge eg)
            else [])) := by
  induction js with
  | nil =>
    intro st EA EB hA hB
    refine ⟨records_congr _ _ _ _ (fun k _ => ?_) hA, records_congr _ _ _ _ (fun k _ => ?_) hB⟩
    · by_cases hk : k = i <;> simp [hk]
    · simp
  | cons j js ih =>
    intro st EA EB hA hB
    rw [List.foldl_cons, crossPairStep_records_events, records_edge _ _ _ hA i,
      records_edge _ _ _ hB j]
    have h1 := records_step _ _ _ hA i (eventsOnFirst
      (kernelOnEdges polyA (WA.getD i default).edge polyB (WB.getD j default).edge eg))
    have h2 := records_step _ _ _ hB j (eventsOnSecond
      (kernelOnEdges polyA (WA.getD i default).edge polyB (WB.getD j default).edge eg))
    obtain ⟨r1, r2⟩ := ih (_, _) _ _ h1 h2
    refine ⟨records_congr _ _ _ _ (fun k _ => ?_) r1, records_congr _ _ _ _ (fun k _ => ?_) r2⟩
    · by_cases hk : k = i
      · simp [hk, List.flatMap_cons, List.append_assoc]
      · simp [hk]
    · by_cases hk : k = j
      · subst hk
        simp [List.flatMap_cons, List.append_assoc]
      · have hk2 : ¬ j = k := fun h => hk h.symm
        simp [hk, hk2, List.flatMap_cons]

/-- The double loop of the cross pass, for the edges `is` of A and `js` of B. -/
theorem crossOuter_records (polyA polyB : PolygonTopo) (eg : ℚ) (WA WB : List EdgeWork)
    (js : List Nat) (is : List Nat) :
    ∀ (st : List EdgeWork × List EdgeWork) (EA EB : Nat → List (ℚ ⊕ OverlapInterval)),
      Records WA st.1 EA → Records WB st.2 EB →
      Records WA (is.foldl (fun st1 i =>
            js.foldl (fun st2 j => crossPairStep polyA polyB eg st2 i j) st1) st).1
          (fun k => EA k ++ is.flatMap (fun i => if i = k then
            js.flatMap (fun j => eventsOnFirst
              (kernelOnEdges polyA (WA.getD i default).edge polyB (WB.getD j default).edge eg))
            else []))
      ∧ Records WB (is.foldl (fun st1 i =>
            js.foldl (fun st2 j => crossPairStep polyA polyB eg st2 i j) st1) st).2
          (fun k => EB k ++ is.flatMap (fun i => js.flatMap (fun j => if j = k then
            eventsOnSecond
              (kernelOnEdges polyA (WA.getD i default).edge polyB (WB.getD j default).edge eg)
            else []))) := by
  induction is with
  | nil =>
    intro st EA EB hA hB
    exact ⟨records_congr _ _ _ _ (fun k _ => by simp) hA,
      records_congr _ _ _ _ (fun k _ => by simp) hB⟩
  | cons i is ih =>
    intro st EA EB hA hB
    rw [List.foldl_cons]
    obtain ⟨h1, h2⟩ := crossInner_records polyA polyB eg WA WB i js st EA EB hA hB
    obtain ⟨r1, r2⟩ := ih _ _ _ h1 h2
    refine ⟨records_congr _ _ _ _ (fun k _ => ?_) r1, records_congr _ _ _ _ (fun k _ => ?_) r2⟩
    · by_cases hk : k = i
      · subst hk
        simp [List.flatMap_cons, List.append_assoc]
      · have hk2 : ¬ i = k := fun h => hk h.symm
        simp [hk, hk2, List.flatMap_cons]
    · simp [List.flatMap_cons, List.append_assoc]

theorem flatMap_range_single {α : Type} (n k : Nat) (f : Nat → List α) :
    (List.range n).flatMap (fun i => if i = k then f i else []) = if k < n then f k else [] := by
  induction n with
  | zero => simp
  | succ n ih =>
    rw [List.range_succ, List.flatMap_append, ih]
    by_cases h1 : k < n
    · have h2 : ¬ n = k := by omega
      have h3 : k < n + 1 := by omega
      simp [h1, h2, h3]
    · by_cases h2 : n = k
      · subst h2
        simp
      · have h3 : ¬ k < n + 1 := by omega
        simp [h1, h2, h3]

/-- Closed form of the cross pass: edge `k` of A records, for `j = 0, 1, ...` in this
order, the first-edge events of the kernel on `(k, j)`; edge `k` of B records, for
`i = 0, 1, ...` in this order, the second-edge events of the kernel on `(i, k)`. -/
theorem crossCuts_closed (polyA polyB : PolygonTopo) (eg : ℚ) (WA WB : List EdgeWork) :
    Records WA (crossCuts polyA polyB eg WA WB).1
        (fun k => (List.range WB.length).flatMap (fun j => eventsOnFirst
          (kernelOnEdges polyA (WA.getD k default).edge polyB (WB.getD j default).edge eg)))
    ∧ Records WB (crossCuts polyA polyB eg WA WB).2
        (fun k => (List.range WA.length).flatMap (fun i => eventsOnSecond
          (kernelOnEdges polyA (WA.getD i default).edge polyB (WB.getD k default).edge eg))) := by
  unfold crossCuts
  obtain ⟨h1, h2⟩ := crossOuter_records polyA polyB eg WA WB (List.range WB.length)
    (List.range WA.length) (WA, WB) _ _ (records_refl WA) (records_refl WB)
  refine ⟨records_congr _ _ _ _ (fun k hk => ?_) h1, records_congr _ _ _ _ (fun k hk => ?_) h2⟩
  · simp only [List.nil_append]
    rw [flatMap_range_single WA.length k (fun i => (List.range WB.length).flatMap
      (fun j => eventsOnFirst
        (kernelOnEdges polyA (WA.getD i default).edge polyB (WB.getD j default).edge eg)))]
    rw [if_pos hk]
  · simp only [List.nil_append]
    congr 1
    funext i
    rw [flatMap_range_single WB.length k (fun j => eventsOnSecond
      (kernelOnEdges polyA (WA.getD i default).edge polyB (WB.getD j default).edge eg))]
    rw [if_pos hk]

theorem kernel_swap (A0 A1 B0 B1 : QPointF) (eg : ℚ)
    (h : kernelSymmetricAt A0 A1 B0 B1 eg = true) :
    IsSwapOf (intersectSegments A0 A1 B0 B1 eg) (intersectSegments B0 B1 A0 A1 eg) := by
  have h := of_decide_eq_true h
  by_cases hx : |cross2d (A1 - A0) (B1 - B0)| > eg
  · exact intersectSegments_swap_nonparallel A0 A1 B0 B1 eg hx
  · have hiff := h.resolve_left hx
    have h1 := not_lt.mp hx
    by_cases h2 : |cross2d (B0 - A0) (A1 - A0)| ≤ eg
    · exact intersectSegments_swap_collinear A0 A1 B0 B1 eg h1 h2 (hiff.mp h2)
    · have h3 : ¬ |cross2d (B0 - A0) (B1 - B0)| ≤ eg := fun h3 => h2 (hiff.mpr h3)
      have h1' : |cross2d (B1 - B0) (A1 - A0)| ≤ eg := by
        rw [cross2d_swap, abs_neg]; exact h1
      have h3' : |cross2d (A0 - B0) (B1 - B0)| > eg := by
        rw [cross2d_neg_left, abs_neg]; exact not_le.mp h3
      rw [intersectSegments_far A0 A1 B0 B1 eg h1 (not_le.mp h2),
        intersectSegments_far B0 B1 A0 A1 eg h1' h3']
      trivial

theorem isSwapOf_events (r1 r2 : SegmentIntersection) (h : IsSwapOf r1 r2) :
    eventsOnFirst r2 = eventsOnSecond r1 ∧ eventsOnSecond r2 = eventsOnFirst r1 := by
  cases r1 <;> cases r2 <;> simp only [IsSwapOf] at h
  · exact ⟨rfl, rfl⟩
  · obtain ⟨rfl, rfl⟩ := h
    exact ⟨rfl, rfl⟩
  · obtain ⟨rfl, rfl, rfl, rfl⟩ := h
    exact ⟨rfl, rfl⟩

theorem getD_map_setEdgeFlag (c : Bool) (W : List EdgeWork) (i : Nat) :
    ((W.map (setEdgeFlag c)).getD i default).edge.vStart = (W.getD i default).edge.vStart
    ∧ ((W.map (setEdgeFlag c)).getD i default).edge.vEnd = (W.getD i default).edge.vEnd := by
  rw [List.getD_eq_getElem?_getD, List.getD_eq_getElem?_getD, List.getElem?_map]
  cases W[i]? with
  | none => exact ⟨rfl, rfl⟩
  | some w => exact ⟨rfl, rfl⟩

theorem kernelOnEdges_setEdgeFlag (polyA polyB : PolygonTopo) (eg : ℚ) (c1 c2 : Bool)
    (WA WB : List EdgeWork) (i j : Nat) :
    kernelOnEdges polyA ((WA.map (setEdgeFlag c1)).getD i default).edge
        polyB ((WB.map (setEdgeFlag c2)).getD j default).edge eg
      = kernelOnEdges polyA (WA.getD i default).edge polyB (WB.getD j default).edge eg := by
  unfold kernelOnEdges
  rw [(getD_map_setEdgeFlag c1 WA i).1, (getD_map_setEdgeFlag c1 WA i).2,
    (getD_map_setEdgeFlag c2 WB j).1, (getD_map_setEdgeFlag c2 WB j).2]

theorem flatMap_congr_mem {α β : Type} (l : List α) (f g : α → List β)
    (h : ∀ x ∈ l, f x = g x) : l.flatMap f = l.flatMap g := by
  induction l with
  | nil => rfl
  | cons a l ih =>
    rw [List.flatMap_cons, List.flatMap_cons, h a (List.mem_cons_self _ _),
      ih (fun x hx => h x (List.mem_cons_of_mem _ hx))]

theorem recordEvents_setEdgeFlag (c : Bool) (es : List (ℚ ⊕ OverlapInterval)) (w : EdgeWork) :
    recordEvents es (setEdgeFlag c w) = setEdgeFlag c (recordEvents es w) := rfl

/-- The cross pass with the operands exchanged: when the kernel treats every pair of
edges alike in both orders, each edge records the same events, in the same order. -/
theorem crossCuts_swap (polyA polyB : PolygonTopo) (eg : ℚ) (WA WB : List EdgeWork)
    (c1 c2 : Bool)
    (hsym : ∀ i, i < WA.length → ∀ j, j < WB.length →
      kernelSymmetricAt (vertPos polyA (WA.getD i default).edge.vStart)
        (vertPos polyA (WA.getD i default).edge.vEnd)
        (vertPos polyB (WB.getD j default).edge.vStart)
        (vertPos polyB (WB.getD j default).edge.vEnd) eg = true) :
    crossCuts polyB polyA eg (WB.map (setEdgeFlag c2)) (WA.map (setEdgeFlag c1))
      = ((crossCuts polyA polyB eg WA WB).2.map (setEdgeFlag c2),
         (crossCuts polyA polyB eg WA WB).1.map (setEdgeFlag c1)) := by
  obtain ⟨h1, h2⟩ := crossCuts_closed polyA polyB eg WA WB
  obtain ⟨g1, g2⟩ := crossCuts_closed polyB polyA eg (WB.map (setEdgeFlag c2))
    (WA.map (setEdgeFlag c1))
  have hev : ∀ i, i < WA.length → ∀ j, j < WB.length →
      eventsOnFirst (kernelOnEdges polyB ((WB.map (setEdgeFlag c2)).getD j default).edge
          polyA ((WA.map (setEdgeFlag c1)).getD i default).edge eg)
        = eventsOnSecond (kernelOnEdges polyA (WA.getD i default).edge polyB
            (WB.getD j default).edge eg)
      ∧ eventsOnSecond (kernelOnEdges polyB ((WB.map (setEdgeFlag c2)).getD j default).edge
          polyA ((WA.map (setEdgeFlag c1)).getD i default).edge eg)
        = eventsOnFirst (kernelOnEdges polyA (WA.getD i default).edge polyB
            (WB.getD j default).edge eg) := by
    intro i hi j hj
    rw [kernelOnEdges_setEdgeFlag]
    exact isSwapOf_events _ _ (kernel_swap _ _ _ _ eg (hsym i hi j hj))
  apply Prod.ext
  · apply List.ext_getElem?
    intro k
    show (crossCuts polyB polyA eg (WB.map (setEdgeFlag c2)) (WA.map (setEdgeFlag c1))).1[k]?
      = ((crossCuts polyA polyB eg WA WB).2.map (setEdgeFlag c2))[k]?
    rw [g1 k, List.getElem?_map, List.getElem?_map, h2 k]
    by_cases hk : k < WB.length
    · rw [List.getElem?_eq_getElem hk]
      simp only [Option.map_some', List.length_map]
      rw [recordEvents_setEdgeFlag]
      rw [flatMap_congr_mem _ _ _ (fun i hi => (hev i (List.mem_range.mp hi) k hk).1)]
    · rw [List.getElem?_eq_none (not_lt.mp hk)]
      rfl
  · apply List.ext_getElem?
    intro k
    show (crossCuts polyB polyA eg (WB.map (setEdgeFlag c2)) (WA.map (setEdgeFlag c1))).2[k]?
      = ((crossCuts polyA polyB eg WA WB).1.map (setEdgeFlag c1))[k]?
    rw [g2 k, List.getElem?_map, List.getElem?_map, h1 k]
    by_cases hk : k < WA.length
    · rw [List.getElem?_eq_getElem hk]
      simp only [Option.map_some', List.length_map]
      rw [recordEvents_setEdgeFlag]
      rw [flatMap_congr_mem _ _ _ (fun j hj => (hev k hk j (List.mem_range.mp hj)).2)]
    · rw [List.getElem?_eq_none (not_lt.mp hk)]
      rfl

theorem foldl_map_comm {σ τ α : Type} (g : σ → τ) (f : σ → α → σ) (f2 : τ → α → τ)
    (h : ∀ st x, f2 (g st) x = g (f st x)) (l : List α) (st : σ) :
    l.foldl f2 (g st) = g (l.foldl f st) := by
  induction l generalizing st with
  | nil => rfl
  | cons a l ih => rw [List.foldl_cons, List.foldl_cons, h, ih]

theorem map_modifyAt_comm {α : Type} (f g : α → α) (hfg : ∀ x, g (f x) = f (g x))
    (i : Nat) (l : List α) :
    modifyAt f i (l.map g) = (modifyAt f i l).map g := by
  induction l generalizing i with
  | nil => cases i <;> rfl
  | cons a l ih =>
    cases i with
    | zero => simp [modifyAt, hfg]
    | succ n => simp only [modifyAt, List.map_cons]; rw [ih n]

theorem pushCuts_setEdgeFlag (c : Bool) (W : List EdgeWork) (i : Nat) (cs : List ℚ) :
    pushCuts (W.map (setEdgeFlag c)) i cs = (pushCuts W i cs).map (setEdgeFlag c) := by
  unfold pushCuts
  exact map_modifyAt_comm (fun (w : EdgeWork) => { w with cutParams := w.cutParams ++ cs })
    (setEdgeFlag c) (fun _ => rfl) i W

theorem getD_map_flag (c : Bool) (raw : List RawEdge) (i : Nat) :
    ((raw.map (fun (e : RawEdge) => { e with fromA := c })).getD i default).vStart
        = (raw.getD i default).vStart
    ∧ ((raw.map (fun (e : RawEdge) => { e with fromA := c })).getD i default).vEnd
        = (raw.getD i default).vEnd := by
  rw [List.getD_eq_getElem?_getD, List.getD_eq_getElem?_getD, List.getElem?_map]
  cases raw[i]? with
  | none => exact ⟨rfl, rfl⟩
  | some w => exact ⟨rfl, rfl⟩

theorem selfPairStep_flag (poly : PolygonTopo) (raw : List RawEdge) (eg : ℚ) (c : Bool)
    (W : List EdgeWork) (i j : Nat) :
    selfPairStep poly (raw.map (fun (e : RawEdge) => { e with fromA := c })) eg
        (W.map (setEdgeFlag c)) i j
      = (selfPairStep poly raw eg W i j).map (setEdgeFlag c) := by
  rw [selfPairStep_eq, selfPairStep_eq]
  have hk : kernelOnEdges poly ((raw.map (fun (e : RawEdge) => { e with fromA := c })).getD i default)
        poly ((raw.map (fun (e : RawEdge) => { e with fromA := c })).getD j default) eg
      = kernelOnEdges poly (raw.getD i default) poly (raw.getD j default) eg := by
    unfold kernelOnEdges
    rw [(getD_map_flag c raw i).1, (getD_map_flag c raw i).2,
      (getD_map_flag c raw j).1, (getD_map_flag c raw j).2]
  rw [hk]
  cases kernelOnEdges poly (raw.getD i default) poly (raw.getD j default) eg with
  | None => rfl
  | Point tA tB P =>
    show pushCuts (pushCuts (W.map (setEdgeFlag c)) i [tA]) j [tB] = _
    rw [pushCuts_setEdgeFlag, pushCuts_setEdgeFlag]
  | Overlap a0 a1 b0 b1 =>
    show pushCuts (pushCuts (W.map (setEdgeFlag c)) i [a0, a1]) j [b0, b1] = _
    rw [pushCuts_setEdgeFlag, pushCuts_setEdgeFlag]

/-- The self pass does not look at the provenance flag. -/
theorem injectSelfCollinearCuts_flag (poly : PolygonTopo) (raw : List RawEdge) (eg ep : ℚ)
    (c : Bool) (W : List EdgeWork) :
    injectSelfCollinearCuts poly (raw.map (fun (e : RawEdge) => { e with fromA := c }))
        (W.map (setEdgeFlag c)) eg ep
      = (injectSelfCollinearCuts poly raw W eg ep).map (setEdgeFlag c) := by
  unfold injectSelfCollinearCuts
  simp only [List.length_map]
  refine foldl_map_comm (fun W => W.map (setEdgeFlag c))
    (fun w i => (List.range' (i + 1) (raw.length - (i + 1))).foldl
      (fun w2 j => selfPairStep poly raw eg w2 i j) w)
    (fun w i => (List.range' (i + 1) (raw.length - (i + 1))).foldl
      (fun w2 j => selfPairStep poly (raw.map (fun (e : RawEdge) => { e with fromA := c }))
        eg w2 i j) w) ?_ _ W
  intro st i
  exact foldl_map_comm (fun W => W.map (setEdgeFlag c))
    (fun w2 j => selfPairStep poly raw eg w2 i j)
    (fun w2 j => selfPairStep poly (raw.map (fun (e : RawEdge) => { e with fromA := c }))
      eg w2 i j)
    (fun st2 j => selfPairStep_flag poly raw eg c st2 i j) _ st

theorem initWork_flag (c : Bool) (raw : List RawEdge) :
    initWork (raw.map (fun (e : RawEdge) => { e with fromA := c })) = (initWork raw).map (setEdgeFlag c) := by
  unfold initWork
  rw [List.map_map, List.map_map]
  rfl

theorem buildRawEdgesFrom_setFlag (c c2 : Bool) (lid : Nat) (ls : List LoopTopo) :
    buildRawEdgesFrom c lid ls
      = (buildRawEdgesFrom c2 lid ls).map (fun (e : RawEdge) => { e with fromA := c }) := by
  induction ls generalizing lid with
  | nil => rfl
  | cons a l ih =>
    simp only [buildRawEdgesFrom, List.map_append, ih]
    congr 1
    split_ifs
    · rfl
    · simp [loopEdges]

theorem buildRawEdges_setFlag (poly : PolygonTopo) (c c2 : Bool) :
    buildRawEdges poly c = (buildRawEdges poly c2).map (fun (e : RawEdge) => { e with fromA := c }) :=
  buildRawEdgesFrom_setFlag c c2 0 poly.loops

/-- The cut passes with the operands exchanged: when the kernel treats every pair of an
edge of A and an edge of B alike in both orders, the work arrays are those of the
other order, exchanged, with the provenance flags exchanged. -/
theorem cutWork_swap (polyA polyB : PolygonTopo) (eg ep : ℚ)
    (hsym : ∀ eA ∈ buildRawEdges polyA true, ∀ eB ∈ buildRawEdges polyB false,
      kernelSymmetricAt (vertPos polyA eA.vStart) (vertPos polyA eA.vEnd)
        (vertPos polyB eB.vStart) (vertPos polyB eB.vEnd) eg = true) :
    cutWork polyB polyA eg ep
      = ((cutWork polyA polyB eg ep).2.map (setEdgeFlag true),
         (cutWork polyA polyB eg ep).1.map (setEdgeFlag false)) := by
  have hA := injectSelfCollinearCuts_inv polyA (buildRawEdges polyA true) eg ep _ _
    (initWork_inv (buildRawEdges polyA true))
  have hB := injectSelfCollinearCuts_inv polyB (buildRawEdges polyB false) eg ep _ _
    (initWork_inv (buildRawEdges polyB false))
  have e1 : injectSelfCollinearCuts polyB (buildRawEdges polyB true)
        (initWork (buildRawEdges polyB true)) eg ep
      = (injectSelfCollinearCuts polyB (buildRawEdges polyB false)
          (initWork (buildRawEdges polyB false)) eg ep).map (setEdgeFlag true) := by
    rw [buildRawEdges_setFlag polyB true false, initWork_flag, injectSelfCollinearCuts_flag]
  have e2 : injectSelfCollinearCuts polyA (buildRawEdges polyA false)
        (initWork (buildRawEdges polyA false)) eg ep
      = (injectSelfCollinearCuts polyA (buildRawEdges polyA true)
          (initWork (buildRawEdges polyA true)) eg ep).map (setEdgeFlag false) := by
    rw [buildRawEdges_setFlag polyA false true, initWork_flag, injectSelfCollinearCuts_flag]
  show crossCuts polyB polyA eg
      (injectSelfCollinearCuts polyB (buildRawEdges polyB true)
        (initWork (buildRawEdges polyB true)) eg ep)
      (injectSelfCollinearCuts polyA (buildRawEdges polyA false)
        (initWork (buildRawEdges polyA false)) eg ep) = _
  rw [e1, e2]
  refine crossCuts_swap polyA polyB eg _ _ false true ?_
  intro i hi j hj
  have hiE : (((injectSelfCollinearCuts polyA (buildRawEdges polyA true)
      (initWork (buildRawEdges polyA true)) eg ep).getD i default).edge)
      ∈ buildRawEdges polyA true := by
    rw [getD_edge, hA.1]
    exact getD_mem_of_lt _ _ _ (by rw [← length_of_edges _ _ hA.1]; exact hi)
  have hjE : (((injectSelfCollinearCuts polyB (buildRawEdges polyB false)
      (initWork (buildRawEdges polyB false)) eg ep).getD j default).edge)
      ∈ buildRawEdges polyB false := by
    rw [getD_edge, hB.1]
    exact getD_mem_of_lt _ _ _ (by rw [← length_of_edges _ _ hB.1]; exact hj)
  exact hsym _ hiE _ hjE

theorem explodeEdgeWork_flag (c : Bool) (w : EdgeWork) (poly : PolygonTopo) (ep : ℚ) :
    explodeEdgeWork (setEdgeFlag c w) poly ep
      = (explodeEdgeWork w poly ep).map (fun s => { s with fromA := c }) := by
  rw [explodeEdgeWork_eq_map, explodeEdgeWork_eq_map, List.map_map]
  rfl

theorem flatMap_explode_swap (c : Bool) (W : List EdgeWork) (poly : PolygonTopo) (ep : ℚ)
    (hW : ∀ w ∈ W, w.edge.fromA = !c) :
    (W.map (setEdgeFlag c)).flatMap (fun ew => explodeEdgeWork ew poly ep)
      = (W.flatMap (fun ew => explodeEdgeWork ew poly ep)).map swapAtom := by
  induction W with
  | nil => rfl
  | cons w W ih =>
    rw [List.map_cons, List.flatMap_cons, List.flatMap_cons, List.map_append,
      ih (fun x hx => hW x (List.mem_cons_of_mem _ hx)), explodeEdgeWork_flag]
    congr 1
    rw [explodeEdgeWork_eq_map, List.map_map, List.map_map]
    apply List.map_congr_left
    intro t _
    have hf := hW w (List.mem_cons_self _ _)
    show ({ atomOf poly w ep t with fromA := c } : AtomicSegment) = swapAtom (atomOf poly w ep t)
    unfold swapAtom atomOf
    simp only [hf, Bool.not_not]

/-- The atoms of the other operand order: those of B, then those of A, each with its
provenance flag exchanged. -/
theorem computeAtomicSegments_swap (polyA polyB : PolygonTopo) (eg ep : ℚ)
    (hsym : ∀ eA ∈ buildRawEdges polyA true, ∀ eB ∈ buildRawEdges polyB false,
      kernelSymmetricAt (vertPos polyA eA.vStart) (vertPos polyA eA.vEnd)
        (vertPos polyB eB.vStart) (vertPos polyB eB.vEnd) eg = true) :
    computeAtomicSegments polyB polyA eg ep
      = ((cutWork polyA polyB eg ep).2.flatMap
            (fun ew => explodeEdgeWork ew polyB ep)).map swapAtom
        ++ ((cutWork polyA polyB eg ep).1.flatMap
            (fun ew => explodeEdgeWork ew polyA ep)).map swapAtom := by
  have hinv := cutWork_inv polyA polyB eg ep
  have hfA : ∀ w ∈ (cutWork polyA polyB eg ep).1, w.edge.fromA = !false := by
    intro w hw
    exact fromA_buildRawEdges polyA true _
      (by rw [← hinv.1.1]; exact List.mem_map_of_mem (fun w => w.edge) hw)
  have hfB : ∀ w ∈ (cutWork polyA polyB eg ep).2, w.edge.fromA = !true := by
    intro w hw
    exact fromA_buildRawEdges polyB false _
      (by rw [← hinv.2.1]; exact List.mem_map_of_mem (fun w => w.edge) hw)
  show (cutWork polyB polyA eg ep).1.flatMap (fun ew => explodeEdgeWork ew polyB ep)
      ++ (cutWork polyB polyA eg ep).2.flatMap (fun ew => explodeEdgeWork ew polyA ep) = _
  rw [cutWork_swap polyA polyB eg ep hsym]
  show ((cutWork polyA polyB eg ep).2.map (setEdgeFlag true)).flatMap
        (fun ew => explodeEdgeWork ew polyB ep)
      ++ ((cutWork polyA polyB eg ep).1.map (setEdgeFlag false)).flatMap
        (fun ew => explodeEdgeWork ew polyA ep) = _
  rw [flatMap_explode_swap true _ polyB ep hfB, flatMap_explode_swap false _ polyA ep hfA]

/-- When the kernel treats every pair of an edge of A and an edge of B alike in both
orders, `prepare(B, A)` holds the atoms of `prepare(A, B)` with provenance exchanged. -/
theorem prepare_swap_perm (A B : InputPolygon) (eg ep : ℚ) (hsym : SymmetricPairs A B eg) :
    List.Perm (prepare B A eg ep).atoms ((prepare A B eg ep).atoms.map swapAtom) := by
  show List.Perm (computeAtomicSegments (makeTopoFromInput B defaultEps)
      (makeTopoFromInput A defaultEps) eg ep)
    ((computeAtomicSegments (makeTopoFromInput A defaultEps)
      (makeTopoFromInput B defaultEps) eg ep).map swapAtom)
  rw [computeAtomicSegments_swap _ _ eg ep hsym]
  unfold computeAtomicSegments
  simp only [List.map_append]
  exact List.perm_append_comm

theorem filter_split_perm {α : Type} (p c : α → Bool) (l : List α) :
    List.Perm (l.filter p)
      (l.filter (fun a => c a && p a) ++ l.filter (fun a => (!c a) && p a)) := by
  have h := (List.filter_append_perm c (l.filter p)).symm
  rw [List.filter_filter, List.filter_filter] at h
  exact h

theorem sameDirectionTwins_eq (hypot : ℚ → ℚ → ℚ) (A B : InputPolygon)
    (K : AtomicSegment → Bool)
    (hK : ∀ s, s.coincidentWithOther = true →
      K s = ((!coincidentOpposite hypot s A B) && s.fromA))
    (atoms : List AtomicSegment) :
    sameDirectionTwins hypot A B true atoms
        = (atoms.filter (fun s => s.coincidentWithOther && K s)).map polylineOf
    ∧ sameDirectionTwins hypot A B false atoms
        = (atoms.filter (fun s => s.coincidentWithOther
            && keepSwapped hypot A B K s)).map polylineOf
    ∧ atoms.filter (fun s => (!s.coincidentWithOther) && keepSwapped hypot A B K s)
        = atoms.filter (fun s => (!s.coincidentWithOther) && K s) := by
  refine ⟨?_, ?_, ?_⟩
  · unfold sameDirectionTwins
    congr 1
    apply List.filter_congr
    intro s _
    cases hc : s.coincidentWithOther
    · rfl
    · rw [hK s hc]
      cases s.fromA <;> cases coincidentOpposite hypot s A B <;> rfl
  · unfold sameDirectionTwins
    congr 1
    apply List.filter_congr
    intro s _
    unfold keepSwapped
    cases hc : s.coincidentWithOther
    · rfl
    · cases s.fromA <;> cases coincidentOpposite hypot s A B <;> rfl
  · apply List.filter_congr
    intro s _
    unfold keepSwapped
    cases hc : s.coincidentWithOther
    · rfl
    · rfl

/-- The result of the exchanged order equals the result of the given order, up to the
order of the polylines, exactly when the same-direction coincident atoms from B have
the polylines of those from A. -/
theorem swapped_result_iff (hypot : ℚ → ℚ → ℚ) (A B : InputPolygon)
    (K : AtomicSegment → Bool)
    (hK : ∀ s, s.coincidentWithOther = true →
      K s = ((!coincidentOpposite hypot s A B) && s.fromA))
    (atoms : List AtomicSegment) (X : List (List QPointF))
    (hX : List.Perm X ((atoms.filter (keepSwapped hypot A B K)).map polylineOf)) :
    List.Perm X ((atoms.filter K).map polylineOf)
      ↔ List.Perm (sameDirectionTwins hypot A B false atoms)
          (sameDirectionTwins hypot A B true atoms) := by
  obtain ⟨e1, e2, e3⟩ := sameDirectionTwins_eq hypot A B K hK atoms
  have dS : List.Perm ((atoms.filter (keepSwapped hypot A B K)).map polylineOf)
      (sameDirectionTwins hypot A B false atoms
        ++ (atoms.filter (fun s => (!s.coincidentWithOther) && K s)).map polylineOf) := by
    rw [e2, ← e3, ← List.map_append]
    exact (filter_split_perm _ (fun s => s.coincidentWithOther) atoms).map polylineOf
  have dU : List.Perm ((atoms.filter K).map polylineOf)
      (sameDirectionTwins hypot A B true atoms
        ++ (atoms.filter (fun s => (!s.coincidentWithOther) && K s)).map polylineOf) := by
    rw [e1, ← List.map_append]
    exact (filter_split_perm _ (fun s => s.coincidentWithOther) atoms).map polylineOf
  constructor
  · intro h
    exact (List.perm_append_right_iff _).mp (dS.symm.trans (hX.symm.trans (h.trans dU)))
  · intro h
    exact hX.trans (dS.trans (((List.perm_append_right_iff _).mpr h).trans dU.symm))

theorem keepSwapped_eq_union (hypot : ℚ → ℚ → ℚ) (A B : InputPolygon) (s : AtomicSegment) :
    specKeepUnion hypot B A (swapAtom s)
      = keepSwapped hypot A B (specKeepUnion hypot A B) s := by
  unfold keepSwapped
  cases hc : s.coincidentWithOther
  · exact (specKeep_swap hypot A B s hc).1
  · exact (specKeep_swap_coincident hypot A B s hc).1

theorem keepSwapped_eq_intersection (hypot : ℚ → ℚ → ℚ) (A B : InputPolygon)
    (s : AtomicSegment) :
    specKeepIntersection hypot B A (swapAtom s)
      = keepSwapped hypot A B (specKeepIntersection hypot A B) s := by
  unfold keepSwapped
  cases hc : s.coincidentWithOther
  · exact (specKeep_swap hypot A B s hc).2
  · exact (specKeep_swap_coincident hypot A B s hc).2

theorem sameDirectionTwins_axis (hypot : ℚ → ℚ → ℚ) (hyp : HypotExact hypot)
    (A B : InputPolygon) (c : Bool) (atoms : List AtomicSegment)
    (h : ∀ seg ∈ atoms, seg.p1.y - seg.p0.y = 0 ∨ -(seg.p1.x - seg.p0.x) = 0) :
    sameDirectionTwins hypot A B c atoms = sameDirectionTwins hypotAxis A B c atoms := by
  unfold sameDirectionTwins
  congr 1
  apply List.filter_congr
  intro s hs
  rw [coincidentOpposite_congr hypot hypotAxis s A B (hypot_axis hypot hyp _ _ (h s hs))]

theorem sameDirectionTwins_nil (hypot : ℚ → ℚ → ℚ) (A B : InputPolygon) (c : Bool)
    (atoms : List AtomicSegment)
    (h : ∀ s ∈ atoms, s.coincidentWithOther = true → coincidentOpposite hypot s A B = true) :
    sameDirectionTwins hypot A B c atoms = [] := by
  unfold sameDirectionTwins
  rw [List.map_eq_nil_iff, List.filter_eq_nil_iff]
  intro s hs
  cases hc : s.coincidentWithOther
  · simp
  · simp [h s hs hc]

/-- C6, amended: when every pair of an edge of A and an edge of B satisfies the
symmetry condition of the kernel (`|r x s| > eps_geom`, or `|d x r| <= eps_geom` iff
`|d x s| <= eps_geom`), `prepare(B, A)` holds the atoms of `prepare(A, B)` with
provenance exchanged; union (intersection) of (B, A) emits the polylines of the atoms
of `prepare(A, B)` that the union (intersection) rule keeps, except that of the
coincident atoms it keeps the same-direction ones from B where (A, B) keeps the
same-direction ones from A; hence the two orders give the same polylines up to order
exactly when the same-direction coincident atoms from B have the same polylines, up to
order, as those from A; in particular they do when every atom flagged coincident (if
any) is classified opposite-direction. -/
theorem C6_commutativity (hypot : ℚ → ℚ → ℚ) (A B : InputPolygon) (eg ep : ℚ)
    (hsym : SymmetricPairs A B eg) :
    List.Perm (prepare B A eg ep).atoms ((prepare A B eg ep).atoms.map swapAtom)
    ∧ List.Perm (computeAdditionSegments hypot (prepare B A eg ep) B A)
        (((prepare A B eg ep).atoms.filter
          (keepSwapped hypot A B (specKeepUnion hypot A B))).map polylineOf)
    ∧ List.Perm (computeIntersectionSegments hypot (prepare B A eg ep) B A)
        (((prepare A B eg ep).atoms.filter
          (keepSwapped hypot A B (specKeepIntersection hypot A B))).map polylineOf)
    ∧ (List.Perm (computeAdditionSegments hypot (prepare B A eg ep) B A)
          (computeAdditionSegments hypot (prepare A B eg ep) A B)
        ↔ List.Perm (sameDirectionTwins hypot A B false (prepare A B eg ep).atoms)
            (sameDirectionTwins hypot A B true (prepare A B eg ep).atoms))
    ∧ (List.Perm (computeIntersectionSegments hypot (prepare B A eg ep) B A)
          (computeIntersectionSegments hypot (prepare A B eg ep) A B)
        ↔ List.Perm (sameDirectionTwins hypot A B false (prepare A B eg ep).atoms)
            (sameDirectionTwins hypot A B true (prepare A B eg ep).atoms))
    ∧ ((∀ s ∈ (prepare A B eg ep).atoms, s.coincidentWithOther = true →
          coincidentOpposite hypot s A B = true) →
        List.Perm (computeAdditionSegments hypot (prepare B A eg ep) B A)
            (computeAdditionSegments hypot (prepare A B eg ep) A B)
          ∧ List.Perm (computeIntersectionSegments hypot (prepare B A eg ep) B A)
            (computeIntersectionSegments hypot (prepare A B eg ep) A B)) := by
  have hprep := prepare_swap_perm A B eg ep hsym
  have hU : List.Perm (computeAdditionSegments hypot (prepare B A eg ep) B A)
      (((prepare A B eg ep).atoms.filter
        (keepSwapped hypot A B (specKeepUnion hypot A B))).map polylineOf) := by
    unfold computeAdditionSegments segmentsToPolylines
    rw [classifyForAddition_eq_filter]
    exact filter_swap_perm _ _ _ _ hprep (fun s _ => keepSwapped_eq_union hypot A B s)
  have hI : List.Perm (computeIntersectionSegments hypot (prepare B A eg ep) B A)
      (((prepare A B eg ep).atoms.filter
        (keepSwapped hypot A B (specKeepIntersection hypot A B))).map polylineOf) := by
    unfold computeIntersectionSegments segmentsToPolylines
    rw [classifyForIntersection_eq_filter]
    exact filter_swap_perm _ _ _ _ hprep (fun s _ => keepSwapped_eq_intersection hypot A B s)
  have eU : computeAdditionSegments hypot (prepare A B eg ep) A B
      = ((prepare A B eg ep).atoms.filter (specKeepUnion hypot A B)).map polylineOf := by
    unfold computeAdditionSegments segmentsToPolylines
    rw [classifyForAddition_eq_filter]
    rfl
  have eI : computeIntersectionSegments hypot (prepare A B eg ep) A B
      = ((prepare A B eg ep).atoms.filter (specKeepIntersection hypot A B)).map polylineOf := by
    unfold computeIntersectionSegments segmentsToPolylines
    rw [classifyForIntersection_eq_filter]
    rfl
  have iU : List.Perm (computeAdditionSegments hypot (prepare B A eg ep) B A)
        (computeAdditionSegments hypot (prepare A B eg ep) A B)
      ↔ List.Perm (sameDirectionTwins hypot A B false (prepare A B eg ep).atoms)
          (sameDirectionTwins hypot A B true (prepare A B eg ep).atoms) := by
    rw [eU]
    exact swapped_result_iff hypot A B _
      (fun s hc => by unfold specKeepUnion; rw [hc]; rfl) _ _ hU
  have iI : List.Perm (computeIntersectionSegments hypot (prepare B A eg ep) B A)
        (computeIntersectionSegments hypot (prepare A B eg ep) A B)
      ↔ List.Perm (sameDirectionTwins hypot A B false (prepare A B eg ep).atoms)
          (sameDirectionTwins hypot A B true (prepare A B eg ep).atoms) := by
    rw [eI]
    exact swapped_result_iff hypot A B _
      (fun s hc => by unfold specKeepIntersection; rw [hc]; rfl) _ _ hI
  refine ⟨hprep, hU, hI, iU, iI, ?_⟩
  intro hopp
  have hnil : List.Perm (sameDirectionTwins hypot A B false (prepare A B eg ep).atoms)
      (sameDirectionTwins hypot A B true (prepare A B eg ep).atoms) := by
    rw [sameDirectionTwins_nil hypot A B false _ hopp,
      sameDirectionTwins_nil hypot A B true _ hopp]
  exact ⟨iU.mpr hnil, iI.mpr hnil⟩

theorem squares_S3_atoms_axis :
    ∀ seg ∈ (prepare squareA squareS3B epsGeomS epsParamS).atoms,
      seg.p1.y - seg.p0.y = 0 ∨ -(seg.p1.x - seg.p0.x) = 0 := by
  decide!

/-- Witness for C6: the two squares of scenario S1, where no atom is coincident, and
the two squares of scenario S3, whose shared edge gives two coincident atoms of
opposite direction. -/
theorem C6_commutativity_witness :
    (SymmetricPairs squareA squareB epsGeomS
      ∧ List.Perm
          (computeAdditionSegments hypotRat (prepare squareB squareA epsGeomS epsParamS)
            squareB squareA)
          (computeAdditionSegments hypotRat (prepare squareA squareB epsGeomS epsParamS)
            squareA squareB))
    ∧ (SymmetricPairs squareA squareS3B epsGeomS
      ∧ ((prepare squareA squareS3B epsGeomS epsParamS).atoms.filter
          (fun s => s.coincidentWithOther)).length = 2
      ∧ List.Perm
          (computeAdditionSegments hypotRat (prepare squareS3B squareA epsGeomS epsParamS)
            squareS3B squareA)
          (computeAdditionSegments hypotRat (prepare squareA squareS3B epsGeomS epsParamS)
            squareA squareS3B)) :=
  ⟨⟨by decide!,
    (C6_commutativity hypotRat squareA squareB epsGeomS epsParamS (by decide!)).2.2.2.1.mpr
      (by decide!)⟩,
   ⟨by decide!, by decide!,
    (C6_commutativity hypotRat squareA squareS3B epsGeomS epsParamS
        (by decide!)).2.2.2.1.mpr
      (by
        rw [sameDirectionTwins_axis hypotRat hypotRat_exact _ _ _ _ squares_S3_atoms_axis,
          sameDirectionTwins_axis hypotRat hypotRat_exact _ _ _ _ squares_S3_atoms_axis]
        decide!)⟩⟩

/-! ### Operands that are clearly apart -/

theorem lerp_coord_le (a b M t : ℚ) (h0 : 0 ≤ t) (h1 : t ≤ 1) (ha : a ≤ M) (hb : b ≤ M) :
    a + (b - a) * t ≤ M := by
  have h2 : 0 ≤ (1 - t) * (M - a) := mul_nonneg (by linarith) (by linarith)
  have h3 : 0 ≤ t * (M - b) := mul_nonneg h0 (by linarith)
  nlinarith

theorem lerp_coord_ge (a b m t : ℚ) (h0 : 0 ≤ t) (h1 : t ≤ 1) (ha : m ≤ a) (hb : m ≤ b) :
    m ≤ a + (b - a) * t := by
  have h2 : 0 ≤ (1 - t) * (a - m) := mul_nonneg (by linarith) (by linarith)
  have h3 : 0 ≤ t * (b - m) := mul_nonneg h0 (by linarith)
  nlinarith

/-- A coordinate of the point of parameter `t` in `[-eg, 1 + eg]` exceeds the larger end
by at most `eg` times the extent of the segment. -/
theorem ext_coord_le (a b M t eg : ℚ) (heg : 0 ≤ eg) (h0 : -eg ≤ t) (h1 : t ≤ 1 + eg)
    (ha : a ≤ M) (hb : b ≤ M) :
    a + (b - a) * t ≤ M + eg * |b - a| := by
  have hc := specClamp_near t eg heg h0 h1
  have hs0 : 0 ≤ specClamp t := by unfold specClamp; exact le_max_left _ _
  have hs1 : specClamp t ≤ 1 := by
    unfold specClamp
    exact max_le (by norm_num) (min_le_left _ _)
  have h2 := lerp_coord_le a b M (specClamp t) hs0 hs1 ha hb
  have h3 : (b - a) * (t - specClamp t) ≤ eg * |b - a| := by
    have h4 : (b - a) * (t - specClamp t) ≤ |(b - a) * (t - specClamp t)| := le_abs_self _
    rw [abs_mul] at h4
    have h5 : |t - specClamp t| ≤ eg := by rw [abs_sub_comm]; exact hc
    have h6 : |b - a| * |t - specClamp t| ≤ |b - a| * eg :=
      mul_le_mul_of_nonneg_left h5 (abs_nonneg _)
    linarith
  nlinarith

theorem ext_coord_ge (a b m t eg : ℚ) (heg : 0 ≤ eg) (h0 : -eg ≤ t) (h1 : t ≤ 1 + eg)
    (ha : m ≤ a) (hb : m ≤ b) :
    m - eg * |b - a| ≤ a + (b - a) * t := by
  have h := ext_coord_le (-a) (-b) (-m) t eg heg h0 h1 (by linarith) (by linarith)
  have e : |-b - -a| = |b - a| := by
    rw [show -b - -a = -(b - a) by ring, abs_neg]
  rw [e] at h
  nlinarith

/-- Two segments whose coordinates along one axis are `g` apart have no common point of
parameters in `[-eg, 1 + eg]` when `g` exceeds `eg` times the sum of their extents. -/
theorem sep_1d (a0 a1 b0 b1 t u eg g : ℚ) (heg : 0 ≤ eg)
    (ht0 : -eg ≤ t) (ht1 : t ≤ 1 + eg) (hu0 : -eg ≤ u) (hu1 : u ≤ 1 + eg)
    (hmeet : a0 + (a1 - a0) * t = b0 + (b1 - b0) * u)
    (hg : eg * (|a1 - a0| + |b1 - b0|) < g)
    (h00 : a0 + g ≤ b0) (h01 : a0 + g ≤ b1) (h10 : a1 + g ≤ b0) (h11 : a1 + g ≤ b1) :
    False := by
  have hA := ext_coord_le a0 a1 (max a0 a1) t eg heg ht0 ht1 (le_max_left _ _) (le_max_right _ _)
  have hB := ext_coord_ge b0 b1 (min b0 b1) u eg heg hu0 hu1 (min_le_left _ _) (min_le_right _ _)
  have hm : max a0 a1 + g ≤ min b0 b1 := by
    rcases max_cases a0 a1 with ⟨e1, _⟩ | ⟨e1, _⟩ <;>
      rcases min_cases b0 b1 with ⟨e2, _⟩ | ⟨e2, _⟩ <;> rw [e1, e2] <;> assumption
  nlinarith

/-- The coordinate along an axis direction of the point of parameter `t` of a segment. -/
theorem coordAlong_lerp (d : Fin 4) (p q : QPointF) (t : ℚ) :
    coordAlong d (p + (q - p) * t) = coordAlong d p + (coordAlong d q - coordAlong d p) * t := by
  obtain ⟨px, py⟩ := p
  obtain ⟨qx, qy⟩ := q
  fin_cases d
  · show px + (qx - px) * t = px + (qx - px) * t
    rfl
  · show -(px + (qx - px) * t) = -px + (-qx - -px) * t
    ring
  · show py + (qy - py) * t = py + (qy - py) * t
    rfl
  · show -(py + (qy - py) * t) = -py + (-qy - -py) * t
    ring

theorem coordAlong_extent (d : Fin 4) (p q : QPointF) :
    |coordAlong d q - coordAlong d p| ≤ |q.x - p.x| + |q.y - p.y| := by
  obtain ⟨px, py⟩ := p
  obtain ⟨qx, qy⟩ := q
  fin_cases d
  · show |qx - px| ≤ |qx - px| + |qy - py|
    linarith [abs_nonneg (qy - py)]
  · show |-qx - -px| ≤ |qx - px| + |qy - py|
    rw [show -qx - -px = -(qx - px) by ring, abs_neg]
    linarith [abs_nonneg (qy - py)]
  · show |qy - py| ≤ |qx - px| + |qy - py|
    linarith [abs_nonneg (qx - px)]
  · show |-qy - -py| ≤ |qx - px| + |qy - py|
    rw [show -qy - -py = -(qy - py) by ring, abs_neg]
    linarith [abs_nonneg (qx - px)]

theorem coordAlong_linear (d : Fin 4) :
    ∃ al be : ℚ, (∀ p : QPointF, coordAlong d p = al * p.x + be * p.y)
      ∧ |al| ≤ 1 ∧ |be| ≤ 1 := by
  fin_cases d
  · exact ⟨1, 0, fun p => by show p.x = 1 * p.x + 0 * p.y; ring, by norm_num, by norm_num⟩
  · exact ⟨-1, 0, fun p => by show -p.x = -1 * p.x + 0 * p.y; ring, by norm_num, by norm_num⟩
  · exact ⟨0, 1, fun p => by show p.y = 0 * p.x + 1 * p.y; ring, by norm_num, by norm_num⟩
  · exact ⟨0, -1, fun p => by show -p.y = 0 * p.x + -1 * p.y; ring, by norm_num, by norm_num⟩

theorem between_param (x y t : ℚ) (h0 : min x y ≤ t) (h1 : t ≤ max x y) :
    ∃ lam : ℚ, 0 ≤ lam ∧ lam ≤ 1 ∧ x + lam * (y - x) = t := by
  by_cases hxy : x = y
  · subst hxy
    rw [min_self] at h0
    rw [max_self] at h1
    exact ⟨0, le_refl _, by norm_num, by linarith⟩
  · rcases lt_or_gt_of_ne hxy with hlt | hgt
    · rw [min_eq_left (le_of_lt hlt)] at h0
      rw [max_eq_right (le_of_lt hlt)] at h1
      have hpos : 0 < y - x := by linarith
      refine ⟨(t - x) / (y - x), div_nonneg (by linarith) (le_of_lt hpos),
        (div_le_one hpos).mpr (by linarith), ?_⟩
      field_simp
    · rw [min_eq_right (le_of_lt hgt)] at h0
      rw [max_eq_left (le_of_lt hgt)] at h1
      have hneg : y - x < 0 := by linarith
      refine ⟨(t - x) / (y - x), div_nonneg_of_nonpos (by linarith) (le_of_lt hneg),
        (div_le_one_of_neg hneg).mpr (by linarith), ?_⟩
      have hne : y - x ≠ 0 := ne_of_lt hneg
      field_simp

/-- A point `w` (relative to the start of a segment of direction `r`) within `2 eg` of
the line of the segment in cross product, and `g` beyond both ends of the segment along
an axis direction, cannot project onto the segment. -/
theorem collinear_core (rx ry wx wy al be eg g t : ℚ)
    (hrr : 0 < rx * rx + ry * ry) (hal : |al| ≤ 1) (hbe : |be| ≤ 1) (heg : 0 ≤ eg)
    (ht0 : 0 ≤ t) (ht1 : t ≤ 1)
    (ht : t * (rx * rx + ry * ry) = wx * rx + wy * ry)
    (hK : |rx * wy - ry * wx| ≤ 2 * eg)
    (hphi : g ≤ al * wx + be * wy)
    (hphi2 : g ≤ al * wx + be * wy - (al * rx + be * ry))
    (hres : 2 * eg * (|rx| + |ry|) < g * (rx * rx + ry * ry)) : False := by
  have hN : |(-al * ry + be * rx)| ≤ |rx| + |ry| := by
    have h1 := abs_add (-al * ry) (be * rx)
    rw [abs_mul, abs_mul, abs_neg] at h1
    have h2 : |al| * |ry| ≤ 1 * |ry| := mul_le_mul_of_nonneg_right hal (abs_nonneg _)
    have h3 : |be| * |rx| ≤ 1 * |rx| := mul_le_mul_of_nonneg_right hbe (abs_nonneg _)
    linarith
  have hprod : (rx * wy - ry * wx) * (-al * ry + be * rx) ≤ 2 * eg * (|rx| + |ry|) := by
    have h1 := le_abs_self ((rx * wy - ry * wx) * (-al * ry + be * rx))
    rw [abs_mul] at h1
    have h2 := mul_le_mul hK hN (abs_nonneg _) (by linarith)
    linarith
  have hid : (rx * rx + ry * ry) * (al * wx + be * wy - t * (al * rx + be * ry))
      = (rx * wy - ry * wx) * (-al * ry + be * rx) := by
    have e : (rx * rx + ry * ry) * (al * wx + be * wy - t * (al * rx + be * ry))
        = (rx * rx + ry * ry) * (al * wx + be * wy)
          - (t * (rx * rx + ry * ry)) * (al * rx + be * ry) := by ring
    rw [e, ht]
    ring
  have hlow : g ≤ al * wx + be * wy - t * (al * rx + be * ry) := by
    have e : al * wx + be * wy - t * (al * rx + be * ry) - g
        = (1 - t) * (al * wx + be * wy - g)
          + t * (al * wx + be * wy - (al * rx + be * ry) - g) := by ring
    have h1 : 0 ≤ (1 - t) * (al * wx + be * wy - g) := mul_nonneg (by linarith) (by linarith)
    have h2 : 0 ≤ t * (al * wx + be * wy - (al * rx + be * ry) - g) :=
      mul_nonneg ht0 (by linarith)
    linarith
  have hfin : (rx * rx + ry * ry) * g
      ≤ (rx * rx + ry * ry) * (al * wx + be * wy - t * (al * rx + be * ry)) :=
    mul_le_mul_of_nonneg_left hlow (le_of_lt hrr)
  rw [hid] at hfin
  linarith

theorem combo_cross (rx ry w0x w0y w1x w1y eg lam : ℚ) (hl0 : 0 ≤ lam) (hl1 : lam ≤ 1)
    (hc0 : |w0x * ry - w0y * rx| ≤ eg)
    (hc1 : |rx * (w1y - w0y) - ry * (w1x - w0x)| ≤ eg) :
    |rx * (w0y + lam * (w1y - w0y)) - ry * (w0x + lam * (w1x - w0x))| ≤ 2 * eg := by
  have e : rx * (w0y + lam * (w1y - w0y)) - ry * (w0x + lam * (w1x - w0x))
      = -(w0x * ry - w0y * rx) + lam * (rx * (w1y - w0y) - ry * (w1x - w0x)) := by ring
  rw [e]
  have h1 := abs_add (-(w0x * ry - w0y * rx)) (lam * (rx * (w1y - w0y) - ry * (w1x - w0x)))
  rw [abs_neg, abs_mul, abs_of_nonneg hl0] at h1
  have h2 : lam * |rx * (w1y - w0y) - ry * (w1x - w0x)| ≤ 1 * eg :=
    mul_le_mul hl1 hc1 (abs_nonneg _) (by norm_num)
  linarith

theorem combo_ge (u v g lam : ℚ) (hl0 : 0 ≤ lam) (hl1 : lam ≤ 1) (hu : g ≤ u) (hv : g ≤ v) :
    g ≤ u + lam * (v - u) := by
  have e : u + lam * (v - u) - g = (1 - lam) * (u - g) + lam * (v - g) := by ring
  have h1 : 0 ≤ (1 - lam) * (u - g) := mul_nonneg (by linarith) (by linarith)
  have h2 : 0 ≤ lam * (v - g) := mul_nonneg hl0 (by linarith)
  linarith

/-- In the collinear branch, when the first segment is at least `eps_geom` long
(squared) and the segments are `g` apart, the interval of the first segment's parameter
axis covered by the second is empty. -/
theorem kernelIntervalA_empty (A0 A1 B0 B1 : QPointF) (eg g : ℚ) (heg : 0 ≤ eg) (d : Fin 4)
    (h00 : coordAlong d A0 + g ≤ coordAlong d B0) (h01 : coordAlong d A0 + g ≤ coordAlong d B1)
    (h10 : coordAlong d A1 + g ≤ coordAlong d B0) (h11 : coordAlong d A1 + g ≤ coordAlong d B1)
    (h1 : |cross2d (A1 - A0) (B1 - B0)| ≤ eg) (h2 : |cross2d (B0 - A0) (A1 - A0)| ≤ eg)
    (hlen : eg ≤ dot2d (A1 - A0) (A1 - A0)) (hpos : 0 < dot2d (A1 - A0) (A1 - A0))
    (hres : 2 * eg * (|A1.x - A0.x| + |A1.y - A0.y|) < g * dot2d (A1 - A0) (A1 - A0)) :
    (kernelIntervalA A0 A1 B0 B1 eg).2 < (kernelIntervalA A0 A1 B0 B1 eg).1 := by
  obtain ⟨al, be, hlin, hal, hbe⟩ := coordAlong_linear d
  rw [hlin, hlin] at h00 h01 h10 h11
  unfold kernelIntervalA specInterval01 paramOn
  simp only [if_neg (not_lt.mpr hlen)]
  by_contra hcon
  have hle := not_lt.mp hcon
  obtain ⟨ax, ay⟩ := A0
  obtain ⟨bx, by_⟩ := A1
  obtain ⟨px, py⟩ := B0
  obtain ⟨qx, qy⟩ := B1
  have hpos2 : 0 < (bx - ax) * (bx - ax) + (by_ - ay) * (by_ - ay) := hpos
  have hne : (bx - ax) * (bx - ax) + (by_ - ay) * (by_ - ay) ≠ 0 := ne_of_gt hpos2
  have hc1 : |(bx - ax) * (qy - py) - (by_ - ay) * (qx - px)| ≤ eg := h1
  have hc0 : |(px - ax) * (by_ - ay) - (py - ay) * (bx - ax)| ≤ eg := h2
  have hres2 : 2 * eg * (|bx - ax| + |by_ - ay|)
      < g * ((bx - ax) * (bx - ax) + (by_ - ay) * (by_ - ay)) := hres
  have hle2 : max 0 (min
        (((px - ax) * (bx - ax) + (py - ay) * (by_ - ay))
          / ((bx - ax) * (bx - ax) + (by_ - ay) * (by_ - ay)))
        (((qx - ax) * (bx - ax) + (qy - ay) * (by_ - ay))
          / ((bx - ax) * (bx - ax) + (by_ - ay) * (by_ - ay))))
      ≤ min 1 (max
        (((px - ax) * (bx - ax) + (py - ay) * (by_ - ay))
          / ((bx - ax) * (bx - ax) + (by_ - ay) * (by_ - ay)))
        (((qx - ax) * (bx - ax) + (qy - ay) * (by_ - ay))
          / ((bx - ax) * (bx - ax) + (by_ - ay) * (by_ - ay)))) := hle
  generalize hx : ((px - ax) * (bx - ax) + (py - ay) * (by_ - ay))
          / ((bx - ax) * (bx - ax) + (by_ - ay) * (by_ - ay)) = x at hle2
  generalize hy : ((qx - ax) * (bx - ax) + (qy - ay) * (by_ - ay))
          / ((bx - ax) * (bx - ax) + (by_ - ay) * (by_ - ay)) = y at hle2
  have t0 : 0 ≤ max 0 (min x y) := le_max_left _ _
  have t1 : max 0 (min x y) ≤ 1 := le_trans hle2 (min_le_left _ _)
  have t2 : min x y ≤ max 0 (min x y) := le_max_right _ _
  have t3 : max 0 (min x y) ≤ max x y := le_trans hle2 (min_le_right _ _)
  obtain ⟨lam, hl0, hl1, hlam⟩ := between_param x y _ t2 t3
  have hxe : x * ((bx - ax) * (bx - ax) + (by_ - ay) * (by_ - ay))
      = (px - ax) * (bx - ax) + (py - ay) * (by_ - ay) := by
    rw [← hx]; field_simp
  have hye : y * ((bx - ax) * (bx - ax) + (by_ - ay) * (by_ - ay))
      = (qx - ax) * (bx - ax) + (qy - ay) * (by_ - ay) := by
    rw [← hy]; field_simp
  have s00 : al * ax + be * ay + g ≤ al * px + be * py := h00
  have s01 : al * ax + be * ay + g ≤ al * qx + be * qy := h01
  have s10 : al * bx + be * by_ + g ≤ al * px + be * py := h10
  have s11 : al * bx + be * by_ + g ≤ al * qx + be * qy := h11
  have hK := combo_cross (bx - ax) (by_ - ay) (px - ax) (py - ay) (qx - ax) (qy - ay) eg lam
    hl0 hl1 hc0 (by
      have e : (bx - ax) * (qy - ay - (py - ay)) - (by_ - ay) * (qx - ax - (px - ax))
          = (bx - ax) * (qy - py) - (by_ - ay) * (qx - px) := by ring
      rw [e]; exact hc1)
  have hp1 := combo_ge (al * (px - ax) + be * (py - ay)) (al * (qx - ax) + be * (qy - ay)) g lam
    hl0 hl1 (by linarith) (by linarith)
  have hp2 := combo_ge (al * (px - ax) + be * (py - ay) - (al * (bx - ax) + be * (by_ - ay)))
    (al * (qx - ax) + be * (qy - ay) - (al * (bx - ax) + be * (by_ - ay))) g lam
    hl0 hl1 (by linarith) (by linarith)
  refine collinear_core (bx - ax) (by_ - ay) (px - ax + lam * (qx - ax - (px - ax)))
    (py - ay + lam * (qy - ay - (py - ay))) al be eg g (max 0 (min x y)) hpos2 hal hbe heg
    t0 t1 ?_ hK ?_ ?_ hres2
  · rw [← hlam]
    have e : (x + lam * (y - x)) * ((bx - ax) * (bx - ax) + (by_ - ay) * (by_ - ay))
        = (1 - lam) * (x * ((bx - ax) * (bx - ax) + (by_ - ay) * (by_ - ay)))
          + lam * (y * ((bx - ax) * (bx - ax) + (by_ - ay) * (by_ - ay))) := by ring
    rw [e, hxe, hye]
    ring
  · have e : al * (px - ax + lam * (qx - ax - (px - ax)))
        + be * (py - ay + lam * (qy - ay - (py - ay)))
        = al * (px - ax) + be * (py - ay)
          + lam * (al * (qx - ax) + be * (qy - ay) - (al * (px - ax) + be * (py - ay))) := by
      ring
    rw [e]; exact hp1
  · have e : al * (px - ax + lam * (qx - ax - (px - ax)))
        + be * (py - ay + lam * (qy - ay - (py - ay)))
        - (al * (bx - ax) + be * (by_ - ay))
        = al * (px - ax) + be * (py - ay) - (al * (bx - ax) + be * (by_ - ay))
          + lam * (al * (qx - ax) + be * (qy - ay) - (al * (bx - ax) + be * (by_ - ay))
            - (al * (px - ax) + be * (py - ay) - (al * (bx - ax) + be * (by_ - ay)))) := by
      ring
    rw [e]; exact hp2

/-- The kernel reports nothing for two segments that are `g` apart along an axis
direction, when `g` exceeds `eps_geom` times the sum of their extents and, if they are
parallel within the tolerance, either the second does not start within the tolerance of
the line of the first, or the first has squared length at least `eps_geom` and
`g |r|^2` exceeds `2 eps_geom (|r.x| + |r.y|)`. -/
theorem intersectSegments_apart (A0 A1 B0 B1 : QPointF) (eg g : ℚ) (heg : 0 ≤ eg)
    (d : Fin 4)
    (h00 : coordAlong d A0 + g ≤ coordAlong d B0) (h01 : coordAlong d A0 + g ≤ coordAlong d B1)
    (h10 : coordAlong d A1 + g ≤ coordAlong d B0) (h11 : coordAlong d A1 + g ≤ coordAlong d B1)
    (hg : eg * (|A1.x - A0.x| + |A1.y - A0.y| + |B1.x - B0.x| + |B1.y - B0.y|) < g)
    (hpar : |cross2d (A1 - A0) (B1 - B0)| ≤ eg →
      |cross2d (B0 - A0) (A1 - A0)| > eg
      ∨ (eg ≤ dot2d (A1 - A0) (A1 - A0) ∧ 0 < dot2d (A1 - A0) (A1 - A0)
        ∧ 2 * eg * (|A1.x - A0.x| + |A1.y - A0.y|) < g * dot2d (A1 - A0) (A1 - A0))) :
    intersectSegments A0 A1 B0 B1 eg = SegmentIntersection.None := by
  by_cases hx : |cross2d (A1 - A0) (B1 - B0)| > eg
  · rw [intersectSegments_nonparallel A0 A1 B0 B1 eg hx]
    have hne : cross2d (A1 - A0) (B1 - B0) ≠ 0 := by
      intro h0
      rw [h0, abs_zero] at hx
      exact absurd hx (not_lt.mpr heg)
    rw [if_neg]
    rintro ⟨⟨ht0, ht1⟩, ⟨hu0, hu1⟩⟩
    have hc := congrArg (coordAlong d) (cramer_point A0 A1 B0 B1 hne)
    rw [coordAlong_lerp, coordAlong_lerp] at hc
    have e1 := coordAlong_extent d A0 A1
    have e2 := coordAlong_extent d B0 B1
    refine sep_1d _ _ _ _ _ _ eg g heg ht0 ht1 hu0 hu1 hc ?_ h00 h01 h10 h11
    have h5 : eg * (|coordAlong d A1 - coordAlong d A0| + |coordAlong d B1 - coordAlong d B0|)
        ≤ eg * (|A1.x - A0.x| + |A1.y - A0.y| + |B1.x - B0.x| + |B1.y - B0.y|) :=
      mul_le_mul_of_nonneg_left (by linarith) heg
    linarith
  · have h1 := not_lt.mp hx
    by_cases h2 : |cross2d (B0 - A0) (A1 - A0)| > eg
    · exact intersectSegments_far A0 A1 B0 B1 eg h1 h2
    · obtain ⟨hlen, hpos, hres⟩ := (hpar h1).resolve_left h2
      rw [intersectSegments_collinear A0 A1 B0 B1 eg h1 (not_lt.mp h2)]
      rw [if_pos (Or.inl (kernelIntervalA_empty A0 A1 B0 B1 eg g heg d h00 h01 h10 h11 h1
        (not_lt.mp h2) hlen hpos hres))]

theorem normalizeLoop_subset (l : List QPointF) (eps : ℚ) :
    ∀ p ∈ normalizeLoop l eps, p ∈ l := by
  intro p hp
  unfold normalizeLoop at hp
  simp only [] at hp
  split_ifs at hp
  · exact List.mem_of_mem_dropLast hp
  · exact hp
  · exact hp

/-- Both end points of every raw edge of a built topology are points of the input
polygon. -/
theorem rawEdge_points_mem (P : InputPolygon) (eps : ℚ) (f : Bool) :
    ∀ e ∈ buildRawEdges (makeTopoFromInput P eps) f,
      vertPos (makeTopoFromInput P eps) e.vStart ∈ allPoints P
      ∧ vertPos (makeTopoFromInput P eps) e.vEnd ∈ allPoints P := by
  intro e he
  obtain ⟨L, hL, i, hi, _, _, hm, h3, h4⟩ := rawEdges_makeTopo P eps f e he
  have hLmem := List.getElem?_mem hL
  unfold retainedLoops at hLmem
  obtain ⟨l, hl, rfl⟩ := List.mem_map.mp (List.mem_filter.mp hLmem).1
  have hsub : ∀ p ∈ normalizeLoop l eps, p ∈ allPoints P := by
    intro p hp
    have hpl := normalizeLoop_subset l eps p hp
    unfold allPoints
    rcases List.mem_cons.mp hl with rfl | hh
    · exact List.mem_append_left _ hpl
    · exact List.mem_append_right _ (List.mem_flatten.mpr ⟨l, hh, hpl⟩)
  rw [h3, h4]
  exact ⟨hsub _ (getD_mem_of_lt _ _ _ hi), hsub _ (getD_mem_of_lt _ _ _ hm)⟩

theorem midpoint_lerp (s : AtomicSegment) (P0 P1 : QPointF) (tLo tHi : ℚ)
    (h0 : s.p0 = P0 + (P1 - P0) * tLo) (h1 : s.p1 = P0 + (P1 - P0) * tHi) :
    midpoint s = P0 + (P1 - P0) * ((tLo + tHi) / 2) := by
  obtain ⟨ax, ay⟩ := P0
  obtain ⟨bx, by_⟩ := P1
  have hx0 : s.p0.x = ax + (bx - ax) * tLo := congrArg QPointF.x h0
  have hy0 : s.p0.y = ay + (by_ - ay) * tLo := congrArg QPointF.y h0
  have hx1 : s.p1.x = ax + (bx - ax) * tHi := congrArg QPointF.x h1
  have hy1 : s.p1.y = ay + (by_ - ay) * tHi := congrArg QPointF.y h1
  show (⟨1 / 2 * (s.p0.x + s.p1.x), 1 / 2 * (s.p0.y + s.p1.y)⟩ : QPointF)
    = ⟨ax + (bx - ax) * ((tLo + tHi) / 2), ay + (by_ - ay) * ((tLo + tHi) / 2)⟩
  rw [hx0, hx1, hy0, hy1]
  congr 1 <;> ring

/-- The midpoint of a part of a raw edge stays on the side of the edge's end points
along every axis direction. -/
theorem midpoint_coord_bounds (poly : PolygonTopo) (e : RawEdge) (ep : ℚ) (s : AtomicSegment)
    (hs : IsSubSegmentOf poly e ep s) (d : Fin 4) (M : ℚ)
    (h0 : coordAlong d (vertPos poly e.vStart) ≤ M)
    (h1 : coordAlong d (vertPos poly e.vEnd) ≤ M) :
    coordAlong d (midpoint s) ≤ M := by
  obtain ⟨tLo, tHi, hlo, hlt, hhi, _, hp0, hp1, _, _⟩ := hs
  rw [midpoint_lerp s _ _ tLo tHi hp0 hp1, coordAlong_lerp]
  exact lerp_coord_le _ _ M _ (by linarith) (by linarith) h0 h1

theorem onEdge_core (c dd ab2 al be pa pb eps g : ℚ)
    (hc : |c| < eps) (hd0 : -eps ≤ dd) (hd1 : dd ≤ ab2 + eps)
    (ea : pa * ab2 = be * c + al * dd) (eb : pb * ab2 = be * c + al * (dd - ab2))
    (hres : eps * (|al| + |be|) < g * ab2) (hab : 0 ≤ ab2)
    (ha : pa ≤ -g) (hb : pb ≤ -g) : False := by
  have heps : 0 < eps := lt_of_le_of_lt (abs_nonneg c) hc
  have hbc : -(|be| * eps) ≤ be * c := by
    have h1 : |be * c| ≤ |be| * eps := by
      rw [abs_mul]
      exact mul_le_mul_of_nonneg_left (le_of_lt hc) (abs_nonneg _)
    have h2 := neg_abs_le (be * c)
    linarith
  by_cases hal : 0 ≤ al
  · have h1 : al * (-eps) ≤ al * dd := mul_le_mul_of_nonneg_left hd0 hal
    have h2 : pa * ab2 ≤ -g * ab2 := mul_le_mul_of_nonneg_right ha hab
    rw [abs_of_nonneg hal] at hres
    nlinarith
  · have hal2 : al ≤ 0 := le_of_lt (not_le.mp hal)
    have h1 : al * eps ≤ al * (dd - ab2) :=
      mul_le_mul_of_nonpos_left (by linarith) hal2
    have h2 : pb * ab2 ≤ -g * ab2 := mul_le_mul_of_nonneg_right hb hab
    rw [abs_of_nonpos hal2] at hres
    nlinarith

/-- A point that lies `g` before both ends of an edge along an axis direction fails the
on-edge test of that edge, when `g |b - a|^2` exceeds `eps (|b.x - a.x| + |b.y - a.y|)`. -/
theorem specOnEdge_apart (a b p : QPointF) (eps g : ℚ) (d : Fin 4)
    (ha : coordAlong d p + g ≤ coordAlong d a) (hb : coordAlong d p + g ≤ coordAlong d b)
    (hres : eps * (|b.x - a.x| + |b.y - a.y|) < g * dot2d (b - a) (b - a)) :
    specOnEdge a b p eps = false := by
  unfold specOnEdge
  rw [decide_eq_false_iff_not]
  rintro ⟨hc, hd0, hd1⟩
  obtain ⟨ax, ay⟩ := a
  obtain ⟨bx, by_⟩ := b
  obtain ⟨px, py⟩ := p
  have hc2 : |(px - ax) * (by_ - ay) - (py - ay) * (bx - ax)| < eps := hc
  have hd02 : -eps ≤ (px - ax) * (bx - ax) + (py - ay) * (by_ - ay) := hd0
  have hd12 : (px - ax) * (bx - ax) + (py - ay) * (by_ - ay)
      ≤ (bx - ax) * (bx - ax) + (by_ - ay) * (by_ - ay) + eps := hd1
  have hres2 : eps * (|bx - ax| + |by_ - ay|)
      < g * ((bx - ax) * (bx - ax) + (by_ - ay) * (by_ - ay)) := hres
  have hab : 0 ≤ (bx - ax) * (bx - ax) + (by_ - ay) * (by_ - ay) := by
    nlinarith [mul_self_nonneg (bx - ax), mul_self_nonneg (by_ - ay)]
  fin_cases d
  · have ha2 : px + g ≤ ax := ha
    have hb2 : px + g ≤ bx := hb
    exact onEdge_core _ _ _ (bx - ax) (by_ - ay) (px - ax) (px - bx) eps g hc2 hd02 hd12
      (by ring) (by ring) hres2 hab (by linarith) (by linarith)
  · have ha2 : -px + g ≤ -ax := ha
    have hb2 : -px + g ≤ -bx := hb
    refine onEdge_core _ _ _ (-(bx - ax)) (-(by_ - ay)) (-(px - ax)) (-(px - bx)) eps g
      hc2 hd02 hd12 (by ring) (by ring) ?_ hab (by linarith) (by linarith)
    rw [abs_neg, abs_neg]; exact hres2
  · have ha2 : py + g ≤ ay := ha
    have hb2 : py + g ≤ by_ := hb
    refine onEdge_core _ _ _ (by_ - ay) (-(bx - ax)) (py - ay) (py - by_) eps g
      hc2 hd02 hd12 (by ring) (by ring) ?_ hab (by linarith) (by linarith)
    rw [abs_neg, add_comm]; exact hres2
  · have ha2 : -py + g ≤ -ay := ha
    have hb2 : -py + g ≤ -by_ := hb
    refine onEdge_core _ _ _ (-(by_ - ay)) (bx - ax) (-(py - ay)) (-(py - by_)) eps g
      hc2 hd02 hd12 (by ring) (by ring) ?_ hab (by linarith) (by linarith)
    rw [abs_neg, add_comm]; exact hres2

theorem parity_linear (c : Nat → Bool) (m : Nat) :
    ((List.range m).countP (fun i => c i != c (i + 1))) % 2
      = if c 0 = c m then 0 else 1 := by
  induction m with
  | zero => simp
  | succ m ih =>
    rw [List.range_succ, List.countP_append, List.countP_singleton]
    cases h0 : c 0 <;> cases hm : c m <;> cases hm1 : c (m + 1) <;>
      simp only [h0, hm, hm1] at ih ⊢ <;> simp at ih ⊢ <;> omega

/-- Around a closed loop a two-valued label changes an even number of times. -/
theorem parity_cyclic (c : Nat → Bool) (n : Nat) :
    ((List.range n).countP (fun i => c i != c ((i + 1) % n))) % 2 = 0 := by
  cases n with
  | zero => simp
  | succ m =>
    rw [List.range_succ, List.countP_append, List.countP_singleton]
    have h1 : (List.range m).countP (fun i => c i != c ((i + 1) % (m + 1)))
        = (List.range m).countP (fun i => c i != c (i + 1)) := by
      apply List.countP_congr
      intro i hi
      have hi2 : i < m := List.mem_range.mp hi
      rw [Nat.mod_eq_of_lt (by omega)]
    rw [h1, Nat.mod_self]
    have h2 := parity_linear c m
    cases h0 : c 0 <;> cases hm : c m <;>
      simp only [h0, hm] at h2 ⊢ <;> simp at h2 ⊢ <;> omega

theorem xHit_param (a b p : QPointF)
    (h : (a.y ≤ p.y ∧ p.y < b.y) ∨ (b.y ≤ p.y ∧ p.y < a.y)) :
    0 ≤ (p.y - a.y) / (b.y - a.y) ∧ (p.y - a.y) / (b.y - a.y) ≤ 1 := by
  rcases h with ⟨h1, h2⟩ | ⟨h1, h2⟩
  · have hpos : 0 < b.y - a.y := by linarith
    exact ⟨div_nonneg (by linarith) (le_of_lt hpos),
      (div_le_one hpos).mpr (by linarith)⟩
  · have hneg : b.y - a.y < 0 := by linarith
    constructor
    · exact div_nonneg_of_nonpos (by linarith) (le_of_lt hneg)
    · rw [div_le_one_of_neg hneg]
      linarith

theorem xHitAt_eq (a b p : QPointF) :
    xHitAt a b p = a.x + (b.x - a.x) * ((p.y - a.y) / (b.y - a.y)) := by
  unfold xHitAt
  ring

/-- The ray test of an edge for a point that lies `g` before both of its ends along an
axis direction: the edge is hit exactly when its ends are on different sides of the
height of the point, if the point is to the left; it is not hit otherwise. -/
theorem specRayHit_apart (a b p : QPointF) (eps g : ℚ) (d : Fin 4) (heps : 0 ≤ eps)
    (hg : eps < g)
    (ha : coordAlong d p + g ≤ coordAlong d a) (hb : coordAlong d p + g ≤ coordAlong d b) :
    specRayHit a b p eps
      = if d = 0 then (decide (p.y < a.y) != decide (p.y < b.y)) else false := by
  unfold specRayHit
  fin_cases d
  · have ha2 : p.x + g ≤ a.x := ha
    have hb2 : p.x + g ≤ b.x := hb
    simp only [Fin.zero_eta, if_true]
    by_cases hy : (a.y ≤ p.y ∧ p.y < b.y) ∨ (b.y ≤ p.y ∧ p.y < a.y)
    · obtain ⟨t0, t1⟩ := xHit_param a b p hy
      have hx : xHitAt a b p ≥ p.x - eps := by
        rw [xHitAt_eq]
        have := lerp_coord_ge a.x b.x (p.x + g) _ t0 t1 ha2 hb2
        linarith
      rw [decide_eq_true (⟨hy, hx⟩ : _ ∧ _)]
      rcases hy with ⟨h1, h2⟩ | ⟨h1, h2⟩
      · rw [decide_eq_false (not_lt.mpr h1), decide_eq_true h2]; rfl
      · rw [decide_eq_true h2, decide_eq_false (not_lt.mpr h1)]; rfl
    · rw [decide_eq_false (fun h => hy h.1)]
      by_cases h1 : p.y < a.y <;> by_cases h2 : p.y < b.y
      · rw [decide_eq_true h1, decide_eq_true h2]; rfl
      · exact absurd (Or.inr ⟨not_lt.mp h2, h1⟩) hy
      · exact absurd (Or.inl ⟨not_lt.mp h1, h2⟩) hy
      · rw [decide_eq_false h1, decide_eq_false h2]; rfl
  · have ha2 : -p.x + g ≤ -a.x := ha
    have hb2 : -p.x + g ≤ -b.x := hb
    rw [if_neg (by decide)]
    rw [decide_eq_false_iff_not]
    rintro ⟨hy, hx⟩
    obtain ⟨t0, t1⟩ := xHit_param a b p hy
    rw [xHitAt_eq] at hx
    have := lerp_coord_le a.x b.x (p.x - g) _ t0 t1 (by linarith) (by linarith)
    linarith
  · have ha2 : p.y + g ≤ a.y := ha
    have hb2 : p.y + g ≤ b.y := hb
    rw [if_neg (by decide)]
    rw [decide_eq_false_iff_not]
    rintro ⟨hy, _⟩
    rcases hy with ⟨h1, _⟩ | ⟨h1, _⟩ <;> linarith
  · have ha2 : -p.y + g ≤ -a.y := ha
    have hb2 : -p.y + g ≤ -b.y := hb
    rw [if_neg (by decide)]
    rw [decide_eq_false_iff_not]
    rintro ⟨hy, _⟩
    rcases hy with ⟨_, h2⟩ | ⟨_, h2⟩ <;> linarith

/-- A point that lies `g` before every point of a loop along an axis direction is
reported outside the loop, when `g` exceeds `eps` and every edge of the loop is long
enough for the on-edge test to tell the point apart. -/
theorem pointInSimpleLoop_apart (L : List QPointF) (p : QPointF) (eps g : ℚ) (d : Fin 4)
    (heps : 0 ≤ eps) (hg : eps < g)
    (hsep : ∀ q ∈ L, coordAlong d p + g ≤ coordAlong d q)
    (hres : ∀ e ∈ loopEdgePairs L,
      eps * (|e.2.x - e.1.x| + |e.2.y - e.1.y|) < g * dot2d (e.2 - e.1) (e.2 - e.1)) :
    pointInSimpleLoop L p eps = false := by
  by_cases h3 : 3 ≤ L.length
  · have hpos : 0 < L.length := by omega
    have hends : ∀ e ∈ loopEdgePairs L, e.1 ∈ L ∧ e.2 ∈ L := by
      intro e he
      unfold loopEdgePairs at he
      obtain ⟨i, hi, rfl⟩ := List.mem_map.mp he
      exact ⟨getD_mem_of_lt _ _ _ (List.mem_range.mp hi),
        getD_mem_of_lt _ _ _ (Nat.mod_lt _ hpos)⟩
    rw [pointInSimpleLoop_char L p eps h3]
    have hon : (loopEdgePairs L).any (fun e => specOnEdge e.1 e.2 p eps) = false := by
      rw [List.any_eq_false]
      intro e he
      rw [specOnEdge_apart e.1 e.2 p eps g d (hsep _ (hends e he).1) (hsep _ (hends e he).2)
        (hres e he)]
      exact Bool.false_ne_true
    have hcount : (loopEdgePairs L).countP (fun e => specRayHit e.1 e.2 p eps) % 2 = 0 := by
      have hcongr : (loopEdgePairs L).countP (fun e => specRayHit e.1 e.2 p eps)
          = (loopEdgePairs L).countP (fun e =>
              if d = 0 then (decide (p.y < e.1.y) != decide (p.y < e.2.y)) else false) := by
        apply List.countP_congr
        intro e he
        rw [specRayHit_apart e.1 e.2 p eps g d heps hg (hsep _ (hends e he).1)
          (hsep _ (hends e he).2)]
      rw [hcongr]
      by_cases hd : d = 0
      · simp only [hd, if_true]
        unfold loopEdgePairs
        rw [List.countP_map]
        exact parity_cyclic (fun i => decide (p.y < (L.getD i default).y)) L.length
      · simp only [hd, if_false]
        simp
    rw [hon, hcount]
    rfl
  · unfold pointInSimpleLoop
    simp only []
    rw [if_pos (by omega)]

theorem pointInPolygonWithHoles_apart (P : InputPolygon) (p : QPointF) (g : ℚ) (d : Fin 4)
    (hg : defaultEps < g)
    (hsep : ∀ q ∈ allPoints P, coordAlong d p + g ≤ coordAlong d q)
    (hres : ∀ e ∈ loopEdgePairs P.outerLoop,
      defaultEps * (|e.2.x - e.1.x| + |e.2.y - e.1.y|) < g * dot2d (e.2 - e.1) (e.2 - e.1)) :
    pointInPolygonWithHoles P p = false := by
  have h := pointInSimpleLoop_apart P.outerLoop p defaultEps g d
    (by unfold defaultEps; norm_num) hg
    (fun q hq => hsep q (by unfold allPoints; exact List.mem_append_left _ hq)) hres
  unfold pointInPolygonWithHoles
  rw [h]
  rfl

theorem bboxSeparatedBy_dir (g : ℚ) (A B : InputPolygon) (h : bboxSeparatedBy g A B = true) :
    ∃ d : Fin 4, ∀ p ∈ allPoints A, ∀ q ∈ allPoints B,
      coordAlong d p + g ≤ coordAlong d q := by
  unfold bboxSeparatedBy at h
  simp only [Bool.or_eq_true, List.all_eq_true, decide_eq_true_eq] at h
  rcases h with ((h | h) | h) | h
  · exact ⟨0, fun p hp q hq => h p hp q hq⟩
  · refine ⟨1, fun p hp q hq => ?_⟩
    have := h p hp q hq
    show -p.x + g ≤ -q.x
    linarith
  · exact ⟨2, fun p hp q hq => h p hp q hq⟩
  · refine ⟨3, fun p hp q hq => ?_⟩
    have := h p hp q hq
    show -p.y + g ≤ -q.y
    linarith

theorem coordAlong_opposite (d : Fin 4) :
    ∃ d2 : Fin 4, ∀ p : QPointF, coordAlong d2 p = -coordAlong d p := by
  fin_cases d
  · exact ⟨1, fun p => rfl⟩
  · exact ⟨0, fun p => by show p.x = - -p.x; ring⟩
  · exact ⟨3, fun p => rfl⟩
  · exact ⟨2, fun p => by show p.y = - -p.y; ring⟩

theorem cutWork_of_none (polyA polyB : PolygonTopo) (eg ep : ℚ)
    (hcross : ∀ i, i < (buildRawEdges polyA true).length →
      ∀ j, j < (buildRawEdges polyB false).length →
        kernelOnEdges polyA ((buildRawEdges polyA true).getD i default)
          polyB ((buildRawEdges polyB false).getD j default) eg = SegmentIntersection.None) :
    cutWork polyA polyB eg ep
      = (injectSelfCollinearCuts polyA (buildRawEdges polyA true)
          (initWork (buildRawEdges polyA true)) eg ep,
        injectSelfCollinearCuts polyB (buildRawEdges polyB false)
          (initWork (buildRawEdges polyB false)) eg ep) := by
  have hA := injectSelfCollinearCuts_inv polyA (buildRawEdges polyA true) eg ep _ _
    (initWork_inv (buildRawEdges polyA true))
  have hB := injectSelfCollinearCuts_inv polyB (buildRawEdges polyB false) eg ep _ _
    (initWork_inv (buildRawEdges polyB false))
  unfold cutWork
  simp only []
  apply crossCuts_none
  intro i hi j hj
  rw [getD_edge, getD_edge, hA.1, hB.1]
  exact hcross i (by rw [← length_of_edges _ _ hA.1]; exact hi) j
    (by rw [← length_of_edges _ _ hB.1]; exact hj)

theorem computeAtomicSegments_emptyB (polyA : PolygonTopo) (eg ep : ℚ) :
    computeAtomicSegments polyA ⟨[], []⟩ eg ep
      = (injectSelfCollinearCuts polyA (buildRawEdges polyA true)
          (initWork (buildRawEdges polyA true)) eg ep).flatMap
          (fun ew => explodeEdgeWork ew polyA ep) := by
  have hw := cutWork_of_none polyA ⟨[], []⟩ eg ep (fun i _ j hj => by cases hj)
  unfold computeAtomicSegments
  simp only [hw]
  have hB : injectSelfCollinearCuts ⟨[], []⟩ (buildRawEdges ⟨[], []⟩ false)
      (initWork (buildRawEdges ⟨[], []⟩ false)) eg ep = [] := rfl
  rw [hB]
  simp

theorem computeAtomicSegments_emptyA (polyB : PolygonTopo) (eg ep : ℚ) :
    computeAtomicSegments ⟨[], []⟩ polyB eg ep
      = (injectSelfCollinearCuts polyB (buildRawEdges polyB false)
          (initWork (buildRawEdges polyB false)) eg ep).flatMap
          (fun ew => explodeEdgeWork ew polyB ep) := by
  have hw := cutWork_of_none ⟨[], []⟩ polyB eg ep (fun i hi j _ => by cases hi)
  unfold computeAtomicSegments
  simp only [hw]
  have hA : injectSelfCollinearCuts ⟨[], []⟩ (buildRawEdges ⟨[], []⟩ true)
      (initWork (buildRawEdges ⟨[], []⟩ true)) eg ep = [] := rfl
  rw [hA]
  simp

/-- The kernel reports nothing for any pair of an edge of A and an edge of B when the
bounding boxes are `g` apart and the gap tells every pair of edges apart. -/
theorem kernel_none_of_apart (A B : InputPolygon) (eg g : ℚ) (heg : 0 ≤ eg)
    (hsep : bboxSeparatedBy g A B = true) (hpairs : EdgePairsApart A B eg g) :
    ∀ i, i < (buildRawEdges (makeTopoFromInput A defaultEps) true).length →
      ∀ j, j < (buildRawEdges (makeTopoFromInput B defaultEps) false).length →
        kernelOnEdges (makeTopoFromInput A defaultEps)
          ((buildRawEdges (makeTopoFromInput A defaultEps) true).getD i default)
          (makeTopoFromInput B defaultEps)
          ((buildRawEdges (makeTopoFromInput B defaultEps) false).getD j default) eg
        = SegmentIntersection.None := by
  obtain ⟨d, hd⟩ := bboxSeparatedBy_dir g A B hsep
  intro i hi j hj
  have hiE := getD_mem_of_lt (buildRawEdges (makeTopoFromInput A defaultEps) true) default i hi
  have hjE := getD_mem_of_lt (buildRawEdges (makeTopoFromInput B defaultEps) false) default j hj
  obtain ⟨a0, a1⟩ := rawEdge_points_mem A defaultEps true _ hiE
  obtain ⟨b0, b1⟩ := rawEdge_points_mem B defaultEps false _ hjE
  have hp := of_decide_eq_true (hpairs _ hiE _ hjE)
  unfold kernelOnEdges
  exact intersectSegments_apart _ _ _ _ eg g heg d (hd _ a0 _ b0) (hd _ a0 _ b1)
    (hd _ a1 _ b0) (hd _ a1 _ b1) hp.1 hp.2

theorem edgeAtom_eq_wholeAtom (poly : PolygonTopo) (e : RawEdge) :
    wholeAtom poly e = edgeAtom poly e := by
  unfold wholeAtom edgeAtom
  rw [lerpPoint_zero, lerpPoint_one]

theorem prepare_emptyA_eq (B : InputPolygon) (eg ep : ℚ) :
    (prepare emptyPolygon B eg ep).atoms
      = computeAtomicSegments ⟨[], []⟩ (makeTopoFromInput B defaultEps) eg ep := by
  unfold prepare
  simp only [makeTopoFromInput_empty]

theorem prepare_emptyB_eq (A : InputPolygon) (eg ep : ℚ) :
    (prepare A emptyPolygon eg ep).atoms
      = computeAtomicSegments (makeTopoFromInput A defaultEps) ⟨[], []⟩ eg ep := by
  unfold prepare
  simp only [makeTopoFromInput_empty]

/-- The midpoint of every atom of A tests outside B, and the midpoint of every atom of
B tests outside A, when the bounding boxes are `g` apart, `g` exceeds the tolerance of
the point test, and the edges of both outer loops resolve `g`. -/
theorem midpoints_outside_other (A B : InputPolygon) (eg ep g : ℚ) (hep : 0 < ep)
    (hsep : bboxSeparatedBy g A B = true) (hg : defaultEps < g)
    (hresA : OuterLoopResolved A g) (hresB : OuterLoopResolved B g) :
    ∀ s ∈ (prepare A B eg ep).atoms,
      (s.fromA = true → pointInPolygonWithHoles B (midpoint s) = false)
      ∧ (s.fromA = false → pointInPolygonWithHoles A (midpoint s) = false) := by
  obtain ⟨d, hd⟩ := bboxSeparatedBy_dir g A B hsep
  obtain ⟨d2, hd2⟩ := coordAlong_opposite d
  intro s hs
  rcases atoms_subsegment _ _ eg ep hep s hs with ⟨e, he, hf, hsub⟩ | ⟨e, he, hf, hsub⟩
  · refine ⟨fun _ => ?_, fun h => by rw [hf] at h; cases h⟩
    obtain ⟨a0, a1⟩ := rawEdge_points_mem A defaultEps true e he
    refine pointInPolygonWithHoles_apart B (midpoint s) g d hg ?_
      (fun e he => of_decide_eq_true (hresB e he))
    intro q hq
    have := midpoint_coord_bounds _ e ep s hsub d (coordAlong d q - g)
      (by linarith [hd _ a0 q hq]) (by linarith [hd _ a1 q hq])
    linarith
  · refine ⟨fun h => (by rw [hf] at h; cases h), fun _ => ?_⟩
    obtain ⟨b0, b1⟩ := rawEdge_points_mem B defaultEps false e he
    refine pointInPolygonWithHoles_apart A (midpoint s) g d2 hg ?_
      (fun e he => of_decide_eq_true (hresA e he))
    intro q hq
    have := midpoint_coord_bounds _ e ep s hsub d2 (coordAlong d2 q - g)
      (by rw [hd2, hd2]; linarith [hd q hq _ b0]) (by rw [hd2, hd2]; linarith [hd q hq _ b1])
    linarith

theorem keep_apart (hypot : ℚ → ℚ → ℚ) (A B : InputPolygon) (s : AtomicSegment)
    (hc : s.coincidentWithOther = false)
    (hB : s.fromA = true → pointInPolygonWithHoles B (midpoint s) = false)
    (hA : s.fromA = false → pointInPolygonWithHoles A (midpoint s) = false) :
    specKeepUnion hypot A B s = true ∧ specKeepIntersection hypot A B s = false
      ∧ specKeepSubAB hypot A B s
          = (s.fromA && (decide (s.loopId > 0) || pointInPolygonWithHoles A (midpoint s)))
      ∧ specKeepSubBA hypot A B s
          = ((!s.fromA) && (decide (s.loopId > 0) || pointInPolygonWithHoles B (midpoint s))) := by
  unfold specKeepUnion specKeepIntersection specKeepSubAB specKeepSubBA
  cases hf : s.fromA
  · have h := hA hf
    simp only [hc, h]
    cases decide (s.loopId > 0) <;> cases pointInPolygonWithHoles B (midpoint s) <;> simp
  · have h := hB hf
    simp only [hc, h]
    cases decide (s.loopId > 0) <;> cases pointInPolygonWithHoles A (midpoint s) <;> simp

/-- C9, amended: when the bounding boxes of A and B are separated by a gap `g` that
tells every pair of an edge of A and an edge of B apart for the kernel (`g` exceeds
`eps_geom` times the sum of the extents of the two edges; edges parallel within the
tolerance are off each other's line, or the edge of A has squared length at least
`eps_geom` and `g |r|^2 > 2 eps_geom (|r.x| + |r.y|)`), the atoms of `prepare(A, B)`
are those of `prepare(A, empty)` followed by those of `prepare(empty, B)`: each polygon
is cut as it is alone, and no atom is flagged coincident. These are the original edges,
one atom per edge from the point of parameter 0 to the point of parameter 1, when
`eps_param <= 1` and the kernel reports only endpoint events between the edges of each
polygon. When moreover `g > 1e-9` and every edge of the two input outer loops resolves
`g` (`g |b - a|^2 > 1e-9 (|b.x - a.x| + |b.y - a.y|)`), union returns all atoms,
intersection none, A−B the atoms of A that lie on a hole loop or whose midpoint tests
inside A, and B−A likewise for B: all atoms of A (of B) when the midpoint of every
outer-loop atom tests inside its own polygon. -/
theorem C9_disjoint_operands (hypot : ℚ → ℚ → ℚ) (A B : InputPolygon) (eg ep g : ℚ)
    (heg : 0 ≤ eg) (hep : 0 < ep)
    (hsep : bboxSeparatedBy g A B = true) (hpairs : EdgePairsApart A B eg g) :
    (prepare A B eg ep).atoms
        = (prepare A emptyPolygon eg ep).atoms ++ (prepare emptyPolygon B eg ep).atoms
    ∧ (∀ s ∈ (prepare A B eg ep).atoms, s.coincidentWithOther = false)
    ∧ (ep ≤ 1 → OnlyEndpointEvents (makeTopoFromInput A defaultEps) true eg →
        OnlyEndpointEvents (makeTopoFromInput B defaultEps) false eg →
        (prepare A B eg ep).atoms
          = (buildRawEdges (makeTopoFromInput A defaultEps) true).map
              (edgeAtom (makeTopoFromInput A defaultEps))
            ++ (buildRawEdges (makeTopoFromInput B defaultEps) false).map
              (edgeAtom (makeTopoFromInput B defaultEps)))
    ∧ (defaultEps < g → OuterLoopResolved A g → OuterLoopResolved B g →
        computeAdditionSegments hypot (prepare A B eg ep) A B
            = (prepare A B eg ep).atoms.map polylineOf
        ∧ computeIntersectionSegments hypot (prepare A B eg ep) A B = []
        ∧ computeSubtractionABSegments hypot (prepare A B eg ep) A B
            = ((prepare A B eg ep).atoms.filter (fun s => s.fromA
                && (decide (s.loopId > 0) || pointInPolygonWithHoles A (midpoint s)))).map
                polylineOf
        ∧ computeSubtractionBASegments hypot (prepare A B eg ep) A B
            = ((prepare A B eg ep).atoms.filter (fun s => (!s.fromA)
                && (decide (s.loopId > 0) || pointInPolygonWithHoles B (midpoint s)))).map
                polylineOf
        ∧ ((∀ s ∈ (prepare A emptyPolygon eg ep).atoms, s.loopId = 0 →
              pointInPolygonWithHoles A (midpoint s) = true) →
            computeSubtractionABSegments hypot (prepare A B eg ep) A B
              = (prepare A emptyPolygon eg ep).atoms.map polylineOf)
        ∧ ((∀ s ∈ (prepare emptyPolygon B eg ep).atoms, s.loopId = 0 →
              pointInPolygonWithHoles B (midpoint s) = true) →
            computeSubtractionBASegments hypot (prepare A B eg ep) A B
              = (prepare emptyPolygon B eg ep).atoms.map polylineOf)) := by
  have hcross := kernel_none_of_apart A B eg g heg hsep hpairs
  have hw := cutWork_of_none _ _ eg ep hcross
  have hat : (prepare A B eg ep).atoms
      = (prepare A emptyPolygon eg ep).atoms ++ (prepare emptyPolygon B eg ep).atoms := by
    rw [prepare_emptyB_eq, prepare_emptyA_eq, computeAtomicSegments_emptyB,
      computeAtomicSegments_emptyA]
    show computeAtomicSegments (makeTopoFromInput A defaultEps)
      (makeTopoFromInput B defaultEps) eg ep = _
    unfold computeAtomicSegments
    simp only [hw]
  have hfA : ∀ s ∈ (prepare A emptyPolygon eg ep).atoms,
      s.fromA = true ∧ s.coincidentWithOther = false := prepare_emptyB_atoms A eg ep
  have hfB : ∀ s ∈ (prepare emptyPolygon B eg ep).atoms,
      s.fromA = false ∧ s.coincidentWithOther = false := by
    intro s hs
    rw [prepare_emptyA_eq] at hs
    exact ⟨atoms_emptyA _ eg ep s hs, atoms_emptyA_not_coincident _ eg ep s hs⟩
  have hnc : ∀ s ∈ (prepare A B eg ep).atoms, s.coincidentWithOther = false := by
    intro s hs
    rw [hat] at hs
    rcases List.mem_append.mp hs with h | h
    · exact (hfA s h).2
    · exact (hfB s h).2
  refine ⟨hat, hnc, ?_, ?_⟩
  · intro hep1 hsA hsB
    show computeAtomicSegments (makeTopoFromInput A defaultEps)
      (makeTopoFromInput B defaultEps) eg ep = _
    rw [atoms_whole _ _ eg ep hep hep1 hsA hsB hcross]
    congr 1
    · exact List.map_congr_left (fun e _ => edgeAtom_eq_wholeAtom _ e)
    · exact List.map_congr_left (fun e _ => edgeAtom_eq_wholeAtom _ e)
  · intro hg hresA hresB
    have hmid := midpoints_outside_other A B eg ep g hep hsep hg hresA hresB
    have hk : ∀ s ∈ (prepare A B eg ep).atoms,
        specKeepUnion hypot A B s = true ∧ specKeepIntersection hypot A B s = false
        ∧ specKeepSubAB hypot A B s
            = (s.fromA && (decide (s.loopId > 0) || pointInPolygonWithHoles A (midpoint s)))
        ∧ specKeepSubBA hypot A B s
            = ((!s.fromA)
              && (decide (s.loopId > 0) || pointInPolygonWithHoles B (midpoint s))) :=
      fun s hs => keep_apart hypot A B s (hnc s hs) (hmid s hs).1 (hmid s hs).2
    have eAB : computeSubtractionABSegments hypot (prepare A B eg ep) A B
        = ((prepare A B eg ep).atoms.filter (fun s => s.fromA
            && (decide (s.loopId > 0) || pointInPolygonWithHoles A (midpoint s)))).map
            polylineOf := by
      unfold computeSubtractionABSegments segmentsToPolylines
      rw [classifyForSubAB_eq_filter,
        List.filter_congr (fun s hs => (hk s hs).2.2.1)]
      rfl
    have eBA : computeSubtractionBASegments hypot (prepare A B eg ep) A B
        = ((prepare A B eg ep).atoms.filter (fun s => (!s.fromA)
            && (decide (s.loopId > 0) || pointInPolygonWithHoles B (midpoint s)))).map
            polylineOf := by
      unfold computeSubtractionBASegments segmentsToPolylines
      rw [classifyForSubBA_eq_filter,
        List.filter_congr (fun s hs => (hk s hs).2.2.2)]
      rfl
    refine ⟨?_, ?_, eAB, eBA, ?_, ?_⟩
    · unfold computeAdditionSegments segmentsToPolylines
      rw [classifyForAddition_eq_filter, List.filter_eq_self.mpr (fun s hs => (hk s hs).1)]
      rfl
    · unfold computeIntersectionSegments segmentsToPolylines
      rw [classifyForIntersection_eq_filter,
        List.filter_eq_nil_iff.mpr (fun s hs => by rw [(hk s hs).2.1]; exact Bool.false_ne_true)]
      rfl
    · intro hin
      rw [eAB, hat, List.filter_append,
        List.filter_eq_self.mpr (fun s hs => by
          rw [(hfA s hs).1]
          by_cases hL : s.loopId > 0
          · simp [hL]
          · have h0 : s.loopId = 0 := by omega
            simp [hL, hin s hs h0]),
        List.filter_eq_nil_iff.mpr (fun s hs => by rw [(hfB s hs).1]; simp),
        List.append_nil]
    · intro hin
      rw [eBA, hat, List.filter_append,
        List.filter_eq_nil_iff.mpr (fun s hs => by rw [(hfA s hs).1]; simp),
        List.filter_eq_self.mpr (fun s hs => by
          rw [(hfB s hs).1]
          by_cases hL : s.loopId > 0
          · simp [hL]
          · have h0 : s.loopId = 0 := by omega
            simp [hL, hin s hs h0]),
        List.nil_append]

/-- Witness for C9: the unit square and its copy shifted by 3, two apart: the atoms are
the eight original edges, union returns them all, intersection nothing, A−B the edges
of A and B−A the edges of B. -/
theorem C9_disjoint_operands_witness :
    ((0 : ℚ) ≤ epsGeomS ∧ (0 : ℚ) < epsParamS
      ∧ bboxSeparatedBy 2 unitSquare farSquare = true
      ∧ EdgePairsApart unitSquare farSquare epsGeomS 2
      ∧ OuterLoopResolved unitSquare 2 ∧ OuterLoopResolved farSquare 2)
    ∧ (prepare unitSquare farSquare epsGeomS epsParamS).atoms
        = (buildRawEdges (makeTopoFromInput unitSquare defaultEps) true).map
            (edgeAtom (makeTopoFromInput unitSquare defaultEps))
          ++ (buildRawEdges (makeTopoFromInput farSquare defaultEps) false).map
            (edgeAtom (makeTopoFromInput farSquare defaultEps))
    ∧ computeAdditionSegments hypotRat (prepare unitSquare farSquare epsGeomS epsParamS)
        unitSquare farSquare
      = [[⟨0, 0⟩, ⟨1, 0⟩], [⟨1, 0⟩, ⟨1, 1⟩], [⟨1, 1⟩, ⟨0, 1⟩], [⟨0, 1⟩, ⟨0, 0⟩],
         [⟨3, 0⟩, ⟨4, 0⟩], [⟨4, 0⟩, ⟨4, 1⟩], [⟨4, 1⟩, ⟨3, 1⟩], [⟨3, 1⟩, ⟨3, 0⟩]]
    ∧ computeIntersectionSegments hypotRat (prepare unitSquare farSquare epsGeomS epsParamS)
        unitSquare farSquare = []
    ∧ computeSubtractionABSegments hypotRat (prepare unitSquare farSquare epsGeomS epsParamS)
        unitSquare farSquare
      = [[⟨0, 0⟩, ⟨1, 0⟩], [⟨1, 0⟩, ⟨1, 1⟩], [⟨1, 1⟩, ⟨0, 1⟩], [⟨0, 1⟩, ⟨0, 0⟩]]
    ∧ computeSubtractionBASegments hypotRat (prepare unitSquare farSquare epsGeomS epsParamS)
        unitSquare farSquare
      = [[⟨3, 0⟩, ⟨4, 0⟩], [⟨4, 0⟩, ⟨4, 1⟩], [⟨4, 1⟩, ⟨3, 1⟩], [⟨3, 1⟩, ⟨3, 0⟩]] := by
  have h := C9_disjoint_operands hypotRat unitSquare farSquare epsGeomS epsParamS 2
    (by decide!) (by decide!) (by decide!) (by decide!)
  have h3 := h.2.2.1 (by decide!) (by decide!) (by decide!)
  obtain ⟨hu, hi, _, _, hab, hba⟩ := h.2.2.2 (by decide!) (by decide!) (by decide!)
  rw [hu, hi, hab (by decide!), hba (by decide!)]
  exact ⟨⟨by decide!, by decide!, by decide!, by decide!, by decide!, by decide!⟩, h3,
    by decide!, rfl, by decide!, by decide!⟩

end Boolean2D
